import Mathlib

/-!
# PL3D-KC: a shallow embedding of the transform / clip / rasterize pipeline

The C sources `math.c`, `clip.c`, `gfx.c` and `pl.c` are embedded as pure
Lean functions.

* A C `int` is an `Int` that every arithmetic operation brings back into the
  32-bit two's-complement range with `wrap32`.
* A C array (or a pointer into one) is a total map `Mem = Int → Int`; the
  distinct arrays of the program are distinct maps.
* Global and `static` variables are fields of explicit state records that the
  functions take and return.
* A `while (n--)` loop is a structural recursion on the trip count.
-/

namespace PL

/-! ## Machine integers -/

/-- Reduce an integer to the 32-bit two's-complement range. -/
def wrap32 (x : Int) : Int := (x + 2147483648) % 4294967296 - 2147483648

/-- The unsigned 32-bit pattern of an integer. -/
def toU32 (x : Int) : Nat := (x % 4294967296).toNat

/-- C `a + b` on `int`. -/
def add32 (a b : Int) : Int := wrap32 (a + b)

/-- C `a - b` on `int`. -/
def sub32 (a b : Int) : Int := wrap32 (a - b)

/-- C `-a` on `int`. -/
def neg32 (a : Int) : Int := wrap32 (-a)

/-- C `a * b` on `int`. -/
def mul32 (a b : Int) : Int := wrap32 (a * b)

/-- C `a / b` on `int`: the quotient truncated toward zero. -/
def div32 (a b : Int) : Int := wrap32 (Int.tdiv a b)

/-- C `a << n` on `int`. -/
def shl32 (a : Int) (n : Nat) : Int := wrap32 (a * 2 ^ n)

/-- C `a >> n` on `int`: the arithmetic shift, rounding toward minus infinity. -/
def shr32 (a : Int) (n : Nat) : Int := a / 2 ^ n

/-- C `a & b` on `int`. -/
def and32 (a b : Int) : Int := wrap32 (Int.ofNat (Nat.land (toU32 a) (toU32 b)))

/-- C `a | b` on `int`. -/
def or32 (a b : Int) : Int := wrap32 (Int.ofNat (Nat.lor (toU32 a) (toU32 b)))

/-- A C truth value. -/
def b2i (b : Bool) : Int := if b then 1 else 0

/-- The constant `INT_MAX`. -/
def INT_MAX : Int := 2147483647

/-- The constant `INT_MIN`. -/
def INT_MIN : Int := -2147483648

/-! ## Memory -/

/-- A C array of `int`, or the view of memory from a pointer to `int`. -/
abbrev Mem := Int → Int

/-- The store `a[i] = v`. -/
def Mem.write (a : Mem) (i v : Int) : Mem := fun j => if j = i then v else a j

/-- The pointer `a + off`. -/
def Mem.shift (a : Mem) (off : Int) : Mem := fun j => a (off + j)

/-- The call `memcpy(dst + off, src, n * sizeof(int))`. -/
def memcpy (dst : Mem) (off : Int) (src : Mem) (n : Int) : Mem :=
  fun j => if off ≤ j ∧ j < off + n then src (j - off) else dst j

/-- An array holding the given values from index 0 on, and 0 elsewhere. -/
def Mem.ofList (l : List Int) : Mem :=
  fun j => if 0 ≤ j then l.getD j.toNat 0 else 0

/-! ## Constants of `pl.h` -/

def PL_Z_NEAR_PLANE : Int := 16
def PL_Z_OUTC_IN_VIEW : Int := 0
def PL_Z_OUTC_PART_NZ : Int := 1
def PL_Z_OUTC_OUTSIDE : Int := 2
def PL_MAX_OBJ_V : Int := 4096
def PL_FLAT : Int := 1
def PL_TEXTURED : Int := 0
def PL_CULL_NONE : Int := 0
def PL_CULL_FRONT : Int := 1
def PL_CULL_BACK : Int := 2
def PL_VDIM : Int := 5
def PL_POLY_VLEN : Int := 3
def PL_REQ_TEX_LOG_DIM : Nat := 7
def PL_REQ_TEX_DIM : Int := shl32 1 PL_REQ_TEX_LOG_DIM
def PL_TP : Nat := 12
def PL_MAX_POLY_VERTS : Int := 8
def PL_STREAM_FLAT : Int := 3
def PL_STREAM_TEX : Int := 5
def PL_MAX_MST_DEPTH : Int := 64
def PL_TRIGMAX : Int := 256
def PL_TRIGMSK : Int := 255
def PL_VLEN : Int := 4
def PL_P : Nat := 15
def PL_P_ONE : Int := 32768

/-! ## Loops -/

/-- The loop `for (i = 0; i < n; i++) s = body(i, s)`. -/
def forN {σ : Type} : Nat → (Int → σ → σ) → σ → σ
  | 0, _, s => s
  | n + 1, body, s => body (n : Int) (forN n body s)

/-! ## Errors -/

/-- The fatal conditions that reach `EXT_error`, which halts the program. -/
inductive Err where
  | stackOverflow
  | stackUnderflow
  | tooManyVertices
  | noMemory
  deriving DecidableEq, Repr

/-! ## `math.c`: state -/

/-- The static initialiser of `PL_sin`: the first half turn, the rest zero. -/
def sinInit : List Int :=
  [0x0000,0x0324,0x0647,0x096a,0x0c8b,0x0fab,0x12c8,0x15e2,
   0x18f8,0x1c0b,0x1f19,0x2223,0x2528,0x2826,0x2b1f,0x2e11,
   0x30fb,0x33de,0x36ba,0x398c,0x3c56,0x3f17,0x41ce,0x447a,
   0x471c,0x49b4,0x4c3f,0x4ebf,0x5133,0x539b,0x55f5,0x5842,
   0x5a82,0x5cb4,0x5ed7,0x60ec,0x62f2,0x64e8,0x66cf,0x68a6,
   0x6a6d,0x6c24,0x6dca,0x6f5f,0x70e2,0x7255,0x73b5,0x7504,
   0x7641,0x776c,0x7884,0x798a,0x7a7d,0x7b5d,0x7c29,0x7ce3,
   0x7d8a,0x7e1d,0x7e9d,0x7f09,0x7f62,0x7fa7,0x7fd8,0x7ff6,
   0x8000,0x7ff6,0x7fd8,0x7fa7,0x7f62,0x7f09,0x7e9d,0x7e1d,
   0x7d8a,0x7ce3,0x7c29,0x7b5d,0x7a7d,0x798a,0x7884,0x776c,
   0x7641,0x7504,0x73b5,0x7255,0x70e2,0x6f5f,0x6dca,0x6c24,
   0x6a6d,0x68a6,0x66cf,0x64e8,0x62f2,0x60ec,0x5ed7,0x5cb4,
   0x5a82,0x5842,0x55f5,0x539b,0x5133,0x4ebf,0x4c3f,0x49b4,
   0x471c,0x447a,0x41ce,0x3f17,0x3c56,0x398c,0x36ba,0x33de,
   0x30fb,0x2e11,0x2b1f,0x2826,0x2528,0x2223,0x1f19,0x1c0b,
   0x18f8,0x15e2,0x12c8,0x0fab,0x0c8b,0x096a,0x0647,0x0324]

/-- The constant matrix `mat_idt` (`PL_IDT_MAT`). -/
def mat_idt : Mem :=
  Mem.ofList [PL_P_ONE, 0, 0, 0, 0, PL_P_ONE, 0, 0, 0, 0, PL_P_ONE, 0, 0, 0, 0, PL_P_ONE]

/-- The globals of `math.c`: the trig tables, the view transform `xf_vw`,
the model matrix and the matrix stack. -/
structure MathState where
  PL_sin : Mem
  PL_cos : Mem
  tx : Int
  ty : Int
  tz : Int
  rx : Int
  ry : Int
  mat_model : Mem
  mst_stack : Mem
  mst_top : Int

/-- The globals of `math.c` as their static initialisers leave them. -/
def MathState.init : MathState where
  PL_sin := Mem.ofList sinInit
  PL_cos := fun _ => 0
  tx := 0
  ty := 0
  tz := 0
  rx := 0
  ry := 0
  mat_model := mat_idt
  mst_stack := fun _ => 0
  mst_top := 0

/-! ## `math.c`: camera and matrix stack -/

/-- The function `PL_set_camera`. -/
def PL_set_camera (s : MathState) (x y z rx ry : Int) : MathState :=
  { s with
    tx := neg32 x
    ty := neg32 y
    tz := neg32 z
    rx := and32 (sub32 PL_TRIGMAX rx) PL_TRIGMSK
    ry := and32 (sub32 PL_TRIGMAX ry) PL_TRIGMSK }

/-- The function `PL_mat_cpy` with the destination at `dst + off`. -/
def PL_mat_cpy (dst : Mem) (off : Int) (src : Mem) : Mem := memcpy dst off src 16

/-- The function `PL_mst_get`: the matrix written to `out`. -/
def PL_mst_get (s : MathState) (out : Mem) : Mem := PL_mat_cpy out 0 s.mat_model

/-- The function `PL_mst_push`. -/
def PL_mst_push (s : MathState) : Except Err MathState :=
  if add32 s.mst_top 1 ≥ PL_MAX_MST_DEPTH then .error Err.stackOverflow
  else .ok { s with
    mst_stack := PL_mat_cpy s.mst_stack (mul32 (add32 s.mst_top 1) 16) s.mat_model
    mst_top := add32 s.mst_top 1 }

/-- The function `PL_mst_pop`. -/
def PL_mst_pop (s : MathState) : Except Err MathState :=
  if sub32 s.mst_top 1 < 0 then .error Err.stackUnderflow
  else .ok { s with
    mat_model := PL_mat_cpy s.mat_model 0 (s.mst_stack.shift (mul32 s.mst_top 16))
    mst_top := sub32 s.mst_top 1 }

/-- The function `PL_mst_load_idt`. -/
def PL_mst_load_idt (s : MathState) : MathState :=
  { s with mat_model := PL_mat_cpy s.mat_model 0 mat_idt }

/-- The function `PL_mst_load`. -/
def PL_mst_load (s : MathState) (m : Mem) : MathState :=
  { s with mat_model := PL_mat_cpy s.mat_model 0 m }

/-- The macro `_M_(x, y)`: a Q15 product. -/
def M_ (x y : Int) : Int := shr32 (mul32 x y) PL_P

/-- The macro `_MI_(i, j)`: the index of row `i`, column `j`. -/
def MI_ (i j : Int) : Int := add32 (shl32 i 2) j

/-- One entry of `PL_mat_mul`: row `r` of `b` against column `c` of the saved `m`. -/
def mat_mul_entry (m b : Mem) (r c : Int) : Int :=
  add32 (add32 (add32 (M_ (b r) (m c)) (M_ (b (r + 1)) (m (4 + c))))
    (M_ (b (r + 2)) (m (8 + c)))) (M_ (b (r + 3)) (m (12 + c)))

/-- The function `PL_mat_mul`: the new contents of `a`. -/
def PL_mat_mul (a b : Mem) : Mem :=
  let m : Mem := memcpy (fun _ => 0) 0 a 16
  let a := a.write 0 (mat_mul_entry m b 0 0)
  let a := a.write 1 (mat_mul_entry m b 0 1)
  let a := a.write 2 (mat_mul_entry m b 0 2)
  let a := a.write 4 (mat_mul_entry m b 4 0)
  let a := a.write 5 (mat_mul_entry m b 4 1)
  let a := a.write 6 (mat_mul_entry m b 4 2)
  let a := a.write 8 (mat_mul_entry m b 8 0)
  let a := a.write 9 (mat_mul_entry m b 8 1)
  let a := a.write 10 (mat_mul_entry m b 8 2)
  let a := a.write 12 (mat_mul_entry m b 12 0)
  let a := a.write 13 (mat_mul_entry m b 12 1)
  let a := a.write 14 (mat_mul_entry m b 12 2)
  a

/-- The function `PL_mst_mul`. -/
def PL_mst_mul (s : MathState) (m : Mem) : MathState :=
  { s with mat_model := PL_mat_mul s.mat_model m }

/-- The function `PL_mst_scale`. -/
def PL_mst_scale (s : MathState) (x y z : Int) : MathState :=
  let mat : Mem := memcpy (fun _ => 0) 0 mat_idt 16
  let mat := mat.write 0 x
  let mat := mat.write 5 y
  let mat := mat.write 10 z
  PL_mst_mul s mat

/-- The function `PL_mst_translate`. -/
def PL_mst_translate (s : MathState) (x y z : Int) : MathState :=
  let mat : Mem := memcpy (fun _ => 0) 0 mat_idt 16
  let mat := mat.write 12 x
  let mat := mat.write 13 y
  let mat := mat.write 14 z
  PL_mst_mul s mat

/-- The function `PL_mst_rotatex`. -/
def PL_mst_rotatex (s : MathState) (rx : Int) : MathState :=
  let mat : Mem := memcpy (fun _ => 0) 0 mat_idt 16
  let cx := s.PL_cos (and32 rx PL_TRIGMSK)
  let sx := s.PL_sin (and32 rx PL_TRIGMSK)
  let mat := mat.write (MI_ 1 1) cx
  let mat := mat.write (MI_ 2 1) (neg32 sx)
  let mat := mat.write (MI_ 1 2) sx
  let mat := mat.write (MI_ 2 2) cx
  PL_mst_mul s mat

/-- The function `PL_mst_rotatey`. -/
def PL_mst_rotatey (s : MathState) (ry : Int) : MathState :=
  let mat : Mem := memcpy (fun _ => 0) 0 mat_idt 16
  let cy := s.PL_cos (and32 ry PL_TRIGMSK)
  let sy := s.PL_sin (and32 ry PL_TRIGMSK)
  let mat := mat.write (MI_ 0 0) cy
  let mat := mat.write (MI_ 2 0) sy
  let mat := mat.write (MI_ 0 2) (neg32 sy)
  let mat := mat.write (MI_ 2 2) cy
  PL_mst_mul s mat

/-- The function `PL_mst_rotatez`. -/
def PL_mst_rotatez (s : MathState) (rz : Int) : MathState :=
  let mat : Mem := memcpy (fun _ => 0) 0 mat_idt 16
  let cz := s.PL_cos (and32 rz PL_TRIGMSK)
  let sz := s.PL_sin (and32 rz PL_TRIGMSK)
  let mat := mat.write (MI_ 0 0) cz
  let mat := mat.write (MI_ 1 0) sz
  let mat := mat.write (MI_ 0 1) (neg32 sz)
  let mat := mat.write (MI_ 1 1) cz
  PL_mst_mul s mat

/-! ## `math.c`: the model-view transform -/

/-- The arithmetic of one trip of the loop of `PL_mst_xf_modelview_vec`: the
values `xx`, `yy`, `zz` stored for the vertex `(x, y, z)`. -/
def xf_vertex (s : MathState) (x y z : Int) : Int × Int × Int :=
  let cx := s.PL_cos s.rx
  let sx := s.PL_sin s.rx
  let cy := s.PL_cos s.ry
  let sy := s.PL_sin s.ry
  let m := s.mat_model
  let tx := add32 s.tx (m 12)
  let ty := add32 s.ty (m 13)
  let tz := add32 s.tz (m 14)
  let xx := add32 (shr32 (add32 (add32 (mul32 x (m 0)) (mul32 y (m 4))) (mul32 z (m 8))) PL_P) tx
  let yy := add32 (shr32 (add32 (add32 (mul32 x (m 1)) (mul32 y (m 5))) (mul32 z (m 9))) PL_P) ty
  let zz := add32 (shr32 (add32 (add32 (mul32 x (m 2)) (mul32 y (m 6))) (mul32 z (m 10))) PL_P) tz
  -- yaw
  let w := shr32 (add32 (mul32 zz sy) (mul32 xx cy)) PL_P
  let zz := shr32 (sub32 (mul32 zz cy) (mul32 xx sy)) PL_P
  let xx := w
  -- pitch
  let w := shr32 (sub32 (mul32 yy cx) (mul32 zz sx)) PL_P
  let zz := shr32 (add32 (mul32 yy sx) (mul32 zz cx)) PL_P
  let yy := w
  (xx, yy, zz)

/-- The body of the loop of `PL_mst_xf_modelview_vec` for vertex number `i`:
`v` and `out` have advanced by `i * PL_VLEN`. -/
def xf_modelview_body (s : MathState) (v : Mem) (i : Int) (out : Mem) : Mem :=
  let r := xf_vertex s (v (i * PL_VLEN + 0)) (v (i * PL_VLEN + 1)) (v (i * PL_VLEN + 2))
  let out := out.write (i * PL_VLEN + 0) r.1
  let out := out.write (i * PL_VLEN + 1) r.2.1
  let out := out.write (i * PL_VLEN + 2) r.2.2
  out

/-- The function `PL_mst_xf_modelview_vec`: the new contents of `out` after
`len` vertices of `v` have been transformed. -/
def PL_mst_xf_modelview_vec (s : MathState) (v out : Mem) (len : Int) : Mem :=
  forN len.toNat (xf_modelview_body s v) out

/-! ## `math.c`: winding order and projection -/

/-- The loop condition of `PL_vec_shorten`. -/
def vec_too_long (v : Mem) : Bool :=
  decide (v 0 > 32767) || decide (v 0 < -32768) ||
  decide (v 1 > 32767) || decide (v 1 < -32768) ||
  decide (v 2 > 32767) || decide (v 2 < -32768)

/-- The body of the loop of `PL_vec_shorten`. -/
def vec_halve (v : Mem) : Mem :=
  let v := v.write 0 (shr32 (v 0) 1)
  let v := v.write 1 (shr32 (v 1) 1)
  let v := v.write 2 (shr32 (v 2) 1)
  v

/-- The loop of `PL_vec_shorten`, run for at most `fuel` iterations. -/
def vec_shorten_loop : Nat → Mem → Mem
  | 0, v => v
  | fuel + 1, v => if vec_too_long v then vec_shorten_loop fuel (vec_halve v) else v

/-- The function `PL_vec_shorten`; the loop never needs more iterations than
the sum of the magnitudes of the three components. -/
def PL_vec_shorten (v : Mem) : Mem :=
  vec_shorten_loop ((v 0).natAbs + (v 1).natAbs + (v 2).natAbs) v

/-- The function `PL_winding_order`. -/
def PL_winding_order (a b c : Mem) : Int :=
  let nc : Mem := Mem.ofList
    [sub32 (mul32 (a 2) (b 1)) (mul32 (a 1) (b 2)),
     sub32 (mul32 (a 0) (b 2)) (mul32 (a 2) (b 0)),
     sub32 (mul32 (a 1) (b 0)) (mul32 (a 0) (b 1))]
  let nc := PL_vec_shorten nc
  b2i (decide (add32 (add32 (mul32 (c 0) (nc 0)) (mul32 (c 1) (nc 1))) (mul32 (c 2) (nc 2)) < 0))

/-- The body of the loop of `PL_psp_project` for record number `j`; `len` is
the record length as passed by the caller. -/
def psp_project_body (cen_x cen_y : Int) (src : Mem) (len fov : Int) (j : Int) (dst : Mem) : Mem :=
  let ffac := shl32 1 (add32 fov 12).toNat
  let shift := sub32 fov 8
  let z := src (j * len + 2)
  let fov := div32 ffac z
  let dst := dst.write (j * len + 0)
    (add32 (shr32 (add32 (mul32 (src (j * len + 0)) fov) (shl32 1 11)) 12) cen_x)
  let dst := dst.write (j * len + 1)
    (sub32 cen_y (shr32 (add32 (mul32 (src (j * len + 1)) fov) (shl32 1 11)) 12))
  let dst := dst.write (j * len + 2) (shr32 fov shift.toNat)
  memcpy dst (j * len + 3) (src.shift (j * len + 3)) (sub32 len 3)

/-- The function `PL_psp_project`, given the focal centre `PL_vp_cen_x`,
`PL_vp_cen_y`: the new contents of `dst`. -/
def PL_psp_project (cen_x cen_y : Int) (src dst : Mem) (len : Int) (num : Nat) (fov : Int) : Mem :=
  forN num (psp_project_body cen_x cen_y src len fov) dst

/-! ## `clip.c`: viewport and clippers -/

/-- The return code `PL_NC` (octal 0777) of the edge clippers. -/
def PL_NC : Int := 511

/-- The 2D clipping interpolation precision `HI_P`. -/
def HI_P : Nat := 14

/-- The precision `HH_P = HI_P >> 1` of the trailing attributes. -/
def HH_P : Nat := 7

/-- The 3D clipping interpolation precision `CLIP_P`. -/
def CLIP_P : Nat := 8

/-- The viewport globals `PL_vp_*` of `clip.c`. -/
structure Viewport where
  PL_vp_min_x : Int
  PL_vp_max_x : Int
  PL_vp_min_y : Int
  PL_vp_max_y : Int
  PL_vp_cen_x : Int
  PL_vp_cen_y : Int

/-- The function-local `static` buffers of `clip.c`: `m0` and `m1` are the two
halves of `resv` in `lclip2`, `m` is the buffer of `lclip3`. -/
structure ClipStatics where
  m0 : Mem
  m1 : Mem
  m : Mem

/-- The function `PL_set_viewport`, given the resolution `PL_hres`, `PL_vres`. -/
def PL_set_viewport (vp : Viewport) (hres vres : Int) (minx miny maxx maxy update_center : Int) :
    Viewport :=
  let minx := if minx < 0 then 0 else minx
  let miny := if miny < 0 then 0 else miny
  let maxx := if maxx ≥ hres then sub32 hres 1 else maxx
  let maxy := if maxy ≥ vres then sub32 vres 1 else maxy
  let vp := { vp with
    PL_vp_min_x := minx
    PL_vp_min_y := miny
    PL_vp_max_x := maxx
    PL_vp_max_y := maxy }
  if update_center ≠ 0 then
    { vp with
      PL_vp_cen_x := add32 (shr32 (add32 minx maxx) 1) 1
      PL_vp_cen_y := add32 (shr32 (add32 miny maxy) 1) 1 }
  else vp

/-- The fraction `fhp` of `doclip`, in 15 fractional bits. -/
def doclip_fhp (L R : Mem) (bound comp : Int) : Int :=
  div32 (shl32 (sub32 bound (L comp)) 15) (sub32 (R comp) (L comp))

/-- The fraction `fh` of `doclip`, in `HI_P` fractional bits. -/
def doclip_fh (L R : Mem) (bound comp : Int) : Int :=
  shr32 (doclip_fhp L R bound comp) (15 - HI_P)

/-- The fraction `f` of `doclip`, in `HH_P` fractional bits. -/
def doclip_f (L R : Mem) (bound comp : Int) : Int :=
  shr32 (doclip_fh L R bound comp) HH_P

/-- The function `doclip`: the new contents of `out`. -/
def doclip (L R out : Mem) (len bound comp ocomp : Int) : Mem :=
  let fhp := doclip_fhp L R bound comp
  let fh := doclip_fh L R bound comp
  let f := doclip_f L R bound comp
  -- skip x and y
  let out := forN (len - 3).toNat (fun k out =>
    out.write (3 + k) (add32 (L (3 + k)) (mul32 f (shr32 (sub32 (R (3 + k)) (L (3 + k))) HH_P)))) out
  -- z needs extra precision
  let out := out.write 2 (add32 (L 2) (shr32 (mul32 fhp (sub32 (R 2) (L 2))) 15))
  let out := out.write comp bound
  let out := out.write ocomp
    (add32 (L ocomp) (shr32 (mul32 fh (sub32 (R ocomp) (L ocomp))) HI_P))
  out

/-- What a single-edge clipper leaves behind: its return value, the records
that `*v0` and `*v1` point to on return, and the static buffers. -/
structure EdgeClip where
  ret : Int
  v0 : Mem
  v1 : Mem
  cs : ClipStatics

/-- The function `lclip2`: `v0` and `v1` are the records that the arguments
`*v0` and `*v1` point to (neither inside the static buffer). -/
def lclip2 (cs : ClipStatics) (v0 v1 : Mem) (len min max comp : Int) : EdgeClip :=
  -- `ooo = 0` exactly when `(*v0)[comp] < (*v1)[comp]`, and then `Lp = v0`, `Rp = v1`
  let inorder : Bool := decide (v0 comp < v1 comp)
  let ooo : Int := if inorder then 0 else 1
  let L : Mem := if inorder then v0 else v1
  let R : Mem := if inorder then v1 else v0
  if L comp ≥ max ∨ R comp ≤ min then
    { ret := PL_NC, v0 := v0, v1 := v1, cs := cs }
  else
    let clipL : Bool := decide (L comp ≤ min)
    let ret : Int := if clipL then b2i (ooo == 0) else 0
    let m0 : Mem := if clipL then doclip L R cs.m0 len min comp (b2i (comp == 0)) else cs.m0
    let clipR : Bool := decide (R comp ≥ max)
    let ret : Int := if clipR then or32 ret ooo else ret
    let m1 : Mem := if clipR then doclip L R cs.m1 len max comp (b2i (comp == 0)) else cs.m1
    let Lnew : Mem := if clipL then m0 else L
    let Rnew : Mem := if clipR then m1 else R
    { ret := ret
      v0 := if inorder then Lnew else Rnew
      v1 := if inorder then Rnew else Lnew
      cs := { cs with m0 := m0, m1 := m1 } }

/-- The fraction `f` of `lclip3`, in `CLIP_P` fractional bits. -/
def lclip3_f (L R : Mem) : Int :=
  div32 (shl32 (sub32 PL_Z_NEAR_PLANE (L 2)) CLIP_P) (sub32 (R 2) (L 2))

/-- The vertex that `lclip3` writes to its static buffer `m`. -/
def lclip3_synth (L R m : Mem) (len : Int) : Mem :=
  let f := lclip3_f L R
  let m := m.write 0 (add32 (L 0) (shr32 (mul32 f (sub32 (R 0) (L 0))) CLIP_P))
  let m := m.write 1 (add32 (L 1) (shr32 (mul32 f (sub32 (R 1) (L 1))) CLIP_P))
  let m := m.write 2 PL_Z_NEAR_PLANE
  forN (len - 3).toNat (fun k m =>
    m.write (3 + k) (add32 (L (3 + k)) (shr32 (mul32 f (sub32 (R (3 + k)) (L (3 + k)))) CLIP_P))) m

/-- The function `lclip3`. -/
def lclip3 (cs : ClipStatics) (v0 v1 : Mem) (len : Int) : EdgeClip :=
  let inorder : Bool := decide (v0 2 < v1 2)
  let ooo : Int := if inorder then 0 else 1
  let L : Mem := if inorder then v0 else v1
  let R : Mem := if inorder then v1 else v0
  if R 2 < PL_Z_NEAR_PLANE then
    { ret := PL_NC, v0 := v0, v1 := v1, cs := cs }
  else if L 2 < PL_Z_NEAR_PLANE then
    let m := lclip3_synth L R cs.m len
    { ret := b2i (ooo == 0)
      v0 := if inorder then m else R
      v1 := if inorder then R else m
      cs := { cs with m := m } }
  else
    { ret := 0, v0 := v0, v1 := v1, cs := cs }

/-- The function `lineclipx`. -/
def lineclipx (cs : ClipStatics) (v0 v1 : Mem) (len min max : Int) : EdgeClip :=
  lclip2 cs v0 v1 len min max 0

/-- The function `lineclipy`. -/
def lineclipy (cs : ClipStatics) (v0 v1 : Mem) (len min max : Int) : EdgeClip :=
  lclip2 cs v0 v1 len min max 1

/-- The function `lineclipnz`. -/
def lineclipnz (cs : ClipStatics) (v0 v1 : Mem) (len _min _max : Int) : EdgeClip :=
  lclip3 cs v0 v1 len

/-- The function `PL_clip_line_x`: the truth value it returns is
`ret` of the result compared with `PL_NC`. -/
def PL_clip_line_x (cs : ClipStatics) (v0 v1 : Mem) (len min max : Int) : EdgeClip :=
  lclip2 cs v0 v1 len min max 0

/-- The function `PL_clip_line_y`: the truth value it returns is
`ret` of the result compared with `PL_NC`. -/
def PL_clip_line_y (cs : ClipStatics) (v0 v1 : Mem) (len min max : Int) : EdgeClip :=
  lclip2 cs v0 v1 len min max 1

/-- The type of the `clip` argument of `pclip`. -/
abbrev EdgeClipper := ClipStatics → Mem → Mem → Int → Int → Int → EdgeClip

/-- The variables of `pclip` that its loop changes: the destination, the
number of vertices written (`out` is `dst + nverts * len`) and the statics. -/
structure PClip where
  dst : Mem
  nverts : Int
  cs : ClipStatics

/-- The body of the loop of `pclip` for edge number `k`, from record `k` of
`src` to record `k + 1`. -/
def pclip_body (clip : EdgeClipper) (src : Mem) (len minv maxv : Int) (k : Int) (st : PClip) :
    PClip :=
  -- `clip(&v[1], &v[0], ...)`: `v[1]` is the start of the edge, `v[0]` its end
  let e := clip st.cs (src.shift (k * len)) (src.shift ((k + 1) * len)) len minv maxv
  if e.ret = PL_NC then { st with cs := e.cs }
  else if e.ret = 1 then
    -- `v[1]` then `v[0]`
    let dst := memcpy st.dst (st.nverts * len) e.v0 len
    let dst := memcpy dst ((st.nverts + 1) * len) e.v1 len
    { dst := dst, nverts := st.nverts + 2, cs := e.cs }
  else
    -- `v[0]` only
    { dst := memcpy st.dst (st.nverts * len) e.v1 len, nverts := st.nverts + 1, cs := e.cs }

/-- The function `pclip`: after the `num` edges, the first output record is
copied behind the last one. -/
def pclip (cs : ClipStatics) (dst src : Mem) (len : Int) (num : Nat) (clip : EdgeClipper)
    (minv maxv : Int) : PClip :=
  let st := forN num (pclip_body clip src len minv maxv) { dst := dst, nverts := 0, cs := cs }
  { st with dst := memcpy st.dst (st.nverts * len) st.dst len }

/-- The function `PL_clip_poly_x`. -/
def PL_clip_poly_x (vp : Viewport) (cs : ClipStatics) (dst src : Mem) (len : Int) (num : Nat) :
    PClip :=
  pclip cs dst src len num lineclipx vp.PL_vp_min_x vp.PL_vp_max_x

/-- The function `PL_clip_poly_y`. -/
def PL_clip_poly_y (vp : Viewport) (cs : ClipStatics) (dst src : Mem) (len : Int) (num : Nat) :
    PClip :=
  pclip cs dst src len num lineclipy vp.PL_vp_min_y vp.PL_vp_max_y

/-- The function `PL_clip_poly_nz`. -/
def PL_clip_poly_nz (cs : ClipStatics) (dst src : Mem) (len : Int) (num : Nat) : PClip :=
  pclip cs dst src len num lineclipnz 0 0

/-- The function `PL_point_frustum_test`. -/
def PL_point_frustum_test (v : Mem) : Int :=
  if v 2 ≤ PL_Z_NEAR_PLANE then PL_Z_OUTC_OUTSIDE else PL_Z_OUTC_IN_VIEW

/-! ## `gfx.c`: state -/

/-- The precision `ZP` added to the depth during scan conversion. -/
def ZP : Nat := 15

/-- The shift `TXSH`. -/
def TXSH : Nat := PL_REQ_TEX_LOG_DIM

/-- The mask `TXMSK`. -/
def TXMSK : Int := sub32 (shl32 1 (TXSH + PL_TP)) 1

/-- The shift `ATTRIB_BITS` of the macro `YT`. -/
def ATTRIB_BITS : Nat := 3

/-- The precision `SCANP` of the edge walk. -/
def SCANP : Nat := 18

/-- The constant `SCANP_ROUND`. -/
def SCANP_ROUND : Int := shl32 1 (SCANP - 1)

/-- The macro `YT(y)`. -/
def YT (y : Int) : Int := shl32 y ATTRIB_BITS

/-- The colour buffer and the depth buffer. -/
structure Bufs where
  PL_video_buffer : Mem
  PL_depth_buffer : Mem

/-- The scan-conversion workspace of `gfx.c`: the per-row tables `x_L`, `x_R`
and `attrbuf`, each a table of its own, and the row range. -/
structure Scan where
  x_L : Mem
  x_R : Mem
  attrbuf : Mem
  scan_miny : Int
  scan_maxy : Int

/-- The globals of `gfx.c`. The table `mul8` is indexed by its two subscripts. -/
structure GfxState where
  PL_hres : Int
  PL_vres : Int
  PL_hres_h : Int
  PL_vres_h : Int
  PL_polygon_count : Int
  bufs : Bufs
  scan : Scan
  xLc : Mem
  xRc : Mem
  mul8 : Int → Int → Int

/-- Repeat `f` for `n` trips: the loops whose variables all live in the state. -/
def iter {σ : Type} : Nat → (σ → σ) → σ → σ
  | 0, _, s => s
  | n + 1, f, s => iter n f (f s)

/-! ## `gfx.c`: scan conversion -/

/-- The stores `AS[i << 1] = AT[i]` for `i < rdim`, where `AS` is
`attrbuf + side + YT(sy)` (`side` is 0 for `ABL`, 1 for `ABR`). -/
def attr_store (attrbuf : Mem) (side sy rdim : Int) (AT : Mem) : Mem :=
  forN rdim.toNat (fun i a => a.write (side + YT sy + shl32 i 1) (AT i)) attrbuf

/-- The variables that the edge walk of `pscan` changes. -/
structure Walk where
  x : Int
  y : Int
  AT : Mem
  x_L : Mem
  x_R : Mem
  attrbuf : Mem

/-- One trip of the `do ... while (mjr--)` loop of `pscan`. -/
def walk_step (rdim dx dy : Int) (DT : Mem) (w : Walk) : Walk :=
  let sx := shr32 w.x SCANP
  let sy := shr32 w.y SCANP
  let hitL : Bool := decide (w.x_L sy > sx)
  let x_L := if hitL then w.x_L.write sy sx else w.x_L
  let attrbuf := if hitL then attr_store w.attrbuf 0 sy rdim w.AT else w.attrbuf
  let hitR : Bool := decide (w.x_R sy < sx)
  let x_R := if hitR then w.x_R.write sy sx else w.x_R
  let attrbuf := if hitR then attr_store attrbuf 1 sy rdim w.AT else attrbuf
  { x := add32 w.x dx
    y := add32 w.y dy
    AT := forN rdim.toNat (fun i a => a.write i (add32 (a i) (DT i))) w.AT
    x_L := x_L
    x_R := x_R
    attrbuf := attrbuf }

/-- The variables that the edge loop of `pscan` changes: the workspace, the
clipper statics and the local arrays `AT` and `DT`. -/
structure PScan where
  sc : Scan
  cs : ClipStatics
  AT : Mem
  DT : Mem

/-- The initial attributes `AT` and their per-step deltas `DT` of an edge of
`mjr` steps; `vA` and `vB` point to the depth of the two endpoints. -/
def edge_attrs (rdim mjr : Int) (vA vB AT DT : Mem) : Mem × Mem :=
  -- Z precision gets added here
  let AT := AT.write 0 (shl32 (vA 0) ZP)
  let DT := DT.write 0 (div32 (shl32 (sub32 (vB 0) (vA 0)) ZP) mjr)
  -- the rest get computed with whatever precision they had
  forN (rdim - 1).toNat (fun i (p : Mem × Mem) =>
    (p.1.write (1 + i) (vA (1 + i)),
     p.2.write (1 + i) (div32 (sub32 (vB (1 + i)) (vA (1 + i))) mjr))) (AT, DT)

/-- The row extent `scan_miny` after the four comparisons with the two ends
`y` and `dy` of an edge. -/
def edge_miny (y dy miny : Int) : Int :=
  let miny := if y < miny then y else miny
  if dy < miny then dy else miny

/-- The row extent `scan_maxy` after the four comparisons with the two ends
`y` and `dy` of an edge. -/
def edge_maxy (y dy maxy : Int) : Int :=
  let maxy := if y > maxy then y else maxy
  if dy > maxy then dy else maxy

/-- The step count `mjr` of an edge: the larger of the magnitudes of `dx` and
`dy`. -/
def edge_mjr (dx dy : Int) : Int :=
  let mjr := if dx < 0 then neg32 dx else dx
  let ady := if dy < 0 then neg32 dy else dy
  if ady > mjr then ady else mjr

/-- The body of the `while (len--)` loop of `pscan` after the test
`mjr <= 0`: the attributes and their deltas, the rounding, and the walk along
the edge; `vA` and `vB` point to the depth of the two endpoints. -/
def scan_walk (rdim x y dx dy mjr : Int) (vA vB : Mem) (st : PScan) : PScan :=
  let AD := edge_attrs rdim mjr vA vB st.AT st.DT
  -- make sure to round!
  let x := add32 (shl32 x SCANP) SCANP_ROUND
  let y := add32 (shl32 y SCANP) SCANP_ROUND
  let dx := div32 (shl32 dx SCANP) mjr
  let dy := div32 (shl32 dy SCANP) mjr
  let w := iter (mjr + 1).toNat (walk_step rdim dx dy AD.2)
    { x := x, y := y, AT := AD.1, x_L := st.sc.x_L, x_R := st.sc.x_R,
      attrbuf := st.sc.attrbuf }
  { sc := { x_L := w.x_L, x_R := w.x_R, attrbuf := w.attrbuf,
            scan_miny := st.sc.scan_miny, scan_maxy := st.sc.scan_maxy }
    cs := st.cs
    AT := w.AT
    DT := AD.2 }

/-- The part of the body of the `while (len--)` loop of `pscan` that follows
the call of `PL_clip_line_y`, for an edge that the call kept: `vA` and `vB`
are the records it returned and `cs` the statics it left. -/
def scan_edge (rdim : Int) (vA vB : Mem) (cs : ClipStatics) (st : PScan) : PScan :=
  let x := vA 0
  let y := vA 1
  let dx := vB 0
  let dy := vB 1
  let st : PScan :=
    { st with
      cs := cs
      sc := { st.sc with
        scan_miny := edge_miny y dy st.sc.scan_miny
        scan_maxy := edge_maxy y dy st.sc.scan_maxy } }
  let dx := sub32 dx x
  let dy := sub32 dy y
  let mjr := edge_mjr dx dy
  if mjr ≤ 0 then st
  else scan_walk rdim x y dx dy mjr (vA.shift 2) (vB.shift 2) st

/-- The body of the `while (len--)` loop of `pscan` for edge number `k` of the
x-clipped stream `VS`. -/
def pscan_edge (vp : Viewport) (dim rdim : Int) (VS : Mem) (k : Int) (st : PScan) : PScan :=
  let e := PL_clip_line_y st.cs (VS.shift (k * dim)) (VS.shift ((k + 1) * dim)) dim
    vp.PL_vp_min_y vp.PL_vp_max_y
  if e.ret = PL_NC then { st with cs := e.cs }
  else scan_edge rdim e.v0 e.v1 e.cs st

/-- What `pscan` leaves behind: its return value, the workspace and the
clipper statics. -/
structure PScanResult where
  ret : Int
  sc : Scan
  cs : ClipStatics

/-- The function `pscan`. The one `memcpy` that cleans the scan tables copies
the cleared tables `xLc`, `xRc` over the whole of `x_L`, `x_R`; the local
array `resv` starts as zeros. -/
def pscan (vp : Viewport) (cs : ClipStatics) (xLc xRc : Mem) (sc : Scan) (stream : Mem)
    (dim : Int) (len : Nat) : PScanResult :=
  let rdim := sub32 dim 2
  let sc : Scan :=
    { x_L := xLc, x_R := xRc, attrbuf := sc.attrbuf, scan_miny := INT_MAX, scan_maxy := INT_MIN }
  let c := PL_clip_poly_x vp cs (fun _ => 0) stream dim len
  let st := forN c.nverts.toNat (pscan_edge vp dim rdim c.dst)
    { sc := sc, cs := c.cs, AT := fun _ => 0, DT := fun _ => 0 }
  { ret := b2i (decide (st.sc.scan_miny ≥ st.sc.scan_maxy)), sc := st.sc, cs := st.cs }

/-! ## `gfx.c`: span fill -/

/-- The depth-derived shade `d = (sz >> 20) * 3 / 2`. -/
def shade (sz : Int) : Int := div32 (mul32 (shr32 sz 20) 3) 2

/-- The depth test and store of `PL_flat_poly` for the pixel at offset `p`. -/
def flat_pixel (mul8 : Int → Int → Int) (rgb : Int) (b : Bufs) (p sz : Int) : Bufs :=
  let r8 := and32 (shr32 rgb 16) 0xff
  let g8 := and32 (shr32 rgb 8) 0xff
  let b8 := and32 (shr32 rgb 0) 0xff
  if b.PL_depth_buffer p < sz then
    let d := shade sz
    { PL_depth_buffer := b.PL_depth_buffer.write p sz
      PL_video_buffer := b.PL_video_buffer.write p
        (if d ≥ 256 then rgb
         else or32 (or32 (shl32 (mul8 d r8) 16) (shl32 (mul8 d g8) 8)) (mul8 d b8)) }
  else b

/-- The variables of the pixel loop of `PL_flat_poly`: the buffers, the offset
`p` of `vbuf` and `zbuf`, and the depth `sz`. -/
structure FlatSpan where
  b : Bufs
  p : Int
  sz : Int

/-- One trip of the `do ... while (len--)` loop of `PL_flat_poly`. -/
def flat_span_step (mul8 : Int → Int → Int) (rgb dz : Int) (s : FlatSpan) : FlatSpan :=
  { b := flat_pixel mul8 rgb s.b s.p s.sz, p := s.p + 1, sz := add32 s.sz dz }

/-- The number of trips of `do ... while (len--)`. -/
def do_while_trips (len : Int) : Nat :=
  if 0 ≤ len then (len + 1).toNat else (len + 4294967297).toNat

/-- The variables of the row loop of the fills. -/
structure Rows where
  b : Bufs
  miny : Int
  pos : Int

/-- One trip of the `while (miny <= maxy)` loop of `PL_flat_poly`. -/
def flat_row (hres : Int) (sc : Scan) (mul8 : Int → Int → Int) (rgb : Int) (r : Rows) : Rows :=
  let beg := sc.x_L r.miny
  let pbg := add32 r.pos beg
  let len := sub32 (sc.x_R r.miny) beg
  let dlen := add32 len (b2i (len == 0))
  let yt := YT r.miny
  let sz := sc.attrbuf (add32 yt 0)
  let dz := div32 (sub32 (sc.attrbuf (add32 yt 1)) sz) dlen
  let s := iter (do_while_trips len) (flat_span_step mul8 rgb dz) { b := r.b, p := pbg, sz := sz }
  { b := s.b, miny := add32 r.miny 1, pos := add32 r.pos hres }

/-- The function `PL_flat_poly`. The row loop makes one trip for each row from
`scan_miny` to `scan_maxy`. -/
def PL_flat_poly (vp : Viewport) (cs : ClipStatics) (g : GfxState) (stream : Mem) (len : Nat)
    (rgb : Int) : GfxState × ClipStatics :=
  let r := pscan vp cs g.xLc g.xRc g.scan stream PL_STREAM_FLAT len
  if r.ret ≠ 0 then ({ g with scan := r.sc }, r.cs)
  else
    let miny := r.sc.scan_miny
    let maxy := r.sc.scan_maxy
    let rows := iter (maxy - miny + 1).toNat (flat_row g.PL_hres r.sc g.mul8 rgb)
      { b := g.bufs, miny := miny, pos := mul32 miny g.PL_hres }
    ({ g with scan := r.sc, bufs := rows.b, PL_polygon_count := add32 g.PL_polygon_count 1 },
     r.cs)

/-- The depth test and store of `PL_lintx_poly` for the pixel at offset `p`,
with the masked texture coordinates `su`, `sv`. -/
def lintx_pixel (mul8 : Int → Int → Int) (texels : Mem) (b : Bufs) (p sz su sv : Int) : Bufs :=
  let yt := texels (or32 (shr32 su PL_TP) (shl32 (shr32 sv PL_TP) TXSH))
  let d := shade sz
  { PL_depth_buffer := b.PL_depth_buffer.write p sz
    PL_video_buffer := b.PL_video_buffer.write p
      (if d ≥ 256 then yt
       else
        let r := shl32 (mul8 d (and32 (shr32 yt 16) 0xff)) 16
        let r := or32 r (shl32 (mul8 d (and32 (shr32 yt 8) 0xff)) 8)
        let r := or32 r (shl32 (mul8 d (and32 (shr32 yt 0) 0xff)) 0)
        r) }

/-- The variables of the pixel loop of `PL_lintx_poly`. -/
structure TexSpan where
  b : Bufs
  p : Int
  sz : Int
  su : Int
  sv : Int

/-- One trip of the `while (len >= 0)` loop of `PL_lintx_poly`. -/
def lintx_span_step (mul8 : Int → Int → Int) (texels : Mem) (dz du dv : Int) (s : TexSpan) :
    TexSpan :=
  let hit : Bool := decide (s.b.PL_depth_buffer s.p < s.sz)
  let su := if hit then and32 s.su TXMSK else s.su
  let sv := if hit then and32 s.sv TXMSK else s.sv
  { b := if hit then lintx_pixel mul8 texels s.b s.p s.sz su sv else s.b
    p := s.p + 1
    sz := add32 s.sz dz
    su := add32 su du
    sv := add32 sv dv }

/-- One trip of the `while (miny <= maxy)` loop of `PL_lintx_poly`. -/
def lintx_row (hres : Int) (sc : Scan) (mul8 : Int → Int → Int) (texels : Mem) (r : Rows) : Rows :=
  let beg := sc.x_L r.miny
  let pbg := add32 r.pos beg
  let len := sub32 (sc.x_R r.miny) beg
  let dlen := add32 len (b2i (len == 0))
  let yt := YT r.miny
  let sz := sc.attrbuf (add32 yt 0)
  let dz := div32 (sub32 (sc.attrbuf (add32 yt 1)) sz) dlen
  let su := sc.attrbuf (add32 yt 2)
  let du := div32 (sub32 (sc.attrbuf (add32 yt 3)) su) dlen
  let sv := sc.attrbuf (add32 yt 4)
  let dv := div32 (sub32 (sc.attrbuf (add32 yt 5)) sv) dlen
  let s := iter (len + 1).toNat (lintx_span_step mul8 texels dz du dv)
    { b := r.b, p := pbg, sz := sz, su := su, sv := sv }
  { b := s.b, miny := add32 r.miny 1, pos := add32 r.pos hres }

/-- The function `PL_lintx_poly`. -/
def PL_lintx_poly (vp : Viewport) (cs : ClipStatics) (g : GfxState) (stream : Mem) (len : Nat)
    (texels : Mem) : GfxState × ClipStatics :=
  let r := pscan vp cs g.xLc g.xRc g.scan stream PL_STREAM_TEX len
  if r.ret ≠ 0 then ({ g with scan := r.sc }, r.cs)
  else
    let miny := r.sc.scan_miny
    let maxy := r.sc.scan_maxy
    let rows := iter (maxy - miny + 1).toNat (lintx_row g.PL_hres r.sc g.mul8 texels)
      { b := g.bufs, miny := miny, pos := mul32 miny g.PL_hres }
    ({ g with scan := r.sc, bufs := rows.b, PL_polygon_count := add32 g.PL_polygon_count 1 },
     r.cs)

/-! ## `clip.c`: frustum classification -/

/-- The function `PL_frustum_test` of `clip.c`. -/
def PL_frustum_test (minz maxz : Int) : Int :=
  if maxz ≤ PL_Z_NEAR_PLANE then PL_Z_OUTC_OUTSIDE
  else
    let outc := PL_Z_OUTC_IN_VIEW
    if minz < PL_Z_NEAR_PLANE then or32 outc PL_Z_OUTC_PART_NZ else outc

/-! ## `pl.c`: the render orchestrator -/

/-- The record `struct PL_TEX`: `data` is a pointer that may be null. -/
structure PL_TEX where
  data : Option Mem

/-- The record `struct PL_POLY`: `tex` is a pointer that may be null. -/
structure PL_POLY where
  tex : Option PL_TEX
  verts : Mem
  color : Int
  n_verts : Int

/-- The record `struct PL_OBJ`. -/
structure PL_OBJ where
  polys : Int → PL_POLY
  verts : Mem
  n_polys : Int
  n_verts : Int

/-- The globals of `pl.c`. -/
structure EngineState where
  PL_cur_tex : Option PL_TEX
  PL_fov : Int
  PL_raster_mode : Int
  PL_cull_mode : Int
  tmp_vertices : Mem

/-- All the globals of the library. -/
structure World where
  math : MathState
  vp : Viewport
  cs : ClipStatics
  gfx : GfxState
  eng : EngineState

/-- The variables that the loop of `load_stream` changes. -/
structure Loaded where
  dst : Mem
  lminz : Int
  lmaxz : Int

/-- The body of the loop of `load_stream` for vertex number `k`. -/
def load_stream_body (tmp_vertices src : Mem) (dim : Int) (k : Int) (st : Loaded) : Loaded :=
  let index := src (k * 3 + 0)
  let dst := memcpy st.dst (k * dim) (tmp_vertices.shift (mul32 index PL_VLEN)) 3
  let z := dst (k * dim + 2)
  let lmaxz := if z > st.lmaxz then z else st.lmaxz
  let lminz := if z < st.lminz then z else st.lminz
  let dst :=
    if dim = PL_STREAM_TEX then
      (dst.write (k * dim + 3) (shl32 (src (k * 3 + 1)) PL_TP)).write (k * dim + 4)
        (shl32 (src (k * 3 + 2)) PL_TP)
    else dst
  { dst := dst, lminz := lminz, lmaxz := lmaxz }

/-- The function `load_stream`: the stream written to `dst` and the depth
extents stored through `minz` and `maxz`. -/
def load_stream (tmp_vertices dst src : Mem) (dim len : Int) : Loaded :=
  forN len.toNat (load_stream_body tmp_vertices src dim)
    { dst := dst, lminz := INT_MAX, lmaxz := INT_MIN }

/-- The `return` (or the end) by which `e_render_polygon` is left. -/
inductive Exit where
  | badRasterMode
  | frustumOutside
  | culled
  | drawn
  deriving DecidableEq, Repr

/-- The outcome of `e_render_polygon`: how it returned and the globals then. -/
structure Rendered where
  exit : Exit
  w : World

/-- The choice of stream type, raster mode and texels made by the `switch`
of `e_render_polygon`; `none` is the `default:` case. -/
def raster_switch (cur_tex : Option PL_TEX) (raster_mode : Int) (poly : PL_POLY) :
    Option (Int × Int × Option Mem) :=
  if raster_mode = PL_TEXTURED then
    let tex := match cur_tex with
      | none => poly.tex
      | some t => some t
    match tex with
    | some { data := some texels } => some (PL_STREAM_TEX, PL_TEXTURED, some texels)
    | _ => some (PL_STREAM_FLAT, PL_FLAT, none)
  else if raster_mode = PL_FLAT then some (PL_STREAM_FLAT, PL_FLAT, none)
  else none

/-- The last part of `e_render_polygon`, after the cull test: the near clip
when the frustum test asks for it, the projection and the fill. The globals it
uses are `vp` (the viewport), `cs`, `gfx` and `fov` (`PL_fov`); `copy` is the
loaded stream, `res` the result of the frustum test. -/
def e_render_polygon_draw (vp : Viewport) (cs : ClipStatics) (gfx : GfxState) (fov color : Int)
    (stype rmode : Int) (texels : Option Mem) (copy : Mem) (res nedge : Int) :
    GfxState × ClipStatics :=
  let c : PClip :=
    if res = PL_Z_OUTC_PART_NZ then PL_clip_poly_nz cs (fun _ => 0) copy stype nedge.toNat
    else { dst := copy, nverts := nedge, cs := cs }
  let nedge := c.nverts
  let proj := PL_psp_project vp.PL_vp_cen_x vp.PL_vp_cen_y c.dst (fun _ => 0) stype
    (add32 nedge 1).toNat fov
  let flat := PL_flat_poly vp c.cs gfx proj nedge.toNat color
  if rmode = PL_TEXTURED then
    match texels with
    | some t => PL_lintx_poly vp c.cs gfx proj nedge.toNat t
    | none => flat
  else flat

/-- The function `e_render_polygon`. The local array `resv` starts as zeros. -/
def e_render_polygon (w : World) (poly : PL_POLY) : Rendered :=
  let nedge := and32 poly.n_verts 0xf
  match raster_switch w.eng.PL_cur_tex w.eng.PL_raster_mode poly with
  | none => { exit := Exit.badRasterMode, w := w }
  | some (stype, rmode, texels) =>
    let ld := load_stream w.eng.tmp_vertices (fun _ => 0) poly.verts stype (add32 nedge 1)
    let copy := ld.dst
    let res := PL_frustum_test ld.lminz ld.lmaxz
    if res = PL_Z_OUTC_OUTSIDE then { exit := Exit.frustumOutside, w := w }
    else
      -- test winding order in view space rather than screen space
      let back_face := PL_winding_order copy (copy.shift stype) (copy.shift (mul32 stype 2))
      if and32 (add32 back_face 1) w.eng.PL_cull_mode ≠ 0 then { exit := Exit.culled, w := w }
      else
        let drawn := e_render_polygon_draw w.vp w.cs w.gfx w.eng.PL_fov poly.color
          stype rmode texels copy res nedge
        { exit := Exit.drawn, w := { w with gfx := drawn.1, cs := drawn.2 } }

/-- The function `PL_xfproj_vert`: its return value and the new `out`. -/
def PL_xfproj_vert (w : World) (inp out : Mem) : Int × Mem :=
  let inv : Mem := Mem.write (Mem.write (Mem.write (fun _ => 0) 0 (inp 0)) 1 (inp 1)) 2 (inp 2)
  let xf := PL_mst_xf_modelview_vec w.math inv (fun _ => 0) 1
  let cnd := PL_point_frustum_test xf
  let out :=
    if cnd ≠ PL_Z_OUTC_OUTSIDE then
      PL_psp_project w.vp.PL_vp_cen_x w.vp.PL_vp_cen_y xf out 3 1 w.eng.PL_fov
    else out
  (b2i (cnd == PL_Z_OUTC_IN_VIEW), out)

/-- The function `PL_render_object`; a null `obj` is `none`. -/
def PL_render_object (w : World) (obj : Option PL_OBJ) : Except Err World :=
  match obj with
  | none => .ok w
  | some obj =>
    if obj.n_verts ≥ PL_MAX_OBJ_V then .error Err.tooManyVertices
    else
      let tmp := PL_mst_xf_modelview_vec w.math obj.verts w.eng.tmp_vertices obj.n_verts
      let w := { w with eng := { w.eng with tmp_vertices := tmp } }
      .ok (forN obj.n_polys.toNat (fun i w => (e_render_polygon w (obj.polys i)).w) w)

/-! ## `gfx.c`: initialisation -/

/-- The trig-table loops at the end of `PL_init`. -/
def PL_init_trig (m : MathState) : MathState :=
  -- sine is mirrored over X after PI
  let sin := forN (shr32 PL_TRIGMAX 1).toNat
    (fun i s => s.write (shr32 PL_TRIGMAX 1 + i) (neg32 (s i))) m.PL_sin
  -- construct cosine table by copying sine table
  let cos := forN (shr32 PL_TRIGMAX 1 + shr32 PL_TRIGMAX 2).toNat
    (fun i c => c.write i (sin (i + shr32 PL_TRIGMAX 2))) m.PL_cos
  let cos := forN (shr32 PL_TRIGMAX 2).toNat
    (fun i c => c.write (i + (shr32 PL_TRIGMAX 1 + shr32 PL_TRIGMAX 2)) (sin i)) cos
  { m with PL_sin := sin, PL_cos := cos }

/-- The table `mul8` after the two loops of `PL_init` that fill it:
`mul8[i][j] = (unsigned char) ((i * j) >> 8)`. -/
def mul8_init (old : Int → Int → Int) : Int → Int → Int :=
  fun i j =>
    if 0 ≤ i ∧ i < 256 ∧ 0 ≤ j ∧ j < 256 then (shr32 (mul32 i j) 8) % 256
    else old i j

/-- The function `PL_init`; `calloc_ok` tells whether `EXT_calloc` returns a
buffer. The two loops that fill `mul8` and the loop that fills the cleared
scan tables are given by their results. -/
def PL_init (w : World) (video : Mem) (hres vres : Int) (calloc_ok : Bool) : Except Err World :=
  let vp := PL_set_viewport w.vp hres vres 0 0 (sub32 hres 1) (sub32 vres 1) 1
  if !calloc_ok then .error Err.noMemory
  else
    let g : GfxState :=
      { w.gfx with
        PL_hres := hres
        PL_vres := vres
        PL_hres_h := shr32 hres 1
        PL_vres_h := shr32 vres 1
        bufs := { PL_video_buffer := video, PL_depth_buffer := fun _ => 0 }
        mul8 := mul8_init w.gfx.mul8
        xLc := fun i => if 0 ≤ i ∧ i < vres then INT_MAX else w.gfx.xLc i
        xRc := fun i => if 0 ≤ i ∧ i < vres then INT_MIN else w.gfx.xRc i }
    .ok { w with vp := vp, gfx := g, math := PL_init_trig w.math }

/-- A call that changes the top of the matrix stack without pushing or popping. -/
inductive MstEdit where
  | load_idt
  | load (m : Mem)
  | mul (m : Mem)
  | scale (x y z : Int)
  | translate (x y z : Int)
  | rotatex (rx : Int)
  | rotatey (ry : Int)
  | rotatez (rz : Int)

/-- The effect of one such call. -/
def MstEdit.apply : MstEdit → MathState → MathState
  | .load_idt, s => PL_mst_load_idt s
  | .load m, s => PL_mst_load s m
  | .mul m, s => PL_mst_mul s m
  | .scale x y z, s => PL_mst_scale s x y z
  | .translate x y z, s => PL_mst_translate s x y z
  | .rotatex r, s => PL_mst_rotatex s r
  | .rotatey r, s => PL_mst_rotatey s r
  | .rotatez r, s => PL_mst_rotatez s r

/-- For each block of edits in turn: `PL_mst_push`, then the edits of the block. -/
def push_phase : List (List MstEdit) → MathState → Except Err MathState
  | [], s => .ok s
  | es :: rest, s =>
    match PL_mst_push s with
    | .error e => .error e
    | .ok s1 => push_phase rest (es.foldl (fun s e => e.apply s) s1)

/-- `n` calls of `PL_mst_pop`. -/
def pop_phase : Nat → MathState → Except Err MathState
  | 0, s => .ok s
  | n + 1, s =>
    match PL_mst_pop s with
    | .error e => .error e
    | .ok s1 => pop_phase n s1

/-- Every component of a vector shifted right arithmetically by `k`. -/
def shr_vec (v : Mem) (k : Nat) : Mem := fun i => shr32 (v i) k

/-- The globals of `clip.c`, `gfx.c` and `pl.c` as their static initialisers
leave them, before `PL_init`. -/
def World.init : World where
  math := MathState.init
  vp := ⟨0, 0, 0, 0, 0, 0⟩
  cs := ⟨fun _ => 0, fun _ => 0, fun _ => 0⟩
  gfx :=
    { PL_hres := 0
      PL_vres := 0
      PL_hres_h := 0
      PL_vres_h := 0
      PL_polygon_count := 0
      bufs := ⟨fun _ => 0, fun _ => 0⟩
      scan := ⟨fun _ => 0, fun _ => 0, fun _ => 0, 0, 0⟩
      xLc := fun _ => 0
      xRc := fun _ => 0
      mul8 := fun _ _ => 0 }
  eng :=
    { PL_cur_tex := none
      PL_fov := 9
      PL_raster_mode := PL_FLAT
      PL_cull_mode := PL_CULL_BACK
      tmp_vertices := fun _ => 0 }

/-! ## Relations used in the proofs -/

/-- Two arrays that developed from `A0` and `B0` under the same stores: at
each index they hold the same value, or each still holds its original value. -/
def SameStores (A0 B0 A B : Mem) : Prop := ∀ j, A j = B j ∨ (A j = A0 j ∧ B j = B0 j)

/-- The state of the edge loop of `pscan` with the attribute table replaced. -/
def PScan.setAttr (st : PScan) (B : Mem) : PScan :=
  { st with sc := { st.sc with attrbuf := B } }

/-- Two states of the edge loop of `pscan` that agree except for the clipper
statics and for attribute tables that have seen the same stores. -/
def ScanRel (A0 B0 : Mem) (st st2 : PScan) : Prop :=
  ∃ (B : Mem) (cs2 : ClipStatics),
    st2 = { st.setAttr B with cs := cs2 } ∧ SameStores A0 B0 st.sc.attrbuf B

/-- A call of the matrix-stack interface of `math.c`. -/
inductive MstCall where
  | push
  | pop
  | edit (e : MstEdit)

/-- The effect of one call; an error is what `EXT_error` halts the program with. -/
def MstCall.step : MstCall → MathState → Except Err MathState
  | .push, s => PL_mst_push s
  | .pop, s => PL_mst_pop s
  | .edit e, s => .ok (e.apply s)

/-- A sequence of calls on the matrix stack, halted by the first fatal error. -/
def mst_run : List MstCall → MathState → Except Err MathState
  | [], s => .ok s
  | c :: cs, s =>
    match c.step s with
    | .error e => .error e
    | .ok s1 => mst_run cs s1

/-- Whether vertex `k` of a stream of records of `len` ints is not behind the
near plane. -/
def nz_front (src : Mem) (len : Int) (k : Nat) : Bool :=
  decide (PL_Z_NEAR_PLANE ≤ src ((k : Int) * len + 2))

/-- The number of vertices that the loop of `pclip` appends for one edge under
`lineclipnz`, from whether its start `a` and its end `b` are not behind the
near plane. -/
def nz_edge_count (a b : Bool) : Int :=
  if b then (if a then 1 else 2) else (if a then 1 else 0)

/-- The sum of `nz_edge_count` over the first `n` edges of a chain. -/
def nz_count (f : Nat → Bool) : Nat → Int
  | 0 => 0
  | n + 1 => nz_count f n + nz_edge_count (f n) (f (n + 1))

/-- The matrices that scaling and translating make: the diagonal `d0, d1, d2`,
the translation row `t0, t1, t2`, and zero at the other entries of the 3×4
part that `PL_mat_mul` computes. -/
def IsAffine (a : Mem) (d0 d1 d2 t0 t1 t2 : Int) : Prop :=
  a 0 = d0 ∧ a 1 = 0 ∧ a 2 = 0 ∧ a 4 = 0 ∧ a 5 = d1 ∧ a 6 = 0 ∧
  a 8 = 0 ∧ a 9 = 0 ∧ a 10 = d2 ∧ a 12 = t0 ∧ a 13 = t1 ∧ a 14 = t2

/-- Whether the three components of `v`, shifted right by `k`, all lie in
`[-32768, 32767]`. -/
def vec_fits (v : Mem) (k : Nat) : Prop :=
  (-32768 ≤ shr32 (v 0) k ∧ shr32 (v 0) k ≤ 32767) ∧
  (-32768 ≤ shr32 (v 1) k ∧ shr32 (v 1) k ≤ 32767) ∧
  (-32768 ≤ shr32 (v 2) k ∧ shr32 (v 2) k ≤ 32767)

/-- The vector `v` with its three components shifted right by `k`. -/
def vec_shifted (v : Mem) (k : Nat) : Mem :=
  fun i => if i = 0 ∨ i = 1 ∨ i = 2 then shr32 (v i) k else v i

/-! ## Vector algebra over the integers, for stating the winding order -/

/-- The predicate that an integer is representable as a 32-bit `int`. -/
def fits32 (x : Int) : Prop := -2147483648 ≤ x ∧ x < 2147483648

instance (x : Int) : Decidable (fits32 x) := by
  unfold fits32
  infer_instance

/-- The cross product `a x b` of two integer 3-vectors, without wrap-around. -/
def vec_cross (a b : Mem) : Mem :=
  Mem.ofList [a 1 * b 2 - a 2 * b 1, a 2 * b 0 - a 0 * b 2, a 0 * b 1 - a 1 * b 0]

/-- The dot product of two integer 3-vectors, without wrap-around. -/
def vec_dot (a b : Mem) : Int := a 0 * b 0 + a 1 * b 1 + a 2 * b 2

/-- The difference `a - b` of two integer 3-vectors, without wrap-around. -/
def vec_sub (a b : Mem) : Mem := Mem.ofList [a 0 - b 0, a 1 - b 1, a 2 - b 2]

/-- The scalar triple product `det[a; b; c]`: the dot product of the first row
with the cross product of the other two. -/
def det3 (a b c : Mem) : Int := vec_dot a (vec_cross b c)

/-! ## Edges of a chain against a clipping bound -/

/-- Edge `k` of a chain of records of `len` ints lies wholly outside the bound
of `lclip2` on component `comp`: both ends at or beyond `max`, or both at or
below `min`. -/
def edge_outside2 (src : Mem) (len min max comp : Int) (k : Nat) : Prop :=
  (src ((k : Int) * len + comp) ≥ max ∧ src (((k : Int) + 1) * len + comp) ≥ max) ∨
  (src ((k : Int) * len + comp) ≤ min ∧ src (((k : Int) + 1) * len + comp) ≤ min)

/-- Edge `k` lies wholly inside the bound of `lclip2` on component `comp`. -/
def edge_inside2 (src : Mem) (len min max comp : Int) (k : Nat) : Prop :=
  (min < src ((k : Int) * len + comp) ∧ src ((k : Int) * len + comp) < max) ∧
  (min < src (((k : Int) + 1) * len + comp) ∧ src (((k : Int) + 1) * len + comp) < max)

/-- Edge `k` lies wholly behind the near plane. -/
def edge_outside3 (src : Mem) (len : Int) (k : Nat) : Prop :=
  src ((k : Int) * len + 2) < PL_Z_NEAR_PLANE ∧ src (((k : Int) + 1) * len + 2) < PL_Z_NEAR_PLANE

/-- Edge `k` lies wholly at or in front of the near plane. -/
def edge_inside3 (src : Mem) (len : Int) (k : Nat) : Prop :=
  PL_Z_NEAR_PLANE ≤ src ((k : Int) * len + 2) ∧ PL_Z_NEAR_PLANE ≤ src (((k : Int) + 1) * len + 2)

/-- What a polygon clipper appends per edge; `P n` is its result on the first
`n` edges of the chain `src`. Nothing has been appended before the first edge.
Edge `n` appends nothing if it is outside; if it is inside it appends exactly
one record, which in the output of all `num` edges is the end vertex of the
edge as it stands in `src`; an edge that is not outside appends at least one
record, and no edge appends more than two. The count returned for `num` edges
is therefore between 0 and `2 * num`, and the record behind the last appended
one is a copy of the first record of the output. -/
def AppendsPerEdge (P : Nat → PClip) (src : Mem) (len : Int) (num : Nat)
    (outside inside : Nat → Prop) : Prop :=
  (P 0).nverts = 0 ∧
  (∀ n : Nat, n < num →
    (outside n → (P (n + 1)).nverts = (P n).nverts) ∧
    (inside n → (P (n + 1)).nverts = (P n).nverts + 1 ∧
      ∀ t, 0 ≤ t → t < len →
        (P num).dst ((P n).nverts * len + t) = src (((n : Int) + 1) * len + t)) ∧
    (¬ outside n → (P n).nverts + 1 ≤ (P (n + 1)).nverts) ∧
    (P (n + 1)).nverts ≤ (P n).nverts + 2) ∧
  0 ≤ (P num).nverts ∧ (P num).nverts ≤ 2 * (num : Int) ∧
  ∀ t, 0 ≤ t → t < len → (P num).dst ((P num).nverts * len + t) = (P num).dst t

/-- The constant `PL_MAX_SCREENSIZE`. -/
def PL_MAX_SCREENSIZE : Int := 2048

/-! ## The samples of the edge walk -/

/-- The variables of the edge walk of `scan_walk` at the start of trip number
`i` of its `do ... while (mjr--)` loop. -/
def walk_state (rdim x y dx dy mjr : Int) (vA vB : Mem) (st : PScan) (i : Nat) : Walk :=
  let AD := edge_attrs rdim mjr vA vB st.AT st.DT
  let x := add32 (shl32 x SCANP) SCANP_ROUND
  let y := add32 (shl32 y SCANP) SCANP_ROUND
  let dx := div32 (shl32 dx SCANP) mjr
  let dy := div32 (shl32 dy SCANP) mjr
  iter i (walk_step rdim dx dy AD.2)
    { x := x, y := y, AT := AD.1, x_L := st.sc.x_L, x_R := st.sc.x_R,
      attrbuf := st.sc.attrbuf }

/-- The sample `(sx, sy)` of trip number `i` of the walk that `scan_edge` makes
along the edge from the record `vA` to the record `vB`. -/
def edge_sample (rdim : Int) (vA vB : Mem) (st : PScan) (i : Nat) : Int × Int :=
  let w := walk_state rdim (vA 0) (vA 1) (sub32 (vB 0) (vA 0)) (sub32 (vB 1) (vA 1))
    (edge_mjr (sub32 (vB 0) (vA 0)) (sub32 (vB 1) (vA 1))) (vA.shift 2) (vB.shift 2) st i
  (shr32 w.x SCANP, shr32 w.y SCANP)

/-! ## The scenario of the filled square -/

/-- The closed chain of the square of the scenario in camera space: the corners
`(-50,-50,100)`, `(50,-50,100)`, `(50,50,100)`, `(-50,50,100)` and the first
corner again. -/
def quad_src : Mem :=
  Mem.ofList [-50, -50, 100, 50, -50, 100, 50, 50, 100, -50, 50, 100, -50, -50, 100]

/-- The globals after `PL_init` on a cleared buffer of 896 x 504 pixels. -/
def init_world : World :=
  match PL_init World.init (fun _ => 0) 896 504 true with
  | .ok w => w
  | .error _ => World.init

/-- The square projected by `PL_psp_project` with the focal centre and the FOV
exponent of `init_world`. -/
def quad_stream : Mem :=
  PL_psp_project init_world.vp.PL_vp_cen_x init_world.vp.PL_vp_cen_y quad_src (fun _ => 0)
    PL_STREAM_FLAT 5 init_world.eng.PL_fov

/-- The globals of `gfx.c` and the clipper statics after `PL_flat_poly` has
filled the projected square in the colour `0xff0000`. -/
def quad_scene : GfxState × ClipStatics :=
  PL_flat_poly init_world.vp init_world.cs init_world.gfx quad_stream 4 0xff0000

/-! ## The scenario of the square sent through `e_render_polygon` -/

/-- The four corners of the square in camera space, as `PL_render_object`
leaves them in `tmp_vertices`: records of `PL_VLEN` ints. -/
def quad_tmp_vertices : Mem :=
  Mem.ofList [-50, -50, 100, 0, 50, -50, 100, 0, 50, 50, 100, 0, -50, 50, 100, 0]

/-- The square as a `PL_POLY`: four edges over the vertex indices 0, 1, 2, 3
and 0 again, each with the texture coordinates `(0, 0)`; the colour is
`0xff0000` and there is no texture. -/
def quad_poly : PL_POLY :=
  { tex := none
    verts := Mem.ofList [0, 0, 0, 1, 0, 0, 2, 0, 0, 3, 0, 0, 0, 0, 0]
    color := 0xff0000
    n_verts := 4 }

/-- The globals after `PL_init` on a cleared buffer of 896 x 504 pixels, with
the square in `tmp_vertices`, `PL_raster_mode = rmode` and
`PL_cull_mode = cmode`. -/
def quad_world (rmode cmode : Int) : World :=
  { init_world with
    eng := { init_world.eng with
      PL_raster_mode := rmode
      PL_cull_mode := cmode
      tmp_vertices := quad_tmp_vertices } }

/-! # Theorems -/

/-! ## Basic facts on machine integers -/

theorem wrap32_eq_self {x : Int} (h1 : -2147483648 ≤ x) (h2 : x < 2147483648) :
    wrap32 x = x := by
  unfold wrap32
  omega

theorem wrap32_range (x : Int) : -2147483648 ≤ wrap32 x ∧ wrap32 x < 2147483648 := by
  unfold wrap32
  omega

/-! ## Frustum classification -/

/-- C10: for all depth extents (in particular `minz ≤ maxz`), `PL_frustum_test` returns one of the
three outcomes, `PL_Z_OUTC_OUTSIDE` exactly when `maxz ≤ PL_Z_NEAR_PLANE`,
`PL_Z_OUTC_PART_NZ` exactly when `minz < PL_Z_NEAR_PLANE < maxz`, and
`PL_Z_OUTC_IN_VIEW` exactly when `minz ≥ PL_Z_NEAR_PLANE` and
`maxz > PL_Z_NEAR_PLANE`. -/
theorem frustum_test_three_way (minz maxz : Int) :
    (PL_frustum_test minz maxz = 2 ∨ PL_frustum_test minz maxz = 1 ∨
      PL_frustum_test minz maxz = 0) ∧
    (PL_frustum_test minz maxz = PL_Z_OUTC_OUTSIDE ↔ maxz ≤ PL_Z_NEAR_PLANE) ∧
    (PL_frustum_test minz maxz = PL_Z_OUTC_PART_NZ ↔
      (minz < PL_Z_NEAR_PLANE ∧ PL_Z_NEAR_PLANE < maxz)) ∧
    (PL_frustum_test minz maxz = PL_Z_OUTC_IN_VIEW ↔
      (minz ≥ PL_Z_NEAR_PLANE ∧ maxz > PL_Z_NEAR_PLANE)) := by
  have hval : PL_frustum_test minz maxz =
      if maxz ≤ 16 then 2 else if minz < 16 then 1 else 0 := by
    have hor : or32 0 1 = 1 := by decide
    unfold PL_frustum_test PL_Z_OUTC_OUTSIDE PL_Z_OUTC_PART_NZ PL_Z_OUTC_IN_VIEW
      PL_Z_NEAR_PLANE
    simp only [hor]
  rw [hval]
  unfold PL_Z_OUTC_OUTSIDE PL_Z_OUTC_PART_NZ PL_Z_OUTC_IN_VIEW PL_Z_NEAR_PLANE
  by_cases h1 : maxz ≤ 16
  · rw [if_pos h1]
    refine ⟨Or.inl rfl, ?_, ?_, ?_⟩ <;> constructor <;> intro h2 <;> omega
  · rw [if_neg h1]
    by_cases h2 : minz < 16
    · rw [if_pos h2]
      refine ⟨Or.inr (Or.inl rfl), ?_, ?_, ?_⟩ <;> constructor <;> intro h3 <;> omega
    · rw [if_neg h2]
      refine ⟨Or.inr (Or.inr rfl), ?_, ?_, ?_⟩ <;> constructor <;> intro h3 <;> omega

theorem wrap32_mul_one (a : Int) (h : -65536 < a ∧ a < 65536) :
    wrap32 (a * 32768) = a * 32768 := wrap32_eq_self (by omega) (by omega)

theorem q15_one (a : Int) (_h : -65536 < a ∧ a < 65536) : a * 32768 / 32768 = a := by
  omega

theorem write_same (a : Mem) (i v : Int) : a.write i v i = v := by
  simp [Mem.write]

theorem write_other (a : Mem) (i v j : Int) (h : j ≠ i) : a.write i v j = a j := by
  simp [Mem.write, h]

theorem forN_succ {σ : Type} (n : Nat) (body : Int → σ → σ) (s : σ) :
    forN (n + 1) body s = body (n : Int) (forN n body s) := rfl

theorem forN_write_other (n : Nat) (f : Int → Int) (g : Int → Mem → Int) (a : Mem) (j : Int)
    (h : ∀ i : Nat, i < n → f i ≠ j) :
    forN n (fun i s => s.write (f i) (g i s)) a j = a j := by
  induction n with
  | zero => rfl
  | succ n ih =>
    rw [forN_succ]
    show Mem.write _ (f n) _ j = a j
    rw [write_other _ _ _ _ (fun e => h n (Nat.lt_succ_self n) e.symm)]
    exact ih (fun i hi => h i (Nat.lt_succ_of_lt hi))

theorem forN_write_at (n : Nat) (f : Int → Int) (g : Int → Int) (a : Mem) (i : Nat)
    (hi : i < n) (hinj : ∀ k : Nat, k < n → k ≠ i → f k ≠ f i) :
    forN n (fun i s => s.write (f i) (g i)) a (f i) = g i := by
  induction n with
  | zero => omega
  | succ n ih =>
    rw [forN_succ]
    show Mem.write _ (f n) _ (f i) = g i
    by_cases e : i = n
    · subst e
      rw [write_same]
    · rw [write_other _ _ _ _ (fun h => hinj n (Nat.lt_succ_self n) (fun h' => e h'.symm) h.symm)]
      exact ih (by omega) (fun k hk hne => hinj k (Nat.lt_succ_of_lt hk) hne)

theorem init_trig_sin_low (s : MathState) (j : Int) (hj : j < 128) :
    (PL_init_trig s).PL_sin j = s.PL_sin j := by
  have h1 : (shr32 PL_TRIGMAX 1).toNat = 128 := by decide
  have h2 : shr32 PL_TRIGMAX 1 = 128 := by decide
  simp only [PL_init_trig, h1, h2]
  show forN 128 (fun i s => s.write (128 + i) (neg32 (s i))) s.PL_sin j = s.PL_sin j
  exact forN_write_other 128 (fun i => 128 + i) (fun i s => neg32 (s i)) s.PL_sin j
    (fun i _ => by show (128 : Int) + (i : Int) ≠ j; omega)

theorem init_trig_cos0 (s : MathState) : (PL_init_trig s).PL_cos 0 = s.PL_sin 64 := by
  have hsideA : ∀ i : Nat, i < 64 → (fun i : Int => i + (128 + 64)) (i : Int) ≠ 0 := by
    intro i _ h
    simp only at h
    omega
  have hsideB : ∀ k : Nat, k < 192 → k ≠ 0 →
      (fun i : Int => i) (k : Int) ≠ (fun i : Int => i) ((0 : Nat) : Int) := by
    intro k _ hk h
    simp only at h
    omega
  have hlow := init_trig_sin_low s 64 (by decide)
  have h1 : (shr32 PL_TRIGMAX 1).toNat = 128 := by decide
  have h2 : shr32 PL_TRIGMAX 1 = 128 := by decide
  have h3 : shr32 PL_TRIGMAX 2 = 64 := by decide
  have h4 : (shr32 PL_TRIGMAX 2).toNat = 64 := by decide
  have h5 : ((128 : Int) + 64).toNat = 192 := by decide
  have h6 : Int.toNat 128 = 128 := by decide
  have h7 : Int.toNat 64 = 64 := by decide
  simp only [PL_init_trig, h2, h3, h5, h6, h7] at hlow ⊢
  have hA := forN_write_other 64 (fun i => i + (128 + 64))
    (fun i _ => forN 128 (fun i s => s.write (128 + i) (neg32 (s i))) s.PL_sin i)
    (forN 192
      (fun i c => c.write i (forN 128 (fun i s => s.write (128 + i) (neg32 (s i))) s.PL_sin (i + 64)))
      s.PL_cos) 0 hsideA
  have hB := forN_write_at 192 (fun i => i)
    (fun i => forN 128 (fun i s => s.write (128 + i) (neg32 (s i))) s.PL_sin (i + 64))
    s.PL_cos 0 (by decide) hsideB
  simp only [Nat.cast_zero, zero_add] at hB
  exact hA.trans (hB.trans hlow)

theorem xf_vertex_identity (s : MathState) (x y z : Int)
    (hc : s.PL_cos 0 = 32768) (hs : s.PL_sin 0 = 0) (hrx : s.rx = 0) (hry : s.ry = 0)
    (hm : ∀ j, 0 ≤ j → j < 16 → s.mat_model j = mat_idt j)
    (hx : -65536 < x ∧ x < 65536) (hy : -65536 < y ∧ y < 65536) (hz : -65536 < z ∧ z < 65536)
    (hx' : -65536 < x + s.tx ∧ x + s.tx < 65536)
    (hy' : -65536 < y + s.ty ∧ y + s.ty < 65536)
    (hz' : -65536 < z + s.tz ∧ z + s.tz < 65536) :
    xf_vertex s x y z = (x + s.tx, y + s.ty, z + s.tz) := by
  have e0 := hm 0 (by decide) (by decide)
  have e1 := hm 1 (by decide) (by decide)
  have e2 := hm 2 (by decide) (by decide)
  have e4 := hm 4 (by decide) (by decide)
  have e5 := hm 5 (by decide) (by decide)
  have e6 := hm 6 (by decide) (by decide)
  have e8 := hm 8 (by decide) (by decide)
  have e9 := hm 9 (by decide) (by decide)
  have e10 := hm 10 (by decide) (by decide)
  have e12 := hm 12 (by decide) (by decide)
  have e13 := hm 13 (by decide) (by decide)
  have e14 := hm 14 (by decide) (by decide)
  have i0 : mat_idt 0 = 32768 := by decide
  have i1 : mat_idt 1 = 0 := by decide
  have i2 : mat_idt 2 = 0 := by decide
  have i4 : mat_idt 4 = 0 := by decide
  have i5 : mat_idt 5 = 32768 := by decide
  have i6 : mat_idt 6 = 0 := by decide
  have i8 : mat_idt 8 = 0 := by decide
  have i9 : mat_idt 9 = 0 := by decide
  have i10 : mat_idt 10 = 32768 := by decide
  have i12 : mat_idt 12 = 0 := by decide
  have i13 : mat_idt 13 = 0 := by decide
  have i14 : mat_idt 14 = 0 := by decide
  simp only [xf_vertex, hrx, hry, hc, hs, e0, e1, e2, e4, e5, e6, e8, e9, e10, e12, e13, e14,
    i0, i1, i2, i4, i5, i6, i8, i9, i10, i12, i13, i14, add32, sub32, mul32, shr32, PL_P,
    mul_zero, add_zero, sub_zero]
  have w0 : wrap32 0 = 0 := by decide
  have p15 : (2 : Int) ^ 15 = 32768 := by norm_num
  have wx := wrap32_mul_one x hx
  have wy := wrap32_mul_one y hy
  have wz := wrap32_mul_one z hz
  have tx : wrap32 s.tx = s.tx := wrap32_eq_self (by omega) (by omega)
  have ty : wrap32 s.ty = s.ty := wrap32_eq_self (by omega) (by omega)
  have tz : wrap32 s.tz = s.tz := wrap32_eq_self (by omega) (by omega)
  have wx' := wrap32_mul_one (x + s.tx) hx'
  have wy' := wrap32_mul_one (y + s.ty) hy'
  have wz' := wrap32_mul_one (z + s.tz) hz'
  have ax : wrap32 (x + s.tx) = x + s.tx := wrap32_eq_self (by omega) (by omega)
  have ay : wrap32 (y + s.ty) = y + s.ty := wrap32_eq_self (by omega) (by omega)
  have az : wrap32 (z + s.tz) = z + s.tz := wrap32_eq_self (by omega) (by omega)
  have dx := q15_one x hx
  have dy := q15_one y hy
  have dz := q15_one z hz
  have dx' := q15_one (x + s.tx) hx'
  have dy' := q15_one (y + s.ty) hy'
  have dz' := q15_one (z + s.tz) hz'
  simp only [w0, p15, wx, wy, wz, add_zero, zero_add, sub_zero, dx, dy, dz, tx, ty, tz,
    ax, ay, az, wx', wy', wz', dx', dy', dz']

theorem xf_stream_at (s : MathState) (v out : Mem) (n : Nat) (i : Nat) (hi : i < n) :
    let r := xf_vertex s (v ((i : Int) * 4 + 0)) (v ((i : Int) * 4 + 1)) (v ((i : Int) * 4 + 2))
    forN n (xf_modelview_body s v) out ((i : Int) * 4 + 0) = r.1 ∧
    forN n (xf_modelview_body s v) out ((i : Int) * 4 + 1) = r.2.1 ∧
    forN n (xf_modelview_body s v) out ((i : Int) * 4 + 2) = r.2.2 := by
  intro r
  induction n with
  | zero => omega
  | succ n ih =>
    rw [forN_succ]
    by_cases e : i = n
    · subst e
      simp only [xf_modelview_body, PL_VLEN]
      refine ⟨?_, ?_, ?_⟩
      · rw [write_other _ _ _ _ (by omega), write_other _ _ _ _ (by omega), write_same]
      · rw [write_other _ _ _ _ (by omega), write_same]
      · rw [write_same]
    · have ih' := ih (by omega)
      have hne : (i : Int) ≠ (n : Int) := by omega
      simp only [xf_modelview_body, PL_VLEN]
      refine ⟨?_, ?_, ?_⟩
      · rw [write_other _ _ _ _ (by omega), write_other _ _ _ _ (by omega),
          write_other _ _ _ _ (by omega)]
        exact ih'.1
      · rw [write_other _ _ _ _ (by omega), write_other _ _ _ _ (by omega),
          write_other _ _ _ _ (by omega)]
        exact ih'.2.1
      · rw [write_other _ _ _ _ (by omega), write_other _ _ _ _ (by omega),
          write_other _ _ _ _ (by omega)]
        exact ih'.2.2

/-- C1: once `PL_init` has built the trig tables from the static sine table
(so that `PL_cos[0] = 32768` and `PL_sin[0] = 0`), with an identity model
matrix and the camera set by `PL_set_camera(cx, cy, cz, 0, 0)`,
`PL_mst_xf_modelview_vec` maps vertex `i` of the stream, `(x, y, z)`, to exactly
`(x - cx, y - cy, z - cz)` whenever the coordinates and the camera-relative
coordinates have magnitude below `2^16`; with the camera at the origin the
coordinates come out unchanged. -/
theorem xf_identity_camera_translation (s0 s : MathState) (cx cy cz : Int) (v out : Mem)
    (len i : Int)
    (h0 : s0.PL_sin 0 = 0) (h64 : s0.PL_sin 64 = 32768)
    (hsin : s.PL_sin = (PL_init_trig s0).PL_sin) (hcos : s.PL_cos = (PL_init_trig s0).PL_cos)
    (hm : ∀ j, 0 ≤ j → j < 16 → s.mat_model j = mat_idt j)
    (hi : 0 ≤ i ∧ i < len)
    (hx : -65536 < v (i * PL_VLEN) ∧ v (i * PL_VLEN) < 65536)
    (hy : -65536 < v (i * PL_VLEN + 1) ∧ v (i * PL_VLEN + 1) < 65536)
    (hz : -65536 < v (i * PL_VLEN + 2) ∧ v (i * PL_VLEN + 2) < 65536)
    (hx' : -65536 < v (i * PL_VLEN) - cx ∧ v (i * PL_VLEN) - cx < 65536)
    (hy' : -65536 < v (i * PL_VLEN + 1) - cy ∧ v (i * PL_VLEN + 1) - cy < 65536)
    (hz' : -65536 < v (i * PL_VLEN + 2) - cz ∧ v (i * PL_VLEN + 2) - cz < 65536) :
    (PL_init_trig s0).PL_cos 0 = 32768 ∧ (PL_init_trig s0).PL_sin 0 = 0 ∧
    PL_mst_xf_modelview_vec (PL_set_camera s cx cy cz 0 0) v out len (i * PL_VLEN) =
      v (i * PL_VLEN) - cx ∧
    PL_mst_xf_modelview_vec (PL_set_camera s cx cy cz 0 0) v out len (i * PL_VLEN + 1) =
      v (i * PL_VLEN + 1) - cy ∧
    PL_mst_xf_modelview_vec (PL_set_camera s cx cy cz 0 0) v out len (i * PL_VLEN + 2) =
      v (i * PL_VLEN + 2) - cz := by
  have hc0 : (PL_init_trig s0).PL_cos 0 = 32768 := (init_trig_cos0 s0).trans h64
  have hs0 : (PL_init_trig s0).PL_sin 0 = 0 := (init_trig_sin_low s0 0 (by decide)).trans h0
  refine ⟨hc0, hs0, ?_⟩
  have hr : and32 (sub32 PL_TRIGMAX 0) PL_TRIGMSK = 0 := by decide
  have ncx : neg32 cx = -cx := wrap32_eq_self (by omega) (by omega)
  have ncy : neg32 cy = -cy := wrap32_eq_self (by omega) (by omega)
  have ncz : neg32 cz = -cz := wrap32_eq_self (by omega) (by omega)
  obtain ⟨n, rfl⟩ := Int.eq_ofNat_of_zero_le hi.1
  have hn : n < len.toNat := by omega
  have key := xf_stream_at (PL_set_camera s cx cy cz 0 0) v out len.toNat n hn
  simp only [PL_VLEN] at hx hy hz hx' hy' hz' ⊢
  simp only [add_zero] at key
  have hv := xf_vertex_identity (PL_set_camera s cx cy cz 0 0)
    (v ((n : Int) * 4)) (v ((n : Int) * 4 + 1)) (v ((n : Int) * 4 + 2))
    (by show s.PL_cos 0 = 32768; rw [hcos]; exact hc0)
    (by show s.PL_sin 0 = 0; rw [hsin]; exact hs0)
    hr hr hm hx hy hz
    (by show _ < _ + neg32 cx ∧ _ + neg32 cx < _; rw [ncx]; omega)
    (by show _ < _ + neg32 cy ∧ _ + neg32 cy < _; rw [ncy]; omega)
    (by show _ < _ + neg32 cz ∧ _ + neg32 cz < _; rw [ncz]; omega)
  rw [hv] at key
  have e1 : (PL_set_camera s cx cy cz 0 0).tx = -cx := ncx
  have e2 : (PL_set_camera s cx cy cz 0 0).ty = -cy := ncy
  have e3 : (PL_set_camera s cx cy cz 0 0).tz = -cz := ncz
  simp only [e1, e2, e3] at key
  unfold PL_mst_xf_modelview_vec
  refine ⟨?_, ?_, ?_⟩
  · rw [key.1]; ring
  · rw [key.2.1]; ring
  · rw [key.2.2]; ring

theorem xf_identity_camera_translation_witness :
    PL_mst_xf_modelview_vec (PL_set_camera (PL_init_trig MathState.init) 0 0 0 0 0)
        (Mem.ofList [10, -20, 30, 0]) (fun _ => 0) 1 (0 * PL_VLEN + 1) =
      Mem.ofList [10, -20, 30, 0] (0 * PL_VLEN + 1) - 0 :=
  (xf_identity_camera_translation MathState.init (PL_init_trig MathState.init) 0 0 0
    (Mem.ofList [10, -20, 30, 0]) (fun _ => 0) 1 0 (by decide) (by decide) rfl rfl
    (fun _ _ _ => rfl) (by decide) (by decide) (by decide) (by decide) (by decide) (by decide)
    (by decide)).2.2.2.1

theorem edit_frame (e : MstEdit) (s : MathState) :
    (e.apply s).mst_stack = s.mst_stack ∧ (e.apply s).mst_top = s.mst_top := by
  cases e <;> exact ⟨rfl, rfl⟩

theorem edits_frame (es : List MstEdit) (s : MathState) :
    (es.foldl (fun s e => e.apply s) s).mst_stack = s.mst_stack ∧
    (es.foldl (fun s e => e.apply s) s).mst_top = s.mst_top := by
  induction es generalizing s with
  | nil => exact ⟨rfl, rfl⟩
  | cons e es ih =>
    simp only [List.foldl_cons]
    have h1 := ih (e.apply s)
    have h2 := edit_frame e s
    exact ⟨h1.1.trans h2.1, h1.2.trans h2.2⟩

theorem push_ok (s : MathState) (h0 : 0 ≤ s.mst_top) (h1 : s.mst_top + 1 ≤ 63) :
    PL_mst_push s = .ok { s with
      mst_stack := memcpy s.mst_stack ((s.mst_top + 1) * 16) s.mat_model 16
      mst_top := s.mst_top + 1 } := by
  have e1 : add32 s.mst_top 1 = s.mst_top + 1 := wrap32_eq_self (by omega) (by omega)
  have e2 : mul32 (s.mst_top + 1) 16 = (s.mst_top + 1) * 16 :=
    wrap32_eq_self (by omega) (by omega)
  unfold PL_mst_push
  rw [e1, e2, if_neg (by unfold PL_MAX_MST_DEPTH; omega)]
  rfl

theorem pop_ok (s : MathState) (h0 : 1 ≤ s.mst_top) (h1 : s.mst_top ≤ 63) :
    PL_mst_pop s = .ok { s with
      mat_model := memcpy s.mat_model 0 (s.mst_stack.shift (s.mst_top * 16)) 16
      mst_top := s.mst_top - 1 } := by
  have e1 : sub32 s.mst_top 1 = s.mst_top - 1 := wrap32_eq_self (by omega) (by omega)
  have e2 : mul32 s.mst_top 16 = s.mst_top * 16 := wrap32_eq_self (by omega) (by omega)
  unfold PL_mst_pop
  rw [e1, e2, if_neg (by omega)]
  rfl

theorem push_phase_spec (es : List (List MstEdit)) :
    ∀ s : MathState, 0 ≤ s.mst_top → s.mst_top + es.length ≤ 63 →
      ∃ s1, push_phase es s = .ok s1 ∧ s1.mst_top = s.mst_top + es.length ∧
        (∀ j, j < (s.mst_top + 1) * 16 → s1.mst_stack j = s.mst_stack j) ∧
        (es = [] → s1 = s) ∧
        (es ≠ [] → ∀ j, 0 ≤ j → j < 16 →
          s1.mst_stack ((s.mst_top + 1) * 16 + j) = s.mat_model j) := by
  induction es with
  | nil =>
    intro s _ _
    exact ⟨s, rfl, by simp, fun _ _ => rfl, fun _ => rfl, fun h => absurd rfl h⟩
  | cons e rest ih =>
    intro s h0 h1
    simp only [List.length_cons, Nat.cast_add, Nat.cast_one] at h1
    have hp := push_ok s h0 (by omega)
    let sA : MathState := { s with
      mst_stack := memcpy s.mst_stack ((s.mst_top + 1) * 16) s.mat_model 16
      mst_top := s.mst_top + 1 }
    let sB := e.foldl (fun s e => e.apply s) sA
    have hB := edits_frame e sA
    have hBt : sB.mst_top = s.mst_top + 1 := hB.2
    have hBs : sB.mst_stack = memcpy s.mst_stack ((s.mst_top + 1) * 16) s.mat_model 16 := hB.1
    obtain ⟨s1, hr, ht, hlow, _, _⟩ := ih sB (by omega) (by omega)
    refine ⟨s1, ?_, ?_, ?_, ?_, ?_⟩
    · rw [push_phase, hp]
      exact hr
    · rw [ht, hBt]
      simp only [List.length_cons, Nat.cast_add, Nat.cast_one]
      omega
    · intro j hj
      rw [hlow j (by omega), hBs]
      unfold memcpy
      rw [if_neg (by omega)]
    · intro h
      exact absurd h (List.cons_ne_nil _ _)
    · intro _ j hj0 hj1
      rw [hlow _ (by omega), hBs]
      unfold memcpy
      rw [if_pos (by omega)]
      congr 1
      omega

theorem pop_phase_spec (n : Nat) :
    ∀ s : MathState, (n : Int) ≤ s.mst_top → s.mst_top ≤ 63 →
      ∃ s2, pop_phase n s = .ok s2 ∧ s2.mst_top = s.mst_top - n ∧
        s2.mst_stack = s.mst_stack ∧ (n = 0 → s2 = s) ∧
        (n ≠ 0 → ∀ j, 0 ≤ j → j < 16 →
          s2.mat_model j = s.mst_stack ((s.mst_top - n + 1) * 16 + j)) := by
  induction n with
  | zero =>
    intro s _ _
    exact ⟨s, rfl, by simp, rfl, fun _ => rfl, fun h => absurd rfl h⟩
  | succ n ih =>
    intro s h0 h1
    simp only [Nat.cast_add, Nat.cast_one] at h0
    have hp := pop_ok s (by omega) h1
    let sA : MathState := { s with
      mat_model := memcpy s.mat_model 0 (s.mst_stack.shift (s.mst_top * 16)) 16
      mst_top := s.mst_top - 1 }
    obtain ⟨s2, hr, ht, hs, hz, hnz⟩ := ih sA (by show (n : Int) ≤ s.mst_top - 1; omega)
      (by show s.mst_top - 1 ≤ 63; omega)
    refine ⟨s2, ?_, ?_, ?_, ?_, ?_⟩
    · rw [pop_phase, hp]
      exact hr
    · rw [ht]
      show s.mst_top - 1 - (n : Int) = s.mst_top - ((n + 1 : Nat) : Int)
      simp only [Nat.cast_add, Nat.cast_one]
      omega
    · rw [hs]
    · intro h
      exact absurd h (Nat.succ_ne_zero n)
    · intro _ j hj0 hj1
      by_cases hn : n = 0
      · subst hn
        rw [hz rfl]
        show memcpy s.mat_model 0 (s.mst_stack.shift (s.mst_top * 16)) 16 j = _
        unfold memcpy Mem.shift
        rw [if_pos (by omega)]
        congr 1
        simp only [Nat.cast_add, Nat.cast_one, Nat.cast_zero]
        omega
      · rw [hnz hn j hj0 hj1]
        show s.mst_stack ((s.mst_top - 1 - (n : Int) + 1) * 16 + j) = _
        congr 1
        simp only [Nat.cast_add, Nat.cast_one]
        omega

/-- C2: transform-stack push/pop is LIFO. From any state of depth `d` and
model matrix `m`, `N` calls of `PL_mst_push`, each followed by an arbitrary
block of load / multiply / scale / translate / rotate calls, and then `N` calls
of `PL_mst_pop` all succeed when `d + N ≤ 63`, and leave all 16 entries of the
model matrix equal to `m` and the depth equal to `d`. -/
theorem mst_push_pop_lifo (s : MathState) (es : List (List MstEdit))
    (hd : 0 ≤ s.mst_top) (hN : s.mst_top + es.length ≤ 63) :
    ∃ s1 s2, push_phase es s = .ok s1 ∧ pop_phase es.length s1 = .ok s2 ∧
      (∀ j, 0 ≤ j → j < 16 → s2.mat_model j = s.mat_model j) ∧ s2.mst_top = s.mst_top := by
  obtain ⟨s1, hr1, ht1, _, he, hne⟩ := push_phase_spec es s hd hN
  obtain ⟨s2, hr2, ht2, _, hz, hnz⟩ := pop_phase_spec es.length s1 (by omega) (by omega)
  refine ⟨s1, s2, hr1, hr2, ?_, by omega⟩
  intro j hj0 hj1
  by_cases h : es = []
  · subst h
    rw [hz rfl, he rfl]
  · have hl : es.length ≠ 0 := fun h' => h (List.length_eq_zero.mp h')
    rw [hnz hl j hj0 hj1, ← hne h j hj0 hj1]
    congr 1
    omega

theorem mst_push_pop_lifo_witness :
    (0 ≤ MathState.init.mst_top ∧
      MathState.init.mst_top +
        ([[MstEdit.scale 3 4 5, MstEdit.rotatex 7], [MstEdit.load_idt]] :
          List (List MstEdit)).length ≤ 63) ∧
    ∃ s1 s2,
      push_phase [[MstEdit.scale 3 4 5, MstEdit.rotatex 7], [MstEdit.load_idt]]
        MathState.init = .ok s1 ∧
      pop_phase ([[MstEdit.scale 3 4 5, MstEdit.rotatex 7], [MstEdit.load_idt]] :
        List (List MstEdit)).length s1 = .ok s2 ∧
      (∀ j, 0 ≤ j → j < 16 → s2.mat_model j = MathState.init.mat_model j) ∧
      s2.mst_top = MathState.init.mst_top :=
  ⟨⟨by decide, by decide⟩,
    mst_push_pop_lifo MathState.init [[MstEdit.scale 3 4 5, MstEdit.rotatex 7], [MstEdit.load_idt]]
      (by decide) (by decide)⟩

theorem tdiv_nonneg_eq (a b : Int) (ha : 0 ≤ a) (hb : 0 ≤ b) : Int.tdiv a b = a / b :=
  Int.tdiv_eq_ediv ha hb

/-- The projection factor of one record: `ffac / z` for a positive depth. -/
theorem psp_factor (fov z : Int) (hfov : 8 ≤ fov ∧ fov ≤ 18) (hz : 0 < z) :
    div32 (shl32 1 (add32 fov 12).toNat) z = 2 ^ (fov + 12).toNat / z ∧
    0 ≤ (2 : Int) ^ (fov + 12).toNat / z ∧ (2 : Int) ^ (fov + 12).toNat / z ≤ 1073741824 := by
  have e1 : add32 fov 12 = fov + 12 := wrap32_eq_self (by omega) (by omega)
  have hp : (0 : Int) < 2 ^ (fov + 12).toNat := by positivity
  have hp2 : (2 : Int) ^ (fov + 12).toNat ≤ 1073741824 := by
    have hn : (fov + 12).toNat ≤ 30 := by omega
    calc (2 : Int) ^ (fov + 12).toNat ≤ 2 ^ 30 := pow_le_pow_right₀ (by norm_num) hn
      _ = 1073741824 := by norm_num
  have hq0 : 0 ≤ (2 : Int) ^ (fov + 12).toNat / z := Int.ediv_nonneg hp.le hz.le
  have hq1 : (2 : Int) ^ (fov + 12).toNat / z ≤ 2 ^ (fov + 12).toNat :=
    Int.ediv_le_self _ hp.le
  refine ⟨?_, hq0, by omega⟩
  unfold div32 shl32
  have w1 : wrap32 ((2 : Int) ^ (fov + 12).toNat) = 2 ^ (fov + 12).toNat :=
    wrap32_eq_self (by omega) (by omega)
  rw [e1, one_mul, w1, tdiv_nonneg_eq _ _ hp.le hz.le]
  exact wrap32_eq_self (by omega) (by omega)

theorem psp_body_other (cen_x cen_y : Int) (src : Mem) (len fov : Int) (k : Int) (dst : Mem)
    (t : Int) (hlen : 3 ≤ len ∧ len < 2147483648) (ht : t < k * len ∨ (k + 1) * len ≤ t) :
    psp_project_body cen_x cen_y src len fov k dst t = dst t := by
  have e : sub32 len 3 = len - 3 := wrap32_eq_self (by omega) (by omega)
  have hk : (k + 1) * len = k * len + len := by ring
  unfold psp_project_body
  simp only [e]
  unfold memcpy
  rw [if_neg (by omega), write_other _ _ _ _ (by omega), write_other _ _ _ _ (by omega),
    write_other _ _ _ _ (by omega)]

theorem psp_body_at (cen_x cen_y : Int) (src : Mem) (len fov : Int) (k : Int) (dst : Mem)
    (hlen : 3 ≤ len ∧ len < 2147483648) :
    let f := div32 (shl32 1 (add32 fov 12).toNat) (src (k * len + 2))
    let out := psp_project_body cen_x cen_y src len fov k dst
    out (k * len + 0) = add32 (shr32 (add32 (mul32 (src (k * len + 0)) f) (shl32 1 11)) 12) cen_x ∧
    out (k * len + 1) = sub32 cen_y (shr32 (add32 (mul32 (src (k * len + 1)) f) (shl32 1 11)) 12) ∧
    out (k * len + 2) = shr32 f (sub32 fov 8).toNat ∧
    ∀ t, 3 ≤ t → t < len → out (k * len + t) = src (k * len + t) := by
  have e : sub32 len 3 = len - 3 := wrap32_eq_self (by omega) (by omega)
  intro f out
  refine ⟨?_, ?_, ?_, ?_⟩
  · show psp_project_body cen_x cen_y src len fov k dst (k * len + 0) = _
    unfold psp_project_body
    simp only [e]
    unfold memcpy
    rw [if_neg (by omega), write_other _ _ _ _ (by omega), write_other _ _ _ _ (by omega),
      write_same]
  · show psp_project_body cen_x cen_y src len fov k dst (k * len + 1) = _
    unfold psp_project_body
    simp only [e]
    unfold memcpy
    rw [if_neg (by omega), write_other _ _ _ _ (by omega), write_same]
  · show psp_project_body cen_x cen_y src len fov k dst (k * len + 2) = _
    unfold psp_project_body
    simp only [e]
    unfold memcpy
    rw [if_neg (by omega), write_same]
  · intro t h3 hl
    show psp_project_body cen_x cen_y src len fov k dst (k * len + t) = _
    unfold psp_project_body
    simp only [e]
    unfold memcpy Mem.shift
    rw [if_pos (by omega)]
    congr 1
    omega

theorem psp_stream_at (cen_x cen_y : Int) (src dst : Mem) (len fov : Int) (num j : Nat)
    (hlen : 3 ≤ len ∧ len < 2147483648) (hj : j < num) (t : Int) (ht : 0 ≤ t ∧ t < len) :
    forN num (psp_project_body cen_x cen_y src len fov) dst ((j : Int) * len + t) =
      psp_project_body cen_x cen_y src len fov j
        (forN j (psp_project_body cen_x cen_y src len fov) dst) ((j : Int) * len + t) := by
  induction num with
  | zero => omega
  | succ n ih =>
    rw [forN_succ]
    by_cases e : j = n
    · subst e
      rfl
    · have hjn : j < n := by omega
      rw [psp_body_other _ _ _ _ _ _ _ _ hlen, ih hjn]
      left
      have h1 : ((j : Int) + 1) * len ≤ (n : Int) * len :=
        Int.mul_le_mul_of_nonneg_right (by omega) (by omega)
      have h2 : ((j : Int) + 1) * len = (j : Int) * len + len := by ring
      omega

/-- C9: for a FOV exponent `8 ≤ fov ≤ 18`, a record length `len ≥ 3` and a
record `j` of the stream with depth `z > 0`, with `k = (1 << (fov + 12)) / z`
and no intermediate value leaving 32 bits, `PL_psp_project` writes
`((x * k + 2^11) >> 12) + PL_vp_cen_x`, `PL_vp_cen_y - ((y * k + 2^11) >> 12)`
and `k >> (fov - 8)`, then the `len - 3` trailing attributes unchanged at the
same positions; the shifted terms are `x * k / 4096` and `y * k / 4096`
rounded to the nearest integer, ties upward. -/
theorem psp_project_formula (cen_x cen_y : Int) (src dst : Mem) (len fov : Int) (num j : Nat)
    (k : Int) (hfov : 8 ≤ fov ∧ fov ≤ 18) (hlen : 3 ≤ len ∧ len < 2147483648) (hj : j < num)
    (hz : 0 < src (j * len + 2))
    (hk : k = (2 : Int) ^ (fov + 12).toNat / src (j * len + 2))
    (hx : -2147483648 ≤ src (j * len + 0) * k ∧ src (j * len + 0) * k + 2 ^ 11 < 2147483648)
    (hy : -2147483648 ≤ src (j * len + 1) * k ∧ src (j * len + 1) * k + 2 ^ 11 < 2147483648)
    (hsx : -2147483648 ≤ shr32 (src (j * len + 0) * k + 2 ^ 11) 12 + cen_x ∧
      shr32 (src (j * len + 0) * k + 2 ^ 11) 12 + cen_x < 2147483648)
    (hsy : -2147483648 ≤ cen_y - shr32 (src (j * len + 1) * k + 2 ^ 11) 12 ∧
      cen_y - shr32 (src (j * len + 1) * k + 2 ^ 11) 12 < 2147483648) :
    PL_psp_project cen_x cen_y src dst len num fov (j * len + 0) =
      shr32 (src (j * len + 0) * k + 2 ^ 11) 12 + cen_x ∧
    PL_psp_project cen_x cen_y src dst len num fov (j * len + 1) =
      cen_y - shr32 (src (j * len + 1) * k + 2 ^ 11) 12 ∧
    PL_psp_project cen_x cen_y src dst len num fov (j * len + 2) = shr32 k (fov - 8).toNat ∧
    (∀ t, 3 ≤ t → t < len →
      PL_psp_project cen_x cen_y src dst len num fov (j * len + t) = src (j * len + t)) ∧
    (-2048 ≤ src (j * len + 0) * k - 4096 * shr32 (src (j * len + 0) * k + 2 ^ 11) 12 ∧
      src (j * len + 0) * k - 4096 * shr32 (src (j * len + 0) * k + 2 ^ 11) 12 < 2048) ∧
    (-2048 ≤ src (j * len + 1) * k - 4096 * shr32 (src (j * len + 1) * k + 2 ^ 11) 12 ∧
      src (j * len + 1) * k - 4096 * shr32 (src (j * len + 1) * k + 2 ^ 11) 12 < 2048) := by
  obtain ⟨hf, -, -⟩ := psp_factor fov _ hfov hz
  rw [← hk] at hf
  have hat := psp_body_at cen_x cen_y src len fov j
    (forN j (psp_project_body cen_x cen_y src len fov) dst) hlen
  simp only [hf] at hat
  obtain ⟨a0, a1, a2, a3⟩ := hat
  have p11 : (2 : Int) ^ 11 = 2048 := by norm_num
  have p12 : (2 : Int) ^ 12 = 4096 := by norm_num
  have s11 : shl32 1 11 = 2 ^ 11 := by rw [p11]; decide
  have e8 : sub32 fov 8 = fov - 8 := wrap32_eq_self (by omega) (by omega)
  have mx : mul32 (src (j * len + 0)) k = src (j * len + 0) * k :=
    wrap32_eq_self (by omega) (by omega)
  have my : mul32 (src (j * len + 1)) k = src (j * len + 1) * k :=
    wrap32_eq_self (by omega) (by omega)
  have ax : add32 (src (j * len + 0) * k) (2 ^ 11) = src (j * len + 0) * k + 2 ^ 11 :=
    wrap32_eq_self (by omega) (by omega)
  have ay : add32 (src (j * len + 1) * k) (2 ^ 11) = src (j * len + 1) * k + 2 ^ 11 :=
    wrap32_eq_self (by omega) (by omega)
  rw [s11, mx, ax] at a0
  rw [s11, my, ay] at a1
  rw [e8] at a2
  unfold PL_psp_project
  refine ⟨?_, ?_, ?_, ?_, ?_, ?_⟩
  · rw [psp_stream_at _ _ _ _ _ _ _ _ hlen hj 0 (by omega), a0]
    exact wrap32_eq_self hsx.1 hsx.2
  · rw [psp_stream_at _ _ _ _ _ _ _ _ hlen hj 1 (by omega), a1]
    exact wrap32_eq_self hsy.1 hsy.2
  · rw [psp_stream_at _ _ _ _ _ _ _ _ hlen hj 2 (by omega), a2]
  · intro t h3 hl
    rw [psp_stream_at _ _ _ _ _ _ _ _ hlen hj t (by omega), a3 t h3 hl]
  · unfold shr32
    rw [p11, p12]
    omega
  · unfold shr32
    rw [p11, p12]
    omega

theorem psp_project_formula_witness :
    PL_psp_project 449 253 (Mem.ofList [50, -50, 100, 7, 9]) (fun _ => 0) 5 1 9
        (((0 : Nat) : Int) * 5 + 0) =
      shr32 (Mem.ofList [50, -50, 100, 7, 9] (((0 : Nat) : Int) * 5 + 0) * 20971 + 2 ^ 11) 12
        + 449 :=
  (psp_project_formula 449 253 (Mem.ofList [50, -50, 100, 7, 9]) (fun _ => 0) 5 9 1 0 20971
    (by decide) (by decide) (by decide) (by decide) (by decide) (by decide) (by decide)
    (by decide) (by decide)).1

theorem prod_bound (x y A B : Int) (hx : -A ≤ x ∧ x ≤ A) (hy : -B ≤ y ∧ y ≤ B) :
    -(A * B) ≤ x * y ∧ x * y ≤ A * B := by
  constructor <;> nlinarith [mul_nonneg (sub_nonneg.2 hx.2) (sub_nonneg.2 hy.2),
    mul_nonneg (sub_nonneg.2 hx.1) (sub_nonneg.2 hy.1),
    mul_nonneg (sub_nonneg.2 hx.2) (sub_nonneg.2 hy.1),
    mul_nonneg (sub_nonneg.2 hx.1) (sub_nonneg.2 hy.2)]

theorem ofList3_0 (x y z : Int) : Mem.ofList [x, y, z] 0 = x := rfl
theorem ofList3_1 (x y z : Int) : Mem.ofList [x, y, z] 1 = y := rfl
theorem ofList3_2 (x y z : Int) : Mem.ofList [x, y, z] 2 = z := rfl

theorem vec_halve_ofList (x y z : Int) :
    vec_halve (Mem.ofList [x, y, z]) = Mem.ofList [x / 2, y / 2, z / 2] := by
  funext j
  simp only [vec_halve, Mem.write, shr32, pow_one, ofList3_0]
  by_cases h2 : j = 2
  · subst h2; rfl
  · by_cases h1 : j = 1
    · subst h1; rfl
    · by_cases h0 : j = 0
      · subst h0; rfl
      · simp only [h2, h1, h0, if_false]
        unfold Mem.ofList
        by_cases hj : 0 ≤ j
        · have h3 : 3 ≤ j.toNat := by omega
          simp only [hj, if_true]
          rw [List.getD_eq_default _ _ (by simpa using h3),
            List.getD_eq_default _ _ (by simpa using h3)]
        · simp only [hj, if_false]

theorem vec_too_long_ofList (x y z : Int) :
    vec_too_long (Mem.ofList [x, y, z]) = true ↔
      (x > 32767 ∨ x < -32768 ∨ y > 32767 ∨ y < -32768 ∨ z > 32767 ∨ z < -32768) := by
  simp only [vec_too_long, ofList3_0, ofList3_1, ofList3_2, Bool.or_eq_true, decide_eq_true_eq]
  tauto

theorem vec_shorten_loop_long (n : Nat) (v : Mem) (h : vec_too_long v = true) :
    vec_shorten_loop (n + 1) v = vec_shorten_loop n (vec_halve v) := by
  rw [vec_shorten_loop, if_pos h]

theorem vec_shorten_loop_short (n : Nat) (v : Mem) (h : ¬ (vec_too_long v = true)) :
    vec_shorten_loop n v = v := by
  cases n with
  | zero => rfl
  | succ n => rw [vec_shorten_loop, if_neg h]

/-- With enough fuel the loop of `PL_vec_shorten` does not depend on the fuel. -/
theorem vec_shorten_loop_fuel (n : Nat) :
    ∀ (m : Nat) (x y z : Int), x.natAbs + y.natAbs + z.natAbs ≤ n →
      x.natAbs + y.natAbs + z.natAbs ≤ m →
      vec_shorten_loop n (Mem.ofList [x, y, z]) = vec_shorten_loop m (Mem.ofList [x, y, z]) := by
  induction n with
  | zero =>
    intro m x y z hn _
    have hnl : ¬ (vec_too_long (Mem.ofList [x, y, z]) = true) := by
      rw [vec_too_long_ofList]; omega
    rw [vec_shorten_loop_short _ _ hnl, vec_shorten_loop_short _ _ hnl]
  | succ n ih =>
    intro m x y z hn hm
    by_cases hl : vec_too_long (Mem.ofList [x, y, z]) = true
    · have hl' := (vec_too_long_ofList x y z).1 hl
      cases m with
      | zero => omega
      | succ m =>
        rw [vec_shorten_loop_long _ _ hl, vec_shorten_loop_long _ _ hl, vec_halve_ofList]
        exact ih m _ _ _ (by omega) (by omega)
    · rw [vec_shorten_loop_short _ _ hl, vec_shorten_loop_short _ _ hl]

/-- The result of `PL_vec_shorten` fits 16 bits in every component. -/
theorem vec_shorten_loop_fits (n : Nat) :
    ∀ (x y z : Int), x.natAbs + y.natAbs + z.natAbs ≤ n →
      ∃ x' y' z', vec_shorten_loop n (Mem.ofList [x, y, z]) = Mem.ofList [x', y', z'] ∧
        (-32768 ≤ x' ∧ x' ≤ 32767) ∧ (-32768 ≤ y' ∧ y' ≤ 32767) ∧ (-32768 ≤ z' ∧ z' ≤ 32767) := by
  induction n with
  | zero =>
    intro x y z hn
    exact ⟨x, y, z, rfl, by omega, by omega, by omega⟩
  | succ n ih =>
    intro x y z hn
    by_cases hl : vec_too_long (Mem.ofList [x, y, z]) = true
    · have hl' := (vec_too_long_ofList x y z).1 hl
      rw [vec_shorten_loop_long _ _ hl, vec_halve_ofList]
      exact ih _ _ _ (by omega)
    · rw [vec_shorten_loop_short _ _ hl]
      have hl' := mt (vec_too_long_ofList x y z).2 hl
      exact ⟨x, y, z, rfl, by omega, by omega, by omega⟩

theorem vec_shorten_ofList_fits (x y z : Int)
    (h : ¬ (x > 32767 ∨ x < -32768 ∨ y > 32767 ∨ y < -32768 ∨ z > 32767 ∨ z < -32768)) :
    PL_vec_shorten (Mem.ofList [x, y, z]) = Mem.ofList [x, y, z] := by
  have hl : ¬ (vec_too_long (Mem.ofList [x, y, z]) = true) := mt (vec_too_long_ofList x y z).1 h
  unfold PL_vec_shorten
  exact vec_shorten_loop_short _ _ hl

theorem vec_shorten_ofList_double (x y z : Int)
    (h : (2 * x > 32767 ∨ 2 * x < -32768 ∨ 2 * y > 32767 ∨ 2 * y < -32768 ∨
      2 * z > 32767 ∨ 2 * z < -32768)) :
    PL_vec_shorten (Mem.ofList [2 * x, 2 * y, 2 * z]) = PL_vec_shorten (Mem.ofList [x, y, z]) := by
  have hl : vec_too_long (Mem.ofList [2 * x, 2 * y, 2 * z]) = true :=
    (vec_too_long_ofList _ _ _).2 h
  unfold PL_vec_shorten
  simp only [ofList3_0, ofList3_1, ofList3_2]
  have hpos : 0 < (2 * x).natAbs + (2 * y).natAbs + (2 * z).natAbs := by omega
  obtain ⟨n, hn⟩ : ∃ n, (2 * x).natAbs + (2 * y).natAbs + (2 * z).natAbs = n + 1 :=
    ⟨_, (Nat.succ_pred_eq_of_pos hpos).symm⟩
  rw [hn, vec_shorten_loop_long _ _ hl, vec_halve_ofList]
  have ex : 2 * x / 2 = x := by omega
  have ey : 2 * y / 2 = y := by omega
  have ez : 2 * z / 2 = z := by omega
  rw [ex, ey, ez]
  exact vec_shorten_loop_fuel n _ x y z (by omega) (le_refl _)

theorem vec_shorten_ofList_range (x y z : Int) :
    ∃ x' y' z', PL_vec_shorten (Mem.ofList [x, y, z]) = Mem.ofList [x', y', z'] ∧
      (-32768 ≤ x' ∧ x' ≤ 32767) ∧ (-32768 ≤ y' ∧ y' ≤ 32767) ∧ (-32768 ≤ z' ∧ z' ≤ 32767) :=
  vec_shorten_loop_fits _ x y z (le_refl _)

theorem wrap_prod (x y : Int) (hx : -16384 ≤ x ∧ x ≤ 16384) (hy : -32768 ≤ y ∧ y ≤ 32768) :
    mul32 x y = x * y ∧ -536870912 ≤ x * y ∧ x * y ≤ 536870912 := by
  have h := prod_bound x y 16384 32768 hx hy
  exact ⟨wrap32_eq_self (by omega) (by omega), by omega, by omega⟩

/-- The sign test of `PL_winding_order` gives the same answer on `(c, s)` and on
`(c', t)` when `c = 2 c'` and `s = K t` with `K` one of 1, 2, 4. -/
theorem dot_sign_scale (c0 c1 c2 d0 d1 d2 s0 s1 s2 t0 t1 t2 K : Int)
    (hK : K = 1 ∨ K = 2 ∨ K = 4)
    (hc0 : c0 = 2 * d0) (hc1 : c1 = 2 * d1) (hc2 : c2 = 2 * d2)
    (hs0 : s0 = K * t0) (hs1 : s1 = K * t1) (hs2 : s2 = K * t2)
    (bc0 : -16384 ≤ c0 ∧ c0 ≤ 16384) (bc1 : -16384 ≤ c1 ∧ c1 ≤ 16384)
    (bc2 : -16384 ≤ c2 ∧ c2 ≤ 16384)
    (bs0 : -32768 ≤ s0 ∧ s0 ≤ 32768) (bs1 : -32768 ≤ s1 ∧ s1 ≤ 32768)
    (bs2 : -32768 ≤ s2 ∧ s2 ≤ 32768) :
    b2i (decide (add32 (add32 (mul32 c0 s0) (mul32 c1 s1)) (mul32 c2 s2) < 0)) =
    b2i (decide (add32 (add32 (mul32 d0 t0) (mul32 d1 t1)) (mul32 d2 t2) < 0)) := by
  have bt0 : -32768 ≤ t0 ∧ t0 ≤ 32768 := by rcases hK with h | h | h <;> subst h <;> omega
  have bt1 : -32768 ≤ t1 ∧ t1 ≤ 32768 := by rcases hK with h | h | h <;> subst h <;> omega
  have bt2 : -32768 ≤ t2 ∧ t2 ≤ 32768 := by rcases hK with h | h | h <;> subst h <;> omega
  obtain ⟨m0, l0, u0⟩ := wrap_prod c0 s0 bc0 bs0
  obtain ⟨m1, l1, u1⟩ := wrap_prod c1 s1 bc1 bs1
  obtain ⟨m2, l2, u2⟩ := wrap_prod c2 s2 bc2 bs2
  obtain ⟨n0, k0, v0⟩ := wrap_prod d0 t0 (by omega) bt0
  obtain ⟨n1, k1, v1⟩ := wrap_prod d1 t1 (by omega) bt1
  obtain ⟨n2, k2, v2⟩ := wrap_prod d2 t2 (by omega) bt2
  have e0 : c0 * s0 = 2 * K * (d0 * t0) := by rw [hc0, hs0]; ring
  have e1 : c1 * s1 = 2 * K * (d1 * t1) := by rw [hc1, hs1]; ring
  have e2 : c2 * s2 = 2 * K * (d2 * t2) := by rw [hc2, hs2]; ring
  rw [m0, m1, m2, n0, n1, n2]
  unfold add32
  rw [wrap32_eq_self (x := c0 * s0 + c1 * s1) (by omega) (by omega),
    wrap32_eq_self (x := c0 * s0 + c1 * s1 + c2 * s2) (by omega) (by omega),
    wrap32_eq_self (x := d0 * t0 + d1 * t1) (by omega) (by omega),
    wrap32_eq_self (x := d0 * t0 + d1 * t1 + d2 * t2) (by omega) (by omega)]
  have hiff : (c0 * s0 + c1 * s1 + c2 * s2 < 0) ↔ (d0 * t0 + d1 * t1 + d2 * t2 < 0) := by
    rw [e0, e1, e2]
    generalize d0 * t0 = p0
    generalize d1 * t1 = p1
    generalize d2 * t2 = p2
    rcases hK with h | h | h <;> subst h <;> constructor <;> intro _ <;> omega
  simp only [hiff]

theorem cross_exact (x y u v : Int) (hx : -16384 ≤ x ∧ x ≤ 16384) (hy : -16384 ≤ y ∧ y ≤ 16384)
    (hu : -16384 ≤ u ∧ u ≤ 16384) (hv : -16384 ≤ v ∧ v ≤ 16384) :
    sub32 (mul32 x y) (mul32 u v) = x * y - u * v ∧
    -536870912 ≤ x * y - u * v ∧ x * y - u * v ≤ 536870912 := by
  have h1 := prod_bound x y 16384 16384 hx hy
  have h2 := prod_bound u v 16384 16384 hu hv
  have e1 : mul32 x y = x * y := wrap32_eq_self (by omega) (by omega)
  have e2 : mul32 u v = u * v := wrap32_eq_self (by omega) (by omega)
  rw [e1, e2]
  exact ⟨wrap32_eq_self (by omega) (by omega), by omega, by omega⟩

/-- Halving three vectors with even components does not change the winding order. -/
theorem winding_order_halve (a b c a' b' c' : Mem)
    (ha : ∀ i, 0 ≤ i → i < 3 → a i = 2 * a' i ∧ -16384 ≤ a i ∧ a i ≤ 16384)
    (hb : ∀ i, 0 ≤ i → i < 3 → b i = 2 * b' i ∧ -16384 ≤ b i ∧ b i ≤ 16384)
    (hc : ∀ i, 0 ≤ i → i < 3 → c i = 2 * c' i ∧ -16384 ≤ c i ∧ c i ≤ 16384) :
    PL_winding_order a' b' c' = PL_winding_order a b c := by
  obtain ⟨a0, la0, ua0⟩ := ha 0 (by decide) (by decide)
  obtain ⟨a1, la1, ua1⟩ := ha 1 (by decide) (by decide)
  obtain ⟨a2, la2, ua2⟩ := ha 2 (by decide) (by decide)
  obtain ⟨b0, lb0, ub0⟩ := hb 0 (by decide) (by decide)
  obtain ⟨b1, lb1, ub1⟩ := hb 1 (by decide) (by decide)
  obtain ⟨b2, lb2, ub2⟩ := hb 2 (by decide) (by decide)
  obtain ⟨c0, lc0, uc0⟩ := hc 0 (by decide) (by decide)
  obtain ⟨c1, lc1, uc1⟩ := hc 1 (by decide) (by decide)
  obtain ⟨c2, lc2, uc2⟩ := hc 2 (by decide) (by decide)
  obtain ⟨x0, xl0, xu0⟩ := cross_exact (a 2) (b 1) (a 1) (b 2) ⟨la2, ua2⟩ ⟨lb1, ub1⟩ ⟨la1, ua1⟩ ⟨lb2, ub2⟩
  obtain ⟨x1, xl1, xu1⟩ := cross_exact (a 0) (b 2) (a 2) (b 0) ⟨la0, ua0⟩ ⟨lb2, ub2⟩ ⟨la2, ua2⟩ ⟨lb0, ub0⟩
  obtain ⟨x2, xl2, xu2⟩ := cross_exact (a 1) (b 0) (a 0) (b 1) ⟨la1, ua1⟩ ⟨lb0, ub0⟩ ⟨la0, ua0⟩ ⟨lb1, ub1⟩
  obtain ⟨y0, -, -⟩ := cross_exact (a' 2) (b' 1) (a' 1) (b' 2) (by omega) (by omega) (by omega) (by omega)
  obtain ⟨y1, -, -⟩ := cross_exact (a' 0) (b' 2) (a' 2) (b' 0) (by omega) (by omega) (by omega) (by omega)
  obtain ⟨y2, -, -⟩ := cross_exact (a' 1) (b' 0) (a' 0) (b' 1) (by omega) (by omega) (by omega) (by omega)
  have q0 : a 2 * b 1 - a 1 * b 2 = 2 * (2 * (a' 2 * b' 1 - a' 1 * b' 2)) := by
    rw [a2, b1, a1, b2]; ring
  have q1 : a 0 * b 2 - a 2 * b 0 = 2 * (2 * (a' 0 * b' 2 - a' 2 * b' 0)) := by
    rw [a0, b2, a2, b0]; ring
  have q2 : a 1 * b 0 - a 0 * b 1 = 2 * (2 * (a' 1 * b' 0 - a' 0 * b' 1)) := by
    rw [a1, b0, a0, b1]; ring
  rw [q0] at xl0 xu0
  rw [q1] at xl1 xu1
  rw [q2] at xl2 xu2
  unfold PL_winding_order
  simp only [x0, x1, x2, y0, y1, y2, q0, q1, q2]
  generalize a' 2 * b' 1 - a' 1 * b' 2 = n0 at *
  generalize a' 0 * b' 2 - a' 2 * b' 0 = n1 at *
  generalize a' 1 * b' 0 - a' 0 * b' 1 = n2 at *
  by_cases h4 : (2 * (2 * n0) > 32767 ∨ 2 * (2 * n0) < -32768 ∨ 2 * (2 * n1) > 32767 ∨
      2 * (2 * n1) < -32768 ∨ 2 * (2 * n2) > 32767 ∨ 2 * (2 * n2) < -32768)
  · rw [vec_shorten_ofList_double _ _ _ h4]
    by_cases h2 : (2 * n0 > 32767 ∨ 2 * n0 < -32768 ∨ 2 * n1 > 32767 ∨
        2 * n1 < -32768 ∨ 2 * n2 > 32767 ∨ 2 * n2 < -32768)
    · rw [vec_shorten_ofList_double _ _ _ h2]
      obtain ⟨s0, s1, s2, hs, r0, r1, r2⟩ := vec_shorten_ofList_range n0 n1 n2
      rw [hs]
      simp only [ofList3_0, ofList3_1, ofList3_2]
      exact (dot_sign_scale (c 0) (c 1) (c 2) (c' 0) (c' 1) (c' 2) s0 s1 s2 s0 s1 s2 1
        (Or.inl rfl) c0 c1 c2 (by ring) (by ring) (by ring) ⟨lc0, uc0⟩ ⟨lc1, uc1⟩ ⟨lc2, uc2⟩
        (by omega) (by omega) (by omega)).symm
    · rw [vec_shorten_ofList_fits _ _ _ h2, vec_shorten_ofList_fits n0 n1 n2 (by omega)]
      simp only [ofList3_0, ofList3_1, ofList3_2]
      exact (dot_sign_scale (c 0) (c 1) (c 2) (c' 0) (c' 1) (c' 2) _ _ _ n0 n1 n2 2
        (Or.inr (Or.inl rfl)) c0 c1 c2 rfl rfl rfl ⟨lc0, uc0⟩ ⟨lc1, uc1⟩ ⟨lc2, uc2⟩
        (by omega) (by omega) (by omega)).symm
  · rw [vec_shorten_ofList_fits _ _ _ h4, vec_shorten_ofList_fits n0 n1 n2 (by omega)]
    simp only [ofList3_0, ofList3_1, ofList3_2]
    exact (dot_sign_scale (c 0) (c 1) (c 2) (c' 0) (c' 1) (c' 2) _ _ _ n0 n1 n2 4
      (Or.inr (Or.inr rfl)) c0 c1 c2 (by ring) (by ring) (by ring) ⟨lc0, uc0⟩ ⟨lc1, uc1⟩
      ⟨lc2, uc2⟩ (by omega) (by omega) (by omega)).symm

theorem shr32_eq_shiftRight (x : Int) (n : Nat) : shr32 x n = x >>> n := by
  rw [Int.shiftRight_eq_div_pow]
  unfold shr32
  norm_cast

theorem shr32_add (x : Int) (m n : Nat) : shr32 x (m + n) = shr32 (shr32 x m) n := by
  rw [shr32_eq_shiftRight, shr32_eq_shiftRight, shr32_eq_shiftRight, Int.shiftRight_add]

theorem shr_vec_succ (v : Mem) (k : Nat) : shr_vec v (k + 1) = shr_vec (shr_vec v 1) k := by
  funext i
  unfold shr_vec
  rw [add_comm, shr32_add]

theorem shr_vec_zero (v : Mem) : shr_vec v 0 = v := by
  funext i
  unfold shr_vec shr32
  simp

/-- C7 (amended): the winding order is unchanged by a uniform right shift of
its three inputs by `k` whenever the shift is exact (every component is a
multiple of `2^k`) and the components have magnitude at most `2^14`, so that no
product overflows 32 bits. -/
theorem winding_order_exact_shift (k : Nat) (a b c : Mem)
    (hd : ∀ i, 0 ≤ i → i < 3 → (2 : Int) ^ k ∣ a i ∧ (2 : Int) ^ k ∣ b i ∧ (2 : Int) ^ k ∣ c i)
    (hb : ∀ i, 0 ≤ i → i < 3 → (-16384 ≤ a i ∧ a i ≤ 16384) ∧ (-16384 ≤ b i ∧ b i ≤ 16384) ∧
      (-16384 ≤ c i ∧ c i ≤ 16384)) :
    PL_winding_order (shr_vec a k) (shr_vec b k) (shr_vec c k) = PL_winding_order a b c := by
  induction k generalizing a b c with
  | zero => rw [shr_vec_zero, shr_vec_zero, shr_vec_zero]
  | succ k ih =>
    have hhalf : ∀ (v : Mem) (i : Int), (2 : Int) ^ (k + 1) ∣ v i →
        v i = 2 * shr_vec v 1 i ∧ (2 : Int) ^ k ∣ shr_vec v 1 i := by
      intro v i hdiv
      obtain ⟨q, hq⟩ := hdiv
      have e : v i = 2 * (2 ^ k * q) := by rw [hq, pow_succ]; ring
      have e' : shr_vec v 1 i = 2 ^ k * q := by
        unfold shr_vec shr32
        rw [e, pow_one]
        omega
      exact ⟨by rw [e', e], ⟨q, e'⟩⟩
    rw [shr_vec_succ a, shr_vec_succ b, shr_vec_succ c]
    rw [ih (shr_vec a 1) (shr_vec b 1) (shr_vec c 1)]
    · apply winding_order_halve
      · intro i h0 h3
        exact ⟨(hhalf a i (hd i h0 h3).1).1, (hb i h0 h3).1⟩
      · intro i h0 h3
        exact ⟨(hhalf b i (hd i h0 h3).2.1).1, (hb i h0 h3).2.1⟩
      · intro i h0 h3
        exact ⟨(hhalf c i (hd i h0 h3).2.2).1, (hb i h0 h3).2.2⟩
    · intro i h0 h3
      exact ⟨(hhalf a i (hd i h0 h3).1).2, (hhalf b i (hd i h0 h3).2.1).2,
        (hhalf c i (hd i h0 h3).2.2).2⟩
    · intro i h0 h3
      have ea := (hhalf a i (hd i h0 h3).1).1
      have eb := (hhalf b i (hd i h0 h3).2.1).1
      have ec := (hhalf c i (hd i h0 h3).2.2).1
      have := hb i h0 h3
      refine ⟨?_, ?_, ?_⟩ <;> omega

/-- C7 fails as stated: shifting `(1,0,0)`, `(0,1,0)`, `(0,0,1)` right by one
bit turns the winding order from 1 into 0. -/
theorem winding_order_shift_counterexample :
    PL_winding_order (Mem.ofList [1, 0, 0]) (Mem.ofList [0, 1, 0]) (Mem.ofList [0, 0, 1]) = 1 ∧
    PL_winding_order (shr_vec (Mem.ofList [1, 0, 0]) 1) (shr_vec (Mem.ofList [0, 1, 0]) 1)
      (shr_vec (Mem.ofList [0, 0, 1]) 1) = 0 := by
  decide

theorem winding_order_exact_shift_witness :
    PL_winding_order (shr_vec (Mem.ofList [4, 0, 0]) 2) (shr_vec (Mem.ofList [0, 8, 0]) 2)
        (shr_vec (Mem.ofList [0, 0, 12]) 2) =
      PL_winding_order (Mem.ofList [4, 0, 0]) (Mem.ofList [0, 8, 0]) (Mem.ofList [0, 0, 12]) :=
  winding_order_exact_shift 2 (Mem.ofList [4, 0, 0]) (Mem.ofList [0, 8, 0])
    (Mem.ofList [0, 0, 12])
    (by
      intro i h0 h3
      have hi : i = 0 ∨ i = 1 ∨ i = 2 := by omega
      rcases hi with h | h | h <;> subst h <;> decide)
    (by
      intro i h0 h3
      have hi : i = 0 ∨ i = 1 ∨ i = 2 := by omega
      rcases hi with h | h | h <;> subst h <;> decide)

/-- A fixed-point fraction `(n << s) / d` with `0 ≤ n ≤ d`, `0 < d` and no
overflow lies between 0 and `1 << s`. -/
theorem fraction_range (n d P : Int) (hn : 0 ≤ n) (hnd : n ≤ d) (hd : 0 < d)
    (hP : 0 < P) (hfit : n * P < 2147483648) :
    div32 (wrap32 (n * P)) d = n * P / d ∧ 0 ≤ n * P / d ∧ n * P / d ≤ P := by
  have h0 : 0 ≤ n * P := Int.mul_nonneg hn hP.le
  have hq0 : 0 ≤ n * P / d := Int.ediv_nonneg h0 hd.le
  have hq1 : n * P / d ≤ P := by
    apply Int.ediv_le_of_le_mul hd
    calc n * P ≤ d * P := Int.mul_le_mul_of_nonneg_right hnd hP.le
      _ = P * d := Int.mul_comm d P
  have hq2 : n * P / d ≤ n * P := Int.ediv_le_self _ h0
  unfold div32
  rw [wrap32_eq_self (x := n * P) (by omega) (by omega), tdiv_nonneg_eq _ _ h0 hd.le]
  exact ⟨wrap32_eq_self (by omega) (by omega), hq0, hq1⟩

theorem sub32_pos (a b : Int) (hd : 0 < a - b) (hfit : a - b < 2147483648) : 0 < sub32 a b := by
  unfold sub32
  rw [wrap32_eq_self (by omega) (by omega)]
  exact hd

theorem lclip2_not_nc (cs : ClipStatics) (v0 v1 : Mem) (len min max comp : Int)
    (h : (lclip2 cs v0 v1 len min max comp).ret ≠ PL_NC) :
    ¬ ((if v0 comp < v1 comp then v0 else v1) comp ≥ max ∨
       (if v0 comp < v1 comp then v1 else v0) comp ≤ min) := by
  intro hg
  apply h
  unfold lclip2
  by_cases hio : v0 comp < v1 comp
  · simp only [hio, decide_True, if_true] at hg ⊢
    rw [if_pos hg]
  · simp only [hio, decide_False, if_false] at hg ⊢
    simp only [Bool.false_eq_true, if_false]
    rw [if_pos hg]

theorem doclip_fractions (L R : Mem) (bound comp : Int)
    (h0 : 0 ≤ bound - L comp) (h1 : bound - L comp ≤ R comp - L comp)
    (hd : 0 < R comp - L comp) (hfit : R comp - L comp < 2147483648)
    (hs : bound - L comp < 65536) :
    0 < sub32 (R comp) (L comp) ∧
    (0 ≤ doclip_fhp L R bound comp ∧ doclip_fhp L R bound comp ≤ 2 ^ 15) ∧
    (0 ≤ doclip_fh L R bound comp ∧ doclip_fh L R bound comp ≤ 2 ^ 14) ∧
    (0 ≤ doclip_f L R bound comp ∧ doclip_f L R bound comp ≤ 2 ^ 7) := by
  have e1 : sub32 (R comp) (L comp) = R comp - L comp := wrap32_eq_self (by omega) (by omega)
  have e2 : sub32 bound (L comp) = bound - L comp := wrap32_eq_self (by omega) (by omega)
  obtain ⟨q, q0, q1⟩ := fraction_range (bound - L comp) (R comp - L comp) 32768 h0 h1 hd
    (by decide) (by omega)
  have efhp : doclip_fhp L R bound comp = (bound - L comp) * 32768 / (R comp - L comp) := by
    unfold doclip_fhp shl32
    rw [e1, e2]
    exact q
  have p15 : (2 : Int) ^ 15 = 32768 := by norm_num
  have p14 : (2 : Int) ^ 14 = 16384 := by norm_num
  have p7 : (2 : Int) ^ 7 = 128 := by norm_num
  have efh : doclip_fh L R bound comp = doclip_fhp L R bound comp / 2 := by
    unfold doclip_fh shr32 HI_P
    norm_num
  have ef : doclip_f L R bound comp = doclip_fh L R bound comp / 128 := by
    unfold doclip_f shr32 HH_P
    norm_num
  rw [e1, ef, efh, efhp, p15, p14, p7]
  refine ⟨hd, ⟨q0, q1⟩, ⟨by omega, by omega⟩, ⟨by omega, by omega⟩⟩

theorem lclip3_synth_guard (cs : ClipStatics) (v0 v1 : Mem) (len : Int)
    (h : (lclip3 cs v0 v1 len).ret ≠ PL_NC) :
    ¬ ((if v0 2 < v1 2 then v1 else v0) 2 < PL_Z_NEAR_PLANE) := by
  intro hg
  apply h
  unfold lclip3
  by_cases hio : v0 2 < v1 2
  · simp only [hio, decide_True, if_true] at hg ⊢
    rw [if_pos hg]
  · simp only [hio, decide_False, if_false] at hg ⊢
    simp only [Bool.false_eq_true, if_false]
    rw [if_pos hg]

theorem lclip3_fraction (L R : Mem) (hL : L 2 < 16) (hR : 16 ≤ R 2)
    (hfit : R 2 - L 2 < 8388608) :
    0 < sub32 (R 2) (L 2) ∧ 0 ≤ lclip3_f L R ∧ lclip3_f L R ≤ 2 ^ 8 := by
  have e1 : sub32 (R 2) (L 2) = R 2 - L 2 := wrap32_eq_self (by omega) (by omega)
  have e2 : sub32 PL_Z_NEAR_PLANE (L 2) = 16 - L 2 :=
    wrap32_eq_self (by unfold PL_Z_NEAR_PLANE; omega) (by unfold PL_Z_NEAR_PLANE; omega)
  obtain ⟨q, q0, q1⟩ := fraction_range (16 - L 2) (R 2 - L 2) 256 (by omega) (by omega)
    (by omega) (by decide) (by omega)
  have ef : lclip3_f L R = (16 - L 2) * 256 / (R 2 - L 2) := by
    unfold lclip3_f shl32 CLIP_P
    rw [e1, e2]
    exact q
  have p8 : (2 : Int) ^ 8 = 256 := by norm_num
  rw [e1, ef, p8]
  exact ⟨by omega, q0, q1⟩

/-- C6 (amended): in every call of `doclip` made by `lclip2` the right endpoint
is strictly beyond the left one on the clip axis; when their difference does
not overflow 32 bits the divisor `R[comp] - L[comp]` is strictly positive and,
when also `bound - L[comp] < 2^16`, the fractions satisfy `0 ≤ fhp ≤ 2^15`,
`0 ≤ fh ≤ 2^14` and `0 ≤ f ≤ 2^7`. In `lclip3`, whenever a vertex is
synthesized, `L[2] < R[2]`, and when `R[2] - L[2] < 2^23` the divisor is
strictly positive and `0 ≤ f ≤ 2^8`. -/
theorem clip_fractions_in_range (cs : ClipStatics) (v0 v1 : Mem) (len min max comp : Int)
    (L R L3 R3 : Mem)
    (hL : L = if v0 comp < v1 comp then v0 else v1)
    (hR : R = if v0 comp < v1 comp then v1 else v0)
    (hL3 : L3 = if v0 2 < v1 2 then v0 else v1)
    (hR3 : R3 = if v0 2 < v1 2 then v1 else v0) :
    ((lclip2 cs v0 v1 len min max comp).ret ≠ PL_NC →
      (L comp ≤ min → L comp < R comp ∧ (R comp - L comp < 2147483648 →
        0 < sub32 (R comp) (L comp) ∧ (min - L comp < 65536 →
          (0 ≤ doclip_fhp L R min comp ∧ doclip_fhp L R min comp ≤ 2 ^ 15) ∧
          (0 ≤ doclip_fh L R min comp ∧ doclip_fh L R min comp ≤ 2 ^ 14) ∧
          (0 ≤ doclip_f L R min comp ∧ doclip_f L R min comp ≤ 2 ^ 7)))) ∧
      (R comp ≥ max → L comp < R comp ∧ (R comp - L comp < 2147483648 →
        0 < sub32 (R comp) (L comp) ∧ (max - L comp < 65536 →
          (0 ≤ doclip_fhp L R max comp ∧ doclip_fhp L R max comp ≤ 2 ^ 15) ∧
          (0 ≤ doclip_fh L R max comp ∧ doclip_fh L R max comp ≤ 2 ^ 14) ∧
          (0 ≤ doclip_f L R max comp ∧ doclip_f L R max comp ≤ 2 ^ 7))))) ∧
    ((lclip3 cs v0 v1 len).ret ≠ PL_NC → L3 2 < PL_Z_NEAR_PLANE →
      L3 2 < R3 2 ∧ (R3 2 - L3 2 < 8388608 →
        0 < sub32 (R3 2) (L3 2) ∧ 0 ≤ lclip3_f L3 R3 ∧ lclip3_f L3 R3 ≤ 2 ^ 8)) := by
  refine ⟨?_, ?_⟩
  · intro hnc
    have hg := lclip2_not_nc cs v0 v1 len min max comp hnc
    rw [← hL, ← hR] at hg
    have hLR : L comp ≤ R comp := by
      rw [hL, hR]
      by_cases hio : v0 comp < v1 comp
      · simp only [hio, if_true]; omega
      · simp only [hio, if_false]; omega
    refine ⟨?_, ?_⟩
    · intro hmin
      refine ⟨by omega, ?_⟩
      intro hfit
      have hd : 0 < R comp - L comp := by omega
      refine ⟨sub32_pos _ _ hd hfit, ?_⟩
      intro hs
      exact (doclip_fractions L R min comp (by omega) (by omega) hd hfit hs).2
    · intro hmax
      refine ⟨by omega, ?_⟩
      intro hfit
      have hd : 0 < R comp - L comp := by omega
      refine ⟨sub32_pos _ _ hd hfit, ?_⟩
      intro hs
      exact (doclip_fractions L R max comp (by omega) (by omega) hd hfit hs).2
  · intro hnc hlt
    have _ := hL3
    have hg := lclip3_synth_guard cs v0 v1 len hnc
    rw [← hR3] at hg
    unfold PL_Z_NEAR_PLANE at hg hlt
    refine ⟨by omega, ?_⟩
    intro hfit
    exact lclip3_fraction L3 R3 hlt (by omega) hfit

/-- C6 fails as stated, twice: `lclip3` synthesizes a vertex on the edge from
depth 1000 to depth 15 with `f = 0`, not `0 < f`; and `lclip2` calls `doclip`
on the edge from `x = -65535` to `x = INT_MAX` with bound 0, where
`|bound - L[comp]| < 2^16` but the divisor wraps to a negative value and
`fhp = -1`. -/
theorem clip_fractions_counterexample :
    ((lclip3 ⟨fun _ => 0, fun _ => 0, fun _ => 0⟩ (Mem.ofList [0, 0, 1000])
        (Mem.ofList [0, 0, 15]) 3).ret ≠ PL_NC ∧
      Mem.ofList [0, 0, 15] 2 < PL_Z_NEAR_PLANE ∧
      lclip3_f (Mem.ofList [0, 0, 15]) (Mem.ofList [0, 0, 1000]) = 0) ∧
    ((lclip2 ⟨fun _ => 0, fun _ => 0, fun _ => 0⟩ (Mem.ofList [-65535, 0, 0])
        (Mem.ofList [2147483647, 0, 0]) 3 0 100 0).ret ≠ PL_NC ∧
      Mem.ofList [-65535, 0, 0] 0 ≤ 0 ∧ 0 - Mem.ofList [-65535, 0, 0] 0 < 65536 ∧
      sub32 (Mem.ofList [2147483647, 0, 0] 0) (Mem.ofList [-65535, 0, 0] 0) < 0 ∧
      doclip_fhp (Mem.ofList [-65535, 0, 0]) (Mem.ofList [2147483647, 0, 0]) 0 0 = -1) := by
  decide

theorem clip_fractions_in_range_witness :
    (lclip2 ⟨fun _ => 0, fun _ => 0, fun _ => 0⟩ (Mem.ofList [-10, 5, 7])
        (Mem.ofList [30, 9, 7]) 3 0 100 0).ret ≠ PL_NC ∧
    Mem.ofList [-10, 5, 7] 0 ≤ 0 ∧
    (0 ≤ doclip_fhp (Mem.ofList [-10, 5, 7]) (Mem.ofList [30, 9, 7]) 0 0 ∧
      doclip_fhp (Mem.ofList [-10, 5, 7]) (Mem.ofList [30, 9, 7]) 0 0 ≤ 2 ^ 15) :=
  ⟨by decide, by decide,
    (((((clip_fractions_in_range ⟨fun _ => 0, fun _ => 0, fun _ => 0⟩ (Mem.ofList [-10, 5, 7])
      (Mem.ofList [30, 9, 7]) 3 0 100 0 (Mem.ofList [-10, 5, 7]) (Mem.ofList [30, 9, 7])
      (Mem.ofList [30, 9, 7]) (Mem.ofList [-10, 5, 7]) rfl rfl rfl rfl).1 (by decide)).1
      (by decide)).2 (by decide)).2 (by decide)).1⟩

theorem lclip2_inside (cs : ClipStatics) (v0 v1 : Mem) (len min max comp : Int)
    (h0 : min < v0 comp ∧ v0 comp < max) (h1 : min < v1 comp ∧ v1 comp < max) :
    lclip2 cs v0 v1 len min max comp = { ret := 0, v0 := v0, v1 := v1, cs := cs } := by
  unfold lclip2
  by_cases hio : v0 comp < v1 comp
  · simp only [hio, decide_True, if_true]
    rw [if_neg (by omega)]
    have c1 : ¬ (v0 comp ≤ min) := by omega
    have c2 : ¬ (v1 comp ≥ max) := by omega
    simp only [c1, c2, decide_False, Bool.false_eq_true, if_false]
  · simp only [hio, decide_False, Bool.false_eq_true, if_false]
    rw [if_neg (by omega)]
    have c1 : ¬ (v1 comp ≤ min) := by omega
    have c2 : ¬ (v0 comp ≥ max) := by omega
    simp only [c1, c2, decide_False, Bool.false_eq_true, if_false]

theorem lclip3_inside (cs : ClipStatics) (v0 v1 : Mem) (len : Int)
    (h0 : PL_Z_NEAR_PLANE ≤ v0 2) (h1 : PL_Z_NEAR_PLANE ≤ v1 2) :
    lclip3 cs v0 v1 len = { ret := 0, v0 := v0, v1 := v1, cs := cs } := by
  unfold lclip3
  by_cases hio : v0 2 < v1 2
  · simp only [hio, decide_True, if_true]
    rw [if_neg (by omega), if_neg (by omega)]
  · simp only [hio, decide_False, Bool.false_eq_true, if_false]
    rw [if_neg (by omega), if_neg (by omega)]

theorem forN_zero {σ : Type} (body : Int → σ → σ) (s : σ) : forN 0 body s = s := rfl

theorem pclip_body_nc (clip : EdgeClipper) (src : Mem) (len minv maxv k : Int) (st : PClip)
    (h : (clip st.cs (src.shift (k * len)) (src.shift ((k + 1) * len)) len minv maxv).ret = PL_NC) :
    pclip_body clip src len minv maxv k st =
      { st with cs := (clip st.cs (src.shift (k * len)) (src.shift ((k + 1) * len)) len
          minv maxv).cs } := by
  unfold pclip_body
  simp only [h, if_true]

theorem pclip_body_two (clip : EdgeClipper) (src : Mem) (len minv maxv k : Int) (st : PClip)
    (h : (clip st.cs (src.shift (k * len)) (src.shift ((k + 1) * len)) len minv maxv).ret = 1) :
    pclip_body clip src len minv maxv k st =
      { dst := memcpy (memcpy st.dst (st.nverts * len)
          (clip st.cs (src.shift (k * len)) (src.shift ((k + 1) * len)) len minv maxv).v0 len)
          ((st.nverts + 1) * len)
          (clip st.cs (src.shift (k * len)) (src.shift ((k + 1) * len)) len minv maxv).v1 len
        nverts := st.nverts + 2
        cs := (clip st.cs (src.shift (k * len)) (src.shift ((k + 1) * len)) len minv maxv).cs } := by
  unfold pclip_body
  have hne : (1 : Int) ≠ PL_NC := by decide
  simp only [h, hne, if_true, if_false]

theorem pclip_body_one (clip : EdgeClipper) (src : Mem) (len minv maxv k : Int) (st : PClip)
    (h : (clip st.cs (src.shift (k * len)) (src.shift ((k + 1) * len)) len minv maxv).ret ≠ PL_NC)
    (h1 : (clip st.cs (src.shift (k * len)) (src.shift ((k + 1) * len)) len minv maxv).ret ≠ 1) :
    pclip_body clip src len minv maxv k st =
      { dst := memcpy st.dst (st.nverts * len)
          (clip st.cs (src.shift (k * len)) (src.shift ((k + 1) * len)) len minv maxv).v1 len
        nverts := st.nverts + 1
        cs := (clip st.cs (src.shift (k * len)) (src.shift ((k + 1) * len)) len minv maxv).cs } := by
  unfold pclip_body
  simp only [h, h1, if_false]

/-- When every edge is returned unclipped, the loop of `pclip` copies the end
vertex of each edge in turn. -/
theorem pclip_loop_inside (clip : EdgeClipper) (cs : ClipStatics) (dst src : Mem)
    (len minv maxv : Int) (n : Nat)
    (hin : ∀ k : Nat, k < n → ∀ cs' : ClipStatics,
      clip cs' (src.shift ((k : Int) * len)) (src.shift (((k : Int) + 1) * len)) len minv maxv =
        { ret := 0, v0 := src.shift ((k : Int) * len), v1 := src.shift (((k : Int) + 1) * len),
          cs := cs' }) :
    (forN n (pclip_body clip src len minv maxv) { dst := dst, nverts := 0, cs := cs }).nverts = n ∧
    (forN n (pclip_body clip src len minv maxv) { dst := dst, nverts := 0, cs := cs }).cs = cs ∧
    ∀ k : Nat, k < n → ∀ t, 0 ≤ t → t < len →
      (forN n (pclip_body clip src len minv maxv) { dst := dst, nverts := 0, cs := cs }).dst
        ((k : Int) * len + t) = src (((k : Int) + 1) * len + t) := by
  induction n with
  | zero => exact ⟨rfl, rfl, fun k hk => absurd hk (Nat.not_lt_zero k)⟩
  | succ n ih =>
    obtain ⟨ihn, ihc, ihd⟩ := ih (fun k hk => hin k (Nat.lt_succ_of_lt hk))
    have hstep : forN (n + 1) (pclip_body clip src len minv maxv)
          { dst := dst, nverts := 0, cs := cs } =
        { dst := memcpy (forN n (pclip_body clip src len minv maxv)
              { dst := dst, nverts := 0, cs := cs }).dst ((n : Int) * len)
              (src.shift (((n : Int) + 1) * len)) len
          nverts := (n : Int) + 1
          cs := cs } := by
      have hc := hin n (Nat.lt_succ_self n)
        (forN n (pclip_body clip src len minv maxv) { dst := dst, nverts := 0, cs := cs }).cs
      have hnc : (0 : Int) ≠ PL_NC := by decide
      have hn1 : (0 : Int) ≠ 1 := by decide
      rw [forN_succ, pclip_body_one _ _ _ _ _ _ _ (by rw [hc]; exact hnc) (by rw [hc]; exact hn1),
        hc, ihn, ihc]
    rw [hstep]
    refine ⟨by push_cast; rfl, rfl, ?_⟩
    intro k hk t ht0 ht1
    show memcpy _ _ _ _ _ = _
    unfold memcpy
    by_cases e : k = n
    · subst e
      rw [if_pos (by omega)]
      unfold Mem.shift
      congr 1
      omega
    · have hkn : (k : Int) + 1 ≤ (n : Int) := by omega
      have h1 : ((k : Int) + 1) * len ≤ (n : Int) * len :=
        Int.mul_le_mul_of_nonneg_right hkn (by omega)
      have h2 : ((k : Int) + 1) * len = (k : Int) * len + len := by ring
      rw [if_neg (by omega)]
      exact ihd k (by omega) t ht0 ht1

theorem pclip_all_inside (clip : EdgeClipper) (cs : ClipStatics) (dst src : Mem)
    (len minv maxv : Int) (num : Nat) (hnum : 1 ≤ num)
    (hin : ∀ k : Nat, k < num → ∀ cs' : ClipStatics,
      clip cs' (src.shift ((k : Int) * len)) (src.shift (((k : Int) + 1) * len)) len minv maxv =
        { ret := 0, v0 := src.shift ((k : Int) * len), v1 := src.shift (((k : Int) + 1) * len),
          cs := cs' }) :
    (pclip cs dst src len num clip minv maxv).nverts = num ∧
    (∀ k : Nat, k < num → ∀ t, 0 ≤ t → t < len →
      (pclip cs dst src len num clip minv maxv).dst ((k : Int) * len + t) =
        src (((k : Int) + 1) * len + t)) ∧
    (∀ t, 0 ≤ t → t < len →
      (pclip cs dst src len num clip minv maxv).dst ((num : Int) * len + t) =
        (pclip cs dst src len num clip minv maxv).dst t) := by
  obtain ⟨hn, _, hd⟩ := pclip_loop_inside clip cs dst src len minv maxv num hin
  unfold pclip
  simp only [hn]
  refine ⟨trivial, ?_, ?_⟩
  · intro k hk t ht0 ht1
    unfold memcpy
    have hkn : (k : Int) + 1 ≤ (num : Int) := by omega
    have h1 : ((k : Int) + 1) * len ≤ (num : Int) * len :=
      Int.mul_le_mul_of_nonneg_right hkn (by omega)
    have h2 : ((k : Int) + 1) * len = (k : Int) * len + len := by ring
    rw [if_neg (by omega)]
    exact hd k hk t ht0 ht1
  · intro t ht0 ht1
    unfold memcpy
    have h1 : (1 : Int) * len ≤ (num : Int) * len :=
      Int.mul_le_mul_of_nonneg_right (by omega) (by omega)
    rw [if_pos (by omega), if_neg (by omega)]
    congr 1
    omega

/-- C4: clipping a fully visible polygon is a no-op. For a chain of `num ≥ 1`
edges whose `num + 1` records all lie strictly inside the bound on the clip
axis (`min < x < max` for `PL_clip_poly_x`, `min < y < max` for
`PL_clip_poly_y`, `z ≥ PL_Z_NEAR_PLANE` for `PL_clip_poly_nz`), the clip
returns `num`, writes to `dst` the input records `src[1], ..., src[num]` in
order with every component unchanged, and writes behind them a copy of the
first output record. -/
theorem clip_poly_inside_noop (vp : Viewport) (cs : ClipStatics) (dst src : Mem) (len : Int)
    (num : Nat) (hnum : 1 ≤ num) :
    ((∀ k : Nat, k ≤ num → vp.PL_vp_min_x < src ((k : Int) * len + 0) ∧
        src ((k : Int) * len + 0) < vp.PL_vp_max_x) →
      (PL_clip_poly_x vp cs dst src len num).nverts = num ∧
      (∀ k : Nat, k < num → ∀ t, 0 ≤ t → t < len →
        (PL_clip_poly_x vp cs dst src len num).dst ((k : Int) * len + t) =
          src (((k : Int) + 1) * len + t)) ∧
      (∀ t, 0 ≤ t → t < len →
        (PL_clip_poly_x vp cs dst src len num).dst ((num : Int) * len + t) =
          (PL_clip_poly_x vp cs dst src len num).dst t)) ∧
    ((∀ k : Nat, k ≤ num → vp.PL_vp_min_y < src ((k : Int) * len + 1) ∧
        src ((k : Int) * len + 1) < vp.PL_vp_max_y) →
      (PL_clip_poly_y vp cs dst src len num).nverts = num ∧
      (∀ k : Nat, k < num → ∀ t, 0 ≤ t → t < len →
        (PL_clip_poly_y vp cs dst src len num).dst ((k : Int) * len + t) =
          src (((k : Int) + 1) * len + t)) ∧
      (∀ t, 0 ≤ t → t < len →
        (PL_clip_poly_y vp cs dst src len num).dst ((num : Int) * len + t) =
          (PL_clip_poly_y vp cs dst src len num).dst t)) ∧
    ((∀ k : Nat, k ≤ num → PL_Z_NEAR_PLANE ≤ src ((k : Int) * len + 2)) →
      (PL_clip_poly_nz cs dst src len num).nverts = num ∧
      (∀ k : Nat, k < num → ∀ t, 0 ≤ t → t < len →
        (PL_clip_poly_nz cs dst src len num).dst ((k : Int) * len + t) =
          src (((k : Int) + 1) * len + t)) ∧
      (∀ t, 0 ≤ t → t < len →
        (PL_clip_poly_nz cs dst src len num).dst ((num : Int) * len + t) =
          (PL_clip_poly_nz cs dst src len num).dst t)) := by
  refine ⟨?_, ?_, ?_⟩
  · intro h
    apply pclip_all_inside lineclipx cs dst src len _ _ num hnum
    intro k hk cs'
    have h0 := h k (by omega)
    have h1 := h (k + 1) (by omega)
    simp only [Nat.cast_add, Nat.cast_one] at h1
    exact lclip2_inside cs' _ _ len _ _ 0 h0 h1
  · intro h
    apply pclip_all_inside lineclipy cs dst src len _ _ num hnum
    intro k hk cs'
    have h0 := h k (by omega)
    have h1 := h (k + 1) (by omega)
    simp only [Nat.cast_add, Nat.cast_one] at h1
    exact lclip2_inside cs' _ _ len _ _ 1 h0 h1
  · intro h
    apply pclip_all_inside lineclipnz cs dst src len _ _ num hnum
    intro k hk cs'
    have h0 := h k (by omega)
    have h1 := h (k + 1) (by omega)
    simp only [Nat.cast_add, Nat.cast_one] at h1
    exact lclip3_inside cs' _ _ len h0 h1

theorem clip_poly_inside_noop_witness :
    (PL_clip_poly_x ⟨0, 100, 0, 100, 50, 50⟩ ⟨fun _ => 0, fun _ => 0, fun _ => 0⟩ (fun _ => 0)
      (Mem.ofList [10, 10, 5, 20, 10, 5, 20, 20, 5, 10, 10, 5]) 3 3).nverts = (3 : Nat) :=
  ((clip_poly_inside_noop ⟨0, 100, 0, 100, 50, 50⟩ ⟨fun _ => 0, fun _ => 0, fun _ => 0⟩
    (fun _ => 0) (Mem.ofList [10, 10, 5, 20, 10, 5, 20, 20, 5, 10, 10, 5]) 3 3 (by decide)).1
    (by
      intro k hk
      have hi : k = 0 ∨ k = 1 ∨ k = 2 ∨ k = 3 := by omega
      rcases hi with h | h | h | h <;> subst h <;> decide)).1

theorem doclip_comp (L R out : Mem) (len bound comp : Int) (hc : comp = 0 ∨ comp = 1) :
    doclip L R out len bound comp (b2i (comp == 0)) comp = bound := by
  unfold doclip
  rcases hc with h | h <;> subst h
  · rw [write_other _ _ _ _ (by decide), write_same]
  · rw [write_other _ _ _ _ (by decide), write_same]

/-- The result of `lclip2` on an edge in order (`(*v0)[comp] < (*v1)[comp]`)
that it does not reject. -/
theorem lclip2_inorder (cs : ClipStatics) (v0 v1 : Mem) (len min max comp : Int)
    (hio : v0 comp < v1 comp) (hg : ¬ (v0 comp ≥ max ∨ v1 comp ≤ min)) :
    lclip2 cs v0 v1 len min max comp =
      { ret := if v0 comp ≤ min then 1 else 0
        v0 := if v0 comp ≤ min then doclip v0 v1 cs.m0 len min comp (b2i (comp == 0)) else v0
        v1 := if v1 comp ≥ max then doclip v0 v1 cs.m1 len max comp (b2i (comp == 0)) else v1
        cs := { m0 := if v0 comp ≤ min then doclip v0 v1 cs.m0 len min comp (b2i (comp == 0))
                  else cs.m0
                m1 := if v1 comp ≥ max then doclip v0 v1 cs.m1 len max comp (b2i (comp == 0))
                  else cs.m1
                m := cs.m } } := by
  have o10 : or32 1 0 = 1 := by decide
  have o00 : or32 0 0 = 0 := by decide
  have bt : b2i ((0 : Int) == 0) = 1 := by decide
  unfold lclip2
  simp only [hio, decide_True, if_true]
  rw [if_neg hg]
  by_cases cL : v0 comp ≤ min <;> by_cases cR : v1 comp ≥ max <;>
    simp only [cL, cR, decide_True, decide_False, if_true, if_false, Bool.false_eq_true, bt, o10,
      o00]

/-- The result of `lclip2` on an edge out of order that it does not reject. -/
theorem lclip2_outorder (cs : ClipStatics) (v0 v1 : Mem) (len min max comp : Int)
    (hio : ¬ (v0 comp < v1 comp)) (hg : ¬ (v1 comp ≥ max ∨ v0 comp ≤ min)) :
    lclip2 cs v0 v1 len min max comp =
      { ret := if v0 comp ≥ max then 1 else 0
        v0 := if v0 comp ≥ max then doclip v1 v0 cs.m1 len max comp (b2i (comp == 0)) else v0
        v1 := if v1 comp ≤ min then doclip v1 v0 cs.m0 len min comp (b2i (comp == 0)) else v1
        cs := { m0 := if v1 comp ≤ min then doclip v1 v0 cs.m0 len min comp (b2i (comp == 0))
                  else cs.m0
                m1 := if v0 comp ≥ max then doclip v1 v0 cs.m1 len max comp (b2i (comp == 0))
                  else cs.m1
                m := cs.m } } := by
  have o01 : or32 0 1 = 1 := by decide
  have bf : b2i ((1 : Int) == 0) = 0 := by decide
  unfold lclip2
  simp only [hio, decide_False, Bool.false_eq_true, if_false]
  rw [if_neg hg]
  by_cases cL : v1 comp ≤ min <;> by_cases cR : v0 comp ≥ max <;>
    simp only [cL, cR, decide_True, decide_False, if_true, if_false, Bool.false_eq_true, bf, o01]

theorem lclip2_nc_iff (cs : ClipStatics) (v0 v1 : Mem) (len min max comp : Int) :
    (lclip2 cs v0 v1 len min max comp).ret ≠ PL_NC ↔
      ¬ ((if v0 comp < v1 comp then v0 else v1) comp ≥ max ∨
         (if v0 comp < v1 comp then v1 else v0) comp ≤ min) := by
  constructor
  · exact lclip2_not_nc cs v0 v1 len min max comp
  · intro hg
    by_cases hio : v0 comp < v1 comp
    · simp only [hio, if_true] at hg
      rw [lclip2_inorder cs v0 v1 len min max comp hio hg]
      show (if v0 comp ≤ min then (1 : Int) else 0) ≠ PL_NC
      split_ifs <;> decide
    · simp only [hio, if_false] at hg
      rw [lclip2_outorder cs v0 v1 len min max comp hio hg]
      show (if v0 comp ≥ max then (1 : Int) else 0) ≠ PL_NC
      split_ifs <;> decide

/-- What `lclip2` returns for an edge it does not reject: the return value is
0 or 1, it is 1 exactly when the start vertex was replaced, and each endpoint
is either untouched and strictly inside the bound or replaced by a vertex
lying exactly on the bound it violated. -/
theorem lclip2_result (cs : ClipStatics) (v0 v1 : Mem) (len min max comp : Int)
    (hc : comp = 0 ∨ comp = 1)
    (hnc : (lclip2 cs v0 v1 len min max comp).ret ≠ PL_NC) :
    ((lclip2 cs v0 v1 len min max comp).ret = 0 ∧
        (lclip2 cs v0 v1 len min max comp).v0 = v0 ∧ min < v0 comp ∧ v0 comp < max ∨
      (lclip2 cs v0 v1 len min max comp).ret = 1 ∧
        (v0 comp ≤ min ∧ (lclip2 cs v0 v1 len min max comp).v0 comp = min ∨
         v0 comp ≥ max ∧ (lclip2 cs v0 v1 len min max comp).v0 comp = max)) ∧
    ((lclip2 cs v0 v1 len min max comp).v1 = v1 ∧ min < v1 comp ∧ v1 comp < max ∨
      v1 comp ≤ min ∧ (lclip2 cs v0 v1 len min max comp).v1 comp = min ∨
      v1 comp ≥ max ∧ (lclip2 cs v0 v1 len min max comp).v1 comp = max) := by
  have hg := lclip2_not_nc cs v0 v1 len min max comp hnc
  by_cases hio : v0 comp < v1 comp
  · simp only [hio, if_true] at hg
    rw [lclip2_inorder cs v0 v1 len min max comp hio hg]
    refine ⟨?_, ?_⟩
    · by_cases cL : v0 comp ≤ min
      · right
        refine ⟨if_pos cL, Or.inl ⟨cL, ?_⟩⟩
        show (if v0 comp ≤ min then _ else _ : Mem) comp = min
        rw [if_pos cL]
        exact doclip_comp _ _ _ _ _ _ hc
      · left
        refine ⟨if_neg cL, if_neg cL, by omega, by omega⟩
    · by_cases cR : v1 comp ≥ max
      · right; right
        refine ⟨cR, ?_⟩
        show (if v1 comp ≥ max then _ else _ : Mem) comp = max
        rw [if_pos cR]
        exact doclip_comp _ _ _ _ _ _ hc
      · left
        exact ⟨if_neg cR, by omega, by omega⟩
  · simp only [hio, if_false] at hg
    rw [lclip2_outorder cs v0 v1 len min max comp hio hg]
    refine ⟨?_, ?_⟩
    · by_cases cR : v0 comp ≥ max
      · right
        refine ⟨if_pos cR, Or.inr ⟨cR, ?_⟩⟩
        show (if v0 comp ≥ max then _ else _ : Mem) comp = max
        rw [if_pos cR]
        exact doclip_comp _ _ _ _ _ _ hc
      · left
        exact ⟨if_neg cR, if_neg cR, by omega, by omega⟩
    · by_cases cL : v1 comp ≤ min
      · right; left
        refine ⟨cL, ?_⟩
        show (if v1 comp ≤ min then _ else _ : Mem) comp = min
        rw [if_pos cL]
        exact doclip_comp _ _ _ _ _ _ hc
      · left
        exact ⟨if_neg cL, by omega, by omega⟩

theorem lclip3_synth_z (L R m : Mem) (len : Int) : lclip3_synth L R m len 2 = PL_Z_NEAR_PLANE := by
  unfold lclip3_synth
  have h := forN_write_other (len - 3).toNat (fun k => 3 + k)
    (fun k m => add32 (L (3 + k)) (shr32 (mul32 (lclip3_f L R) (sub32 (R (3 + k)) (L (3 + k))))
      CLIP_P))
    (((m.write 0 (add32 (L 0) (shr32 (mul32 (lclip3_f L R) (sub32 (R 0) (L 0))) CLIP_P))).write 1
      (add32 (L 1) (shr32 (mul32 (lclip3_f L R) (sub32 (R 1) (L 1))) CLIP_P))).write 2
      PL_Z_NEAR_PLANE) 2
    (by intro i _ h; simp only at h; omega)
  exact h.trans (write_same _ _ _)

/-- What `lclip3` returns for an edge it does not reject. -/
theorem lclip3_result (cs : ClipStatics) (v0 v1 : Mem) (len : Int)
    (hnc : (lclip3 cs v0 v1 len).ret ≠ PL_NC) :
    ((lclip3 cs v0 v1 len).ret = 0 ∧ (lclip3 cs v0 v1 len).v0 = v0 ∧ PL_Z_NEAR_PLANE ≤ v0 2 ∨
      (lclip3 cs v0 v1 len).ret = 1 ∧ v0 2 < PL_Z_NEAR_PLANE ∧
        (lclip3 cs v0 v1 len).v0 2 = PL_Z_NEAR_PLANE) ∧
    ((lclip3 cs v0 v1 len).v1 = v1 ∧ PL_Z_NEAR_PLANE ≤ v1 2 ∨
      v1 2 < PL_Z_NEAR_PLANE ∧ (lclip3 cs v0 v1 len).v1 2 = PL_Z_NEAR_PLANE) := by
  have bt : b2i ((0 : Int) == 0) = 1 := by decide
  have bf : b2i ((1 : Int) == 0) = 0 := by decide
  have hg := lclip3_synth_guard cs v0 v1 len hnc
  by_cases hio : v0 2 < v1 2
  · simp only [hio, if_true] at hg
    by_cases hL : v0 2 < PL_Z_NEAR_PLANE
    · have e : lclip3 cs v0 v1 len = ⟨1, lclip3_synth v0 v1 cs.m len, v1, ⟨cs.m0, cs.m1, lclip3_synth v0 v1 cs.m len⟩⟩ := by
        unfold lclip3
        simp only [hio, decide_True, if_true, bt]
        rw [if_neg hg, if_pos hL]
      rw [e]
      exact ⟨Or.inr ⟨rfl, hL, lclip3_synth_z _ _ _ _⟩, Or.inl ⟨rfl, by omega⟩⟩
    · have e : lclip3 cs v0 v1 len = { ret := 0, v0 := v0, v1 := v1, cs := cs } := by
        unfold lclip3
        simp only [hio, decide_True, if_true]
        rw [if_neg hg, if_neg hL]
      rw [e]
      exact ⟨Or.inl ⟨rfl, rfl, by omega⟩, Or.inl ⟨rfl, by omega⟩⟩
  · simp only [hio, if_false] at hg
    by_cases hL : v1 2 < PL_Z_NEAR_PLANE
    · have e : lclip3 cs v0 v1 len = ⟨0, v0, lclip3_synth v1 v0 cs.m len, ⟨cs.m0, cs.m1, lclip3_synth v1 v0 cs.m len⟩⟩ := by
        unfold lclip3
        simp only [hio, decide_False, Bool.false_eq_true, if_false, bf]
        rw [if_neg hg, if_pos hL]
      rw [e]
      exact ⟨Or.inl ⟨rfl, rfl, by omega⟩, Or.inr ⟨hL, lclip3_synth_z _ _ _ _⟩⟩
    · have e : lclip3 cs v0 v1 len = { ret := 0, v0 := v0, v1 := v1, cs := cs } := by
        unfold lclip3
        simp only [hio, decide_False, Bool.false_eq_true, if_false]
        rw [if_neg hg, if_neg hL]
      rw [e]
      exact ⟨Or.inl ⟨rfl, rfl, by omega⟩, Or.inl ⟨rfl, by omega⟩⟩

theorem mul_succ_le (k n len : Int) (hk : k < n) (hlen : 0 ≤ len) :
    k * len + len ≤ n * len := by
  have h1 : (k + 1) * len ≤ n * len := Int.mul_le_mul_of_nonneg_right (by omega) hlen
  have h2 : (k + 1) * len = k * len + len := by ring
  omega

/-- A property of records that only looks at their first `len` entries and
that every vertex returned by the edge clipper has, holds of every record that
the loop of `pclip` has written. -/
theorem pclip_loop_records (clip : EdgeClipper) (cs : ClipStatics) (dst src : Mem)
    (len minv maxv : Int) (Q : Mem → Prop) (hlen : 0 < len)
    (hloc : ∀ u w : Mem, (∀ t, 0 ≤ t → t < len → u t = w t) → Q u → Q w) (n : Nat)
    (hclip : ∀ k : Nat, k < n → ∀ cs' : ClipStatics,
      (clip cs' (src.shift ((k : Int) * len)) (src.shift (((k : Int) + 1) * len)) len
        minv maxv).ret ≠ PL_NC →
      Q (clip cs' (src.shift ((k : Int) * len)) (src.shift (((k : Int) + 1) * len)) len
        minv maxv).v1 ∧
      ((clip cs' (src.shift ((k : Int) * len)) (src.shift (((k : Int) + 1) * len)) len
        minv maxv).ret = 1 →
       Q (clip cs' (src.shift ((k : Int) * len)) (src.shift (((k : Int) + 1) * len)) len
        minv maxv).v0)) :
    0 ≤ (forN n (pclip_body clip src len minv maxv) { dst := dst, nverts := 0, cs := cs }).nverts ∧
    (forN n (pclip_body clip src len minv maxv) { dst := dst, nverts := 0, cs := cs }).nverts
      ≤ 2 * n ∧
    ∀ k : Int, 0 ≤ k →
      k < (forN n (pclip_body clip src len minv maxv) { dst := dst, nverts := 0, cs := cs }).nverts →
      Q ((forN n (pclip_body clip src len minv maxv)
        { dst := dst, nverts := 0, cs := cs }).dst.shift (k * len)) := by
  induction n with
  | zero =>
    refine ⟨le_refl _, le_refl _, ?_⟩
    intro k h0 h1
    exact absurd h1 (by show ¬ (k < 0); omega)
  | succ n ih =>
    obtain ⟨ih0, ih2, ihQ⟩ := ih (fun k hk => hclip k (Nat.lt_succ_of_lt hk))
    rw [forN_succ]
    generalize forN n (pclip_body clip src len minv maxv) { dst := dst, nverts := 0, cs := cs } = st
      at ih0 ih2 ihQ ⊢
    have hc := hclip n (Nat.lt_succ_self n) st.cs
    by_cases hnc : (clip st.cs (src.shift ((n : Int) * len)) (src.shift (((n : Int) + 1) * len))
        len minv maxv).ret = PL_NC
    · rw [pclip_body_nc _ _ _ _ _ _ _ hnc]
      exact ⟨ih0, by push_cast; omega, ihQ⟩
    · obtain ⟨q1, q0⟩ := hc hnc
      by_cases h1 : (clip st.cs (src.shift ((n : Int) * len)) (src.shift (((n : Int) + 1) * len))
          len minv maxv).ret = 1
      · rw [pclip_body_two _ _ _ _ _ _ _ h1]
        refine ⟨by show 0 ≤ st.nverts + 2; omega, by show st.nverts + 2 ≤ _; push_cast; omega, ?_⟩
        intro k hk0 hk1
        have hk1' : k < st.nverts + 2 := hk1
        have e2 : (st.nverts + 1) * len = st.nverts * len + len := by ring
        by_cases c1 : k < st.nverts
        · have hm := mul_succ_le k st.nverts len c1 hlen.le
          refine hloc _ _ ?_ (ihQ k hk0 c1)
          intro t ht0 ht1
          show st.dst (k * len + t) = memcpy (memcpy _ _ _ _) _ _ _ (k * len + t)
          unfold memcpy
          rw [if_neg (by omega), if_neg (by omega)]
        · by_cases c2 : k = st.nverts
          · subst c2
            refine hloc _ _ ?_ (q0 h1)
            intro t ht0 ht1
            show _ = memcpy (memcpy _ _ _ _) _ _ _ (st.nverts * len + t)
            unfold memcpy
            rw [if_neg (by omega), if_pos (by omega)]
            congr 1
            omega
          · have c3 : k = st.nverts + 1 := by omega
            subst c3
            refine hloc _ _ ?_ q1
            intro t ht0 ht1
            show _ = memcpy (memcpy _ _ _ _) _ _ _ ((st.nverts + 1) * len + t)
            unfold memcpy
            rw [if_pos (by omega)]
            congr 1
            omega
      · rw [pclip_body_one _ _ _ _ _ _ _ hnc h1]
        refine ⟨by show 0 ≤ st.nverts + 1; omega, by show st.nverts + 1 ≤ _; push_cast; omega, ?_⟩
        intro k hk0 hk1
        have hk1' : k < st.nverts + 1 := hk1
        by_cases c1 : k < st.nverts
        · have hm := mul_succ_le k st.nverts len c1 hlen.le
          refine hloc _ _ ?_ (ihQ k hk0 c1)
          intro t ht0 ht1
          show st.dst (k * len + t) = memcpy _ _ _ _ (k * len + t)
          unfold memcpy
          rw [if_neg (by omega)]
        · have c2 : k = st.nverts := by omega
          subst c2
          refine hloc _ _ ?_ q1
          intro t ht0 ht1
          show _ = memcpy _ _ _ _ (st.nverts * len + t)
          unfold memcpy
          rw [if_pos (by omega)]
          congr 1
          omega

/-- The same for the finished `pclip`, closing record included. -/
theorem pclip_records (clip : EdgeClipper) (cs : ClipStatics) (dst src : Mem)
    (len minv maxv : Int) (Q : Mem → Prop) (hlen : 0 < len)
    (hloc : ∀ u w : Mem, (∀ t, 0 ≤ t → t < len → u t = w t) → Q u → Q w) (num : Nat)
    (hclip : ∀ k : Nat, k < num → ∀ cs' : ClipStatics,
      (clip cs' (src.shift ((k : Int) * len)) (src.shift (((k : Int) + 1) * len)) len
        minv maxv).ret ≠ PL_NC →
      Q (clip cs' (src.shift ((k : Int) * len)) (src.shift (((k : Int) + 1) * len)) len
        minv maxv).v1 ∧
      ((clip cs' (src.shift ((k : Int) * len)) (src.shift (((k : Int) + 1) * len)) len
        minv maxv).ret = 1 →
       Q (clip cs' (src.shift ((k : Int) * len)) (src.shift (((k : Int) + 1) * len)) len
        minv maxv).v0)) :
    0 ≤ (pclip cs dst src len num clip minv maxv).nverts ∧
    (pclip cs dst src len num clip minv maxv).nverts ≤ 2 * num ∧
    ∀ k : Int, 0 ≤ k → k ≤ (pclip cs dst src len num clip minv maxv).nverts →
      0 < (pclip cs dst src len num clip minv maxv).nverts →
      Q ((pclip cs dst src len num clip minv maxv).dst.shift (k * len)) := by
  obtain ⟨h0, h2, hQ⟩ := pclip_loop_records clip cs dst src len minv maxv Q hlen hloc num hclip
  unfold pclip
  generalize forN num (pclip_body clip src len minv maxv) { dst := dst, nverts := 0, cs := cs } = st
    at h0 h2 hQ ⊢
  refine ⟨h0, h2, ?_⟩
  intro k hk0 hk1 hpos
  have hk1' : k ≤ st.nverts := hk1
  have hpos' : 0 < st.nverts := hpos
  by_cases c1 : k < st.nverts
  · have hm := mul_succ_le k st.nverts len c1 hlen.le
    refine hloc _ _ ?_ (hQ k hk0 c1)
    intro t ht0 ht1
    show st.dst (k * len + t) = memcpy _ _ _ _ (k * len + t)
    unfold memcpy
    rw [if_neg (by omega)]
  · have c2 : k = st.nverts := by omega
    subst c2
    refine hloc _ _ ?_ (hQ 0 (le_refl _) hpos')
    intro t ht0 ht1
    show st.dst (0 * len + t) = memcpy _ _ _ _ (st.nverts * len + t)
    unfold memcpy
    rw [if_pos (by omega)]
    congr 1
    omega

/-- The records written by a polygon clip against `min`, `max` on axis `comp`. -/
theorem pclip2_records (cs : ClipStatics) (dst src : Mem) (len min max comp : Int) (num : Nat)
    (hc : comp = 0 ∨ comp = 1) (hlen : 3 ≤ len) (k : Int)
    (hk0 : 0 ≤ k)
    (hk1 : k ≤ (pclip cs dst src len num (fun cs v0 v1 len mn mx => lclip2 cs v0 v1 len mn mx comp)
      min max).nverts)
    (hpos : 0 < (pclip cs dst src len num
      (fun cs v0 v1 len mn mx => lclip2 cs v0 v1 len mn mx comp) min max).nverts) :
    (∃ i : Nat, i ≤ num ∧
        (∀ t, 0 ≤ t → t < len →
          (pclip cs dst src len num (fun cs v0 v1 len mn mx => lclip2 cs v0 v1 len mn mx comp)
            min max).dst (k * len + t) = src ((i : Int) * len + t)) ∧
        min < src ((i : Int) * len + comp) ∧ src ((i : Int) * len + comp) < max) ∨
    (∃ i : Nat, i ≤ num ∧
        (src ((i : Int) * len + comp) ≤ min ∧
          (pclip cs dst src len num (fun cs v0 v1 len mn mx => lclip2 cs v0 v1 len mn mx comp)
            min max).dst (k * len + comp) = min ∨
         src ((i : Int) * len + comp) ≥ max ∧
          (pclip cs dst src len num (fun cs v0 v1 len mn mx => lclip2 cs v0 v1 len mn mx comp)
            min max).dst (k * len + comp) = max)) := by
  have hcl : 0 ≤ comp ∧ comp < len := by omega
  have key := pclip_records (fun cs v0 v1 len mn mx => lclip2 cs v0 v1 len mn mx comp)
    cs dst src len min max
    (fun u => (∃ i : Nat, i ≤ num ∧ (∀ t, 0 ≤ t → t < len → u t = src ((i : Int) * len + t)) ∧
        min < src ((i : Int) * len + comp) ∧ src ((i : Int) * len + comp) < max) ∨
      (∃ i : Nat, i ≤ num ∧ (src ((i : Int) * len + comp) ≤ min ∧ u comp = min ∨
        src ((i : Int) * len + comp) ≥ max ∧ u comp = max)))
    (by omega)
    (by
      intro u w huw hq
      rcases hq with ⟨i, hi, he, hb⟩ | ⟨i, hi, hb⟩
      · exact Or.inl ⟨i, hi, fun t h0 h1 => (huw t h0 h1).symm.trans (he t h0 h1), hb⟩
      · refine Or.inr ⟨i, hi, ?_⟩
        rw [← huw comp hcl.1 hcl.2]
        exact hb)
    num
    (by
      intro j hj cs' hnc
      obtain ⟨r0, r1⟩ := lclip2_result cs' (src.shift ((j : Int) * len))
        (src.shift (((j : Int) + 1) * len)) len min max comp hc hnc
      refine ⟨?_, ?_⟩
      · rcases r1 with ⟨e, h1, h2⟩ | ⟨h1, h2⟩ | ⟨h1, h2⟩
        · refine Or.inl ⟨j + 1, by omega, ?_, ?_⟩
          · intro t _ _
            show (lclip2 cs' _ _ len min max comp).v1 t = _
            rw [e]
            simp only [Mem.shift, Nat.cast_add, Nat.cast_one]
          · simp only [Mem.shift] at h1 h2
            simp only [Nat.cast_add, Nat.cast_one]
            exact ⟨h1, h2⟩
        · refine Or.inr ⟨j + 1, by omega, Or.inl ⟨?_, h2⟩⟩
          simp only [Mem.shift] at h1
          simp only [Nat.cast_add, Nat.cast_one]
          exact h1
        · refine Or.inr ⟨j + 1, by omega, Or.inr ⟨?_, h2⟩⟩
          simp only [Mem.shift] at h1
          simp only [Nat.cast_add, Nat.cast_one]
          exact h1
      · intro hret
        rcases r0 with ⟨h0, _⟩ | ⟨_, hh⟩
        · exact absurd (h0.symm.trans hret) (by decide)
        · rcases hh with ⟨h1, h2⟩ | ⟨h1, h2⟩
          · refine Or.inr ⟨j, by omega, Or.inl ⟨?_, h2⟩⟩
            simp only [Mem.shift] at h1
            exact h1
          · refine Or.inr ⟨j, by omega, Or.inr ⟨?_, h2⟩⟩
            simp only [Mem.shift] at h1
            exact h1)
  exact key.2.2 k hk0 hk1 hpos

/-- The records written by the near-plane polygon clip. -/
theorem pclip3_records (cs : ClipStatics) (dst src : Mem) (len : Int) (num : Nat)
    (hlen : 3 ≤ len) (k : Int) (hk0 : 0 ≤ k)
    (hk1 : k ≤ (PL_clip_poly_nz cs dst src len num).nverts)
    (hpos : 0 < (PL_clip_poly_nz cs dst src len num).nverts) :
    (∃ i : Nat, i ≤ num ∧
        (∀ t, 0 ≤ t → t < len →
          (PL_clip_poly_nz cs dst src len num).dst (k * len + t) = src ((i : Int) * len + t)) ∧
        PL_Z_NEAR_PLANE ≤ src ((i : Int) * len + 2)) ∨
    (∃ i : Nat, i ≤ num ∧ src ((i : Int) * len + 2) < PL_Z_NEAR_PLANE ∧
        (PL_clip_poly_nz cs dst src len num).dst (k * len + 2) = PL_Z_NEAR_PLANE) := by
  have key := pclip_records lineclipnz cs dst src len 0 0
    (fun u => (∃ i : Nat, i ≤ num ∧ (∀ t, 0 ≤ t → t < len → u t = src ((i : Int) * len + t)) ∧
        PL_Z_NEAR_PLANE ≤ src ((i : Int) * len + 2)) ∨
      (∃ i : Nat, i ≤ num ∧ src ((i : Int) * len + 2) < PL_Z_NEAR_PLANE ∧ u 2 = PL_Z_NEAR_PLANE))
    (by omega)
    (by
      intro u w huw hq
      rcases hq with ⟨i, hi, he, hb⟩ | ⟨i, hi, hb⟩
      · exact Or.inl ⟨i, hi, fun t h0 h1 => (huw t h0 h1).symm.trans (he t h0 h1), hb⟩
      · refine Or.inr ⟨i, hi, ?_⟩
        rw [← huw 2 (by omega) (by omega)]
        exact hb)
    num
    (by
      intro j hj cs' hnc
      obtain ⟨r0, r1⟩ := lclip3_result cs' (src.shift ((j : Int) * len))
        (src.shift (((j : Int) + 1) * len)) len hnc
      refine ⟨?_, ?_⟩
      · rcases r1 with ⟨e, h1⟩ | ⟨h1, h2⟩
        · refine Or.inl ⟨j + 1, by omega, ?_, ?_⟩
          · intro t _ _
            show (lclip3 cs' _ _ len).v1 t = _
            rw [e]
            simp only [Mem.shift, Nat.cast_add, Nat.cast_one]
          · simp only [Mem.shift] at h1
            simp only [Nat.cast_add, Nat.cast_one]
            exact h1
        · refine Or.inr ⟨j + 1, by omega, ?_, h2⟩
          simp only [Mem.shift] at h1
          simp only [Nat.cast_add, Nat.cast_one]
          exact h1
      · intro hret
        rcases r0 with ⟨h0, _⟩ | ⟨_, h1, h2⟩
        · exact absurd (h0.symm.trans hret) (by decide)
        · refine Or.inr ⟨j, by omega, ?_, h2⟩
          simp only [Mem.shift] at h1
          exact h1)
  exact key.2.2 k hk0 hk1 hpos

/-- C5: every record that `PL_clip_poly_x` (resp. `PL_clip_poly_y`) writes, the
closing record included, is either an unmodified input record whose axis
component lies strictly between `min` and `max`, or a synthesized record whose
axis component equals exactly the bound (`min` or `max`) that an input vertex
violated; hence, for `min ≤ max`, every output axis component lies in
`[min, max]`. Likewise every record written by `PL_clip_poly_nz` is an
unmodified input record with `z ≥ PL_Z_NEAR_PLANE` or a synthesized one with
`z` exactly `PL_Z_NEAR_PLANE`, so every output `z` is at least
`PL_Z_NEAR_PLANE`. -/
theorem clip_poly_output_on_bound (vp : Viewport) (cs : ClipStatics) (dst src : Mem) (len : Int)
    (num : Nat) (hlen : 3 ≤ len) (k : Int) (hk0 : 0 ≤ k) :
    (vp.PL_vp_min_x ≤ vp.PL_vp_max_x → k ≤ (PL_clip_poly_x vp cs dst src len num).nverts →
      0 < (PL_clip_poly_x vp cs dst src len num).nverts →
      ((∃ i : Nat, i ≤ num ∧
          (∀ t, 0 ≤ t → t < len →
            (PL_clip_poly_x vp cs dst src len num).dst (k * len + t) = src ((i : Int) * len + t)) ∧
          vp.PL_vp_min_x < src ((i : Int) * len + 0) ∧
          src ((i : Int) * len + 0) < vp.PL_vp_max_x) ∨
        (∃ i : Nat, i ≤ num ∧
          (src ((i : Int) * len + 0) ≤ vp.PL_vp_min_x ∧
            (PL_clip_poly_x vp cs dst src len num).dst (k * len + 0) = vp.PL_vp_min_x ∨
           src ((i : Int) * len + 0) ≥ vp.PL_vp_max_x ∧
            (PL_clip_poly_x vp cs dst src len num).dst (k * len + 0) = vp.PL_vp_max_x))) ∧
      vp.PL_vp_min_x ≤ (PL_clip_poly_x vp cs dst src len num).dst (k * len + 0) ∧
      (PL_clip_poly_x vp cs dst src len num).dst (k * len + 0) ≤ vp.PL_vp_max_x) ∧
    (vp.PL_vp_min_y ≤ vp.PL_vp_max_y → k ≤ (PL_clip_poly_y vp cs dst src len num).nverts →
      0 < (PL_clip_poly_y vp cs dst src len num).nverts →
      ((∃ i : Nat, i ≤ num ∧
          (∀ t, 0 ≤ t → t < len →
            (PL_clip_poly_y vp cs dst src len num).dst (k * len + t) = src ((i : Int) * len + t)) ∧
          vp.PL_vp_min_y < src ((i : Int) * len + 1) ∧
          src ((i : Int) * len + 1) < vp.PL_vp_max_y) ∨
        (∃ i : Nat, i ≤ num ∧
          (src ((i : Int) * len + 1) ≤ vp.PL_vp_min_y ∧
            (PL_clip_poly_y vp cs dst src len num).dst (k * len + 1) = vp.PL_vp_min_y ∨
           src ((i : Int) * len + 1) ≥ vp.PL_vp_max_y ∧
            (PL_clip_poly_y vp cs dst src len num).dst (k * len + 1) = vp.PL_vp_max_y))) ∧
      vp.PL_vp_min_y ≤ (PL_clip_poly_y vp cs dst src len num).dst (k * len + 1) ∧
      (PL_clip_poly_y vp cs dst src len num).dst (k * len + 1) ≤ vp.PL_vp_max_y) ∧
    (k ≤ (PL_clip_poly_nz cs dst src len num).nverts →
      0 < (PL_clip_poly_nz cs dst src len num).nverts →
      ((∃ i : Nat, i ≤ num ∧
          (∀ t, 0 ≤ t → t < len →
            (PL_clip_poly_nz cs dst src len num).dst (k * len + t) = src ((i : Int) * len + t)) ∧
          PL_Z_NEAR_PLANE ≤ src ((i : Int) * len + 2)) ∨
        (∃ i : Nat, i ≤ num ∧ src ((i : Int) * len + 2) < PL_Z_NEAR_PLANE ∧
          (PL_clip_poly_nz cs dst src len num).dst (k * len + 2) = PL_Z_NEAR_PLANE)) ∧
      PL_Z_NEAR_PLANE ≤ (PL_clip_poly_nz cs dst src len num).dst (k * len + 2)) := by
  refine ⟨?_, ?_, ?_⟩
  · intro hmm hk1 hpos
    have h := pclip2_records cs dst src len vp.PL_vp_min_x vp.PL_vp_max_x 0 num (Or.inl rfl)
      hlen k hk0 hk1 hpos
    refine ⟨h, ?_⟩
    rcases h with ⟨i, _, he, h1, h2⟩ | ⟨i, _, ⟨_, h2⟩ | ⟨_, h2⟩⟩
    · have e : (PL_clip_poly_x vp cs dst src len num).dst (k * len + 0) = src ((i : Int) * len + 0) :=
        he 0 (by omega) (by omega)
      omega
    · have e : (PL_clip_poly_x vp cs dst src len num).dst (k * len + 0) = vp.PL_vp_min_x := h2
      omega
    · have e : (PL_clip_poly_x vp cs dst src len num).dst (k * len + 0) = vp.PL_vp_max_x := h2
      omega
  · intro hmm hk1 hpos
    have h := pclip2_records cs dst src len vp.PL_vp_min_y vp.PL_vp_max_y 1 num (Or.inr rfl)
      hlen k hk0 hk1 hpos
    refine ⟨h, ?_⟩
    rcases h with ⟨i, _, he, h1, h2⟩ | ⟨i, _, ⟨_, h2⟩ | ⟨_, h2⟩⟩
    · have e : (PL_clip_poly_y vp cs dst src len num).dst (k * len + 1) = src ((i : Int) * len + 1) :=
        he 1 (by omega) (by omega)
      omega
    · have e : (PL_clip_poly_y vp cs dst src len num).dst (k * len + 1) = vp.PL_vp_min_y := h2
      omega
    · have e : (PL_clip_poly_y vp cs dst src len num).dst (k * len + 1) = vp.PL_vp_max_y := h2
      omega
  · intro hk1 hpos
    have h := pclip3_records cs dst src len num hlen k hk0 hk1 hpos
    refine ⟨h, ?_⟩
    rcases h with ⟨i, _, he, h1⟩ | ⟨i, _, _, h2⟩
    · have e := he 2 (by omega) (by omega)
      rw [e]
      exact h1
    · rw [h2]

theorem clip_poly_output_on_bound_witness :
    (0 : Int) ≤ (PL_clip_poly_x ⟨0, 100, 0, 100, 50, 50⟩ ⟨fun _ => 0, fun _ => 0, fun _ => 0⟩
      (fun _ => 0) (Mem.ofList [-10, 10, 5, 20, 10, 5, 20, 20, 5, -10, 10, 5]) 3 3).dst (0 * 3 + 0)
    ∧ (PL_clip_poly_x ⟨0, 100, 0, 100, 50, 50⟩ ⟨fun _ => 0, fun _ => 0, fun _ => 0⟩
      (fun _ => 0) (Mem.ofList [-10, 10, 5, 20, 10, 5, 20, 20, 5, -10, 10, 5]) 3 3).dst (0 * 3 + 0)
      ≤ 100 :=
  ((clip_poly_output_on_bound ⟨0, 100, 0, 100, 50, 50⟩ ⟨fun _ => 0, fun _ => 0, fun _ => 0⟩
    (fun _ => 0) (Mem.ofList [-10, 10, 5, 20, 10, 5, 20, 20, 5, -10, 10, 5]) 3 3 (by decide) 0
    (by decide)).1 (by decide) (by decide) (by decide)).2

theorem and32_15_range (a : Int) : 0 ≤ and32 a 0xf ∧ and32 a 0xf ≤ 15 := by
  have h : Nat.land (toU32 a) (toU32 0xf) ≤ 15 := by
    have e : toU32 0xf = 15 := by decide
    rw [e]
    exact Nat.and_le_right
  unfold and32
  have h' : (Int.ofNat (Nat.land (toU32 a) (toU32 0xf))) ≤ 15 :=
    Int.ofNat_le.mpr h
  have h0 : (0 : Int) ≤ Int.ofNat (Nat.land (toU32 a) (toU32 0xf)) := Int.ofNat_nonneg _
  rw [wrap32_eq_self (by omega) (by omega)]
  exact ⟨h0, h'⟩

theorem load_stream_body_maxz (tmp src : Mem) (dim k : Int) (st : Loaded) (bound : Int)
    (hst : st.lmaxz < bound)
    (hz : tmp (mul32 (src (k * 3 + 0)) PL_VLEN + 2) < bound) :
    (load_stream_body tmp src dim k st).lmaxz < bound := by
  have ez : memcpy st.dst (k * dim) (tmp.shift (mul32 (src (k * 3 + 0)) PL_VLEN)) 3 (k * dim + 2) =
      tmp (mul32 (src (k * 3 + 0)) PL_VLEN + 2) := by
    unfold memcpy Mem.shift
    rw [if_pos (by omega)]
    congr 1
    omega
  unfold load_stream_body
  simp only [ez]
  split_ifs <;> omega

theorem load_stream_maxz (tmp dst src : Mem) (dim : Int) (n : Nat) (bound : Int)
    (hb : INT_MIN < bound)
    (hz : ∀ k : Nat, k < n → tmp (mul32 (src ((k : Int) * 3 + 0)) PL_VLEN + 2) < bound) :
    (forN n (load_stream_body tmp src dim) { dst := dst, lminz := INT_MAX, lmaxz := INT_MIN }).lmaxz
      < bound := by
  induction n with
  | zero => exact hb
  | succ n ih =>
    rw [forN_succ]
    exact load_stream_body_maxz tmp src dim n _ bound (ih (fun k hk => hz k (Nat.lt_succ_of_lt hk)))
      (hz n (Nat.lt_succ_self n))

theorem frustum_test_outside (minz maxz : Int) (h : maxz ≤ PL_Z_NEAR_PLANE) :
    PL_frustum_test minz maxz = PL_Z_OUTC_OUTSIDE := by
  unfold PL_frustum_test
  rw [if_pos h]

theorem raster_switch_none (cur : Option PL_TEX) (mode : Int) (poly : PL_POLY)
    (h : raster_switch cur mode poly = none) : mode ≠ PL_TEXTURED ∧ mode ≠ PL_FLAT := by
  unfold raster_switch at h
  by_cases h1 : mode = PL_TEXTURED
  · rw [if_pos h1] at h
    exfalso
    revert h
    cases cur with
    | none =>
      cases poly.tex with
      | none => simp
      | some t =>
        cases t with
        | mk d => cases d <;> simp
    | some t =>
      cases t with
      | mk d => cases d <;> simp
  · rw [if_neg h1] at h
    by_cases h2 : mode = PL_FLAT
    · rw [if_pos h2] at h
      exact absurd h (by simp)
    · exact ⟨h1, h2⟩

/-- With a raster mode that the `switch` does not know, `e_render_polygon`
returns at once. -/
theorem e_render_polygon_none (w : World) (poly : PL_POLY)
    (hs : raster_switch w.eng.PL_cur_tex w.eng.PL_raster_mode poly = none) :
    e_render_polygon w poly = ⟨Exit.badRasterMode, w⟩ := by
  unfold e_render_polygon
  rw [hs]

/-- When the frustum test of the loaded stream says "outside",
`e_render_polygon` returns right after it. -/
theorem e_render_polygon_outside (w : World) (poly : PL_POLY) (stype rmode : Int)
    (texels : Option Mem)
    (hs : raster_switch w.eng.PL_cur_tex w.eng.PL_raster_mode poly =
      some (stype, rmode, texels))
    (hout : PL_frustum_test
      (load_stream w.eng.tmp_vertices (fun _ => 0) poly.verts stype
        (add32 (and32 poly.n_verts 0xf) 1)).lminz
      (load_stream w.eng.tmp_vertices (fun _ => 0) poly.verts stype
        (add32 (and32 poly.n_verts 0xf) 1)).lmaxz = PL_Z_OUTC_OUTSIDE) :
    e_render_polygon w poly = ⟨Exit.frustumOutside, w⟩ := by
  unfold e_render_polygon
  rw [hs]
  exact if_pos hout

/-- C8: a polygon all of whose loaded camera-space depths are below
`PL_Z_NEAR_PLANE` leaves `e_render_polygon` at the frustum classification, in
both raster modes and whatever the cull mode, and no global changes: in
particular the colour buffer, the depth buffer and `PL_polygon_count` are as
before. (With an invalid raster mode the function returns even earlier, also
without any change.) -/
theorem render_polygon_behind_near_plane (w : World) (poly : PL_POLY)
    (hz : ∀ k : Int, 0 ≤ k → k ≤ and32 poly.n_verts 0xf →
      w.eng.tmp_vertices (mul32 (poly.verts (k * 3 + 0)) PL_VLEN + 2) < PL_Z_NEAR_PLANE) :
    ((w.eng.PL_raster_mode = PL_FLAT ∨ w.eng.PL_raster_mode = PL_TEXTURED) →
      (e_render_polygon w poly).exit = Exit.frustumOutside) ∧
    (e_render_polygon w poly).w.gfx.bufs.PL_video_buffer = w.gfx.bufs.PL_video_buffer ∧
    (e_render_polygon w poly).w.gfx.bufs.PL_depth_buffer = w.gfx.bufs.PL_depth_buffer ∧
    (e_render_polygon w poly).w.gfx.PL_polygon_count = w.gfx.PL_polygon_count ∧
    (e_render_polygon w poly).w = w := by
  have hr := and32_15_range poly.n_verts
  have hcases : (e_render_polygon w poly).w = w ∧
      ((w.eng.PL_raster_mode = PL_FLAT ∨ w.eng.PL_raster_mode = PL_TEXTURED) →
        (e_render_polygon w poly).exit = Exit.frustumOutside) := by
    cases hs : raster_switch w.eng.PL_cur_tex w.eng.PL_raster_mode poly with
    | none =>
      have hm := raster_switch_none _ _ _ hs
      rw [e_render_polygon_none w poly hs]
      refine ⟨rfl, ?_⟩
      intro h
      rcases h with h | h
      · exact absurd h hm.2
      · exact absurd h hm.1
    | some p =>
      obtain ⟨stype, rmode, texels⟩ := p
      have e1 : add32 (and32 poly.n_verts 0xf) 1 = and32 poly.n_verts 0xf + 1 :=
        wrap32_eq_self (by omega) (by omega)
      have hmax : (load_stream w.eng.tmp_vertices (fun _ => 0) poly.verts stype
          (add32 (and32 poly.n_verts 0xf) 1)).lmaxz < PL_Z_NEAR_PLANE := by
        unfold load_stream
        apply load_stream_maxz
        · decide
        · intro k hk
          rw [e1] at hk
          exact hz k (by omega) (by omega)
      have hout : PL_frustum_test
          (load_stream w.eng.tmp_vertices (fun _ => 0) poly.verts stype
            (add32 (and32 poly.n_verts 0xf) 1)).lminz
          (load_stream w.eng.tmp_vertices (fun _ => 0) poly.verts stype
            (add32 (and32 poly.n_verts 0xf) 1)).lmaxz = PL_Z_OUTC_OUTSIDE :=
        frustum_test_outside _ _ (by omega)
      rw [e_render_polygon_outside w poly stype rmode texels hs hout]
      exact ⟨rfl, fun _ => rfl⟩
  obtain ⟨hw, he⟩ := hcases
  refine ⟨he, ?_, ?_, ?_, hw⟩ <;> rw [hw]

theorem render_polygon_behind_near_plane_witness :
    (e_render_polygon World.init ⟨none, Mem.ofList [0, 0, 0, 1, 0, 0, 2, 0, 0, 0, 0, 0],
      0xff0000, 3⟩).exit = Exit.frustumOutside :=
  (render_polygon_behind_near_plane World.init
    ⟨none, Mem.ofList [0, 0, 0, 1, 0, 0, 2, 0, 0, 0, 0, 0], 0xff0000, 3⟩
    (fun _ _ _ => (by decide : (0 : Int) < PL_Z_NEAR_PLANE))).1 (Or.inl rfl)

/-! ## The matrix stack: overflow, underflow and the depth invariant -/

theorem memcpy_inside (dst src : Mem) (off n j : Int) (h0 : 0 ≤ j) (h1 : j < n) :
    memcpy dst off src n (off + j) = src j := by
  unfold memcpy
  rw [if_pos ⟨by omega, by omega⟩]
  congr 1
  omega

theorem memcpy_outside (dst src : Mem) (off n t : Int) (h : t < off ∨ off + n ≤ t) :
    memcpy dst off src n t = dst t := by
  unfold memcpy
  rw [if_neg (by omega)]

/-- C11 as the code has it: the guard of `PL_mst_push` is
`(mst_top + 1) >= PL_MAX_MST_DEPTH`, so the fatal stack-overflow error is raised
if and only if the depth after the push would reach or exceed
`PL_MAX_MST_DEPTH` (64); in every other case the push succeeds, the depth grows
by exactly one, the new slot `(mst_top + 1) * 16` holds a copy of the model
matrix, the rest of the stack storage and the model matrix are unchanged. -/
theorem mst_push_overflow_iff (s : MathState) (h0 : INT_MIN ≤ s.mst_top)
    (h1 : s.mst_top < INT_MAX) :
    (PL_mst_push s = .error Err.stackOverflow ↔ s.mst_top + 1 ≥ PL_MAX_MST_DEPTH) ∧
    (s.mst_top + 1 < PL_MAX_MST_DEPTH →
      ∃ s1, PL_mst_push s = .ok s1 ∧ s1.mst_top = s.mst_top + 1 ∧
        s1.mat_model = s.mat_model ∧
        (∀ j, 0 ≤ j → j < 16 →
          s1.mst_stack (mul32 (s.mst_top + 1) 16 + j) = s.mat_model j) ∧
        (∀ t, t < mul32 (s.mst_top + 1) 16 ∨ mul32 (s.mst_top + 1) 16 + 16 ≤ t →
          s1.mst_stack t = s.mst_stack t) ∧
        (0 ≤ s.mst_top → mul32 (s.mst_top + 1) 16 = (s.mst_top + 1) * 16)) := by
  unfold INT_MIN at h0
  unfold INT_MAX at h1
  have e1 : add32 s.mst_top 1 = s.mst_top + 1 := wrap32_eq_self (by omega) (by omega)
  constructor
  · unfold PL_mst_push
    rw [e1]
    by_cases h : s.mst_top + 1 ≥ PL_MAX_MST_DEPTH
    · rw [if_pos h]
      exact ⟨fun _ => h, fun _ => rfl⟩
    · rw [if_neg h]
      constructor
      · intro hc
        cases hc
      · intro hc
        exact absurd hc h
  · intro h
    refine ⟨{ s with
      mst_stack := PL_mat_cpy s.mst_stack (mul32 (s.mst_top + 1) 16) s.mat_model
      mst_top := s.mst_top + 1 }, ?_, rfl, rfl, ?_, ?_, ?_⟩
    · unfold PL_mst_push
      rw [e1, if_neg (by omega)]
    · intro j hj0 hj1
      exact memcpy_inside _ _ _ _ _ hj0 hj1
    · intro t ht
      exact memcpy_outside _ _ _ _ _ ht
    · intro hz
      unfold PL_MAX_MST_DEPTH at h
      exact wrap32_eq_self (by omega) (by omega)

/-- At depth 63 the push raises the overflow error although the depth after
the push, 64, would not exceed `PL_MAX_MST_DEPTH`. -/
theorem mst_push_overflow_counterexample :
    PL_mst_push { MathState.init with mst_top := 63 } = .error Err.stackOverflow ∧
    ¬ ((63 : Int) + 1 > PL_MAX_MST_DEPTH) :=
  ⟨rfl, by decide⟩

theorem mst_push_overflow_iff_witness :
    PL_mst_push { MathState.init with mst_top := 63 } = .error Err.stackOverflow ↔
      (63 : Int) + 1 ≥ PL_MAX_MST_DEPTH :=
  (mst_push_overflow_iff { MathState.init with mst_top := 63 } (by decide) (by decide)).1

theorem mst_step_inv (c : MstCall) (s s1 : MathState) (h0 : 0 ≤ s.mst_top)
    (h1 : s.mst_top < PL_MAX_MST_DEPTH) (h : c.step s = .ok s1) :
    0 ≤ s1.mst_top ∧ s1.mst_top < PL_MAX_MST_DEPTH := by
  unfold PL_MAX_MST_DEPTH at h1 ⊢
  cases c with
  | push =>
    have e1 : add32 s.mst_top 1 = s.mst_top + 1 := wrap32_eq_self (by omega) (by omega)
    have h' : PL_mst_push s = .ok s1 := h
    unfold PL_mst_push at h'
    rw [e1] at h'
    by_cases hc : s.mst_top + 1 ≥ PL_MAX_MST_DEPTH
    · rw [if_pos hc] at h'
      cases h'
    · rw [if_neg hc] at h'
      cases h'
      unfold PL_MAX_MST_DEPTH at hc
      exact ⟨by show 0 ≤ s.mst_top + 1; omega, by show s.mst_top + 1 < 64; omega⟩
  | pop =>
    have e1 : sub32 s.mst_top 1 = s.mst_top - 1 := wrap32_eq_self (by omega) (by omega)
    have h' : PL_mst_pop s = .ok s1 := h
    unfold PL_mst_pop at h'
    rw [e1] at h'
    by_cases hc : s.mst_top - 1 < 0
    · rw [if_pos hc] at h'
      cases h'
    · rw [if_neg hc] at h'
      cases h'
      exact ⟨by show 0 ≤ s.mst_top - 1; omega, by show s.mst_top - 1 < 64; omega⟩
  | edit e =>
    have h' : Except.ok (e.apply s) = Except.ok s1 := h
    cases h'
    rw [(edit_frame e s).2]
    exact ⟨h0, h1⟩

theorem mst_run_inv (cs : List MstCall) :
    ∀ s s1 : MathState, 0 ≤ s.mst_top → s.mst_top < PL_MAX_MST_DEPTH →
      mst_run cs s = .ok s1 → 0 ≤ s1.mst_top ∧ s1.mst_top < PL_MAX_MST_DEPTH := by
  induction cs with
  | nil =>
    intro s s1 h0 h1 h
    cases h
    exact ⟨h0, h1⟩
  | cons c cs ih =>
    intro s s1 h0 h1 h
    unfold mst_run at h
    cases hc : c.step s with
    | error e =>
      rw [hc] at h
      cases h
    | ok s2 =>
      rw [hc] at h
      have h2 := mst_step_inv c s s2 h0 h1 hc
      exact ih s2 s1 h2.1 h2.2 h

/-- C12: in every state that a sequence of matrix-stack calls reaches from the
initial state without a fatal error, the depth `mst_top` is never negative and
stays below `PL_MAX_MST_DEPTH` (so it never exceeds it); the slot that a
successful `PL_mst_push` writes and the slot that a successful `PL_mst_pop`
reads lie inside the `PL_MAX_MST_DEPTH * 16` ints of `mst_stack`; and at depth
zero `PL_mst_pop` raises the underflow error. -/
theorem mst_depth_invariant (cs : List MstCall) (s : MathState)
    (h : mst_run cs MathState.init = .ok s) :
    0 ≤ s.mst_top ∧ s.mst_top ≤ PL_MAX_MST_DEPTH ∧ s.mst_top < PL_MAX_MST_DEPTH ∧
    (∀ s1, PL_mst_push s = .ok s1 →
      0 ≤ mul32 (add32 s.mst_top 1) 16 ∧
      mul32 (add32 s.mst_top 1) 16 + 16 ≤ PL_MAX_MST_DEPTH * 16) ∧
    (∀ s1, PL_mst_pop s = .ok s1 →
      0 ≤ mul32 s.mst_top 16 ∧ mul32 s.mst_top 16 + 16 ≤ PL_MAX_MST_DEPTH * 16) ∧
    (s.mst_top = 0 → PL_mst_pop s = .error Err.stackUnderflow) := by
  have hinv := mst_run_inv cs MathState.init s (by decide) (by decide) h
  obtain ⟨h0, h1⟩ := hinv
  unfold PL_MAX_MST_DEPTH at h1 ⊢
  refine ⟨h0, by omega, h1, ?_, ?_, ?_⟩
  · intro s1 hp
    have e1 : add32 s.mst_top 1 = s.mst_top + 1 := wrap32_eq_self (by omega) (by omega)
    have e2 : mul32 (s.mst_top + 1) 16 = (s.mst_top + 1) * 16 :=
      wrap32_eq_self (by omega) (by omega)
    unfold PL_mst_push at hp
    rw [e1] at hp
    by_cases hc : s.mst_top + 1 ≥ PL_MAX_MST_DEPTH
    · rw [if_pos hc] at hp
      cases hp
    · unfold PL_MAX_MST_DEPTH at hc
      rw [e1, e2]
      omega
  · intro s1 hp
    have e2 : mul32 s.mst_top 16 = s.mst_top * 16 := wrap32_eq_self (by omega) (by omega)
    rw [e2]
    omega
  · intro hz
    unfold PL_mst_pop
    rw [hz]
    rfl

theorem mst_depth_invariant_witness :
    0 ≤ (PL_mst_load_idt { MathState.init with
        mst_stack := PL_mat_cpy MathState.init.mst_stack (mul32 (add32 0 1) 16) mat_idt
        mst_top := add32 0 1 }).mst_top ∧
    (PL_mst_load_idt { MathState.init with
        mst_stack := PL_mat_cpy MathState.init.mst_stack (mul32 (add32 0 1) 16) mat_idt
        mst_top := add32 0 1 }).mst_top < PL_MAX_MST_DEPTH :=
  have h := mst_depth_invariant [MstCall.push, MstCall.edit MstEdit.load_idt]
    (PL_mst_load_idt { MathState.init with
        mst_stack := PL_mat_cpy MathState.init.mst_stack (mul32 (add32 0 1) 16) mat_idt
        mst_top := add32 0 1 }) rfl
  ⟨h.1, h.2.2.1⟩

/-! ## The capacity check of `PL_render_object` -/

/-- C13, what the code does: the capacity check of `PL_render_object` compares
the number of vertices, not the number of ints, with `PL_MAX_OBJ_V`. An object
with more than 1024 and fewer than 4096 vertices passes the check, no error is
raised, and the bulk transform stores the coordinates of its last vertex at an
index of `tmp_vertices` that is not below `PL_MAX_OBJ_V`. -/
theorem render_object_capacity_gap (w : World) (obj : PL_OBJ)
    (h1 : 1024 < obj.n_verts) (h2 : obj.n_verts < PL_MAX_OBJ_V) (h3 : obj.n_polys = 0) :
    ∃ w1, PL_render_object w (some obj) = .ok w1 ∧
      PL_MAX_OBJ_V ≤ (obj.n_verts - 1) * PL_VLEN ∧
      w1.eng.tmp_vertices ((obj.n_verts - 1) * PL_VLEN) =
        (xf_vertex w.math (obj.verts ((obj.n_verts - 1) * PL_VLEN))
          (obj.verts ((obj.n_verts - 1) * PL_VLEN + 1))
          (obj.verts ((obj.n_verts - 1) * PL_VLEN + 2))).1 := by
  unfold PL_MAX_OBJ_V at h2 ⊢
  unfold PL_VLEN
  refine ⟨{ w with eng := { w.eng with
    tmp_vertices := PL_mst_xf_modelview_vec w.math obj.verts w.eng.tmp_vertices obj.n_verts } },
    ?_, by omega, ?_⟩
  · unfold PL_render_object
    simp only []
    rw [if_neg (by unfold PL_MAX_OBJ_V; omega), h3]
    rfl
  · obtain ⟨n, hn⟩ := Int.eq_ofNat_of_zero_le (show 0 ≤ obj.n_verts - 1 by omega)
    have hlen : n < obj.n_verts.toNat := by omega
    have key := (xf_stream_at w.math obj.verts w.eng.tmp_vertices obj.n_verts.toNat n hlen).1
    simp only [add_zero] at key
    rw [hn]
    exact key

theorem render_object_capacity_gap_witness :
    ∃ w1, PL_render_object World.init
        (some ⟨fun _ => ⟨none, fun _ => 0, 0, 0⟩, fun _ => 0, 0, 1025⟩) = .ok w1 ∧
      PL_MAX_OBJ_V ≤ ((1025 : Int) - 1) * PL_VLEN ∧
      w1.eng.tmp_vertices (((1025 : Int) - 1) * PL_VLEN) =
        (xf_vertex World.init.math 0 0 0).1 :=
  render_object_capacity_gap World.init
    ⟨fun _ => ⟨none, fun _ => 0, 0, 0⟩, fun _ => 0, 0, 1025⟩ (by decide) (by decide) rfl

/-! ## The vertex count of the near-plane clip -/

/-- The return value of `lclip3` from the sides of the two end points. -/
theorem lclip3_ret (cs : ClipStatics) (v0 v1 : Mem) (len : Int) :
    (lclip3 cs v0 v1 len).ret =
      if PL_Z_NEAR_PLANE ≤ v1 2 then (if PL_Z_NEAR_PLANE ≤ v0 2 then 0 else 1)
      else (if PL_Z_NEAR_PLANE ≤ v0 2 then 0 else PL_NC) := by
  have bt : b2i ((0 : Int) == 0) = 1 := by decide
  have bf : b2i ((1 : Int) == 0) = 0 := by decide
  unfold lclip3
  by_cases hio : v0 2 < v1 2
  · simp only [hio, decide_True, if_true, bt]
    by_cases h1 : PL_Z_NEAR_PLANE ≤ v1 2
    · rw [if_neg (by omega), if_pos h1]
      by_cases h0 : PL_Z_NEAR_PLANE ≤ v0 2
      · rw [if_neg (by omega), if_pos h0]
      · rw [if_pos (by omega), if_neg h0]
    · rw [if_pos (by omega), if_neg h1, if_neg (by omega)]
  · simp only [hio, decide_False, Bool.false_eq_true, if_false, bf]
    by_cases h0 : PL_Z_NEAR_PLANE ≤ v0 2
    · rw [if_neg (by omega)]
      by_cases h1 : PL_Z_NEAR_PLANE ≤ v1 2
      · rw [if_neg (by omega), if_pos h1, if_pos h0]
      · rw [if_pos (by omega), if_neg h1, if_pos h0]
    · rw [if_pos (by omega), if_neg (by omega), if_neg h0]

/-- The loop of `pclip` under `lineclipnz` counts `nz_count` vertices. -/
theorem nz_loop_count (cs : ClipStatics) (dst src : Mem) (len : Int) (n : Nat) :
    (forN n (pclip_body lineclipnz src len 0 0) { dst := dst, nverts := 0, cs := cs }).nverts =
      nz_count (nz_front src len) n := by
  induction n with
  | zero => rfl
  | succ n ih =>
    rw [forN_succ]
    have hr := lclip3_ret
      (forN n (pclip_body lineclipnz src len 0 0) { dst := dst, nverts := 0, cs := cs }).cs
      (src.shift ((n : Int) * len)) (src.shift (((n : Int) + 1) * len)) len
    have hnc : (0 : Int) ≠ PL_NC := by decide
    have hn1 : (1 : Int) ≠ PL_NC := by decide
    have h01 : (0 : Int) ≠ 1 := by decide
    have ea : nz_front src len n = decide (PL_Z_NEAR_PLANE ≤ src.shift ((n : Int) * len) 2) := rfl
    have eb : nz_front src len (n + 1) =
        decide (PL_Z_NEAR_PLANE ≤ src.shift (((n : Int) + 1) * len) 2) := by
      unfold nz_front Mem.shift
      push_cast
      rfl
    show _ = nz_count (nz_front src len) n + nz_edge_count _ _
    rw [ea, eb, ← ih]
    unfold nz_edge_count
    by_cases h1 : PL_Z_NEAR_PLANE ≤ src.shift (((n : Int) + 1) * len) 2
    · by_cases h0 : PL_Z_NEAR_PLANE ≤ src.shift ((n : Int) * len) 2
      · rw [if_pos h1, if_pos h0] at hr
        rw [pclip_body_one _ _ _ _ _ _ _ (by show (lclip3 _ _ _ _).ret ≠ _; rw [hr]; exact hnc)
          (by show (lclip3 _ _ _ _).ret ≠ _; rw [hr]; exact h01)]
        simp only [h1, h0, decide_True, if_true]
      · rw [if_pos h1, if_neg h0] at hr
        rw [pclip_body_two _ _ _ _ _ _ _ (by show (lclip3 _ _ _ _).ret = _; rw [hr])]
        simp only [h1, h0, decide_True, decide_False, if_true, Bool.false_eq_true, if_false]
    · by_cases h0 : PL_Z_NEAR_PLANE ≤ src.shift ((n : Int) * len) 2
      · rw [if_neg h1, if_pos h0] at hr
        rw [pclip_body_one _ _ _ _ _ _ _ (by show (lclip3 _ _ _ _).ret ≠ _; rw [hr]; exact hnc)
          (by show (lclip3 _ _ _ _).ret ≠ _; rw [hr]; exact h01)]
        simp only [h1, h0, decide_True, decide_False, if_true, Bool.false_eq_true, if_false]
      · rw [if_neg h1, if_neg h0] at hr
        rw [pclip_body_nc _ _ _ _ _ _ _ (by show (lclip3 _ _ _ _).ret = _; rw [hr])]
        simp only [h1, h0, decide_False, Bool.false_eq_true, if_false, add_zero]

/-- The count returned by `PL_clip_poly_nz`. -/
theorem clip_poly_nz_count (cs : ClipStatics) (dst src : Mem) (len : Int) (num : Nat) :
    (PL_clip_poly_nz cs dst src len num).nverts = nz_count (nz_front src len) num :=
  nz_loop_count cs dst src len num

theorem nz_hexagon_bound : ∀ b0 b1 b2 b3 b4 b5 : Bool,
    nz_edge_count b0 b1 + nz_edge_count b1 b2 + nz_edge_count b2 b3 + nz_edge_count b3 b4 +
        nz_edge_count b4 b5 + nz_edge_count b5 b0 ≤ 9 ∧
    ((b0 = b1 ∨ b1 = b2 ∨ b2 = b3 ∨ b3 = b4 ∨ b4 = b5 ∨ b5 = b0) →
      nz_edge_count b0 b1 + nz_edge_count b1 b2 + nz_edge_count b2 b3 + nz_edge_count b3 b4 +
        nz_edge_count b4 b5 + nz_edge_count b5 b0 ≤ 8) ∧
    ((b0 ≠ b1 ∧ b1 ≠ b2 ∧ b2 ≠ b3 ∧ b3 ≠ b4 ∧ b4 ≠ b5 ∧ b5 ≠ b0) →
      nz_edge_count b0 b1 + nz_edge_count b1 b2 + nz_edge_count b2 b3 + nz_edge_count b3 b4 +
        nz_edge_count b4 b5 + nz_edge_count b5 b0 = 9) := by
  intro b0 b1 b2 b3 b4 b5
  cases b0 <;> cases b1 <;> cases b2 <;> cases b3 <;> cases b4 <;> cases b5 <;> decide

theorem nz_small_bound : ∀ b0 b1 b2 b3 b4 : Bool,
    nz_edge_count b0 b0 ≤ 8 ∧
    nz_edge_count b0 b1 + nz_edge_count b1 b0 ≤ 8 ∧
    nz_edge_count b0 b1 + nz_edge_count b1 b2 + nz_edge_count b2 b0 ≤ 8 ∧
    nz_edge_count b0 b1 + nz_edge_count b1 b2 + nz_edge_count b2 b3 + nz_edge_count b3 b0 ≤ 8 ∧
    nz_edge_count b0 b1 + nz_edge_count b1 b2 + nz_edge_count b2 b3 + nz_edge_count b3 b4 +
      nz_edge_count b4 b0 ≤ 8 := by
  intro b0 b1 b2 b3 b4
  cases b0 <;> cases b1 <;> cases b2 <;> cases b3 <;> cases b4 <;> decide

/-- C14 as the code has it: for a closed chain of `num <= 6` vertices the count
returned by `PL_clip_poly_nz` is the number of vertices not behind the near
plane plus one more for every edge that crosses it; it is at most 9, it is at
most `PL_MAX_POLY_VERTS` (8) when `num <= 5` or when two neighbours of the
chain lie on the same side of the near plane, and it is 9 for six vertices
that alternate between the two sides. -/
theorem clip_poly_nz_count_bound (cs : ClipStatics) (dst src : Mem) (len : Int) (num : Nat)
    (hnum : num ≤ 6) (hclosed : src ((num : Int) * len + 2) = src 2) :
    (PL_clip_poly_nz cs dst src len num).nverts = nz_count (nz_front src len) num ∧
    (PL_clip_poly_nz cs dst src len num).nverts ≤ 9 ∧
    ((num ≤ 5 ∨ ∃ k, k < 6 ∧ nz_front src len k = nz_front src len (k + 1)) →
      (PL_clip_poly_nz cs dst src len num).nverts ≤ PL_MAX_POLY_VERTS) ∧
    (num = 6 → (∀ k, k < 6 → nz_front src len k ≠ nz_front src len (k + 1)) →
      (PL_clip_poly_nz cs dst src len num).nverts = 9) := by
  have hf : nz_front src len num = nz_front src len 0 := by
    unfold nz_front
    rw [hclosed]
    simp only [Nat.cast_zero, zero_mul, zero_add]
  rw [clip_poly_nz_count]
  refine ⟨rfl, ?_⟩
  unfold PL_MAX_POLY_VERTS
  generalize nz_front src len = f at hf ⊢
  have hs := nz_small_bound (f 0) (f 1) (f 2) (f 3) (f 4)
  have hh := nz_hexagon_bound (f 0) (f 1) (f 2) (f 3) (f 4) (f 5)
  interval_cases num
  · simp only [nz_count]
    exact ⟨by omega, fun _ => by omega, fun h => by omega⟩
  · simp only [nz_count, zero_add, Nat.reduceAdd]
    rw [hf]
    exact ⟨by omega, fun _ => by omega, fun h => by omega⟩
  · simp only [nz_count, zero_add, Nat.reduceAdd]
    rw [hf]
    exact ⟨by omega, fun _ => by omega, fun h => by omega⟩
  · simp only [nz_count, zero_add, Nat.reduceAdd]
    rw [hf]
    exact ⟨by omega, fun _ => by omega, fun h => by omega⟩
  · simp only [nz_count, zero_add, Nat.reduceAdd]
    rw [hf]
    exact ⟨by omega, fun _ => by omega, fun h => by omega⟩
  · simp only [nz_count, zero_add, Nat.reduceAdd]
    rw [hf]
    exact ⟨by omega, fun _ => by omega, fun h => by omega⟩
  · simp only [nz_count, zero_add, Nat.reduceAdd]
    rw [hf]
    refine ⟨hh.1, ?_, ?_⟩
    · intro h
      apply hh.2.1
      rcases h with h | ⟨k, hk, e⟩
      · omega
      · interval_cases k
        · exact Or.inl e
        · exact Or.inr (Or.inl e)
        · exact Or.inr (Or.inr (Or.inl e))
        · exact Or.inr (Or.inr (Or.inr (Or.inl e)))
        · exact Or.inr (Or.inr (Or.inr (Or.inr (Or.inl e))))
        · exact Or.inr (Or.inr (Or.inr (Or.inr (Or.inr (e.trans hf)))))
    · intro _ h
      apply hh.2.2
      have h5 : f 5 ≠ f 0 := fun e => h 5 (by omega) (e.trans hf.symm)
      exact ⟨h 0 (by omega), h 1 (by omega), h 2 (by omega), h 3 (by omega), h 4 (by omega), h5⟩

/-- A closed hexagon whose depths alternate between 8 (behind the near plane)
and 100: `PL_clip_poly_nz` returns 9 vertices, more than `PL_MAX_POLY_VERTS`. -/
theorem clip_poly_nz_count_counterexample :
    (PL_clip_poly_nz ⟨fun _ => 0, fun _ => 0, fun _ => 0⟩ (fun _ => 0)
      (Mem.ofList [100, 0, 8, 50, 87, 100, -50, 87, 8, -100, 0, 100, -50, -87, 8,
        50, -87, 100, 100, 0, 8]) 3 6).nverts = 9 ∧
    ¬ ((9 : Int) ≤ PL_MAX_POLY_VERTS) := by
  decide

theorem clip_poly_nz_count_bound_witness :
    (PL_clip_poly_nz ⟨fun _ => 0, fun _ => 0, fun _ => 0⟩ (fun _ => 0)
      (Mem.ofList [100, 0, 8, 50, 87, 8, -50, 87, 100, -100, 0, 100, -50, -87, 100,
        50, -87, 100, 100, 0, 8]) 3 6).nverts ≤ PL_MAX_POLY_VERTS :=
  (clip_poly_nz_count_bound ⟨fun _ => 0, fun _ => 0, fun _ => 0⟩ (fun _ => 0)
    (Mem.ofList [100, 0, 8, 50, 87, 8, -50, 87, 100, -100, 0, 100, -50, -87, 100,
        50, -87, 100, 100, 0, 8]) 3 6 (by decide) (by decide)).2.2.1
    (Or.inr ⟨0, by decide, by decide⟩)

/-! ## Right-multiplication into the model matrix -/

/-- The twelve entries that `PL_mat_mul` computes. -/
theorem mat_mul_entries (a b : Mem) :
    PL_mat_mul a b 0 =
      add32 (add32 (add32 (M_ (b 0) (a 0)) (M_ (b 1) (a 4))) (M_ (b 2) (a 8))) (M_ (b 3) (a 12)) ∧
    PL_mat_mul a b 1 =
      add32 (add32 (add32 (M_ (b 0) (a 1)) (M_ (b 1) (a 5))) (M_ (b 2) (a 9))) (M_ (b 3) (a 13)) ∧
    PL_mat_mul a b 2 =
      add32 (add32 (add32 (M_ (b 0) (a 2)) (M_ (b 1) (a 6))) (M_ (b 2) (a 10))) (M_ (b 3) (a 14)) ∧
    PL_mat_mul a b 4 =
      add32 (add32 (add32 (M_ (b 4) (a 0)) (M_ (b 5) (a 4))) (M_ (b 6) (a 8))) (M_ (b 7) (a 12)) ∧
    PL_mat_mul a b 5 =
      add32 (add32 (add32 (M_ (b 4) (a 1)) (M_ (b 5) (a 5))) (M_ (b 6) (a 9))) (M_ (b 7) (a 13)) ∧
    PL_mat_mul a b 6 =
      add32 (add32 (add32 (M_ (b 4) (a 2)) (M_ (b 5) (a 6))) (M_ (b 6) (a 10))) (M_ (b 7) (a 14)) ∧
    PL_mat_mul a b 8 =
      add32 (add32 (add32 (M_ (b 8) (a 0)) (M_ (b 9) (a 4))) (M_ (b 10) (a 8))) (M_ (b 11) (a 12)) ∧
    PL_mat_mul a b 9 =
      add32 (add32 (add32 (M_ (b 8) (a 1)) (M_ (b 9) (a 5))) (M_ (b 10) (a 9))) (M_ (b 11) (a 13)) ∧
    PL_mat_mul a b 10 =
      add32 (add32 (add32 (M_ (b 8) (a 2)) (M_ (b 9) (a 6))) (M_ (b 10) (a 10))) (M_ (b 11) (a 14)) ∧
    PL_mat_mul a b 12 =
      add32 (add32 (add32 (M_ (b 12) (a 0)) (M_ (b 13) (a 4))) (M_ (b 14) (a 8))) (M_ (b 15) (a 12)) ∧
    PL_mat_mul a b 13 =
      add32 (add32 (add32 (M_ (b 12) (a 1)) (M_ (b 13) (a 5))) (M_ (b 14) (a 9))) (M_ (b 15) (a 13)) ∧
    PL_mat_mul a b 14 =
      add32 (add32 (add32 (M_ (b 12) (a 2)) (M_ (b 13) (a 6))) (M_ (b 14) (a 10))) (M_ (b 15) (a 14)) :=
  ⟨rfl, rfl, rfl, rfl, rfl, rfl, rfl, rfl, rfl, rfl, rfl, rfl⟩

theorem M_zero_right (x : Int) : M_ x 0 = 0 := by
  unfold M_ mul32
  rw [mul_zero]
  rfl

theorem M_zero_left (x : Int) : M_ 0 x = 0 := by
  unfold M_ mul32
  rw [zero_mul]
  rfl

theorem M_one_right (x : Int) (h : -65536 < x ∧ x < 65536) : M_ x 32768 = x := by
  unfold M_ mul32 shr32 PL_P
  rw [wrap32_mul_one x h]
  have p15 : (2 : Int) ^ 15 = 32768 := by norm_num
  rw [p15]
  exact q15_one x h

theorem M_one_left (x : Int) (h : -65536 < x ∧ x < 65536) : M_ 32768 x = x := by
  unfold M_
  rw [mul32, mul_comm]
  exact M_one_right x h

theorem add32_zero_right (x : Int) (h : -65536 < x ∧ x < 65536) : add32 x 0 = x := by
  unfold add32
  rw [add_zero]
  exact wrap32_eq_self (by omega) (by omega)

theorem add32_zero_left (x : Int) (h : -65536 < x ∧ x < 65536) : add32 0 x = x := by
  unfold add32
  rw [zero_add]
  exact wrap32_eq_self (by omega) (by omega)

/-- The product that `PL_mst_translate` forms, on a model matrix that is the
identity in its 3×4 part. -/
theorem mat_mul_translate (a : Mem) (x y z : Int) (ha : IsAffine a 32768 32768 32768 0 0 0)
    (hx : -65536 < x ∧ x < 65536) (hy : -65536 < y ∧ y < 65536) (hz : -65536 < z ∧ z < 65536) :
    IsAffine (PL_mat_mul a (Mem.write (Mem.write (Mem.write
      (memcpy (fun _ => 0) 0 mat_idt 16) 12 x) 13 y) 14 z)) 32768 32768 32768 x y z := by
  obtain ⟨a0, a1, a2, a4, a5, a6, a8, a9, a10, a12, a13, a14⟩ := ha
  have hb : ∀ b : Mem, b = Mem.write (Mem.write (Mem.write
      (memcpy (fun _ => 0) 0 mat_idt 16) 12 x) 13 y) 14 z →
      IsAffine (PL_mat_mul a b) 32768 32768 32768 x y z := by
    intro b e
    have b0 : b 0 = 32768 := by rw [e]; rfl
    have b1 : b 1 = 0 := by rw [e]; rfl
    have b2 : b 2 = 0 := by rw [e]; rfl
    have b3 : b 3 = 0 := by rw [e]; rfl
    have b4 : b 4 = 0 := by rw [e]; rfl
    have b5 : b 5 = 32768 := by rw [e]; rfl
    have b6 : b 6 = 0 := by rw [e]; rfl
    have b7 : b 7 = 0 := by rw [e]; rfl
    have b8 : b 8 = 0 := by rw [e]; rfl
    have b9 : b 9 = 0 := by rw [e]; rfl
    have b10 : b 10 = 32768 := by rw [e]; rfl
    have b11 : b 11 = 0 := by rw [e]; rfl
    have b12 : b 12 = x := by rw [e]; rfl
    have b13 : b 13 = y := by rw [e]; rfl
    have b14 : b 14 = z := by rw [e]; rfl
    have b15 : b 15 = 32768 := by rw [e]; rfl
    have k1 : M_ 32768 32768 = 32768 := by decide
    have k2 : add32 32768 0 = 32768 := by decide
    have k3 : add32 0 32768 = 32768 := by decide
    have k4 : add32 0 0 = 0 := by decide
    have mx := M_one_right x hx
    have my := M_one_right y hy
    have mz := M_one_right z hz
    have ax := add32_zero_right x hx
    have ay := add32_zero_right y hy
    have az := add32_zero_right z hz
    have ax' := add32_zero_left x hx
    have ay' := add32_zero_left y hy
    have az' := add32_zero_left z hz
    obtain ⟨e0, e1, e2, e4, e5, e6, e8, e9, e10, e12, e13, e14⟩ := mat_mul_entries a b
    unfold IsAffine
    rw [e0, e1, e2, e4, e5, e6, e8, e9, e10, e12, e13, e14]
    simp only [a0, a1, a2, a4, a5, a6, a8, a9, a10, a12, a13, a14, b0, b1, b2, b3, b4, b5, b6,
      b7, b8, b9, b10, b11, b12, b13, b14, b15, M_zero_right, M_zero_left, k1, k2, k3, k4,
      mx, my, mz, ax, ay, az, ax', ay', az', and_self]
  exact hb _ rfl

/-- The product that `PL_mst_scale` forms, on a model matrix that is a pure
translation. -/
theorem mat_mul_scale (a : Mem) (x y z t0 t1 t2 : Int)
    (ha : IsAffine a 32768 32768 32768 t0 t1 t2)
    (hx : -65536 < x ∧ x < 65536) (hy : -65536 < y ∧ y < 65536) (hz : -65536 < z ∧ z < 65536)
    (h0 : -65536 < t0 ∧ t0 < 65536) (h1 : -65536 < t1 ∧ t1 < 65536)
    (h2 : -65536 < t2 ∧ t2 < 65536) :
    IsAffine (PL_mat_mul a (Mem.write (Mem.write (Mem.write
      (memcpy (fun _ => 0) 0 mat_idt 16) 0 x) 5 y) 10 z)) x y z t0 t1 t2 := by
  obtain ⟨a0, a1, a2, a4, a5, a6, a8, a9, a10, a12, a13, a14⟩ := ha
  have hb : ∀ b : Mem, b = Mem.write (Mem.write (Mem.write
      (memcpy (fun _ => 0) 0 mat_idt 16) 0 x) 5 y) 10 z →
      IsAffine (PL_mat_mul a b) x y z t0 t1 t2 := by
    intro b e
    have b0 : b 0 = x := by rw [e]; rfl
    have b1 : b 1 = 0 := by rw [e]; rfl
    have b2 : b 2 = 0 := by rw [e]; rfl
    have b3 : b 3 = 0 := by rw [e]; rfl
    have b4 : b 4 = 0 := by rw [e]; rfl
    have b5 : b 5 = y := by rw [e]; rfl
    have b6 : b 6 = 0 := by rw [e]; rfl
    have b7 : b 7 = 0 := by rw [e]; rfl
    have b8 : b 8 = 0 := by rw [e]; rfl
    have b9 : b 9 = 0 := by rw [e]; rfl
    have b10 : b 10 = z := by rw [e]; rfl
    have b11 : b 11 = 0 := by rw [e]; rfl
    have b12 : b 12 = 0 := by rw [e]; rfl
    have b13 : b 13 = 0 := by rw [e]; rfl
    have b14 : b 14 = 0 := by rw [e]; rfl
    have b15 : b 15 = 32768 := by rw [e]; rfl
    have k4 : add32 0 0 = 0 := by decide
    have mx := M_one_right x hx
    have my := M_one_right y hy
    have mz := M_one_right z hz
    have m0 := M_one_left t0 h0
    have m1 := M_one_left t1 h1
    have m2 := M_one_left t2 h2
    have ax := add32_zero_right x hx
    have ay := add32_zero_right y hy
    have az := add32_zero_right z hz
    have ax' := add32_zero_left x hx
    have ay' := add32_zero_left y hy
    have az' := add32_zero_left z hz
    have c0 := add32_zero_left t0 h0
    have c1 := add32_zero_left t1 h1
    have c2 := add32_zero_left t2 h2
    obtain ⟨e0, e1, e2, e4, e5, e6, e8, e9, e10, e12, e13, e14⟩ := mat_mul_entries a b
    unfold IsAffine
    rw [e0, e1, e2, e4, e5, e6, e8, e9, e10, e12, e13, e14]
    simp only [a0, a1, a2, a4, a5, a6, a8, a9, a10, a12, a13, a14, b0, b1, b2, b3, b4, b5, b6,
      b7, b8, b9, b10, b11, b12, b13, b14, b15, M_zero_right, M_zero_left, k4,
      mx, my, mz, m0, m1, m2, ax, ay, az, ax', ay', az', c0, c1, c2, and_self]
  exact hb _ rfl

/-- The model-view transform under a scale-and-translate model matrix, with
the camera at the origin and no rotation. -/
theorem xf_vertex_affine (s : MathState) (x y z sx sy sz tx ty tz : Int)
    (hc : s.PL_cos 0 = 32768) (hs : s.PL_sin 0 = 0) (hrx : s.rx = 0) (hry : s.ry = 0)
    (hcx : s.tx = 0) (hcy : s.ty = 0) (hcz : s.tz = 0)
    (hm : IsAffine s.mat_model sx sy sz tx ty tz)
    (htx : -65536 < tx ∧ tx < 65536) (hty : -65536 < ty ∧ ty < 65536)
    (htz : -65536 < tz ∧ tz < 65536)
    (hpx : -2147483648 ≤ x * sx ∧ x * sx < 2147483648)
    (hpy : -2147483648 ≤ y * sy ∧ y * sy < 2147483648)
    (hpz : -2147483648 ≤ z * sz ∧ z * sz < 2147483648)
    (hqx : -2147483648 ≤ (shr32 (x * sx) 15 + tx) * 32768 ∧
      (shr32 (x * sx) 15 + tx) * 32768 < 2147483648)
    (hqy : -2147483648 ≤ (shr32 (y * sy) 15 + ty) * 32768 ∧
      (shr32 (y * sy) 15 + ty) * 32768 < 2147483648)
    (hqz : -2147483648 ≤ (shr32 (z * sz) 15 + tz) * 32768 ∧
      (shr32 (z * sz) 15 + tz) * 32768 < 2147483648) :
    xf_vertex s x y z =
      (shr32 (x * sx) 15 + tx, shr32 (y * sy) 15 + ty, shr32 (z * sz) 15 + tz) := by
  obtain ⟨a0, a1, a2, a4, a5, a6, a8, a9, a10, a12, a13, a14⟩ := hm
  have p15 : (2 : Int) ^ 15 = 32768 := by norm_num
  unfold shr32 at hqx hqy hqz ⊢
  rw [p15] at hqx hqy hqz ⊢
  simp only [xf_vertex, hrx, hry, hc, hs, hcx, hcy, hcz, a0, a1, a2, a4, a5, a6, a8, a9, a10,
    a12, a13, a14, add32, sub32, mul32, shr32, PL_P, mul_zero, add_zero, sub_zero, zero_add, p15]
  have w0 : wrap32 0 = 0 := by decide
  have wx : wrap32 (x * sx) = x * sx := wrap32_eq_self hpx.1 hpx.2
  have wy : wrap32 (y * sy) = y * sy := wrap32_eq_self hpy.1 hpy.2
  have wz : wrap32 (z * sz) = z * sz := wrap32_eq_self hpz.1 hpz.2
  have t0 : wrap32 tx = tx := wrap32_eq_self (by omega) (by omega)
  have t1 : wrap32 ty = ty := wrap32_eq_self (by omega) (by omega)
  have t2 : wrap32 tz = tz := wrap32_eq_self (by omega) (by omega)
  have rx : wrap32 (x * sx / 32768 + tx) = x * sx / 32768 + tx :=
    wrap32_eq_self (by omega) (by omega)
  have ry : wrap32 (y * sy / 32768 + ty) = y * sy / 32768 + ty :=
    wrap32_eq_self (by omega) (by omega)
  have rz : wrap32 (z * sz / 32768 + tz) = z * sz / 32768 + tz :=
    wrap32_eq_self (by omega) (by omega)
  have qx : wrap32 ((x * sx / 32768 + tx) * 32768) = (x * sx / 32768 + tx) * 32768 :=
    wrap32_eq_self hqx.1 hqx.2
  have qy : wrap32 ((y * sy / 32768 + ty) * 32768) = (y * sy / 32768 + ty) * 32768 :=
    wrap32_eq_self hqy.1 hqy.2
  have qz : wrap32 ((z * sz / 32768 + tz) * 32768) = (z * sz / 32768 + tz) * 32768 :=
    wrap32_eq_self hqz.1 hqz.2
  have dx : (x * sx / 32768 + tx) * 32768 / 32768 = x * sx / 32768 + tx := by omega
  have dy : (y * sy / 32768 + ty) * 32768 / 32768 = y * sy / 32768 + ty := by omega
  have dz : (z * sz / 32768 + tz) * 32768 / 32768 = z * sz / 32768 + tz := by omega
  simp only [w0, add_zero, zero_add, sub_zero, wx, wy, wz, t0, t1, t2, rx, ry, rz, qx, qy, qz,
    dx, dy, dz]

set_option maxRecDepth 100000 in
/-- C15 fails as stated: after `PL_init`'s trig tables, with the camera at the
origin with zero rotation, translation `(65535, 0, 0)` and scale
`(32768, 32768, 32768)`, the vertex `(65535, 0, 0)` has every argument of
magnitude below `2^16` and the product `65535 * 32768 = 2147450880` fits 32
bits, so the claimed image has x component
`((65535 * 32768) >> 15) + 65535 = 131070`; the camera stage multiplies that by
the unit cosine `32768`, which wraps, and the code stores `-2`. -/
theorem translate_scale_counterexample :
    (65535 : Int) < 65536 ∧ (32768 : Int) < 65536 ∧
    fits32 (Mem.ofList [65535, 0, 0, 0] (0 * PL_VLEN) * 32768) ∧
    shr32 (Mem.ofList [65535, 0, 0, 0] (0 * PL_VLEN) * 32768) 15 + 65535 = 131070 ∧
    ¬ fits32 (131070 * 32768) ∧
    PL_mst_xf_modelview_vec (PL_mst_scale (PL_mst_translate (PL_mst_load_idt
        (PL_set_camera (PL_init_trig MathState.init) 0 0 0 0 0)) 65535 0 0) 32768 32768 32768)
        (Mem.ofList [65535, 0, 0, 0]) (fun _ => 0) 1 (0 * PL_VLEN) = -2 := by
  refine ⟨by decide, by decide, by decide, by decide, by decide, ?_⟩
  decide

/-- C15 (amended): after `PL_mst_load_idt`, `PL_mst_translate(tx, ty, tz)` and
then `PL_mst_scale(sx, sy, sz)`, with the trig tables built by `PL_init` and the
camera at the origin with zero rotation, `PL_mst_xf_modelview_vec` maps vertex
`i` of the stream, `(x, y, z)`, to
`(((x*sx) >> 15) + tx, ((y*sy) >> 15) + ty, ((z*sz) >> 15) + tz)`: the scale,
multiplied in last, acts on the vertex first and the translation is not
scaled. The arguments have magnitude below `2^16`, the products `x*sx`, `y*sy`,
`z*sz` fit 32 bits, and so do the products of the three results with the unit
cosine `32768` of the camera stage. -/
theorem translate_scale_right_multiply (s0 s : MathState) (tx ty tz sx sy sz : Int)
    (v out : Mem) (len i : Int)
    (h0 : s0.PL_sin 0 = 0) (h64 : s0.PL_sin 64 = 32768)
    (hsin : s.PL_sin = (PL_init_trig s0).PL_sin) (hcos : s.PL_cos = (PL_init_trig s0).PL_cos)
    (hi : 0 ≤ i ∧ i < len)
    (htx : -65536 < tx ∧ tx < 65536) (hty : -65536 < ty ∧ ty < 65536)
    (htz : -65536 < tz ∧ tz < 65536)
    (hsx : -65536 < sx ∧ sx < 65536) (hsy : -65536 < sy ∧ sy < 65536)
    (hsz : -65536 < sz ∧ sz < 65536)
    (_hx : -65536 < v (i * PL_VLEN) ∧ v (i * PL_VLEN) < 65536)
    (_hy : -65536 < v (i * PL_VLEN + 1) ∧ v (i * PL_VLEN + 1) < 65536)
    (_hz : -65536 < v (i * PL_VLEN + 2) ∧ v (i * PL_VLEN + 2) < 65536)
    (hpx : -2147483648 ≤ v (i * PL_VLEN) * sx ∧ v (i * PL_VLEN) * sx < 2147483648)
    (hpy : -2147483648 ≤ v (i * PL_VLEN + 1) * sy ∧ v (i * PL_VLEN + 1) * sy < 2147483648)
    (hpz : -2147483648 ≤ v (i * PL_VLEN + 2) * sz ∧ v (i * PL_VLEN + 2) * sz < 2147483648)
    (hqx : -2147483648 ≤ (shr32 (v (i * PL_VLEN) * sx) 15 + tx) * 32768 ∧
      (shr32 (v (i * PL_VLEN) * sx) 15 + tx) * 32768 < 2147483648)
    (hqy : -2147483648 ≤ (shr32 (v (i * PL_VLEN + 1) * sy) 15 + ty) * 32768 ∧
      (shr32 (v (i * PL_VLEN + 1) * sy) 15 + ty) * 32768 < 2147483648)
    (hqz : -2147483648 ≤ (shr32 (v (i * PL_VLEN + 2) * sz) 15 + tz) * 32768 ∧
      (shr32 (v (i * PL_VLEN + 2) * sz) 15 + tz) * 32768 < 2147483648) :
    PL_mst_xf_modelview_vec (PL_mst_scale (PL_mst_translate (PL_mst_load_idt
        (PL_set_camera s 0 0 0 0 0)) tx ty tz) sx sy sz) v out len (i * PL_VLEN) =
      shr32 (v (i * PL_VLEN) * sx) 15 + tx ∧
    PL_mst_xf_modelview_vec (PL_mst_scale (PL_mst_translate (PL_mst_load_idt
        (PL_set_camera s 0 0 0 0 0)) tx ty tz) sx sy sz) v out len (i * PL_VLEN + 1) =
      shr32 (v (i * PL_VLEN + 1) * sy) 15 + ty ∧
    PL_mst_xf_modelview_vec (PL_mst_scale (PL_mst_translate (PL_mst_load_idt
        (PL_set_camera s 0 0 0 0 0)) tx ty tz) sx sy sz) v out len (i * PL_VLEN + 2) =
      shr32 (v (i * PL_VLEN + 2) * sz) 15 + tz := by
  have hc0 : (PL_init_trig s0).PL_cos 0 = 32768 := (init_trig_cos0 s0).trans h64
  have hs0 : (PL_init_trig s0).PL_sin 0 = 0 := (init_trig_sin_low s0 0 (by decide)).trans h0
  have hr : and32 (sub32 PL_TRIGMAX 0) PL_TRIGMSK = 0 := by decide
  have hn0 : neg32 0 = 0 := by decide
  have hidt : IsAffine (PL_mst_load_idt (PL_set_camera s 0 0 0 0 0)).mat_model
      32768 32768 32768 0 0 0 :=
    ⟨rfl, rfl, rfl, rfl, rfl, rfl, rfl, rfl, rfl, rfl, rfl, rfl⟩
  have htr := mat_mul_translate _ tx ty tz hidt htx hty htz
  have hsc := mat_mul_scale _ sx sy sz tx ty tz htr hsx hsy hsz htx hty htz
  obtain ⟨n, rfl⟩ := Int.eq_ofNat_of_zero_le hi.1
  have hn : n < len.toNat := by omega
  have key := xf_stream_at (PL_mst_scale (PL_mst_translate (PL_mst_load_idt
    (PL_set_camera s 0 0 0 0 0)) tx ty tz) sx sy sz) v out len.toNat n hn
  simp only [PL_VLEN] at hpx hpy hpz hqx hqy hqz ⊢
  simp only [add_zero] at key
  have hv := xf_vertex_affine (PL_mst_scale (PL_mst_translate (PL_mst_load_idt
    (PL_set_camera s 0 0 0 0 0)) tx ty tz) sx sy sz)
    (v ((n : Int) * 4)) (v ((n : Int) * 4 + 1)) (v ((n : Int) * 4 + 2)) sx sy sz tx ty tz
    (by show s.PL_cos (and32 (sub32 PL_TRIGMAX 0) PL_TRIGMSK) = 32768; rw [hr, hcos]; exact hc0)
    (by show s.PL_sin (and32 (sub32 PL_TRIGMAX 0) PL_TRIGMSK) = 0; rw [hr, hsin]; exact hs0)
    hr hr hn0 hn0 hn0 hsc htx hty htz hpx hpy hpz hqx hqy hqz
  rw [hv] at key
  unfold PL_mst_xf_modelview_vec
  exact key

theorem translate_scale_right_multiply_witness :
    PL_mst_xf_modelview_vec (PL_mst_scale (PL_mst_translate (PL_mst_load_idt
        (PL_set_camera (PL_init_trig MathState.init) 0 0 0 0 0)) 100 200 300) 16384 32768 65535)
        (Mem.ofList [10, -20, 30, 0]) (fun _ => 0) 1 (0 * PL_VLEN) =
      shr32 (Mem.ofList [10, -20, 30, 0] (0 * PL_VLEN) * 16384) 15 + 100 :=
  (translate_scale_right_multiply MathState.init (PL_init_trig MathState.init)
    100 200 300 16384 32768 65535 (Mem.ofList [10, -20, 30, 0]) (fun _ => 0) 1 0
    (by decide) (by decide) rfl rfl (by decide) (by decide) (by decide) (by decide)
    (by decide) (by decide) (by decide) (by decide) (by decide) (by decide)
    (by decide) (by decide) (by decide) (by decide) (by decide) (by decide)).1

/-! ## `PL_vec_shorten` -/

theorem shr32_zero (x : Int) : shr32 x 0 = x := by
  unfold shr32
  simp

theorem vec_too_long_iff (v : Mem) : vec_too_long v = true ↔ ¬ vec_fits v 0 := by
  unfold vec_fits
  rw [shr32_zero, shr32_zero, shr32_zero]
  simp only [vec_too_long, Bool.or_eq_true, decide_eq_true_eq]
  omega

theorem vec_halve_comp (v : Mem) :
    vec_halve v 0 = shr32 (v 0) 1 ∧ vec_halve v 1 = shr32 (v 1) 1 ∧
    vec_halve v 2 = shr32 (v 2) 1 ∧
    (∀ i, i ≠ 0 → i ≠ 1 → i ≠ 2 → vec_halve v i = v i) := by
  refine ⟨rfl, rfl, rfl, ?_⟩
  intro i h0 h1 h2
  simp only [vec_halve, Mem.write, h0, h1, h2, if_false]

theorem vec_fits_halve (v : Mem) (k : Nat) : vec_fits (vec_halve v) k ↔ vec_fits v (k + 1) := by
  obtain ⟨e0, e1, e2, _⟩ := vec_halve_comp v
  unfold vec_fits
  rw [e0, e1, e2, add_comm k 1, shr32_add, shr32_add, shr32_add]

theorem vec_shifted_halve (v : Mem) (k : Nat) :
    vec_shifted (vec_halve v) k = vec_shifted v (k + 1) := by
  obtain ⟨e0, e1, e2, eo⟩ := vec_halve_comp v
  funext i
  unfold vec_shifted
  by_cases h0 : i = 0
  · subst h0
    simp only [true_or, if_true]
    rw [e0, add_comm k 1, shr32_add]
  · by_cases h1 : i = 1
    · subst h1
      simp only [true_or, or_true, if_true]
      rw [e1, add_comm k 1, shr32_add]
    · by_cases h2 : i = 2
      · subst h2
        simp only [or_true, if_true]
        rw [e2, add_comm k 1, shr32_add]
      · simp only [h0, h1, h2, or_self, if_false]
        exact eo i h0 h1 h2

theorem vec_shifted_zero (v : Mem) : vec_shifted v 0 = v := by
  funext i
  unfold vec_shifted
  by_cases h : i = 0 ∨ i = 1 ∨ i = 2
  · rw [if_pos h, shr32_zero]
  · rw [if_neg h]

theorem vec_halve_measure (v : Mem) (h : vec_too_long v = true) :
    (vec_halve v 0).natAbs + (vec_halve v 1).natAbs + (vec_halve v 2).natAbs <
      (v 0).natAbs + (v 1).natAbs + (v 2).natAbs := by
  obtain ⟨e0, e1, e2, _⟩ := vec_halve_comp v
  rw [e0, e1, e2]
  simp only [vec_too_long, Bool.or_eq_true, decide_eq_true_eq] at h
  simp only [shr32, pow_one]
  omega

/-- With fuel for its measure, the loop of `PL_vec_shorten` stops at the least
shift under which the three components fit. -/
theorem vec_shorten_loop_least (n : Nat) :
    ∀ v : Mem, (v 0).natAbs + (v 1).natAbs + (v 2).natAbs ≤ n →
      ∃ k : Nat, vec_shorten_loop n v = vec_shifted v k ∧ vec_fits v k ∧
        ∀ j, j < k → ¬ vec_fits v j := by
  induction n with
  | zero =>
    intro v hn
    refine ⟨0, (vec_shifted_zero v).symm, ?_, fun j hj => absurd hj (Nat.not_lt_zero j)⟩
    unfold vec_fits
    rw [shr32_zero, shr32_zero, shr32_zero]
    omega
  | succ n ih =>
    intro v hn
    by_cases hl : vec_too_long v = true
    · have hm := vec_halve_measure v hl
      obtain ⟨k, hk, hfit, hleast⟩ := ih (vec_halve v) (by omega)
      refine ⟨k + 1, ?_, (vec_fits_halve v k).1 hfit, ?_⟩
      · rw [vec_shorten_loop_long _ _ hl, hk, vec_shifted_halve]
      · intro j hj
        cases j with
        | zero => exact (vec_too_long_iff v).1 hl
        | succ j =>
          intro hc
          exact hleast j (by omega) ((vec_fits_halve v j).2 hc)
    · refine ⟨0, ?_, ?_, fun j hj => absurd hj (Nat.not_lt_zero j)⟩
      · rw [vec_shorten_loop_short _ _ hl, vec_shifted_zero]
      · by_contra hc
        exact hl ((vec_too_long_iff v).2 hc)

/-- C16: `PL_vec_shorten` terminates (its loop stops within the fuel given,
and more fuel changes nothing) and leaves `v` with its three components
shifted right arithmetically by the same amount `k`, the least `k >= 0` for
which all three shifted components lie in `[-32768, 32767]`; so every component
of the result lies in that range, and a vector already in range is returned
unchanged. -/
theorem vec_shorten_least_shift (v : Mem) :
    ∃ k : Nat, PL_vec_shorten v = vec_shifted v k ∧
      (PL_vec_shorten v 0 = shr32 (v 0) k ∧ PL_vec_shorten v 1 = shr32 (v 1) k ∧
        PL_vec_shorten v 2 = shr32 (v 2) k) ∧
      vec_fits v k ∧ (∀ j, j < k → ¬ vec_fits v j) ∧
      ((-32768 ≤ PL_vec_shorten v 0 ∧ PL_vec_shorten v 0 ≤ 32767) ∧
        (-32768 ≤ PL_vec_shorten v 1 ∧ PL_vec_shorten v 1 ≤ 32767) ∧
        (-32768 ≤ PL_vec_shorten v 2 ∧ PL_vec_shorten v 2 ≤ 32767)) ∧
      vec_too_long (PL_vec_shorten v) = false ∧
      (∀ fuel, (v 0).natAbs + (v 1).natAbs + (v 2).natAbs ≤ fuel →
        vec_shorten_loop fuel v = PL_vec_shorten v) ∧
      (vec_fits v 0 → PL_vec_shorten v = v) := by
  obtain ⟨k, hk, hfit, hleast⟩ := vec_shorten_loop_least _ v (le_refl _)
  have hk' : PL_vec_shorten v = vec_shifted v k := hk
  have c0 : PL_vec_shorten v 0 = shr32 (v 0) k := by rw [hk']; rfl
  have c1 : PL_vec_shorten v 1 = shr32 (v 1) k := by rw [hk']; rfl
  have c2 : PL_vec_shorten v 2 = shr32 (v 2) k := by rw [hk']; rfl
  refine ⟨k, hk', ⟨c0, c1, c2⟩, hfit, hleast, ?_, ?_, ?_, ?_⟩
  · rw [c0, c1, c2]
    exact hfit
  · have hf0 : vec_fits (PL_vec_shorten v) 0 := by
      unfold vec_fits
      rw [shr32_zero, shr32_zero, shr32_zero, c0, c1, c2]
      exact hfit
    cases hb : vec_too_long (PL_vec_shorten v) with
    | false => rfl
    | true => exact absurd hf0 ((vec_too_long_iff _).1 hb)
  · intro fuel hfuel
    obtain ⟨k2, hk2, hfit2, hleast2⟩ := vec_shorten_loop_least fuel v hfuel
    have e : k2 = k := by
      rcases Nat.lt_trichotomy k2 k with h | h | h
      · exact absurd hfit2 (hleast k2 h)
      · exact h
      · exact absurd hfit (hleast2 k h)
    rw [hk2, e, hk']
  · intro h0
    have e : k = 0 := by
      rcases Nat.eq_zero_or_pos k with h | h
      · exact h
      · exact absurd h0 (hleast 0 h)
    rw [hk', e, vec_shifted_zero]

theorem vec_shorten_least_shift_witness :
    ∃ k : Nat, PL_vec_shorten (Mem.ofList [100000, -3, 70000]) =
        vec_shifted (Mem.ofList [100000, -3, 70000]) k ∧
      vec_fits (Mem.ofList [100000, -3, 70000]) k ∧
      (∀ j, j < k → ¬ vec_fits (Mem.ofList [100000, -3, 70000]) j) :=
  (vec_shorten_least_shift (Mem.ofList [100000, -3, 70000])).imp
    (fun _ h => ⟨h.1, h.2.2.1, h.2.2.2.1⟩)

/-! ## The cull test of `e_render_polygon` -/

/-- When the polygon passes the frustum test and the cull test fires,
`e_render_polygon` returns there. -/
theorem e_render_polygon_culled (w : World) (poly : PL_POLY) (stype rmode : Int)
    (texels : Option Mem)
    (hs : raster_switch w.eng.PL_cur_tex w.eng.PL_raster_mode poly =
      some (stype, rmode, texels))
    (hin : ¬ (PL_frustum_test
      (load_stream w.eng.tmp_vertices (fun _ => 0) poly.verts stype
        (add32 (and32 poly.n_verts 0xf) 1)).lminz
      (load_stream w.eng.tmp_vertices (fun _ => 0) poly.verts stype
        (add32 (and32 poly.n_verts 0xf) 1)).lmaxz = PL_Z_OUTC_OUTSIDE))
    (hcull : and32 (add32 (PL_winding_order
      (load_stream w.eng.tmp_vertices (fun _ => 0) poly.verts stype
        (add32 (and32 poly.n_verts 0xf) 1)).dst
      ((load_stream w.eng.tmp_vertices (fun _ => 0) poly.verts stype
        (add32 (and32 poly.n_verts 0xf) 1)).dst.shift stype)
      ((load_stream w.eng.tmp_vertices (fun _ => 0) poly.verts stype
        (add32 (and32 poly.n_verts 0xf) 1)).dst.shift (mul32 stype 2))) 1)
      w.eng.PL_cull_mode ≠ 0) :
    e_render_polygon w poly = ⟨Exit.culled, w⟩ := by
  unfold e_render_polygon
  rw [hs]
  exact (if_neg hin).trans (if_pos hcull)

/-- When the polygon passes the frustum test and the cull test, it is drawn. -/
theorem e_render_polygon_drawn (w : World) (poly : PL_POLY) (stype rmode : Int)
    (texels : Option Mem)
    (hs : raster_switch w.eng.PL_cur_tex w.eng.PL_raster_mode poly =
      some (stype, rmode, texels))
    (hin : ¬ (PL_frustum_test
      (load_stream w.eng.tmp_vertices (fun _ => 0) poly.verts stype
        (add32 (and32 poly.n_verts 0xf) 1)).lminz
      (load_stream w.eng.tmp_vertices (fun _ => 0) poly.verts stype
        (add32 (and32 poly.n_verts 0xf) 1)).lmaxz = PL_Z_OUTC_OUTSIDE))
    (hcull : ¬ (and32 (add32 (PL_winding_order
      (load_stream w.eng.tmp_vertices (fun _ => 0) poly.verts stype
        (add32 (and32 poly.n_verts 0xf) 1)).dst
      ((load_stream w.eng.tmp_vertices (fun _ => 0) poly.verts stype
        (add32 (and32 poly.n_verts 0xf) 1)).dst.shift stype)
      ((load_stream w.eng.tmp_vertices (fun _ => 0) poly.verts stype
        (add32 (and32 poly.n_verts 0xf) 1)).dst.shift (mul32 stype 2))) 1)
      w.eng.PL_cull_mode ≠ 0)) :
    e_render_polygon w poly =
      ⟨Exit.drawn, { w with
        gfx := (e_render_polygon_draw w.vp w.cs w.gfx w.eng.PL_fov poly.color stype rmode texels
          (load_stream w.eng.tmp_vertices (fun _ => 0) poly.verts stype
            (add32 (and32 poly.n_verts 0xf) 1)).dst
          (PL_frustum_test
            (load_stream w.eng.tmp_vertices (fun _ => 0) poly.verts stype
              (add32 (and32 poly.n_verts 0xf) 1)).lminz
            (load_stream w.eng.tmp_vertices (fun _ => 0) poly.verts stype
              (add32 (and32 poly.n_verts 0xf) 1)).lmaxz)
          (and32 poly.n_verts 0xf)).1
        cs := (e_render_polygon_draw w.vp w.cs w.gfx w.eng.PL_fov poly.color stype rmode texels
          (load_stream w.eng.tmp_vertices (fun _ => 0) poly.verts stype
            (add32 (and32 poly.n_verts 0xf) 1)).dst
          (PL_frustum_test
            (load_stream w.eng.tmp_vertices (fun _ => 0) poly.verts stype
              (add32 (and32 poly.n_verts 0xf) 1)).lminz
            (load_stream w.eng.tmp_vertices (fun _ => 0) poly.verts stype
              (add32 (and32 poly.n_verts 0xf) 1)).lmaxz)
          (and32 poly.n_verts 0xf)).2 }⟩ := by
  unfold e_render_polygon
  rw [hs]
  exact (if_neg hin).trans (if_neg hcull)

theorem winding_order_01 (a b c : Mem) :
    PL_winding_order a b c = 0 ∨ PL_winding_order a b c = 1 := by
  unfold PL_winding_order
  simp only []
  cases decide (add32 (add32 (mul32 (c 0) (PL_vec_shorten (Mem.ofList
      [sub32 (mul32 (a 2) (b 1)) (mul32 (a 1) (b 2)),
       sub32 (mul32 (a 0) (b 2)) (mul32 (a 2) (b 0)),
       sub32 (mul32 (a 1) (b 0)) (mul32 (a 0) (b 1))]) 0))
      (mul32 (c 1) (PL_vec_shorten (Mem.ofList
      [sub32 (mul32 (a 2) (b 1)) (mul32 (a 1) (b 2)),
       sub32 (mul32 (a 0) (b 2)) (mul32 (a 2) (b 0)),
       sub32 (mul32 (a 1) (b 0)) (mul32 (a 0) (b 1))]) 1)))
      (mul32 (c 2) (PL_vec_shorten (Mem.ofList
      [sub32 (mul32 (a 2) (b 1)) (mul32 (a 1) (b 2)),
       sub32 (mul32 (a 0) (b 2)) (mul32 (a 2) (b 0)),
       sub32 (mul32 (a 1) (b 0)) (mul32 (a 0) (b 1))]) 2)) < 0) with
  | false => exact Or.inl rfl
  | true => exact Or.inr rfl

/-- The expression `(back_face + 1) & PL_cull_mode` for the two winding orders
and the three cull modes. -/
theorem cull_test_table (bf mode : Int) (hbf : bf = 0 ∨ bf = 1)
    (hmode : mode = PL_CULL_NONE ∨ mode = PL_CULL_FRONT ∨ mode = PL_CULL_BACK) :
    and32 (add32 bf 1) mode ≠ 0 ↔
      (mode = PL_CULL_BACK ∧ bf = 1) ∨ (mode = PL_CULL_FRONT ∧ bf = 0) := by
  rcases hbf with h | h <;> rcases hmode with m | m | m <;> subst h <;> subst m <;> decide

/-! ## What `e_render_polygon` leaves behind -/

/-- The `switch` of `e_render_polygon` chooses the flat stream with the flat
fill and no texels, or the textured stream with the textured fill and texels. -/
theorem raster_switch_cases (cur_tex : Option PL_TEX) (mode : Int) (poly : PL_POLY)
    (stype rmode : Int) (texels : Option Mem)
    (hs : raster_switch cur_tex mode poly = some (stype, rmode, texels)) :
    (stype = PL_STREAM_FLAT ∧ rmode = PL_FLAT ∧ texels = none) ∨
    (stype = PL_STREAM_TEX ∧ rmode = PL_TEXTURED ∧ ∃ t, texels = some t) := by
  unfold raster_switch at hs
  by_cases hm : mode = PL_TEXTURED
  · rw [if_pos hm] at hs
    rcases cur_tex with _ | ⟨_ | d⟩
    · rcases hp : poly.tex with _ | ⟨_ | d⟩
      · simp only [hp, Option.some.injEq, Prod.mk.injEq] at hs
        exact Or.inl ⟨hs.1.symm, hs.2.1.symm, hs.2.2.symm⟩
      · simp only [hp, Option.some.injEq, Prod.mk.injEq] at hs
        exact Or.inl ⟨hs.1.symm, hs.2.1.symm, hs.2.2.symm⟩
      · simp only [hp, Option.some.injEq, Prod.mk.injEq] at hs
        exact Or.inr ⟨hs.1.symm, hs.2.1.symm, d, hs.2.2.symm⟩
    · simp only [Option.some.injEq, Prod.mk.injEq] at hs
      exact Or.inl ⟨hs.1.symm, hs.2.1.symm, hs.2.2.symm⟩
    · simp only [Option.some.injEq, Prod.mk.injEq] at hs
      exact Or.inr ⟨hs.1.symm, hs.2.1.symm, d, hs.2.2.symm⟩
  · rw [if_neg hm] at hs
    by_cases hf : mode = PL_FLAT
    · rw [if_pos hf] at hs
      simp only [Option.some.injEq, Prod.mk.injEq] at hs
      exact Or.inl ⟨hs.1.symm, hs.2.1.symm, hs.2.2.symm⟩
    · rw [if_neg hf] at hs
      cases hs

/-- The last part of `e_render_polygon` in flat mode: clip against the near
plane if the frustum test asks for it, project, flat fill. -/
theorem e_render_polygon_draw_flat (vp : Viewport) (cs : ClipStatics) (gfx : GfxState)
    (fov color stype : Int) (copy : Mem) (res nedge : Int) (c : PClip)
    (hc : c = if res = PL_Z_OUTC_PART_NZ
      then PL_clip_poly_nz cs (fun _ => 0) copy stype nedge.toNat
      else { dst := copy, nverts := nedge, cs := cs }) :
    e_render_polygon_draw vp cs gfx fov color stype PL_FLAT none copy res nedge =
      PL_flat_poly vp c.cs gfx
        (PL_psp_project vp.PL_vp_cen_x vp.PL_vp_cen_y c.dst (fun _ => 0) stype
          (add32 c.nverts 1).toNat fov) c.nverts.toNat color := by
  subst hc
  rfl

/-- The last part of `e_render_polygon` in textured mode: clip against the
near plane if the frustum test asks for it, project, textured fill. -/
theorem e_render_polygon_draw_tex (vp : Viewport) (cs : ClipStatics) (gfx : GfxState)
    (fov color stype : Int) (t : Mem) (copy : Mem) (res nedge : Int) (c : PClip)
    (hc : c = if res = PL_Z_OUTC_PART_NZ
      then PL_clip_poly_nz cs (fun _ => 0) copy stype nedge.toNat
      else { dst := copy, nverts := nedge, cs := cs }) :
    e_render_polygon_draw vp cs gfx fov color stype PL_TEXTURED (some t) copy res nedge =
      PL_lintx_poly vp c.cs gfx
        (PL_psp_project vp.PL_vp_cen_x vp.PL_vp_cen_y c.dst (fun _ => 0) stype
          (add32 c.nverts 1).toNat fov) c.nverts.toNat t := by
  subst hc
  rfl

theorem rendered_gfx (e : Exit) (m : MathState) (v : Viewport) (c : ClipStatics) (g : GfxState)
    (en : EngineState) : (Rendered.mk e (World.mk m v c g en)).w.gfx = g := rfl

/-- Two outcomes that differ in the globals of `pl.c` only agree in their exit,
their graphics state and their clipper statics. -/
theorem rendered_same_fill (r r2 : Rendered) (e : Exit) (w : World) (en : EngineState)
    (g : GfxState) (c : ClipStatics)
    (h : r = ⟨e, { w with gfx := g, cs := c }⟩)
    (h2 : r2 = ⟨e, { w with eng := en, gfx := g, cs := c }⟩) :
    r.exit = r2.exit ∧
    r.w.gfx.bufs.PL_video_buffer = r2.w.gfx.bufs.PL_video_buffer ∧
    r.w.gfx.bufs.PL_depth_buffer = r2.w.gfx.bufs.PL_depth_buffer ∧
    r.w.gfx = r2.w.gfx ∧ r.w.cs = r2.w.cs := by
  subst h
  subst h2
  exact ⟨rfl, rfl, rfl, rfl, rfl⟩

/-- C17: for a polygon that passes the raster-mode switch and the frustum
classification, with `PL_cull_mode` one of the three modes, `e_render_polygon`
discards the polygon at the cull test if and only if the mode is
`PL_CULL_BACK` and the winding order of the first three camera-space vertices
is 1, or the mode is `PL_CULL_FRONT` and that winding order is 0. A discarded
polygon leaves every global as it was, the colour buffer and the depth buffer
among them. A polygon that is not discarded is drawn: it is clipped against the
near plane if the frustum test asked for it, projected by `PL_psp_project` and
filled by `PL_flat_poly` in its colour (flat mode) or by `PL_lintx_poly` with
the texels (textured mode), and the globals afterwards are those the fill
leaves. With `PL_CULL_NONE` no polygon is discarded, whatever its winding
order. -/
theorem cull_follows_mode (w : World) (poly : PL_POLY) (stype rmode : Int)
    (texels : Option Mem) (ld : Loaded) (bf : Int) (c : PClip) (proj : Mem)
    (hs : raster_switch w.eng.PL_cur_tex w.eng.PL_raster_mode poly =
      some (stype, rmode, texels))
    (hld : ld = load_stream w.eng.tmp_vertices (fun _ => 0) poly.verts stype
      (add32 (and32 poly.n_verts 0xf) 1))
    (hin : PL_frustum_test ld.lminz ld.lmaxz ≠ PL_Z_OUTC_OUTSIDE)
    (hmode : w.eng.PL_cull_mode = PL_CULL_NONE ∨ w.eng.PL_cull_mode = PL_CULL_FRONT ∨
      w.eng.PL_cull_mode = PL_CULL_BACK)
    (hbf : bf = PL_winding_order ld.dst (ld.dst.shift stype) (ld.dst.shift (mul32 stype 2)))
    (hc : c = if PL_frustum_test ld.lminz ld.lmaxz = PL_Z_OUTC_PART_NZ
      then PL_clip_poly_nz w.cs (fun _ => 0) ld.dst stype (and32 poly.n_verts 0xf).toNat
      else { dst := ld.dst, nverts := and32 poly.n_verts 0xf, cs := w.cs })
    (hproj : proj = PL_psp_project w.vp.PL_vp_cen_x w.vp.PL_vp_cen_y c.dst (fun _ => 0) stype
      (add32 c.nverts 1).toNat w.eng.PL_fov) :
    ((e_render_polygon w poly).exit = Exit.culled ↔
      (w.eng.PL_cull_mode = PL_CULL_BACK ∧ bf = 1) ∨
      (w.eng.PL_cull_mode = PL_CULL_FRONT ∧ bf = 0)) ∧
    ((w.eng.PL_cull_mode = PL_CULL_BACK ∧ bf = 1) ∨
      (w.eng.PL_cull_mode = PL_CULL_FRONT ∧ bf = 0) →
      e_render_polygon w poly = ⟨Exit.culled, w⟩) ∧
    (¬ ((w.eng.PL_cull_mode = PL_CULL_BACK ∧ bf = 1) ∨
        (w.eng.PL_cull_mode = PL_CULL_FRONT ∧ bf = 0)) →
      (rmode = PL_FLAT ∧
        e_render_polygon w poly = ⟨Exit.drawn, { w with
          gfx := (PL_flat_poly w.vp c.cs w.gfx proj c.nverts.toNat poly.color).1
          cs := (PL_flat_poly w.vp c.cs w.gfx proj c.nverts.toNat poly.color).2 }⟩) ∨
      (rmode = PL_TEXTURED ∧ ∃ t, texels = some t ∧
        e_render_polygon w poly = ⟨Exit.drawn, { w with
          gfx := (PL_lintx_poly w.vp c.cs w.gfx proj c.nverts.toNat t).1
          cs := (PL_lintx_poly w.vp c.cs w.gfx proj c.nverts.toNat t).2 }⟩)) ∧
    ((e_render_polygon w poly).exit = Exit.culled ∨
      (e_render_polygon w poly).exit = Exit.drawn) ∧
    (w.eng.PL_cull_mode = PL_CULL_NONE →
      ¬ ((w.eng.PL_cull_mode = PL_CULL_BACK ∧ bf = 1) ∨
        (w.eng.PL_cull_mode = PL_CULL_FRONT ∧ bf = 0)) ∧
      (bf = 0 ∨ bf = 1) ∧ (e_render_polygon w poly).exit = Exit.drawn) := by
  rw [hld] at hin hbf hc
  rw [hc] at hproj
  rw [hproj, hc, hbf]
  have h01 := winding_order_01
    (load_stream w.eng.tmp_vertices (fun _ => 0) poly.verts stype
      (add32 (and32 poly.n_verts 0xf) 1)).dst
    ((load_stream w.eng.tmp_vertices (fun _ => 0) poly.verts stype
      (add32 (and32 poly.n_verts 0xf) 1)).dst.shift stype)
    ((load_stream w.eng.tmp_vertices (fun _ => 0) poly.verts stype
      (add32 (and32 poly.n_verts 0xf) 1)).dst.shift (mul32 stype 2))
  have key := cull_test_table _ _ h01 hmode
  have hnb : PL_CULL_NONE ≠ PL_CULL_BACK := by decide
  have hnf : PL_CULL_NONE ≠ PL_CULL_FRONT := by decide
  by_cases hcnd : and32 (add32 (PL_winding_order
      (load_stream w.eng.tmp_vertices (fun _ => 0) poly.verts stype
        (add32 (and32 poly.n_verts 0xf) 1)).dst
      ((load_stream w.eng.tmp_vertices (fun _ => 0) poly.verts stype
        (add32 (and32 poly.n_verts 0xf) 1)).dst.shift stype)
      ((load_stream w.eng.tmp_vertices (fun _ => 0) poly.verts stype
        (add32 (and32 poly.n_verts 0xf) 1)).dst.shift (mul32 stype 2))) 1)
      w.eng.PL_cull_mode ≠ 0
  · have e := e_render_polygon_culled w poly stype rmode texels hs hin hcnd
    have hC := key.1 hcnd
    refine ⟨⟨fun _ => hC, fun _ => by rw [e]⟩, fun _ => e, fun h => absurd hC h,
      Or.inl (by rw [e]), ?_⟩
    intro hn
    rcases hC with h | h
    · exact absurd (hn.symm.trans h.1) hnb
    · exact absurd (hn.symm.trans h.1) hnf
  · have e := e_render_polygon_drawn w poly stype rmode texels hs hin hcnd
    have hC : ¬ ((w.eng.PL_cull_mode = PL_CULL_BACK ∧ PL_winding_order
        (load_stream w.eng.tmp_vertices (fun _ => 0) poly.verts stype
          (add32 (and32 poly.n_verts 0xf) 1)).dst
        ((load_stream w.eng.tmp_vertices (fun _ => 0) poly.verts stype
          (add32 (and32 poly.n_verts 0xf) 1)).dst.shift stype)
        ((load_stream w.eng.tmp_vertices (fun _ => 0) poly.verts stype
          (add32 (and32 poly.n_verts 0xf) 1)).dst.shift (mul32 stype 2)) = 1) ∨
      (w.eng.PL_cull_mode = PL_CULL_FRONT ∧ PL_winding_order
        (load_stream w.eng.tmp_vertices (fun _ => 0) poly.verts stype
          (add32 (and32 poly.n_verts 0xf) 1)).dst
        ((load_stream w.eng.tmp_vertices (fun _ => 0) poly.verts stype
          (add32 (and32 poly.n_verts 0xf) 1)).dst.shift stype)
        ((load_stream w.eng.tmp_vertices (fun _ => 0) poly.verts stype
          (add32 (and32 poly.n_verts 0xf) 1)).dst.shift (mul32 stype 2)) = 0)) :=
      fun h => hcnd (key.2 h)
    have hx : (e_render_polygon w poly).exit = Exit.drawn := by rw [e]
    refine ⟨⟨fun h => ?_, fun h => absurd h hC⟩, fun h => absurd h hC, fun _ => ?_,
      Or.inr hx, fun _ => ⟨hC, h01, hx⟩⟩
    · rw [hx] at h
      cases h
    · rcases raster_switch_cases _ _ _ _ _ _ hs with ⟨rfl, rfl, rfl⟩ | ⟨rfl, rfl, t, rfl⟩
      · rw [e_render_polygon_draw_flat _ _ _ _ _ _ _ _ _ _ rfl] at e
        exact Or.inl ⟨rfl, e⟩
      · rw [e_render_polygon_draw_tex _ _ _ _ _ _ _ _ _ _ _ rfl] at e
        exact Or.inr ⟨rfl, t, rfl, e⟩

/-! ## Textured mode without a texture -/

theorem raster_switch_no_texture (cur_tex : Option PL_TEX) (poly : PL_POLY)
    (hno : (cur_tex = none ∧ poly.tex = none) ∨
      (∃ t : PL_TEX, cur_tex = some t ∧ t.data = none) ∨
      (cur_tex = none ∧ ∃ t : PL_TEX, poly.tex = some t ∧ t.data = none)) :
    raster_switch cur_tex PL_TEXTURED poly = some (PL_STREAM_FLAT, PL_FLAT, none) := by
  unfold raster_switch
  rw [if_pos rfl]
  rcases hno with ⟨h1, h2⟩ | ⟨t, h1, h2⟩ | ⟨h1, t, h2, h3⟩
  · subst h1
    simp only [h2]
  · subst h1
    obtain ⟨d⟩ := t
    simp only at h2
    subst h2
    rfl
  · subst h1
    obtain ⟨d⟩ := t
    simp only at h3
    subst h3
    simp only [h2]

theorem raster_switch_flat (cur_tex : Option PL_TEX) (poly : PL_POLY) :
    raster_switch cur_tex PL_FLAT poly = some (PL_STREAM_FLAT, PL_FLAT, none) := by
  unfold raster_switch
  rw [if_neg (by decide), if_pos rfl]

/-- C18: with `PL_raster_mode = PL_TEXTURED` and no texture that resolves
(`PL_cur_tex` and the polygon's `tex` are both null, or the texture that
resolves, `PL_cur_tex` or else the polygon's `tex`, has null `data`),
`e_render_polygon` leaves by the same exit and produces exactly the graphics
state, in particular the colour buffer and the depth buffer, that it produces
from the same state with `PL_raster_mode = PL_FLAT`. In both states a polygon
that fails the frustum test or the cull test changes no global, and a polygon
that passes both is loaded as a flat stream, clipped against the near plane if
the frustum test asked for it, projected by `PL_psp_project` and filled by
`PL_flat_poly` with its stored colour `poly.color`; the globals afterwards are
those this flat fill leaves. -/
theorem textured_without_texture_is_flat (w : World) (poly : PL_POLY) (ld : Loaded) (bf : Int)
    (c : PClip) (proj : Mem)
    (hmode : w.eng.PL_raster_mode = PL_TEXTURED)
    (hno : (w.eng.PL_cur_tex = none ∧ poly.tex = none) ∨
      (∃ t : PL_TEX, w.eng.PL_cur_tex = some t ∧ t.data = none) ∨
      (w.eng.PL_cur_tex = none ∧ ∃ t : PL_TEX, poly.tex = some t ∧ t.data = none))
    (hld : ld = load_stream w.eng.tmp_vertices (fun _ => 0) poly.verts PL_STREAM_FLAT
      (add32 (and32 poly.n_verts 0xf) 1))
    (hbf : bf = PL_winding_order ld.dst (ld.dst.shift PL_STREAM_FLAT)
      (ld.dst.shift (mul32 PL_STREAM_FLAT 2)))
    (hc : c = if PL_frustum_test ld.lminz ld.lmaxz = PL_Z_OUTC_PART_NZ
      then PL_clip_poly_nz w.cs (fun _ => 0) ld.dst PL_STREAM_FLAT (and32 poly.n_verts 0xf).toNat
      else { dst := ld.dst, nverts := and32 poly.n_verts 0xf, cs := w.cs })
    (hproj : proj = PL_psp_project w.vp.PL_vp_cen_x w.vp.PL_vp_cen_y c.dst (fun _ => 0)
      PL_STREAM_FLAT (add32 c.nverts 1).toNat w.eng.PL_fov) :
    (e_render_polygon w poly).exit =
      (e_render_polygon { w with eng := { w.eng with PL_raster_mode := PL_FLAT } } poly).exit ∧
    (e_render_polygon w poly).w.gfx.bufs.PL_video_buffer =
      (e_render_polygon { w with eng := { w.eng with PL_raster_mode := PL_FLAT } }
        poly).w.gfx.bufs.PL_video_buffer ∧
    (e_render_polygon w poly).w.gfx.bufs.PL_depth_buffer =
      (e_render_polygon { w with eng := { w.eng with PL_raster_mode := PL_FLAT } }
        poly).w.gfx.bufs.PL_depth_buffer ∧
    (e_render_polygon w poly).w.gfx =
      (e_render_polygon { w with eng := { w.eng with PL_raster_mode := PL_FLAT } } poly).w.gfx ∧
    (e_render_polygon w poly).w.cs =
      (e_render_polygon { w with eng := { w.eng with PL_raster_mode := PL_FLAT } } poly).w.cs ∧
    (PL_frustum_test ld.lminz ld.lmaxz = PL_Z_OUTC_OUTSIDE ∨
        and32 (add32 bf 1) w.eng.PL_cull_mode ≠ 0 →
      (e_render_polygon w poly).w = w ∧
      (e_render_polygon { w with eng := { w.eng with PL_raster_mode := PL_FLAT } } poly).w =
        { w with eng := { w.eng with PL_raster_mode := PL_FLAT } }) ∧
    (PL_frustum_test ld.lminz ld.lmaxz ≠ PL_Z_OUTC_OUTSIDE →
      and32 (add32 bf 1) w.eng.PL_cull_mode = 0 →
      e_render_polygon w poly = ⟨Exit.drawn, { w with
        gfx := (PL_flat_poly w.vp c.cs w.gfx proj c.nverts.toNat poly.color).1
        cs := (PL_flat_poly w.vp c.cs w.gfx proj c.nverts.toNat poly.color).2 }⟩ ∧
      e_render_polygon { w with eng := { w.eng with PL_raster_mode := PL_FLAT } } poly =
        ⟨Exit.drawn, { w with
          eng := { w.eng with PL_raster_mode := PL_FLAT }
          gfx := (PL_flat_poly w.vp c.cs w.gfx proj c.nverts.toNat poly.color).1
          cs := (PL_flat_poly w.vp c.cs w.gfx proj c.nverts.toNat poly.color).2 }⟩) := by
  rw [hld] at hbf hc
  rw [hc] at hproj
  rw [hproj, hc, hbf, hld]
  have hs : raster_switch w.eng.PL_cur_tex w.eng.PL_raster_mode poly =
      some (PL_STREAM_FLAT, PL_FLAT, none) := by
    rw [hmode]
    exact raster_switch_no_texture _ _ hno
  have hs' : raster_switch
      ({ w with eng := { w.eng with PL_raster_mode := PL_FLAT } } : World).eng.PL_cur_tex
      ({ w with eng := { w.eng with PL_raster_mode := PL_FLAT } } : World).eng.PL_raster_mode
      poly = some (PL_STREAM_FLAT, PL_FLAT, none) :=
    raster_switch_flat _ _
  by_cases hout : PL_frustum_test
      (load_stream w.eng.tmp_vertices (fun _ => 0) poly.verts PL_STREAM_FLAT
        (add32 (and32 poly.n_verts 0xf) 1)).lminz
      (load_stream w.eng.tmp_vertices (fun _ => 0) poly.verts PL_STREAM_FLAT
        (add32 (and32 poly.n_verts 0xf) 1)).lmaxz = PL_Z_OUTC_OUTSIDE
  · rw [e_render_polygon_outside w poly _ _ _ hs hout,
      e_render_polygon_outside _ poly _ _ _ hs' hout]
    exact ⟨rfl, rfl, rfl, rfl, rfl, fun _ => ⟨rfl, rfl⟩, fun h => absurd hout h⟩
  · by_cases hcnd : and32 (add32 (PL_winding_order
        (load_stream w.eng.tmp_vertices (fun _ => 0) poly.verts PL_STREAM_FLAT
          (add32 (and32 poly.n_verts 0xf) 1)).dst
        ((load_stream w.eng.tmp_vertices (fun _ => 0) poly.verts PL_STREAM_FLAT
          (add32 (and32 poly.n_verts 0xf) 1)).dst.shift PL_STREAM_FLAT)
        ((load_stream w.eng.tmp_vertices (fun _ => 0) poly.verts PL_STREAM_FLAT
          (add32 (and32 poly.n_verts 0xf) 1)).dst.shift (mul32 PL_STREAM_FLAT 2))) 1)
        w.eng.PL_cull_mode ≠ 0
    · rw [e_render_polygon_culled w poly _ _ _ hs hout hcnd,
        e_render_polygon_culled _ poly _ _ _ hs' hout hcnd]
      exact ⟨rfl, rfl, rfl, rfl, rfl, fun _ => ⟨rfl, rfl⟩, fun _ h => absurd h hcnd⟩
    · have e := e_render_polygon_drawn w poly _ _ _ hs hout hcnd
      rw [e_render_polygon_draw_flat _ _ _ _ _ _ _ _ _ _ rfl] at e
      have e2 := e_render_polygon_drawn
        { w with eng := { w.eng with PL_raster_mode := PL_FLAT } } poly _ _ _ hs' hout hcnd
      rw [e_render_polygon_draw_flat _ _ _ _ _ _ _ _ _ _ rfl] at e2
      obtain ⟨a1, a2, a3, a4, a5⟩ := rendered_same_fill _ _ _ _ _ _ _ e e2
      refine ⟨a1, a2, a3, a4, a5, fun h => ?_, fun _ _ => ⟨e, e2⟩⟩
      rcases h with h | h
      · exact absurd h hout
      · exact absurd h hcnd

/-! ## Bit operations on non-negative patterns -/

theorem toU32_natCast (n : Nat) (h : n < 4294967296) : toU32 (n : Int) = n := by
  unfold toU32
  omega

/-- Masking with `2^n - 1` is the remainder modulo `2^n`, for negative values
too. -/
theorem and32_mask (x : Int) (n : Nat) (hn : n ≤ 31) :
    and32 x (2 ^ n - 1) = x % 2 ^ n := by
  have hp : (2 : Nat) ^ n ≤ 2 ^ 31 := Nat.pow_le_pow_right (by decide) hn
  have hp0 : 0 < (2 : Nat) ^ n := Nat.pow_pos (by decide)
  have hm : toU32 ((2 : Int) ^ n - 1) = 2 ^ n - 1 := by
    have e : ((2 : Int) ^ n - 1) = ((2 ^ n - 1 : Nat) : Int) := by
      rw [Nat.cast_sub hp0]
      norm_cast
    rw [e]
    exact toU32_natCast _ (by omega)
  have hl : Nat.land (toU32 x) (2 ^ n - 1) = toU32 x % 2 ^ n :=
    Nat.and_pow_two_sub_one_eq_mod _ n
  unfold and32
  rw [hm, hl]
  have hd : ((2 : Int) ^ n) ∣ 4294967296 := by
    have : (4294967296 : Int) = 2 ^ n * 2 ^ (32 - n) := by
      rw [← pow_add]
      have : n + (32 - n) = 32 := by omega
      rw [this]
      norm_num
    exact Dvd.intro _ this.symm
  have hv : (Int.ofNat (toU32 x % 2 ^ n)) = x % 2 ^ n := by
    unfold toU32
    have h0 : 0 ≤ x % 4294967296 := Int.emod_nonneg _ (by decide)
    show ((((x % 4294967296).toNat % 2 ^ n : Nat)) : Int) = x % 2 ^ n
    rw [Int.natCast_mod, Int.toNat_of_nonneg h0]
    have e : ((2 ^ n : Nat) : Int) = (2 : Int) ^ n := by norm_cast
    rw [e, Int.emod_emod_of_dvd _ hd]
  rw [hv]
  have hpz : (0 : Int) < 2 ^ n := by positivity
  have h1 : 0 ≤ x % 2 ^ n := Int.emod_nonneg _ (ne_of_gt hpz)
  have h2 : x % 2 ^ n < 2 ^ n := Int.emod_lt_of_pos _ hpz
  have h3 : ((2 : Int) ^ n) ≤ 2 ^ 31 := by exact_mod_cast hp
  exact wrap32_eq_self (by omega) (by norm_num at h3; omega)

/-- Or-ing a value below `2^i` into a multiple of `2^i` adds it. -/
theorem or32_disjoint (a c : Int) (i : Nat) (ha : 0 ≤ a) (hc : 0 ≤ c) (hci : c < 2 ^ i)
    (hs : a * 2 ^ i + c < 2147483648) :
    or32 (a * 2 ^ i) c = a * 2 ^ i + c := by
  obtain ⟨A, rfl⟩ := Int.eq_ofNat_of_zero_le ha
  obtain ⟨C, rfl⟩ := Int.eq_ofNat_of_zero_le hc
  have hC : C < 2 ^ i := by exact_mod_cast hci
  have hS : A * 2 ^ i + C < 2147483648 := by exact_mod_cast hs
  have e1 : ((A : Int) * 2 ^ i) = ((A * 2 ^ i : Nat) : Int) := by norm_cast
  unfold or32
  rw [e1, toU32_natCast _ (by omega), toU32_natCast _ (by omega)]
  have hl : Nat.lor (A * 2 ^ i) C = A * 2 ^ i + C := by
    have h := Nat.mul_add_lt_is_or hC A
    rw [Nat.mul_comm] at h
    exact h.symm
  rw [hl]
  have e2 : Int.ofNat (A * 2 ^ i + C) = ((A * 2 ^ i : Nat) : Int) + (C : Int) := by
    show ((A * 2 ^ i + C : Nat) : Int) = _
    norm_cast
  rw [e2]
  have hS' : ((A * 2 ^ i : Nat) : Int) + (C : Int) < 2147483648 := by exact_mod_cast hS
  have h0 : (0 : Int) ≤ ((A * 2 ^ i : Nat) : Int) + (C : Int) := by positivity
  exact wrap32_eq_self (by omega) hS'

/-! ## Flat-fill shading -/

theorem shade_eq (sz : Int) (h : 0 < sz ∧ sz < 2147483648) :
    shade sz = shr32 sz 20 * 3 / 2 ∧ 0 ≤ shade sz ∧ shade sz ≤ 3070 := by
  have p20 : (2 : Int) ^ 20 = 1048576 := by norm_num
  unfold shade div32 mul32 shr32
  rw [p20]
  have w1 : wrap32 (sz / 1048576 * 3) = sz / 1048576 * 3 := wrap32_eq_self (by omega) (by omega)
  rw [w1, tdiv_nonneg_eq _ _ (by omega) (by decide)]
  have w2 : wrap32 (sz / 1048576 * 3 / 2) = sz / 1048576 * 3 / 2 :=
    wrap32_eq_self (by omega) (by omega)
  rw [w2]
  omega

/-- An entry of the table `mul8` as `PL_init` computes it: the cast to
`unsigned char` does not truncate. -/
theorem mul8_entry (d c : Int) (hd : 0 ≤ d ∧ d < 256) (hc : 0 ≤ c ∧ c < 256) :
    shr32 (mul32 d c) 8 % 256 = d * c / 256 ∧ 0 ≤ d * c / 256 ∧ d * c / 256 ≤ c ∧
      d * c / 256 < 256 := by
  have h0 : 0 ≤ d * c := mul_nonneg hd.1 hc.1
  have h1 : d * c ≤ 255 * c := Int.mul_le_mul_of_nonneg_right (by omega) hc.1
  have p8 : (2 : Int) ^ 8 = 256 := by norm_num
  unfold shr32 mul32
  rw [p8, wrap32_eq_self (by omega) (by omega)]
  omega

theorem init_mul8 (w w1 : World) (video : Mem) (hres vres : Int)
    (hinit : PL_init w video hres vres true = .ok w1) :
    w1.gfx.mul8 = mul8_init w.gfx.mul8 := by
  have h : PL_init w video hres vres true = .ok
      { w with
        vp := PL_set_viewport w.vp hres vres 0 0 (sub32 hres 1) (sub32 vres 1) 1
        gfx :=
          { w.gfx with
            PL_hres := hres
            PL_vres := vres
            PL_hres_h := shr32 hres 1
            PL_vres_h := shr32 vres 1
            bufs := { PL_video_buffer := video, PL_depth_buffer := fun _ => 0 }
            mul8 := mul8_init w.gfx.mul8
            xLc := fun i => if 0 ≤ i ∧ i < vres then INT_MAX else w.gfx.xLc i
            xRc := fun i => if 0 ≤ i ∧ i < vres then INT_MIN else w.gfx.xRc i }
        math := PL_init_trig w.math } := rfl
  rw [h] at hinit
  cases hinit
  rfl

theorem mul8_init_entry (old : Int → Int → Int) (d c : Int) (hd : 0 ≤ d ∧ d < 256)
    (hc : 0 ≤ c ∧ c < 256) :
    mul8_init old d c = d * c / 256 := by
  unfold mul8_init
  rw [if_pos ⟨hd.1, hd.2, hc.1, hc.2⟩]
  exact (mul8_entry d c hd hc).1

theorem rgb_channels (R G B : Int) (hR : 0 ≤ R ∧ R < 256) (hG : 0 ≤ G ∧ G < 256)
    (hB : 0 ≤ B ∧ B < 256) :
    and32 (shr32 (R * 65536 + G * 256 + B) 16) 0xff = R ∧
    and32 (shr32 (R * 65536 + G * 256 + B) 8) 0xff = G ∧
    and32 (shr32 (R * 65536 + G * 256 + B) 0) 0xff = B := by
  have hm : (0xff : Int) = 2 ^ 8 - 1 := by norm_num
  have p8 : (2 : Int) ^ 8 = 256 := by norm_num
  have p16 : (2 : Int) ^ 16 = 65536 := by norm_num
  have p0 : (2 : Int) ^ 0 = 1 := by norm_num
  rw [hm, and32_mask _ 8 (by decide), and32_mask _ 8 (by decide), and32_mask _ 8 (by decide)]
  unfold shr32
  rw [p8, p16, p0]
  omega

theorem pack_channels (a b c : Int) (ha : 0 ≤ a ∧ a < 256) (hb : 0 ≤ b ∧ b < 256)
    (hc : 0 ≤ c ∧ c < 256) :
    or32 (or32 (shl32 a 16) (shl32 b 8)) c = a * 65536 + b * 256 + c := by
  have p8 : (2 : Int) ^ 8 = 256 := by norm_num
  have p16 : (2 : Int) ^ 16 = 65536 := by norm_num
  have s1 : shl32 a 16 = a * 2 ^ 16 := wrap32_eq_self (by omega) (by omega)
  have s2 : shl32 b 8 = b * 256 := by
    unfold shl32
    rw [p8]
    exact wrap32_eq_self (by omega) (by omega)
  rw [s1, s2, or32_disjoint a (b * 256) 16 (by omega) (by omega) (by omega) (by omega)]
  have e : a * 2 ^ 16 + b * 256 = (a * 256 + b) * 2 ^ 8 := by
    rw [p16, p8]
    ring
  rw [e, or32_disjoint (a * 256 + b) c 8 (by omega) (by omega) (by omega) (by omega), p8]
  ring

/-- C19: with the table `mul8` as `PL_init` fills it, a pixel that
`PL_flat_poly` draws (the depth test passes) with interpolated depth `sz > 0`
and base colour `rgb = 0x00RRGGBB` gets depth `sz`; with
`d = ((sz >> 20) * 3) / 2`, if `d >= 256` its colour is `rgb` unchanged,
otherwise each table entry `mul8[d][c]` is `floor(d*c/256)` exactly (below 256,
so the cast to 8 bits truncates nothing, and at most `c`) and the colour is
`(floor(d*R/256) << 16) | (floor(d*G/256) << 8) | floor(d*B/256)`, the three
attenuated channels packed side by side. -/
theorem flat_fill_shading (old : Int → Int → Int) (b : Bufs) (p sz R G B : Int)
    (hsz : 0 < sz ∧ sz < 2147483648)
    (hR : 0 ≤ R ∧ R < 256) (hG : 0 ≤ G ∧ G < 256) (hB : 0 ≤ B ∧ B < 256)
    (hdraw : b.PL_depth_buffer p < sz) :
    shade sz = shr32 sz 20 * 3 / 2 ∧
    (flat_pixel (mul8_init old) (R * 65536 + G * 256 + B) b p sz).PL_depth_buffer p = sz ∧
    (shade sz ≥ 256 →
      (flat_pixel (mul8_init old) (R * 65536 + G * 256 + B) b p sz).PL_video_buffer p =
        R * 65536 + G * 256 + B) ∧
    (shade sz < 256 →
      (mul8_init old (shade sz) R = shade sz * R / 256 ∧
        mul8_init old (shade sz) G = shade sz * G / 256 ∧
        mul8_init old (shade sz) B = shade sz * B / 256) ∧
      (shade sz * R / 256 ≤ R ∧ shade sz * G / 256 ≤ G ∧ shade sz * B / 256 ≤ B) ∧
      (shade sz * R / 256 < 256 ∧ shade sz * G / 256 < 256 ∧ shade sz * B / 256 < 256) ∧
      (flat_pixel (mul8_init old) (R * 65536 + G * 256 + B) b p sz).PL_video_buffer p =
        or32 (or32 (shl32 (shade sz * R / 256) 16) (shl32 (shade sz * G / 256) 8))
          (shade sz * B / 256) ∧
      (flat_pixel (mul8_init old) (R * 65536 + G * 256 + B) b p sz).PL_video_buffer p =
        shade sz * R / 256 * 65536 + shade sz * G / 256 * 256 + shade sz * B / 256) := by
  obtain ⟨hs, hs0, _⟩ := shade_eq sz hsz
  obtain ⟨c16, c8, c0⟩ := rgb_channels R G B hR hG hB
  have hpix : flat_pixel (mul8_init old) (R * 65536 + G * 256 + B) b p sz =
      { PL_depth_buffer := b.PL_depth_buffer.write p sz
        PL_video_buffer := b.PL_video_buffer.write p
          (if shade sz ≥ 256 then R * 65536 + G * 256 + B
           else or32 (or32 (shl32 (mul8_init old (shade sz) R) 16)
             (shl32 (mul8_init old (shade sz) G) 8)) (mul8_init old (shade sz) B)) } := by
    unfold flat_pixel
    simp only [c16, c8, c0]
    rw [if_pos hdraw]
  rw [hpix]
  refine ⟨hs, write_same _ _ _, ?_, ?_⟩
  · intro hd
    show (b.PL_video_buffer.write p _) p = _
    rw [write_same, if_pos hd]
  · intro hd
    have hdr : 0 ≤ shade sz ∧ shade sz < 256 := ⟨hs0, hd⟩
    have eR := mul8_init_entry old (shade sz) R hdr hR
    have eG := mul8_init_entry old (shade sz) G hdr hG
    have eB := mul8_init_entry old (shade sz) B hdr hB
    obtain ⟨_, r0, r1, r2⟩ := mul8_entry (shade sz) R hdr hR
    obtain ⟨_, g0, g1, g2⟩ := mul8_entry (shade sz) G hdr hG
    obtain ⟨_, b0, b1, b2⟩ := mul8_entry (shade sz) B hdr hB
    have hv : (b.PL_video_buffer.write p
        (if shade sz ≥ 256 then R * 65536 + G * 256 + B
         else or32 (or32 (shl32 (mul8_init old (shade sz) R) 16)
           (shl32 (mul8_init old (shade sz) G) 8)) (mul8_init old (shade sz) B))) p =
        or32 (or32 (shl32 (shade sz * R / 256) 16) (shl32 (shade sz * G / 256) 8))
          (shade sz * B / 256) := by
      rw [write_same, if_neg (by omega), eR, eG, eB]
    refine ⟨⟨eR, eG, eB⟩, ⟨r1, g1, b1⟩, ⟨r2, g2, b2⟩, hv, ?_⟩
    exact hv.trans (pack_channels _ _ _ ⟨r0, r2⟩ ⟨g0, g2⟩ ⟨b0, b2⟩)

theorem flat_fill_shading_witness :
    (flat_pixel (mul8_init (fun _ _ => 0)) (200 * 65536 + 100 * 256 + 50)
      ⟨fun _ => 0, fun _ => 0⟩ 7 100000000).PL_depth_buffer 7 = 100000000 :=
  (flat_fill_shading (fun _ _ => 0) ⟨fun _ => 0, fun _ => 0⟩ 7 100000000 200 100 50
    (by decide) (by decide) (by decide) (by decide) (by decide)).2.1

/-! ## Texture addressing -/

theorem or32_comm (a b : Int) : or32 a b = or32 b a := by
  unfold or32
  have h : Nat.lor (toU32 a) (toU32 b) = Nat.lor (toU32 b) (toU32 a) := Nat.lor_comm _ _
  rw [h]

theorem txmsk_coord (s : Int) :
    shr32 (and32 s TXMSK) PL_TP = s / 2 ^ 12 % 128 ∧
    0 ≤ s / 2 ^ 12 % 128 ∧ s / 2 ^ 12 % 128 < 128 := by
  have hm : TXMSK = 2 ^ 19 - 1 := by decide
  have p19 : (2 : Int) ^ 19 = 524288 := by norm_num
  have p12 : (2 : Int) ^ 12 = 4096 := by norm_num
  rw [hm, and32_mask _ 19 (by decide)]
  unfold shr32 PL_TP
  rw [p19, p12]
  omega

/-- The texel index formed from two masked accumulators. -/
theorem texel_index_eq (su sv : Int) :
    or32 (shr32 (and32 su TXMSK) PL_TP) (shl32 (shr32 (and32 sv TXMSK) PL_TP) TXSH) =
      su / 2 ^ 12 % 128 + 128 * (sv / 2 ^ 12 % 128) ∧
    0 ≤ su / 2 ^ 12 % 128 + 128 * (sv / 2 ^ 12 % 128) ∧
    su / 2 ^ 12 % 128 + 128 * (sv / 2 ^ 12 % 128) ≤ 16383 := by
  obtain ⟨eu, u0, u1⟩ := txmsk_coord su
  obtain ⟨ev, v0, v1⟩ := txmsk_coord sv
  have p7 : (2 : Int) ^ 7 = 128 := by norm_num
  refine ⟨?_, by omega, by omega⟩
  rw [eu, ev]
  have s1 : shl32 (sv / 2 ^ 12 % 128) TXSH = sv / 2 ^ 12 % 128 * 2 ^ 7 := by
    unfold shl32 TXSH PL_REQ_TEX_LOG_DIM
    exact wrap32_eq_self (by omega) (by omega)
  rw [s1, or32_comm, or32_disjoint _ _ 7 v0 u0 (by omega) (by omega), p7]
  ring

/-- One trip of the span loop of `PL_lintx_poly` whose depth test passes. -/
theorem lintx_span_step_hit (mul8 : Int → Int → Int) (texels : Mem) (dz du dv : Int)
    (s : TexSpan) (hit : s.b.PL_depth_buffer s.p < s.sz) :
    lintx_span_step mul8 texels dz du dv s =
      { b := lintx_pixel mul8 texels s.b s.p s.sz (and32 s.su TXMSK) (and32 s.sv TXMSK)
        p := s.p + 1
        sz := add32 s.sz dz
        su := add32 (and32 s.su TXMSK) du
        sv := add32 (and32 s.sv TXMSK) dv } := by
  unfold lintx_span_step
  simp only [hit, decide_True, if_true]

/-- One trip of the span loop of `PL_lintx_poly` whose depth test fails. -/
theorem lintx_span_step_miss (mul8 : Int → Int → Int) (texels : Mem) (dz du dv : Int)
    (s : TexSpan) (hit : ¬ (s.b.PL_depth_buffer s.p < s.sz)) :
    lintx_span_step mul8 texels dz du dv s =
      { b := s.b
        p := s.p + 1
        sz := add32 s.sz dz
        su := add32 s.su du
        sv := add32 s.sv dv } := by
  unfold lintx_span_step
  simp only [hit, decide_False, if_false, Bool.false_eq_true]

/-- The pixel store of `PL_lintx_poly` at masked accumulators reads the texture
at the index of `texel_index_eq` only. -/
theorem lintx_pixel_texel (mul8 : Int → Int → Int) (texels : Mem) (b : Bufs)
    (p sz su sv : Int) :
    lintx_pixel mul8 texels b p sz (and32 su TXMSK) (and32 sv TXMSK) =
      { PL_depth_buffer := b.PL_depth_buffer.write p sz
        PL_video_buffer := b.PL_video_buffer.write p
          (if shade sz ≥ 256 then texels (su / 2 ^ 12 % 128 + 128 * (sv / 2 ^ 12 % 128))
           else
            or32 (or32
              (shl32 (mul8 (shade sz) (and32 (shr32
                (texels (su / 2 ^ 12 % 128 + 128 * (sv / 2 ^ 12 % 128))) 16) 0xff)) 16)
              (shl32 (mul8 (shade sz) (and32 (shr32
                (texels (su / 2 ^ 12 % 128 + 128 * (sv / 2 ^ 12 % 128))) 8) 0xff)) 8))
              (shl32 (mul8 (shade sz) (and32 (shr32
                (texels (su / 2 ^ 12 % 128 + 128 * (sv / 2 ^ 12 % 128))) 0) 0xff)) 0)) } := by
  unfold lintx_pixel
  simp only [(texel_index_eq su sv).1]

/-- A trip of the span loop of `PL_lintx_poly` does not depend on the texture
outside the indices `0..16383`. -/
theorem lintx_span_step_texels (mul8 : Int → Int → Int) (texels texels' : Mem)
    (h : ∀ i, 0 ≤ i → i ≤ 16383 → texels' i = texels i) (dz du dv : Int) :
    lintx_span_step mul8 texels' dz du dv = lintx_span_step mul8 texels dz du dv := by
  funext s
  by_cases hit : s.b.PL_depth_buffer s.p < s.sz
  · obtain ⟨-, i0, i1⟩ := texel_index_eq s.su s.sv
    rw [lintx_span_step_hit _ _ _ _ _ s hit, lintx_span_step_hit _ _ _ _ _ s hit,
      lintx_pixel_texel, lintx_pixel_texel, h _ i0 i1]
  · rw [lintx_span_step_miss _ _ _ _ _ s hit, lintx_span_step_miss _ _ _ _ _ s hit]

/-- The function `PL_lintx_poly` does not depend on the texture outside the
indices `0..16383`. -/
theorem lintx_poly_texels (vp : Viewport) (cs : ClipStatics) (g : GfxState) (stream : Mem)
    (len : Nat) (texels texels' : Mem) (h : ∀ i, 0 ≤ i → i ≤ 16383 → texels' i = texels i) :
    PL_lintx_poly vp cs g stream len texels' = PL_lintx_poly vp cs g stream len texels := by
  have hrow : ∀ (hres : Int) (sc : Scan),
      lintx_row hres sc g.mul8 texels' = lintx_row hres sc g.mul8 texels := by
    intro hres sc
    funext r
    unfold lintx_row
    simp only [lintx_span_step_texels g.mul8 texels texels' h]
  unfold PL_lintx_poly
  simp only [hrow]

/-- C20: in a trip of the span loop of `PL_lintx_poly` whose depth test passes,
for all accumulators `su` and `sv`, negative ones too, the index formed after
the masking, `((su & TXMSK) >> PL_TP) | (((sv & TXMSK) >> PL_TP) <<
PL_REQ_TEX_LOG_DIM)`, is `(floor(su / 2^12) mod 128) + 128 * (floor(sv / 2^12)
mod 128)` and lies in `[0, 16383]`; the trip stores the depth `sz` and a colour
made from the texel at that index (the texel itself when the shade is 256 or
more, its three channels attenuated through `mul8` otherwise), changes no other
pixel, and depends on the texture at that index only. Hence `PL_lintx_poly`
does not depend on the texture outside the indices `0..16383`. -/
theorem texel_index_in_bounds (mul8 : Int → Int → Int) (texels : Mem) (dz du dv : Int)
    (s : TexSpan) (hit : s.b.PL_depth_buffer s.p < s.sz) :
    or32 (shr32 (and32 s.su TXMSK) PL_TP)
        (shl32 (shr32 (and32 s.sv TXMSK) PL_TP) PL_REQ_TEX_LOG_DIM) =
      s.su / 2 ^ 12 % 128 + 128 * (s.sv / 2 ^ 12 % 128) ∧
    0 ≤ s.su / 2 ^ 12 % 128 + 128 * (s.sv / 2 ^ 12 % 128) ∧
    s.su / 2 ^ 12 % 128 + 128 * (s.sv / 2 ^ 12 % 128) ≤ 16383 ∧
    s.su / 2 ^ 12 % 128 + 128 * (s.sv / 2 ^ 12 % 128) ≤ PL_REQ_TEX_DIM * PL_REQ_TEX_DIM - 1 ∧
    (lintx_span_step mul8 texels dz du dv s).b.PL_depth_buffer s.p = s.sz ∧
    (shade s.sz ≥ 256 →
      (lintx_span_step mul8 texels dz du dv s).b.PL_video_buffer s.p =
        texels (s.su / 2 ^ 12 % 128 + 128 * (s.sv / 2 ^ 12 % 128))) ∧
    (shade s.sz < 256 →
      (lintx_span_step mul8 texels dz du dv s).b.PL_video_buffer s.p =
        or32 (or32
          (shl32 (mul8 (shade s.sz) (and32 (shr32
            (texels (s.su / 2 ^ 12 % 128 + 128 * (s.sv / 2 ^ 12 % 128))) 16) 0xff)) 16)
          (shl32 (mul8 (shade s.sz) (and32 (shr32
            (texels (s.su / 2 ^ 12 % 128 + 128 * (s.sv / 2 ^ 12 % 128))) 8) 0xff)) 8))
          (shl32 (mul8 (shade s.sz) (and32 (shr32
            (texels (s.su / 2 ^ 12 % 128 + 128 * (s.sv / 2 ^ 12 % 128))) 0) 0xff)) 0)) ∧
    (∀ q, q ≠ s.p →
      (lintx_span_step mul8 texels dz du dv s).b.PL_video_buffer q = s.b.PL_video_buffer q ∧
      (lintx_span_step mul8 texels dz du dv s).b.PL_depth_buffer q = s.b.PL_depth_buffer q) ∧
    (∀ texels' : Mem,
      texels' (s.su / 2 ^ 12 % 128 + 128 * (s.sv / 2 ^ 12 % 128)) =
        texels (s.su / 2 ^ 12 % 128 + 128 * (s.sv / 2 ^ 12 % 128)) →
      lintx_span_step mul8 texels' dz du dv s = lintx_span_step mul8 texels dz du dv s) ∧
    (∀ (vp : Viewport) (cs : ClipStatics) (g : GfxState) (stream : Mem) (len : Nat)
        (texels' : Mem), (∀ i, 0 ≤ i → i ≤ 16383 → texels' i = texels i) →
      PL_lintx_poly vp cs g stream len texels' = PL_lintx_poly vp cs g stream len texels) := by
  obtain ⟨hidx, i0, i1⟩ := texel_index_eq s.su s.sv
  have hd : PL_REQ_TEX_DIM * PL_REQ_TEX_DIM - 1 = 16383 := by decide
  have hstep := lintx_span_step_hit mul8 texels dz du dv s hit
  rw [lintx_pixel_texel] at hstep
  refine ⟨hidx, i0, i1, by rw [hd]; exact i1, ?_, ?_, ?_, ?_, ?_, ?_⟩
  · rw [hstep]
    exact write_same _ _ _
  · intro hs
    rw [hstep]
    show (s.b.PL_video_buffer.write s.p _) s.p = _
    rw [write_same, if_pos hs]
  · intro hs
    rw [hstep]
    show (s.b.PL_video_buffer.write s.p _) s.p = _
    rw [write_same, if_neg (by omega)]
  · intro q hq
    rw [hstep]
    exact ⟨write_other _ _ _ _ hq, write_other _ _ _ _ hq⟩
  · intro texels' h
    rw [lintx_span_step_hit mul8 texels' dz du dv s hit, lintx_span_step_hit mul8 texels dz du dv s hit,
      lintx_pixel_texel, lintx_pixel_texel, h]
  · intro vp cs g stream len texels' h
    exact lintx_poly_texels vp cs g stream len texels texels' h

theorem texel_index_in_bounds_witness :
    (lintx_span_step (fun _ _ => 0) (fun i => i) 0 0 0
      ⟨⟨fun _ => 0, fun _ => 0⟩, 5, 209715200, -1, -4097⟩).b.PL_video_buffer 5 =
      (-1 : Int) / 2 ^ 12 % 128 + 128 * ((-4097 : Int) / 2 ^ 12 % 128) ∧
    (-1 : Int) / 2 ^ 12 % 128 + 128 * ((-4097 : Int) / 2 ^ 12 % 128) = 16255 :=
  ⟨(texel_index_in_bounds (fun _ _ => 0) (fun i => i) 0 0 0
    ⟨⟨fun _ => 0, fun _ => 0⟩, 5, 209715200, -1, -4097⟩ (by decide)).2.2.2.2.2.1 (by decide),
    by decide⟩

/-! ## Rasterising twice: the scan conversion -/

theorem forN_congr {σ : Type} (n : Nat) (body body' : Int → σ → σ) (s : σ)
    (h : ∀ i : Nat, i < n → ∀ s, body i s = body' i s) : forN n body s = forN n body' s := by
  induction n with
  | zero => rfl
  | succ n ih =>
    rw [forN_succ, forN_succ, ih (fun i hi => h i (Nat.lt_succ_of_lt hi)), h n (Nat.lt_succ_self n)]

/-- Within the record length, what `doclip` writes does not depend on the
previous contents of the output buffer. -/
theorem doclip_indep (L R out out' : Mem) (len bound comp : Int) (hc : comp = 0 ∨ comp = 1)
    (hlen : 3 ≤ len) (t : Int) (ht : 0 ≤ t ∧ t < len) :
    doclip L R out len bound comp (b2i (comp == 0)) t =
      doclip L R out' len bound comp (b2i (comp == 0)) t := by
  have hoc : b2i (comp == 0) = 1 - comp := by
    rcases hc with h | h <;> subst h <;> decide
  unfold doclip
  rw [hoc]
  by_cases h1 : t = 1 - comp
  · subst h1
    rw [write_same, write_same]
  · rw [write_other _ _ _ _ h1, write_other _ _ _ _ h1]
    by_cases h2 : t = comp
    · subst h2
      rw [write_same, write_same]
    · rw [write_other _ _ _ _ h2, write_other _ _ _ _ h2]
      by_cases h3 : t = 2
      · subst h3
        rw [write_same, write_same]
      · rw [write_other _ _ _ _ h3, write_other _ _ _ _ h3]
        have ht3 : 3 ≤ t := by omega
        obtain ⟨k, hk⟩ := Int.eq_ofNat_of_zero_le (show 0 ≤ t - 3 by omega)
        have hkn : k < (len - 3).toNat := by omega
        have hinj : ∀ j : Nat, j < (len - 3).toNat → j ≠ k →
            (fun i : Int => 3 + i) (j : Int) ≠ (fun i : Int => 3 + i) (k : Int) := by
          intro j _ hj h
          simp only at h
          omega
        have e : t = (fun i : Int => 3 + i) (k : Int) := by
          simp only
          omega
        rw [e]
        exact (forN_write_at (len - 3).toNat (fun i => 3 + i)
          (fun i => add32 (L (3 + i)) (mul32 (doclip_f L R bound comp)
            (shr32 (sub32 (R (3 + i)) (L (3 + i))) HH_P))) out k hkn hinj).trans
          (forN_write_at (len - 3).toNat (fun i => 3 + i)
          (fun i => add32 (L (3 + i)) (mul32 (doclip_f L R bound comp)
            (shr32 (sub32 (R (3 + i)) (L (3 + i))) HH_P))) out' k hkn hinj).symm

/-- The return value of `lclip2`, and its two records within the record
length, do not depend on the static buffers. -/
theorem lclip2_indep (cs cs' : ClipStatics) (v0 v1 : Mem) (len min max comp : Int)
    (hc : comp = 0 ∨ comp = 1) (hlen : 3 ≤ len) :
    (lclip2 cs v0 v1 len min max comp).ret = (lclip2 cs' v0 v1 len min max comp).ret ∧
    ∀ t, 0 ≤ t → t < len →
      (lclip2 cs v0 v1 len min max comp).v0 t = (lclip2 cs' v0 v1 len min max comp).v0 t ∧
      (lclip2 cs v0 v1 len min max comp).v1 t = (lclip2 cs' v0 v1 len min max comp).v1 t := by
  by_cases hio : v0 comp < v1 comp
  · by_cases hg : v0 comp ≥ max ∨ v1 comp ≤ min
    · have e : ∀ c : ClipStatics, lclip2 c v0 v1 len min max comp = ⟨PL_NC, v0, v1, c⟩ := by
        intro c
        unfold lclip2
        simp only [hio, decide_True, if_true]
        rw [if_pos hg]
      rw [e cs, e cs']
      exact ⟨rfl, fun t _ _ => ⟨rfl, rfl⟩⟩
    · rw [lclip2_inorder cs v0 v1 len min max comp hio hg,
        lclip2_inorder cs' v0 v1 len min max comp hio hg]
      refine ⟨rfl, fun t h0 h1 => ⟨?_, ?_⟩⟩
      · show (if v0 comp ≤ min then _ else _ : Mem) t = (if v0 comp ≤ min then _ else _ : Mem) t
        by_cases c : v0 comp ≤ min
        · rw [if_pos c, if_pos c]
          exact doclip_indep _ _ _ _ _ _ _ hc hlen t ⟨h0, h1⟩
        · rw [if_neg c, if_neg c]
      · show (if v1 comp ≥ max then _ else _ : Mem) t = (if v1 comp ≥ max then _ else _ : Mem) t
        by_cases c : v1 comp ≥ max
        · rw [if_pos c, if_pos c]
          exact doclip_indep _ _ _ _ _ _ _ hc hlen t ⟨h0, h1⟩
        · rw [if_neg c, if_neg c]
  · by_cases hg : v1 comp ≥ max ∨ v0 comp ≤ min
    · have e : ∀ c : ClipStatics, lclip2 c v0 v1 len min max comp = ⟨PL_NC, v0, v1, c⟩ := by
        intro c
        unfold lclip2
        simp only [hio, decide_False, Bool.false_eq_true, if_false]
        rw [if_pos hg]
      rw [e cs, e cs']
      exact ⟨rfl, fun t _ _ => ⟨rfl, rfl⟩⟩
    · rw [lclip2_outorder cs v0 v1 len min max comp hio hg,
        lclip2_outorder cs' v0 v1 len min max comp hio hg]
      refine ⟨rfl, fun t h0 h1 => ⟨?_, ?_⟩⟩
      · show (if v0 comp ≥ max then _ else _ : Mem) t = (if v0 comp ≥ max then _ else _ : Mem) t
        by_cases c : v0 comp ≥ max
        · rw [if_pos c, if_pos c]
          exact doclip_indep _ _ _ _ _ _ _ hc hlen t ⟨h0, h1⟩
        · rw [if_neg c, if_neg c]
      · show (if v1 comp ≤ min then _ else _ : Mem) t = (if v1 comp ≤ min then _ else _ : Mem) t
        by_cases c : v1 comp ≤ min
        · rw [if_pos c, if_pos c]
          exact doclip_indep _ _ _ _ _ _ _ hc hlen t ⟨h0, h1⟩
        · rw [if_neg c, if_neg c]

theorem memcpy_congr (dst : Mem) (off : Int) (u w : Mem) (len : Int)
    (h : ∀ t, 0 ≤ t → t < len → u t = w t) : memcpy dst off u len = memcpy dst off w len := by
  funext j
  unfold memcpy
  by_cases c : off ≤ j ∧ j < off + len
  · rw [if_pos c, if_pos c]
    exact h _ (by omega) (by omega)
  · rw [if_neg c, if_neg c]

/-- The output of the x or y polygon clip does not depend on the static buffers. -/
theorem pclip2_indep (cs cs' : ClipStatics) (dst src : Mem) (len min max comp : Int) (num : Nat)
    (hc : comp = 0 ∨ comp = 1) (hlen : 3 ≤ len) :
    (pclip cs dst src len num (fun cs v0 v1 len mn mx => lclip2 cs v0 v1 len mn mx comp)
      min max).dst =
    (pclip cs' dst src len num (fun cs v0 v1 len mn mx => lclip2 cs v0 v1 len mn mx comp)
      min max).dst ∧
    (pclip cs dst src len num (fun cs v0 v1 len mn mx => lclip2 cs v0 v1 len mn mx comp)
      min max).nverts =
    (pclip cs' dst src len num (fun cs v0 v1 len mn mx => lclip2 cs v0 v1 len mn mx comp)
      min max).nverts := by
  have loop : ∀ n : Nat,
      (forN n (pclip_body (fun cs v0 v1 len mn mx => lclip2 cs v0 v1 len mn mx comp) src len
        min max) { dst := dst, nverts := 0, cs := cs }).dst =
      (forN n (pclip_body (fun cs v0 v1 len mn mx => lclip2 cs v0 v1 len mn mx comp) src len
        min max) { dst := dst, nverts := 0, cs := cs' }).dst ∧
      (forN n (pclip_body (fun cs v0 v1 len mn mx => lclip2 cs v0 v1 len mn mx comp) src len
        min max) { dst := dst, nverts := 0, cs := cs }).nverts =
      (forN n (pclip_body (fun cs v0 v1 len mn mx => lclip2 cs v0 v1 len mn mx comp) src len
        min max) { dst := dst, nverts := 0, cs := cs' }).nverts := by
    intro n
    induction n with
    | zero => exact ⟨rfl, rfl⟩
    | succ n ih =>
      rw [forN_succ, forN_succ]
      generalize forN n (pclip_body (fun cs v0 v1 len mn mx => lclip2 cs v0 v1 len mn mx comp)
        src len min max) { dst := dst, nverts := 0, cs := cs } = st at ih ⊢
      generalize forN n (pclip_body (fun cs v0 v1 len mn mx => lclip2 cs v0 v1 len mn mx comp)
        src len min max) { dst := dst, nverts := 0, cs := cs' } = st' at ih ⊢
      obtain ⟨hd, hn⟩ := ih
      obtain ⟨hret, hv⟩ := lclip2_indep st.cs st'.cs (src.shift ((n : Int) * len))
        (src.shift (((n : Int) + 1) * len)) len min max comp hc hlen
      have hv0 := fun t h0 h1 => (hv t h0 h1).1
      have hv1 := fun t h0 h1 => (hv t h0 h1).2
      by_cases c0 : (lclip2 st.cs (src.shift ((n : Int) * len))
          (src.shift (((n : Int) + 1) * len)) len min max comp).ret = PL_NC
      · rw [pclip_body_nc _ _ _ _ _ _ _ c0, pclip_body_nc _ _ _ _ _ _ _ (hret ▸ c0)]
        exact ⟨hd, hn⟩
      · by_cases c1 : (lclip2 st.cs (src.shift ((n : Int) * len))
            (src.shift (((n : Int) + 1) * len)) len min max comp).ret = 1
        · rw [pclip_body_two _ _ _ _ _ _ _ c1, pclip_body_two _ _ _ _ _ _ _ (hret ▸ c1)]
          refine ⟨?_, by show st.nverts + 2 = st'.nverts + 2; rw [hn]⟩
          show memcpy (memcpy st.dst _ _ _) _ _ _ = memcpy (memcpy st'.dst _ _ _) _ _ _
          rw [hd, hn, memcpy_congr _ _ _ _ _ hv0, memcpy_congr _ _ _ _ _ hv1]
        · rw [pclip_body_one _ _ _ _ _ _ _ c0 c1,
            pclip_body_one _ _ _ _ _ _ _ (hret ▸ c0) (hret ▸ c1)]
          refine ⟨?_, by show st.nverts + 1 = st'.nverts + 1; rw [hn]⟩
          show memcpy st.dst _ _ _ = memcpy st'.dst _ _ _
          rw [hd, hn, memcpy_congr _ _ _ _ _ hv1]
  obtain ⟨hd, hn⟩ := loop num
  unfold pclip
  exact ⟨by show memcpy _ _ _ _ = memcpy _ _ _ _; rw [hd, hn], hn⟩

theorem sameStores_init (A0 B0 : Mem) : SameStores A0 B0 A0 B0 :=
  fun _ => Or.inr ⟨rfl, rfl⟩

theorem sameStores_write (A0 B0 A B : Mem) (i v : Int) (h : SameStores A0 B0 A B) :
    SameStores A0 B0 (A.write i v) (B.write i v) := by
  intro j
  by_cases e : j = i
  · subst e
    left
    rw [write_same, write_same]
  · rw [write_other _ _ _ _ e, write_other _ _ _ _ e]
    exact h j

theorem sameStores_attr_store (A0 B0 A B : Mem) (side sy rdim : Int) (AT : Mem)
    (h : SameStores A0 B0 A B) :
    SameStores A0 B0 (attr_store A side sy rdim AT) (attr_store B side sy rdim AT) := by
  unfold attr_store
  generalize rdim.toNat = n
  induction n with
  | zero => exact h
  | succ n ih =>
    rw [forN_succ, forN_succ]
    exact sameStores_write _ _ _ _ _ _ ih

/-- If a second run restarts from the result of a first run and makes the
same stores, it ends where the first one ended. -/
theorem sameStores_idem (A0 A1 B1 : Mem) (h : SameStores A0 A1 A1 B1) : B1 = A1 := by
  funext j
  rcases h j with e | ⟨_, e⟩
  · exact e.symm
  · exact e

theorem iter_succ {σ : Type} (n : Nat) (f : σ → σ) (s : σ) :
    iter (n + 1) f s = iter n f (f s) := rfl

/-- One step of the edge walk treats two attribute tables alike. -/
theorem walk_step_rel (A0 B0 : Mem) (rdim dx dy : Int) (DT : Mem) (w : Walk) (B : Mem)
    (h : SameStores A0 B0 w.attrbuf B) :
    ∃ B', walk_step rdim dx dy DT { w with attrbuf := B } =
        { walk_step rdim dx dy DT w with attrbuf := B' } ∧
      SameStores A0 B0 (walk_step rdim dx dy DT w).attrbuf B' := by
  refine ⟨(walk_step rdim dx dy DT { w with attrbuf := B }).attrbuf, rfl, ?_⟩
  unfold walk_step
  simp only
  by_cases hL : w.x_L (shr32 w.y SCANP) > shr32 w.x SCANP <;>
    by_cases hR : w.x_R (shr32 w.y SCANP) < shr32 w.x SCANP <;>
    simp only [hL, hR, decide_True, decide_False, if_true, if_false, Bool.false_eq_true]
  · exact sameStores_attr_store _ _ _ _ _ _ _ _ (sameStores_attr_store _ _ _ _ _ _ _ _ h)
  · exact sameStores_attr_store _ _ _ _ _ _ _ _ h
  · exact sameStores_attr_store _ _ _ _ _ _ _ _ h
  · exact h

theorem walk_iter_rel (A0 B0 : Mem) (rdim dx dy : Int) (DT : Mem) (n : Nat) :
    ∀ (w : Walk) (B : Mem), SameStores A0 B0 w.attrbuf B →
      ∃ B', iter n (walk_step rdim dx dy DT) { w with attrbuf := B } =
          { iter n (walk_step rdim dx dy DT) w with attrbuf := B' } ∧
        SameStores A0 B0 (iter n (walk_step rdim dx dy DT) w).attrbuf B' := by
  induction n with
  | zero =>
    intro w B h
    exact ⟨B, rfl, h⟩
  | succ n ih =>
    intro w B h
    obtain ⟨B1, e1, h1⟩ := walk_step_rel A0 B0 rdim dx dy DT w B h
    rw [iter_succ, iter_succ, e1]
    exact ih (walk_step rdim dx dy DT w) B1 h1

theorem edge_attrs_congr (rdim mjr : Int) (vA vB vA' vB' AT DT : Mem)
    (h : ∀ t, 0 ≤ t → t < rdim → vA t = vA' t ∧ vB t = vB' t) (hr : 1 ≤ rdim) :
    edge_attrs rdim mjr vA vB AT DT = edge_attrs rdim mjr vA' vB' AT DT := by
  unfold edge_attrs
  have h0 := h 0 (by omega) (by omega)
  rw [h0.1, h0.2]
  apply forN_congr
  intro i hi s
  have hi' := h (1 + (i : Int)) (by omega) (by omega)
  simp only [hi'.1, hi'.2]

theorem scan_ext (s t : Scan) (h1 : s.x_L = t.x_L) (h2 : s.x_R = t.x_R)
    (h3 : s.attrbuf = t.attrbuf) (h4 : s.scan_miny = t.scan_miny)
    (h5 : s.scan_maxy = t.scan_maxy) : s = t := by
  cases s
  cases t
  simp only at h1 h2 h3 h4 h5
  subst h1 h2 h3 h4 h5
  rfl

/-- The walk along an edge treats two attribute tables alike. -/
theorem scan_walk_rel (A0 B0 : Mem) (rdim x y dx dy mjr : Int) (vA vB : Mem) (st : PScan)
    (B : Mem) (cs2 : ClipStatics) (hS : SameStores A0 B0 st.sc.attrbuf B) :
    ScanRel A0 B0 (scan_walk rdim x y dx dy mjr vA vB st)
      (scan_walk rdim x y dx dy mjr vA vB { st.setAttr B with cs := cs2 }) := by
  obtain ⟨B', e, hS'⟩ := walk_iter_rel A0 B0 rdim (div32 (shl32 dx SCANP) mjr)
    (div32 (shl32 dy SCANP) mjr) (edge_attrs rdim mjr vA vB st.AT st.DT).2 (mjr + 1).toNat
    { x := add32 (shl32 x SCANP) SCANP_ROUND, y := add32 (shl32 y SCANP) SCANP_ROUND,
      AT := (edge_attrs rdim mjr vA vB st.AT st.DT).1, x_L := st.sc.x_L, x_R := st.sc.x_R,
      attrbuf := st.sc.attrbuf } B hS
  refine ⟨B', cs2, ?_, hS'⟩
  exact congrArg (fun w : Walk =>
    ({ sc := { x_L := w.x_L, x_R := w.x_R, attrbuf := w.attrbuf,
               scan_miny := st.sc.scan_miny, scan_maxy := st.sc.scan_maxy }
       cs := cs2
       AT := w.AT
       DT := (edge_attrs rdim mjr vA vB st.AT st.DT).2 } : PScan)) e

theorem scan_edge_eq (rdim : Int) (vA vB : Mem) (cs : ClipStatics) (st : PScan) :
    scan_edge rdim vA vB cs st =
      if edge_mjr (sub32 (vB 0) (vA 0)) (sub32 (vB 1) (vA 1)) ≤ 0 then
        { st with
          cs := cs
          sc := { st.sc with
            scan_miny := edge_miny (vA 1) (vB 1) st.sc.scan_miny
            scan_maxy := edge_maxy (vA 1) (vB 1) st.sc.scan_maxy } }
      else scan_walk rdim (vA 0) (vA 1) (sub32 (vB 0) (vA 0)) (sub32 (vB 1) (vA 1))
        (edge_mjr (sub32 (vB 0) (vA 0)) (sub32 (vB 1) (vA 1))) (vA.shift 2) (vB.shift 2)
        { st with
          cs := cs
          sc := { st.sc with
            scan_miny := edge_miny (vA 1) (vB 1) st.sc.scan_miny
            scan_maxy := edge_maxy (vA 1) (vB 1) st.sc.scan_maxy } } := rfl

/-- What `scan_edge` does with records that agree within the record length. -/
theorem scan_edge_congr (rdim : Int) (vA vB vA' vB' : Mem) (cs : ClipStatics) (st : PScan)
    (hr : 1 ≤ rdim)
    (h : ∀ t, 0 ≤ t → t < rdim + 2 → vA' t = vA t ∧ vB' t = vB t) :
    scan_edge rdim vA' vB' cs st = scan_edge rdim vA vB cs st := by
  have h0 := h 0 (by omega) (by omega)
  have h1 := h 1 (by omega) (by omega)
  have hat : ∀ mjr AT DT, edge_attrs rdim mjr (vA'.shift 2) (vB'.shift 2) AT DT =
      edge_attrs rdim mjr (vA.shift 2) (vB.shift 2) AT DT := by
    intro mjr AT DT
    apply edge_attrs_congr _ _ _ _ _ _ _ _ _ hr
    intro t ht0 ht1
    exact h (2 + t) (by omega) (by omega)
  rw [scan_edge_eq, scan_edge_eq, h0.1, h0.2, h1.1, h1.2]
  unfold scan_walk
  simp only [hat]

/-- The scan conversion of one edge treats two attribute tables alike and
does not look at the clipper statics. -/
theorem scan_edge_rel (A0 B0 : Mem) (rdim : Int) (vA vB : Mem) (cs cs' cs2 : ClipStatics)
    (st : PScan) (B : Mem) (hS : SameStores A0 B0 st.sc.attrbuf B) :
    ScanRel A0 B0 (scan_edge rdim vA vB cs st)
      (scan_edge rdim vA vB cs' { st.setAttr B with cs := cs2 }) := by
  rw [scan_edge_eq, scan_edge_eq]
  by_cases hm : edge_mjr (sub32 (vB 0) (vA 0)) (sub32 (vB 1) (vA 1)) ≤ 0
  · rw [if_pos hm, if_pos hm]
    exact ⟨B, cs', rfl, hS⟩
  · rw [if_neg hm, if_neg hm]
    exact scan_walk_rel A0 B0 rdim _ _ _ _ _ _ _
      { st with
        cs := cs
        sc := { st.sc with
          scan_miny := edge_miny (vA 1) (vB 1) st.sc.scan_miny
          scan_maxy := edge_maxy (vA 1) (vB 1) st.sc.scan_maxy } } B cs' hS

theorem pscan_edge_nc (vp : Viewport) (dim rdim : Int) (VS : Mem) (k : Int) (st : PScan)
    (h : (PL_clip_line_y st.cs (VS.shift (k * dim)) (VS.shift ((k + 1) * dim)) dim
      vp.PL_vp_min_y vp.PL_vp_max_y).ret = PL_NC) :
    pscan_edge vp dim rdim VS k st =
      { st with cs := (PL_clip_line_y st.cs (VS.shift (k * dim)) (VS.shift ((k + 1) * dim)) dim
        vp.PL_vp_min_y vp.PL_vp_max_y).cs } := by
  unfold pscan_edge
  exact if_pos h

theorem pscan_edge_keep (vp : Viewport) (dim rdim : Int) (VS : Mem) (k : Int) (st : PScan)
    (h : ¬ (PL_clip_line_y st.cs (VS.shift (k * dim)) (VS.shift ((k + 1) * dim)) dim
      vp.PL_vp_min_y vp.PL_vp_max_y).ret = PL_NC) :
    pscan_edge vp dim rdim VS k st =
      scan_edge rdim
        (PL_clip_line_y st.cs (VS.shift (k * dim)) (VS.shift ((k + 1) * dim)) dim
          vp.PL_vp_min_y vp.PL_vp_max_y).v0
        (PL_clip_line_y st.cs (VS.shift (k * dim)) (VS.shift ((k + 1) * dim)) dim
          vp.PL_vp_min_y vp.PL_vp_max_y).v1
        (PL_clip_line_y st.cs (VS.shift (k * dim)) (VS.shift ((k + 1) * dim)) dim
          vp.PL_vp_min_y vp.PL_vp_max_y).cs st := by
  unfold pscan_edge
  exact if_neg h

/-- One trip of the edge loop of `pscan` keeps two runs related. -/
theorem pscan_edge_rel (A0 B0 : Mem) (vp : Viewport) (dim : Int) (VS : Mem) (k : Int)
    (st st2 : PScan) (hdim : 3 ≤ dim) (h : ScanRel A0 B0 st st2) :
    ScanRel A0 B0 (pscan_edge vp dim (dim - 2) VS k st) (pscan_edge vp dim (dim - 2) VS k st2) := by
  obtain ⟨B, cs2, rfl, hS⟩ := h
  obtain ⟨hret, hv⟩ := lclip2_indep st.cs cs2 (VS.shift (k * dim)) (VS.shift ((k + 1) * dim))
    dim vp.PL_vp_min_y vp.PL_vp_max_y 1 (Or.inr rfl) hdim
  by_cases c : (PL_clip_line_y st.cs (VS.shift (k * dim)) (VS.shift ((k + 1) * dim)) dim
      vp.PL_vp_min_y vp.PL_vp_max_y).ret = PL_NC
  · have c2 : (PL_clip_line_y ({ st.setAttr B with cs := cs2 } : PScan).cs
        (VS.shift (k * dim)) (VS.shift ((k + 1) * dim)) dim
        vp.PL_vp_min_y vp.PL_vp_max_y).ret = PL_NC := hret ▸ c
    rw [pscan_edge_nc _ _ _ _ _ _ c, pscan_edge_nc _ _ _ _ _ _ c2]
    exact ⟨B, _, rfl, hS⟩
  · have c2 : ¬ (PL_clip_line_y ({ st.setAttr B with cs := cs2 } : PScan).cs
        (VS.shift (k * dim)) (VS.shift ((k + 1) * dim)) dim
        vp.PL_vp_min_y vp.PL_vp_max_y).ret = PL_NC := hret ▸ c
    rw [pscan_edge_keep _ _ _ _ _ _ c, pscan_edge_keep _ _ _ _ _ _ c2]
    have e2 := scan_edge_congr (dim - 2)
      (PL_clip_line_y st.cs (VS.shift (k * dim)) (VS.shift ((k + 1) * dim)) dim
        vp.PL_vp_min_y vp.PL_vp_max_y).v0
      (PL_clip_line_y st.cs (VS.shift (k * dim)) (VS.shift ((k + 1) * dim)) dim
        vp.PL_vp_min_y vp.PL_vp_max_y).v1
      (PL_clip_line_y cs2 (VS.shift (k * dim)) (VS.shift ((k + 1) * dim)) dim
        vp.PL_vp_min_y vp.PL_vp_max_y).v0
      (PL_clip_line_y cs2 (VS.shift (k * dim)) (VS.shift ((k + 1) * dim)) dim
        vp.PL_vp_min_y vp.PL_vp_max_y).v1
      (PL_clip_line_y cs2 (VS.shift (k * dim)) (VS.shift ((k + 1) * dim)) dim
        vp.PL_vp_min_y vp.PL_vp_max_y).cs
      { st.setAttr B with cs := cs2 } (by omega)
      (fun t h0 h1 => ⟨((hv t h0 (by omega)).1).symm, ((hv t h0 (by omega)).2).symm⟩)
    have hrel := scan_edge_rel A0 B0 (dim - 2)
      (PL_clip_line_y st.cs (VS.shift (k * dim)) (VS.shift ((k + 1) * dim)) dim
        vp.PL_vp_min_y vp.PL_vp_max_y).v0
      (PL_clip_line_y st.cs (VS.shift (k * dim)) (VS.shift ((k + 1) * dim)) dim
        vp.PL_vp_min_y vp.PL_vp_max_y).v1
      (PL_clip_line_y st.cs (VS.shift (k * dim)) (VS.shift ((k + 1) * dim)) dim
        vp.PL_vp_min_y vp.PL_vp_max_y).cs
      (PL_clip_line_y cs2 (VS.shift (k * dim)) (VS.shift ((k + 1) * dim)) dim
        vp.PL_vp_min_y vp.PL_vp_max_y).cs cs2 st B hS
    exact Eq.mpr (congrArg (fun Z => ScanRel A0 B0 _ Z) e2) hrel

theorem pscan_loop_rel (A0 B0 : Mem) (vp : Viewport) (dim : Int) (VS : Mem) (hdim : 3 ≤ dim)
    (st st2 : PScan) (h : ScanRel A0 B0 st st2) (n : Nat) :
    ScanRel A0 B0 (forN n (pscan_edge vp dim (dim - 2) VS) st)
      (forN n (pscan_edge vp dim (dim - 2) VS) st2) := by
  induction n with
  | zero => exact h
  | succ n ih =>
    rw [forN_succ, forN_succ]
    exact pscan_edge_rel A0 B0 vp dim VS n _ _ hdim ih

theorem pscan_eq (vp : Viewport) (cs : ClipStatics) (xLc xRc : Mem) (sc : Scan) (stream : Mem)
    (dim : Int) (len : Nat) :
    pscan vp cs xLc xRc sc stream dim len =
      { ret := b2i (decide
          ((forN (PL_clip_poly_x vp cs (fun _ => 0) stream dim len).nverts.toNat
            (pscan_edge vp dim (sub32 dim 2)
              (PL_clip_poly_x vp cs (fun _ => 0) stream dim len).dst)
            { sc := { x_L := xLc, x_R := xRc, attrbuf := sc.attrbuf, scan_miny := INT_MAX,
                      scan_maxy := INT_MIN }
              cs := (PL_clip_poly_x vp cs (fun _ => 0) stream dim len).cs
              AT := fun _ => 0, DT := fun _ => 0 }).sc.scan_miny ≥
           (forN (PL_clip_poly_x vp cs (fun _ => 0) stream dim len).nverts.toNat
            (pscan_edge vp dim (sub32 dim 2)
              (PL_clip_poly_x vp cs (fun _ => 0) stream dim len).dst)
            { sc := { x_L := xLc, x_R := xRc, attrbuf := sc.attrbuf, scan_miny := INT_MAX,
                      scan_maxy := INT_MIN }
              cs := (PL_clip_poly_x vp cs (fun _ => 0) stream dim len).cs
              AT := fun _ => 0, DT := fun _ => 0 }).sc.scan_maxy))
        sc := (forN (PL_clip_poly_x vp cs (fun _ => 0) stream dim len).nverts.toNat
            (pscan_edge vp dim (sub32 dim 2)
              (PL_clip_poly_x vp cs (fun _ => 0) stream dim len).dst)
            { sc := { x_L := xLc, x_R := xRc, attrbuf := sc.attrbuf, scan_miny := INT_MAX,
                      scan_maxy := INT_MIN }
              cs := (PL_clip_poly_x vp cs (fun _ => 0) stream dim len).cs
              AT := fun _ => 0, DT := fun _ => 0 }).sc
        cs := (forN (PL_clip_poly_x vp cs (fun _ => 0) stream dim len).nverts.toNat
            (pscan_edge vp dim (sub32 dim 2)
              (PL_clip_poly_x vp cs (fun _ => 0) stream dim len).dst)
            { sc := { x_L := xLc, x_R := xRc, attrbuf := sc.attrbuf, scan_miny := INT_MAX,
                      scan_maxy := INT_MIN }
              cs := (PL_clip_poly_x vp cs (fun _ => 0) stream dim len).cs
              AT := fun _ => 0, DT := fun _ => 0 }).cs } := rfl

/-- The scan conversion `pscan` does not depend on the clipper statics, and
on the attribute table only through the table it leaves: from two starts it
gives the same return value, row tables and row range, and attribute tables
that have seen the same stores. -/
theorem pscan_rel (vp : Viewport) (cs cs2 : ClipStatics) (xLc xRc : Mem) (sc sc2 : Scan)
    (stream : Mem) (dim : Int) (len : Nat) (hdim : 3 ≤ dim) (hd2 : dim < 2147483648) :
    (pscan vp cs2 xLc xRc sc2 stream dim len).ret = (pscan vp cs xLc xRc sc stream dim len).ret ∧
    (pscan vp cs2 xLc xRc sc2 stream dim len).sc.x_L =
      (pscan vp cs xLc xRc sc stream dim len).sc.x_L ∧
    (pscan vp cs2 xLc xRc sc2 stream dim len).sc.x_R =
      (pscan vp cs xLc xRc sc stream dim len).sc.x_R ∧
    (pscan vp cs2 xLc xRc sc2 stream dim len).sc.scan_miny =
      (pscan vp cs xLc xRc sc stream dim len).sc.scan_miny ∧
    (pscan vp cs2 xLc xRc sc2 stream dim len).sc.scan_maxy =
      (pscan vp cs xLc xRc sc stream dim len).sc.scan_maxy ∧
    SameStores sc.attrbuf sc2.attrbuf (pscan vp cs xLc xRc sc stream dim len).sc.attrbuf
      (pscan vp cs2 xLc xRc sc2 stream dim len).sc.attrbuf := by
  have hsub : sub32 dim 2 = dim - 2 := wrap32_eq_self (by omega) (by omega)
  obtain ⟨hd, hn⟩ := pclip2_indep cs cs2 (fun _ => 0) stream dim vp.PL_vp_min_x vp.PL_vp_max_x
    0 len (Or.inl rfl) hdim
  have hd' : (PL_clip_poly_x vp cs2 (fun _ => 0) stream dim len).dst =
      (PL_clip_poly_x vp cs (fun _ => 0) stream dim len).dst := hd.symm
  have hn' : (PL_clip_poly_x vp cs2 (fun _ => 0) stream dim len).nverts =
      (PL_clip_poly_x vp cs (fun _ => 0) stream dim len).nverts := hn.symm
  have hrel := pscan_loop_rel sc.attrbuf sc2.attrbuf vp dim
    (PL_clip_poly_x vp cs (fun _ => 0) stream dim len).dst hdim
    { sc := { x_L := xLc, x_R := xRc, attrbuf := sc.attrbuf, scan_miny := INT_MAX,
              scan_maxy := INT_MIN }
      cs := (PL_clip_poly_x vp cs (fun _ => 0) stream dim len).cs
      AT := fun _ => 0, DT := fun _ => 0 }
    { sc := { x_L := xLc, x_R := xRc, attrbuf := sc2.attrbuf, scan_miny := INT_MAX,
              scan_maxy := INT_MIN }
      cs := (PL_clip_poly_x vp cs2 (fun _ => 0) stream dim len).cs
      AT := fun _ => 0, DT := fun _ => 0 }
    ⟨sc2.attrbuf, _, rfl, sameStores_init _ _⟩
    (PL_clip_poly_x vp cs (fun _ => 0) stream dim len).nverts.toNat
  obtain ⟨B, cs3, e, hS⟩ := hrel
  rw [pscan_eq vp cs2, pscan_eq vp cs, hsub, hd', hn', e]
  exact ⟨rfl, rfl, rfl, rfl, rfl, hS⟩

/-- Running `pscan` again on the workspace that it left gives the same
workspace and the same return value. -/
theorem pscan_idem (vp : Viewport) (cs : ClipStatics) (xLc xRc : Mem) (sc : Scan)
    (stream : Mem) (dim : Int) (len : Nat) (hdim : 3 ≤ dim) (hd2 : dim < 2147483648) :
    (pscan vp (pscan vp cs xLc xRc sc stream dim len).cs xLc xRc
      (pscan vp cs xLc xRc sc stream dim len).sc stream dim len).ret =
      (pscan vp cs xLc xRc sc stream dim len).ret ∧
    (pscan vp (pscan vp cs xLc xRc sc stream dim len).cs xLc xRc
      (pscan vp cs xLc xRc sc stream dim len).sc stream dim len).sc =
      (pscan vp cs xLc xRc sc stream dim len).sc := by
  obtain ⟨h1, h2, h3, h4, h5, h6⟩ := pscan_rel vp cs (pscan vp cs xLc xRc sc stream dim len).cs
    xLc xRc sc (pscan vp cs xLc xRc sc stream dim len).sc stream dim len hdim hd2
  exact ⟨h1, scan_ext _ _ h2 h3 (sameStores_idem _ _ _ h6) h4 h5⟩

/-! ## Rasterising twice: the span fill -/

/-- A loop whose trips only raise the depth buffer raises it overall. -/
theorem iter_mono {σ : Type} (getd : σ → Mem) (step : σ → σ)
    (hmono : ∀ s q, getd s q ≤ getd (step s) q) (n : Nat) :
    ∀ s q, getd s q ≤ getd (iter n step s) q := by
  induction n with
  | zero =>
    intro s q
    exact le_refl _
  | succ n ih =>
    intro s q
    rw [iter_succ]
    exact le_trans (hmono s q) (ih (step s) q)

/-- The painter argument: if each trip only raises the depth buffer, and a
trip leaves alone any buffers whose depths dominate what the trip produces,
then the whole loop leaves alone buffers that dominate its final depths. The
relation `E` ties the rest of the loop state of the two runs together. -/
theorem iter_paint {σ : Type} (getb : σ → Bufs) (E : σ → σ → Prop) (step : σ → σ)
    (hmono : ∀ s q, (getb s).PL_depth_buffer q ≤ (getb (step s)).PL_depth_buffer q)
    (hstep : ∀ s s2, E s s2 →
      (∀ q, (getb (step s)).PL_depth_buffer q ≤ (getb s2).PL_depth_buffer q) →
      getb (step s2) = getb s2 ∧ E (step s) (step s2)) (n : Nat) :
    ∀ s s2, E s s2 →
      (∀ q, (getb (iter n step s)).PL_depth_buffer q ≤ (getb s2).PL_depth_buffer q) →
      getb (iter n step s2) = getb s2 := by
  induction n with
  | zero =>
    intro s s2 _ _
    rfl
  | succ n ih =>
    intro s s2 hE hdom
    rw [iter_succ] at hdom ⊢
    have hd1 : ∀ q, (getb (step s)).PL_depth_buffer q ≤ (getb s2).PL_depth_buffer q :=
      fun q => le_trans
        (iter_mono (fun s => (getb s).PL_depth_buffer) step hmono n (step s) q) (hdom q)
    obtain ⟨hb, hE'⟩ := hstep s s2 hE hd1
    have h := ih (step s) (step s2) hE' (by intro q; rw [hb]; exact hdom q)
    rw [h, hb]

theorem flat_pixel_noop (mul8 : Int → Int → Int) (rgb : Int) (b : Bufs) (p sz : Int)
    (h : sz ≤ b.PL_depth_buffer p) : flat_pixel mul8 rgb b p sz = b := by
  unfold flat_pixel
  exact if_neg (by omega)

theorem flat_pixel_depth (mul8 : Int → Int → Int) (rgb : Int) (b : Bufs) (p sz : Int) :
    sz ≤ (flat_pixel mul8 rgb b p sz).PL_depth_buffer p ∧
    ∀ q, b.PL_depth_buffer q ≤ (flat_pixel mul8 rgb b p sz).PL_depth_buffer q := by
  by_cases h : b.PL_depth_buffer p < sz
  · have e : (flat_pixel mul8 rgb b p sz).PL_depth_buffer = b.PL_depth_buffer.write p sz := by
      unfold flat_pixel
      simp only []
      rw [if_pos h]
    rw [e]
    refine ⟨by rw [write_same], ?_⟩
    intro q
    by_cases hq : q = p
    · subst hq
      rw [write_same]
      omega
    · rw [write_other _ _ _ _ hq]
  · rw [flat_pixel_noop _ _ _ _ _ (by omega)]
    exact ⟨by omega, fun q => le_refl _⟩

/-- The pixel loop of `PL_flat_poly` leaves alone buffers whose depths
dominate what it would produce. -/
theorem flat_span_paint (mul8 : Int → Int → Int) (rgb dz : Int) (n : Nat) (s s2 : FlatSpan)
    (hp : s2.p = s.p) (hz : s2.sz = s.sz)
    (hdom : ∀ q, (iter n (flat_span_step mul8 rgb dz) s).b.PL_depth_buffer q ≤
      s2.b.PL_depth_buffer q) :
    (iter n (flat_span_step mul8 rgb dz) s2).b = s2.b := by
  refine iter_paint (fun s : FlatSpan => s.b) (fun s s2 => s2.p = s.p ∧ s2.sz = s.sz)
    (flat_span_step mul8 rgb dz) ?_ ?_ n s s2 ⟨hp, hz⟩ hdom
  · intro s q
    exact (flat_pixel_depth mul8 rgb s.b s.p s.sz).2 q
  · intro s s2 hE hd
    obtain ⟨hp, hz⟩ := hE
    have h1 := (flat_pixel_depth mul8 rgb s.b s.p s.sz).1
    have h2 := hd s.p
    refine ⟨?_, ?_, ?_⟩
    · show flat_pixel mul8 rgb s2.b s2.p s2.sz = s2.b
      apply flat_pixel_noop
      rw [hp, hz]
      exact le_trans h1 h2
    · show s2.p + 1 = s.p + 1
      rw [hp]
    · show add32 s2.sz dz = add32 s.sz dz
      rw [hz]

theorem flat_span_mono (mul8 : Int → Int → Int) (rgb dz : Int) (n : Nat) (s : FlatSpan)
    (q : Int) :
    s.b.PL_depth_buffer q ≤ (iter n (flat_span_step mul8 rgb dz) s).b.PL_depth_buffer q :=
  iter_mono (fun s : FlatSpan => s.b.PL_depth_buffer) (flat_span_step mul8 rgb dz)
    (fun s q => (flat_pixel_depth mul8 rgb s.b s.p s.sz).2 q) n s q

/-- The shape of one trip of the row loop of `PL_flat_poly`: a pixel loop
whose length, start and depths depend on the row and the tables only. -/
theorem flat_row_shape (hres : Int) (sc : Scan) (mul8 : Int → Int → Int) (rgb : Int) :
    ∃ (K : Int → Nat) (DZ SZ : Int → Int) (P : Int → Int → Int), ∀ r : Rows,
      flat_row hres sc mul8 rgb r =
        { b := (iter (K r.miny) (flat_span_step mul8 rgb (DZ r.miny))
            { b := r.b, p := P r.miny r.pos, sz := SZ r.miny }).b
          miny := add32 r.miny 1
          pos := add32 r.pos hres } :=
  ⟨fun miny => do_while_trips (sub32 (sc.x_R miny) (sc.x_L miny)),
   fun miny => div32 (sub32 (sc.attrbuf (add32 (YT miny) 1)) (sc.attrbuf (add32 (YT miny) 0)))
     (add32 (sub32 (sc.x_R miny) (sc.x_L miny))
       (b2i (sub32 (sc.x_R miny) (sc.x_L miny) == 0))),
   fun miny => sc.attrbuf (add32 (YT miny) 0),
   fun miny pos => add32 pos (sc.x_L miny),
   fun _ => rfl⟩

/-- The row loop of `PL_flat_poly` leaves alone buffers whose depths dominate
what it would produce. -/
theorem flat_rows_paint (hres : Int) (sc : Scan) (mul8 : Int → Int → Int) (rgb : Int) (n : Nat)
    (r r2 : Rows) (hm : r2.miny = r.miny) (hp : r2.pos = r.pos)
    (hdom : ∀ q, (iter n (flat_row hres sc mul8 rgb) r).b.PL_depth_buffer q ≤
      r2.b.PL_depth_buffer q) :
    (iter n (flat_row hres sc mul8 rgb) r2).b = r2.b := by
  obtain ⟨K, DZ, SZ, P, hrow⟩ := flat_row_shape hres sc mul8 rgb
  refine iter_paint (fun r : Rows => r.b) (fun r r2 => r2.miny = r.miny ∧ r2.pos = r.pos)
    (flat_row hres sc mul8 rgb) ?_ ?_ n r r2 ⟨hm, hp⟩ hdom
  · intro r q
    rw [hrow r]
    exact flat_span_mono mul8 rgb _ _ { b := r.b, p := P r.miny r.pos, sz := SZ r.miny } q
  · intro r r2 hE hd
    obtain ⟨hm, hp⟩ := hE
    rw [hrow r] at hd
    rw [hrow r2, hrow r]
    refine ⟨?_, ?_, ?_⟩
    · show (iter (K r2.miny) (flat_span_step mul8 rgb (DZ r2.miny))
        { b := r2.b, p := P r2.miny r2.pos, sz := SZ r2.miny }).b = r2.b
      rw [hm, hp]
      exact flat_span_paint mul8 rgb _ _ { b := r.b, p := P r.miny r.pos, sz := SZ r.miny }
        { b := r2.b, p := P r.miny r.pos, sz := SZ r.miny } rfl rfl hd
    · show add32 r2.miny 1 = add32 r.miny 1
      rw [hm]
    · show add32 r2.pos hres = add32 r.pos hres
      rw [hp]

theorem lintx_step_depth (mul8 : Int → Int → Int) (texels : Mem) (dz du dv : Int) (s : TexSpan) :
    s.sz ≤ (lintx_span_step mul8 texels dz du dv s).b.PL_depth_buffer s.p ∧
    ∀ q, s.b.PL_depth_buffer q ≤ (lintx_span_step mul8 texels dz du dv s).b.PL_depth_buffer q := by
  by_cases h : s.b.PL_depth_buffer s.p < s.sz
  · have e : (lintx_span_step mul8 texels dz du dv s).b.PL_depth_buffer =
        s.b.PL_depth_buffer.write s.p s.sz := by
      unfold lintx_span_step
      simp only [h, decide_True, if_true]
      rfl
    rw [e]
    refine ⟨by rw [write_same], ?_⟩
    intro q
    by_cases hq : q = s.p
    · subst hq
      rw [write_same]
      omega
    · rw [write_other _ _ _ _ hq]
  · have e : (lintx_span_step mul8 texels dz du dv s).b = s.b := by
      unfold lintx_span_step
      simp only [h, decide_False, Bool.false_eq_true, if_false]
    rw [e]
    exact ⟨by omega, fun q => le_refl _⟩

theorem lintx_step_noop (mul8 : Int → Int → Int) (texels : Mem) (dz du dv : Int) (s : TexSpan)
    (h : s.sz ≤ s.b.PL_depth_buffer s.p) :
    (lintx_span_step mul8 texels dz du dv s).b = s.b ∧
    (lintx_span_step mul8 texels dz du dv s).p = s.p + 1 ∧
    (lintx_span_step mul8 texels dz du dv s).sz = add32 s.sz dz := by
  have h' : ¬ (s.b.PL_depth_buffer s.p < s.sz) := by omega
  refine ⟨?_, rfl, rfl⟩
  unfold lintx_span_step
  simp only [h', decide_False, Bool.false_eq_true, if_false]

/-- The pixel loop of `PL_lintx_poly` leaves alone buffers whose depths
dominate what it would produce; the texture accumulators of the two runs may
differ. -/
theorem lintx_span_paint (mul8 : Int → Int → Int) (texels : Mem) (dz du dv : Int) (n : Nat)
    (s s2 : TexSpan) (hp : s2.p = s.p) (hz : s2.sz = s.sz)
    (hdom : ∀ q, (iter n (lintx_span_step mul8 texels dz du dv) s).b.PL_depth_buffer q ≤
      s2.b.PL_depth_buffer q) :
    (iter n (lintx_span_step mul8 texels dz du dv) s2).b = s2.b := by
  refine iter_paint (fun s : TexSpan => s.b) (fun s s2 => s2.p = s.p ∧ s2.sz = s.sz)
    (lintx_span_step mul8 texels dz du dv) ?_ ?_ n s s2 ⟨hp, hz⟩ hdom
  · intro s q
    exact (lintx_step_depth mul8 texels dz du dv s).2 q
  · intro s s2 hE hd
    obtain ⟨hp, hz⟩ := hE
    have h1 := (lintx_step_depth mul8 texels dz du dv s).1
    have h2 := hd s.p
    have hno := lintx_step_noop mul8 texels dz du dv s2
      (by rw [hp, hz]; exact le_trans h1 h2)
    refine ⟨hno.1, ?_, ?_⟩
    · show (lintx_span_step mul8 texels dz du dv s2).p = s.p + 1
      rw [hno.2.1, hp]
    · show (lintx_span_step mul8 texels dz du dv s2).sz = add32 s.sz dz
      rw [hno.2.2, hz]

theorem lintx_span_mono (mul8 : Int → Int → Int) (texels : Mem) (dz du dv : Int) (n : Nat)
    (s : TexSpan) (q : Int) :
    s.b.PL_depth_buffer q ≤
      (iter n (lintx_span_step mul8 texels dz du dv) s).b.PL_depth_buffer q :=
  iter_mono (fun s : TexSpan => s.b.PL_depth_buffer) (lintx_span_step mul8 texels dz du dv)
    (fun s q => (lintx_step_depth mul8 texels dz du dv s).2 q) n s q

/-- The shape of one trip of the row loop of `PL_lintx_poly`. -/
theorem lintx_row_shape (hres : Int) (sc : Scan) (mul8 : Int → Int → Int) (texels : Mem) :
    ∃ (K : Int → Nat) (DZ DU DV SZ SU SV : Int → Int) (P : Int → Int → Int), ∀ r : Rows,
      lintx_row hres sc mul8 texels r =
        { b := (iter (K r.miny) (lintx_span_step mul8 texels (DZ r.miny) (DU r.miny) (DV r.miny))
            { b := r.b, p := P r.miny r.pos, sz := SZ r.miny, su := SU r.miny,
              sv := SV r.miny }).b
          miny := add32 r.miny 1
          pos := add32 r.pos hres } :=
  ⟨fun miny => (sub32 (sc.x_R miny) (sc.x_L miny) + 1).toNat,
   fun miny => div32 (sub32 (sc.attrbuf (add32 (YT miny) 1)) (sc.attrbuf (add32 (YT miny) 0)))
     (add32 (sub32 (sc.x_R miny) (sc.x_L miny))
       (b2i (sub32 (sc.x_R miny) (sc.x_L miny) == 0))),
   fun miny => div32 (sub32 (sc.attrbuf (add32 (YT miny) 3)) (sc.attrbuf (add32 (YT miny) 2)))
     (add32 (sub32 (sc.x_R miny) (sc.x_L miny))
       (b2i (sub32 (sc.x_R miny) (sc.x_L miny) == 0))),
   fun miny => div32 (sub32 (sc.attrbuf (add32 (YT miny) 5)) (sc.attrbuf (add32 (YT miny) 4)))
     (add32 (sub32 (sc.x_R miny) (sc.x_L miny))
       (b2i (sub32 (sc.x_R miny) (sc.x_L miny) == 0))),
   fun miny => sc.attrbuf (add32 (YT miny) 0),
   fun miny => sc.attrbuf (add32 (YT miny) 2),
   fun miny => sc.attrbuf (add32 (YT miny) 4),
   fun miny pos => add32 pos (sc.x_L miny),
   fun _ => rfl⟩

/-- The row loop of `PL_lintx_poly` leaves alone buffers whose depths dominate
what it would produce. -/
theorem lintx_rows_paint (hres : Int) (sc : Scan) (mul8 : Int → Int → Int) (texels : Mem)
    (n : Nat) (r r2 : Rows) (hm : r2.miny = r.miny) (hp : r2.pos = r.pos)
    (hdom : ∀ q, (iter n (lintx_row hres sc mul8 texels) r).b.PL_depth_buffer q ≤
      r2.b.PL_depth_buffer q) :
    (iter n (lintx_row hres sc mul8 texels) r2).b = r2.b := by
  obtain ⟨K, DZ, DU, DV, SZ, SU, SV, P, hrow⟩ := lintx_row_shape hres sc mul8 texels
  refine iter_paint (fun r : Rows => r.b) (fun r r2 => r2.miny = r.miny ∧ r2.pos = r.pos)
    (lintx_row hres sc mul8 texels) ?_ ?_ n r r2 ⟨hm, hp⟩ hdom
  · intro r q
    rw [hrow r]
    exact lintx_span_mono mul8 texels _ _ _ _
      { b := r.b, p := P r.miny r.pos, sz := SZ r.miny, su := SU r.miny, sv := SV r.miny } q
  · intro r r2 hE hd
    obtain ⟨hm, hp⟩ := hE
    rw [hrow r] at hd
    rw [hrow r2, hrow r]
    refine ⟨?_, ?_, ?_⟩
    · show (iter (K r2.miny) (lintx_span_step mul8 texels (DZ r2.miny) (DU r2.miny) (DV r2.miny))
        { b := r2.b, p := P r2.miny r2.pos, sz := SZ r2.miny, su := SU r2.miny,
          sv := SV r2.miny }).b = r2.b
      rw [hm, hp]
      exact lintx_span_paint mul8 texels _ _ _ _
        { b := r.b, p := P r.miny r.pos, sz := SZ r.miny, su := SU r.miny, sv := SV r.miny }
        { b := r2.b, p := P r.miny r.pos, sz := SZ r.miny, su := SU r.miny, sv := SV r.miny }
        rfl rfl hd
    · show add32 r2.miny 1 = add32 r.miny 1
      rw [hm]
    · show add32 r2.pos hres = add32 r.pos hres
      rw [hp]

/-! ## Rasterising twice -/

theorem flat_poly_reject (vp : Viewport) (cs : ClipStatics) (g : GfxState) (stream : Mem)
    (len : Nat) (rgb : Int)
    (h : (pscan vp cs g.xLc g.xRc g.scan stream PL_STREAM_FLAT len).ret ≠ 0) :
    PL_flat_poly vp cs g stream len rgb =
      ({ g with scan := (pscan vp cs g.xLc g.xRc g.scan stream PL_STREAM_FLAT len).sc },
       (pscan vp cs g.xLc g.xRc g.scan stream PL_STREAM_FLAT len).cs) := by
  unfold PL_flat_poly
  exact if_pos h

theorem flat_poly_fill (vp : Viewport) (cs : ClipStatics) (g : GfxState) (stream : Mem)
    (len : Nat) (rgb : Int)
    (h : ¬ (pscan vp cs g.xLc g.xRc g.scan stream PL_STREAM_FLAT len).ret ≠ 0) :
    PL_flat_poly vp cs g stream len rgb =
      ({ g with
          scan := (pscan vp cs g.xLc g.xRc g.scan stream PL_STREAM_FLAT len).sc
          bufs := (iter ((pscan vp cs g.xLc g.xRc g.scan stream PL_STREAM_FLAT len).sc.scan_maxy -
              (pscan vp cs g.xLc g.xRc g.scan stream PL_STREAM_FLAT len).sc.scan_miny + 1).toNat
            (flat_row g.PL_hres (pscan vp cs g.xLc g.xRc g.scan stream PL_STREAM_FLAT len).sc
              g.mul8 rgb)
            { b := g.bufs
              miny := (pscan vp cs g.xLc g.xRc g.scan stream PL_STREAM_FLAT len).sc.scan_miny
              pos := mul32
                (pscan vp cs g.xLc g.xRc g.scan stream PL_STREAM_FLAT len).sc.scan_miny
                g.PL_hres }).b
          PL_polygon_count := add32 g.PL_polygon_count 1 },
       (pscan vp cs g.xLc g.xRc g.scan stream PL_STREAM_FLAT len).cs) := by
  unfold PL_flat_poly
  exact if_neg h

theorem lintx_poly_reject (vp : Viewport) (cs : ClipStatics) (g : GfxState) (stream : Mem)
    (len : Nat) (texels : Mem)
    (h : (pscan vp cs g.xLc g.xRc g.scan stream PL_STREAM_TEX len).ret ≠ 0) :
    PL_lintx_poly vp cs g stream len texels =
      ({ g with scan := (pscan vp cs g.xLc g.xRc g.scan stream PL_STREAM_TEX len).sc },
       (pscan vp cs g.xLc g.xRc g.scan stream PL_STREAM_TEX len).cs) := by
  unfold PL_lintx_poly
  exact if_pos h

theorem lintx_poly_fill (vp : Viewport) (cs : ClipStatics) (g : GfxState) (stream : Mem)
    (len : Nat) (texels : Mem)
    (h : ¬ (pscan vp cs g.xLc g.xRc g.scan stream PL_STREAM_TEX len).ret ≠ 0) :
    PL_lintx_poly vp cs g stream len texels =
      ({ g with
          scan := (pscan vp cs g.xLc g.xRc g.scan stream PL_STREAM_TEX len).sc
          bufs := (iter ((pscan vp cs g.xLc g.xRc g.scan stream PL_STREAM_TEX len).sc.scan_maxy -
              (pscan vp cs g.xLc g.xRc g.scan stream PL_STREAM_TEX len).sc.scan_miny + 1).toNat
            (lintx_row g.PL_hres (pscan vp cs g.xLc g.xRc g.scan stream PL_STREAM_TEX len).sc
              g.mul8 texels)
            { b := g.bufs
              miny := (pscan vp cs g.xLc g.xRc g.scan stream PL_STREAM_TEX len).sc.scan_miny
              pos := mul32
                (pscan vp cs g.xLc g.xRc g.scan stream PL_STREAM_TEX len).sc.scan_miny
                g.PL_hres }).b
          PL_polygon_count := add32 g.PL_polygon_count 1 },
       (pscan vp cs g.xLc g.xRc g.scan stream PL_STREAM_TEX len).cs) := by
  unfold PL_lintx_poly
  exact if_neg h

/-- Running the row loop of `PL_flat_poly` again over the buffers it produced
changes nothing. -/
theorem flat_rows_twice (hres : Int) (sc : Scan) (mul8 : Int → Int → Int) (rgb : Int) (n : Nat)
    (b0 : Bufs) (miny pos : Int) :
    (iter n (flat_row hres sc mul8 rgb)
      { b := (iter n (flat_row hres sc mul8 rgb) { b := b0, miny := miny, pos := pos }).b
        miny := miny, pos := pos }).b =
    (iter n (flat_row hres sc mul8 rgb) { b := b0, miny := miny, pos := pos }).b :=
  flat_rows_paint hres sc mul8 rgb n { b := b0, miny := miny, pos := pos }
    { b := (iter n (flat_row hres sc mul8 rgb) { b := b0, miny := miny, pos := pos }).b
      miny := miny, pos := pos } rfl rfl (fun _ => le_refl _)

/-- Running the row loop of `PL_lintx_poly` again over the buffers it produced
changes nothing. -/
theorem lintx_rows_twice (hres : Int) (sc : Scan) (mul8 : Int → Int → Int) (texels : Mem)
    (n : Nat) (b0 : Bufs) (miny pos : Int) :
    (iter n (lintx_row hres sc mul8 texels)
      { b := (iter n (lintx_row hres sc mul8 texels) { b := b0, miny := miny, pos := pos }).b
        miny := miny, pos := pos }).b =
    (iter n (lintx_row hres sc mul8 texels) { b := b0, miny := miny, pos := pos }).b :=
  lintx_rows_paint hres sc mul8 texels n { b := b0, miny := miny, pos := pos }
    { b := (iter n (lintx_row hres sc mul8 texels) { b := b0, miny := miny, pos := pos }).b
      miny := miny, pos := pos } rfl rfl (fun _ => le_refl _)

/-- A second `PL_flat_poly` of the same stream, on the state that the first
one left, leaves the buffers as they are. -/
theorem flat_poly_second (vp : Viewport) (cs cs1 : ClipStatics) (g g1 : GfxState) (stream : Mem)
    (len : Nat) (rgb : Int) (first : PL_flat_poly vp cs g stream len rgb = (g1, cs1)) :
    (PL_flat_poly vp cs1 g1 stream len rgb).1.bufs = g1.bufs := by
  obtain ⟨hret, hsc⟩ := pscan_idem vp cs g.xLc g.xRc g.scan stream PL_STREAM_FLAT len
    (by decide) (by decide)
  by_cases h : (pscan vp cs g.xLc g.xRc g.scan stream PL_STREAM_FLAT len).ret ≠ 0
  · rw [flat_poly_reject vp cs g stream len rgb h] at first
    cases first
    have h2 : (pscan vp (pscan vp cs g.xLc g.xRc g.scan stream PL_STREAM_FLAT len).cs
        g.xLc g.xRc (pscan vp cs g.xLc g.xRc g.scan stream PL_STREAM_FLAT len).sc
        stream PL_STREAM_FLAT len).ret ≠ 0 := by
      rw [hret]
      exact h
    rw [flat_poly_reject vp _ _ stream len rgb h2]
  · rw [flat_poly_fill vp cs g stream len rgb h] at first
    cases first
    have h2 : ¬ (pscan vp (pscan vp cs g.xLc g.xRc g.scan stream PL_STREAM_FLAT len).cs
        g.xLc g.xRc (pscan vp cs g.xLc g.xRc g.scan stream PL_STREAM_FLAT len).sc
        stream PL_STREAM_FLAT len).ret ≠ 0 := by
      rw [hret]
      exact h
    rw [flat_poly_fill vp _ _ stream len rgb h2]
    have key : ∀ (sc1 sc2 : Scan) (b0 : Bufs), sc2 = sc1 →
        (iter (sc2.scan_maxy - sc2.scan_miny + 1).toNat (flat_row g.PL_hres sc2 g.mul8 rgb)
          { b := (iter (sc1.scan_maxy - sc1.scan_miny + 1).toNat
              (flat_row g.PL_hres sc1 g.mul8 rgb)
              { b := b0, miny := sc1.scan_miny, pos := mul32 sc1.scan_miny g.PL_hres }).b
            miny := sc2.scan_miny
            pos := mul32 sc2.scan_miny g.PL_hres }).b =
        (iter (sc1.scan_maxy - sc1.scan_miny + 1).toNat (flat_row g.PL_hres sc1 g.mul8 rgb)
          { b := b0, miny := sc1.scan_miny, pos := mul32 sc1.scan_miny g.PL_hres }).b := by
      intro sc1 sc2 b0 e
      subst e
      exact flat_rows_twice _ _ _ _ _ _ _ _
    exact key _ _ _ hsc

/-- A second `PL_lintx_poly` of the same stream, on the state that the first
one left, leaves the buffers as they are. -/
theorem lintx_poly_second (vp : Viewport) (cs cs1 : ClipStatics) (g g1 : GfxState) (stream : Mem)
    (len : Nat) (texels : Mem) (first : PL_lintx_poly vp cs g stream len texels = (g1, cs1)) :
    (PL_lintx_poly vp cs1 g1 stream len texels).1.bufs = g1.bufs := by
  obtain ⟨hret, hsc⟩ := pscan_idem vp cs g.xLc g.xRc g.scan stream PL_STREAM_TEX len
    (by decide) (by decide)
  by_cases h : (pscan vp cs g.xLc g.xRc g.scan stream PL_STREAM_TEX len).ret ≠ 0
  · rw [lintx_poly_reject vp cs g stream len texels h] at first
    cases first
    have h2 : (pscan vp (pscan vp cs g.xLc g.xRc g.scan stream PL_STREAM_TEX len).cs
        g.xLc g.xRc (pscan vp cs g.xLc g.xRc g.scan stream PL_STREAM_TEX len).sc
        stream PL_STREAM_TEX len).ret ≠ 0 := by
      rw [hret]
      exact h
    rw [lintx_poly_reject vp _ _ stream len texels h2]
  · rw [lintx_poly_fill vp cs g stream len texels h] at first
    cases first
    have h2 : ¬ (pscan vp (pscan vp cs g.xLc g.xRc g.scan stream PL_STREAM_TEX len).cs
        g.xLc g.xRc (pscan vp cs g.xLc g.xRc g.scan stream PL_STREAM_TEX len).sc
        stream PL_STREAM_TEX len).ret ≠ 0 := by
      rw [hret]
      exact h
    rw [lintx_poly_fill vp _ _ stream len texels h2]
    have key : ∀ (sc1 sc2 : Scan) (b0 : Bufs), sc2 = sc1 →
        (iter (sc2.scan_maxy - sc2.scan_miny + 1).toNat (lintx_row g.PL_hres sc2 g.mul8 texels)
          { b := (iter (sc1.scan_maxy - sc1.scan_miny + 1).toNat
              (lintx_row g.PL_hres sc1 g.mul8 texels)
              { b := b0, miny := sc1.scan_miny, pos := mul32 sc1.scan_miny g.PL_hres }).b
            miny := sc2.scan_miny
            pos := mul32 sc2.scan_miny g.PL_hres }).b =
        (iter (sc1.scan_maxy - sc1.scan_miny + 1).toNat (lintx_row g.PL_hres sc1 g.mul8 texels)
          { b := b0, miny := sc1.scan_miny, pos := mul32 sc1.scan_miny g.PL_hres }).b := by
      intro sc1 sc2 b0 e
      subst e
      exact lintx_rows_twice _ _ _ _ _ _ _ _
    exact key _ _ _ hsc

/-- C3: rasterising is idempotent under the depth test. For every stream,
colour, texture and initial state, calling `PL_flat_poly` (or `PL_lintx_poly`
with the same texture) a second time on the state the first call left yields
exactly the colour buffer and the depth buffer of the first call: the scan
conversion repeats itself, every depth the second pass interpolates is at most
the depth already stored, and the test `stored < new` is strict, so no pixel is
written. -/
theorem raster_twice_idempotent (vp : Viewport) (cs : ClipStatics) (g : GfxState)
    (stream : Mem) (len : Nat) (rgb : Int) (texels : Mem) :
    (PL_flat_poly vp (PL_flat_poly vp cs g stream len rgb).2
      (PL_flat_poly vp cs g stream len rgb).1 stream len rgb).1.bufs =
      (PL_flat_poly vp cs g stream len rgb).1.bufs ∧
    (PL_lintx_poly vp (PL_lintx_poly vp cs g stream len texels).2
      (PL_lintx_poly vp cs g stream len texels).1 stream len texels).1.bufs =
      (PL_lintx_poly vp cs g stream len texels).1.bufs :=
  ⟨flat_poly_second vp cs _ g _ stream len rgb rfl,
   lintx_poly_second vp cs _ g _ stream len texels rfl⟩

/-! ## The viewport -/

/-- C22 as the code has it: `PL_set_viewport` clamps each lower bound at 0 and
each upper bound at the last column or row, and nothing else. For every
resolution `hres, vres >= 1` and all arguments, `0 <= PL_vp_min_x`,
`PL_vp_max_x <= hres - 1`, `0 <= PL_vp_min_y` and `PL_vp_max_y <= vres - 1`;
a lower bound is inside the buffer when its argument does not lie beyond the
buffer, an upper bound is non-negative when its argument is; and with
`update_center = 0` the focal centre is left unchanged. -/
theorem set_viewport_clamps (vp : Viewport) (hres vres minx miny maxx maxy update_center : Int)
    (hh : 1 ≤ hres ∧ hres < 2147483648) (hv : 1 ≤ vres ∧ vres < 2147483648) :
    (0 ≤ (PL_set_viewport vp hres vres minx miny maxx maxy update_center).PL_vp_min_x ∧
      (PL_set_viewport vp hres vres minx miny maxx maxy update_center).PL_vp_max_x ≤ hres - 1 ∧
      0 ≤ (PL_set_viewport vp hres vres minx miny maxx maxy update_center).PL_vp_min_y ∧
      (PL_set_viewport vp hres vres minx miny maxx maxy update_center).PL_vp_max_y ≤ vres - 1) ∧
    (minx ≤ hres - 1 →
      (PL_set_viewport vp hres vres minx miny maxx maxy update_center).PL_vp_min_x ≤ hres - 1) ∧
    (0 ≤ maxx →
      0 ≤ (PL_set_viewport vp hres vres minx miny maxx maxy update_center).PL_vp_max_x) ∧
    (miny ≤ vres - 1 →
      (PL_set_viewport vp hres vres minx miny maxx maxy update_center).PL_vp_min_y ≤ vres - 1) ∧
    (0 ≤ maxy →
      0 ≤ (PL_set_viewport vp hres vres minx miny maxx maxy update_center).PL_vp_max_y) ∧
    (update_center = 0 →
      (PL_set_viewport vp hres vres minx miny maxx maxy update_center).PL_vp_cen_x =
        vp.PL_vp_cen_x ∧
      (PL_set_viewport vp hres vres minx miny maxx maxy update_center).PL_vp_cen_y =
        vp.PL_vp_cen_y) := by
  have eh : sub32 hres 1 = hres - 1 := wrap32_eq_self (by omega) (by omega)
  have ev : sub32 vres 1 = vres - 1 := wrap32_eq_self (by omega) (by omega)
  have fields : ∀ uc : Int,
      (PL_set_viewport vp hres vres minx miny maxx maxy uc).PL_vp_min_x =
        (if minx < 0 then 0 else minx) ∧
      (PL_set_viewport vp hres vres minx miny maxx maxy uc).PL_vp_max_x =
        (if maxx ≥ hres then hres - 1 else maxx) ∧
      (PL_set_viewport vp hres vres minx miny maxx maxy uc).PL_vp_min_y =
        (if miny < 0 then 0 else miny) ∧
      (PL_set_viewport vp hres vres minx miny maxx maxy uc).PL_vp_max_y =
        (if maxy ≥ vres then vres - 1 else maxy) := by
    intro uc
    unfold PL_set_viewport
    rw [eh, ev]
    by_cases hu : uc ≠ 0
    · rw [if_pos hu]
      exact ⟨rfl, rfl, rfl, rfl⟩
    · rw [if_neg hu]
      exact ⟨rfl, rfl, rfl, rfl⟩
  obtain ⟨f1, f2, f3, f4⟩ := fields update_center
  rw [f1, f2, f3, f4]
  refine ⟨⟨?_, ?_, ?_, ?_⟩, ?_, ?_, ?_, ?_, ?_⟩
  · split <;> omega
  · split <;> omega
  · split <;> omega
  · split <;> omega
  · intro h; split <;> omega
  · intro h; split <;> omega
  · intro h; split <;> omega
  · intro h; split <;> omega
  · intro h
    unfold PL_set_viewport
    rw [if_neg (fun hc => hc h)]
    exact ⟨rfl, rfl⟩

/-- On a 100 x 100 buffer the call `PL_set_viewport(200, 0, 99, 99, 0)` stores
`PL_vp_min_x = 200`, beyond the last column 99. -/
theorem set_viewport_clamps_counterexample :
    (PL_set_viewport ⟨0, 0, 0, 0, 0, 0⟩ 100 100 200 0 99 99 0).PL_vp_min_x = 200 ∧
    ¬ ((200 : Int) ≤ 100 - 1) := by
  decide

theorem set_viewport_clamps_witness :
    (PL_set_viewport ⟨0, 0, 0, 0, 0, 0⟩ 896 504 (-5) 0 2000 503 1).PL_vp_max_x ≤ 896 - 1 :=
  (set_viewport_clamps ⟨0, 0, 0, 0, 0, 0⟩ 896 504 (-5) 0 2000 503 1
    (by decide) (by decide)).1.2.1

/-! ## The 2D edge clip on an edge inside the bounds -/

/-- C23 as the code has it: when both endpoints lie strictly inside the bound
on the axis `comp`, `lclip2` leaves both endpoint pointers, both records and
its static buffers unmodified and returns 0, which tells `pclip` to copy the
end vertex; the code `PL_NC` (0777) is not returned here: it is the result
exactly when the edge lies wholly outside the bound (both endpoints at or
beyond `max`, or both at or below `min`). -/
theorem lclip2_inside_returns_zero (cs : ClipStatics) (v0 v1 : Mem) (len min max comp : Int)
    (h0 : min < v0 comp ∧ v0 comp < max) (h1 : min < v1 comp ∧ v1 comp < max) :
    (lclip2 cs v0 v1 len min max comp).ret = 0 ∧
    (lclip2 cs v0 v1 len min max comp).ret ≠ PL_NC ∧
    (lclip2 cs v0 v1 len min max comp).v0 = v0 ∧
    (lclip2 cs v0 v1 len min max comp).v1 = v1 ∧
    (lclip2 cs v0 v1 len min max comp).cs = cs ∧
    (∀ (c : ClipStatics) (u0 u1 : Mem),
      (lclip2 c u0 u1 len min max comp).ret = PL_NC ↔
        ((u0 comp ≥ max ∧ u1 comp ≥ max) ∨ (u0 comp ≤ min ∧ u1 comp ≤ min))) := by
  rw [lclip2_inside cs v0 v1 len min max comp h0 h1]
  have hnc : (0 : Int) ≠ PL_NC := by decide
  refine ⟨rfl, hnc, rfl, rfl, rfl, ?_⟩
  intro c u0 u1
  have h := lclip2_nc_iff c u0 u1 len min max comp
  by_cases hio : u0 comp < u1 comp
  · simp only [hio, if_true] at h
    constructor
    · intro e
      by_contra hn
      exact (h.2 (by omega)) e
    · intro ho
      by_contra hn
      exact (h.1 hn) (by omega)
  · simp only [hio, if_false] at h
    constructor
    · intro e
      by_contra hn
      exact (h.2 (by omega)) e
    · intro ho
      by_contra hn
      exact (h.1 hn) (by omega)

/-- The edge from `x = 10` to `x = 30` lies strictly inside the bound
`0 < x < 100`, and `lclip2` returns 0, not `PL_NC`. -/
theorem lclip2_inside_counterexample :
    ((0 : Int) < Mem.ofList [10, 5, 7] 0 ∧ Mem.ofList [10, 5, 7] 0 < 100) ∧
    ((0 : Int) < Mem.ofList [30, 9, 7] 0 ∧ Mem.ofList [30, 9, 7] 0 < 100) ∧
    (lclip2 ⟨fun _ => 0, fun _ => 0, fun _ => 0⟩ (Mem.ofList [10, 5, 7])
      (Mem.ofList [30, 9, 7]) 3 0 100 0).ret = 0 ∧
    (lclip2 ⟨fun _ => 0, fun _ => 0, fun _ => 0⟩ (Mem.ofList [10, 5, 7])
      (Mem.ofList [30, 9, 7]) 3 0 100 0).ret ≠ PL_NC := by
  decide

theorem lclip2_inside_returns_zero_witness :
    (lclip2 ⟨fun _ => 0, fun _ => 0, fun _ => 0⟩ (Mem.ofList [10, 5, 7])
      (Mem.ofList [30, 9, 7]) 3 0 100 1).v1 = Mem.ofList [30, 9, 7] :=
  (lclip2_inside_returns_zero ⟨fun _ => 0, fun _ => 0, fun _ => 0⟩ (Mem.ofList [10, 5, 7])
    (Mem.ofList [30, 9, 7]) 3 0 100 1 (by decide) (by decide)).2.2.2.1

/-! ## The trig tables -/

theorem sin_mirror_loop (a : Mem) (n : Nat) (hn : n ≤ 128) (j : Int) :
    forN n (fun i s => s.write (128 + i) (neg32 (s i))) a j =
      if 128 ≤ j ∧ j < 128 + n then neg32 (a (j - 128)) else a j := by
  induction n generalizing j with
  | zero =>
    rw [forN_zero, if_neg (by omega)]
  | succ n ih =>
    rw [forN_succ]
    show Mem.write _ (128 + (n : Int)) _ j = _
    by_cases e : j = 128 + (n : Int)
    · subst e
      rw [write_same, ih (by omega) (n : Int), if_neg (by omega), if_pos (by omega)]
      congr 2
      omega
    · rw [write_other _ _ _ _ e, ih (by omega) j]
      by_cases c : 128 ≤ j ∧ j < 128 + (n : Int)
      · rw [if_pos c, if_pos (by omega)]
      · rw [if_neg c, if_neg (by omega)]

/-- The sine table after the loops of `PL_init`. -/
theorem init_trig_sin (s : MathState) (j : Int) :
    (PL_init_trig s).PL_sin j =
      if 128 ≤ j ∧ j < 256 then neg32 (s.PL_sin (j - 128)) else s.PL_sin j := by
  have h := sin_mirror_loop s.PL_sin 128 (le_refl _) j
  have e : (PL_init_trig s).PL_sin j =
      forN 128 (fun i s => s.write (128 + i) (neg32 (s i))) s.PL_sin j := rfl
  rw [e, h]
  rfl

set_option maxRecDepth 8000 in
/-- The cosine table after the loops of `PL_init`. -/
theorem init_trig_cos (s : MathState) (j : Int) :
    (PL_init_trig s).PL_cos j =
      if 0 ≤ j ∧ j < 192 then (PL_init_trig s).PL_sin (j + 64)
      else if 192 ≤ j ∧ j < 256 then (PL_init_trig s).PL_sin (j - 192)
      else s.PL_cos j := by
  have e : (PL_init_trig s).PL_cos =
      forN 64 (fun i c => c.write (i + (128 + 64)) ((PL_init_trig s).PL_sin i))
        (forN 192 (fun i c => c.write i ((PL_init_trig s).PL_sin (i + 64))) s.PL_cos) := rfl
  rw [e]
  by_cases c2 : 192 ≤ j ∧ j < 256
  · rw [if_neg (by omega), if_pos c2]
    obtain ⟨k, hk⟩ := Int.eq_ofNat_of_zero_le (show 0 ≤ j - 192 by omega)
    have hj : j = (k : Int) + (128 + 64) := by omega
    have h := forN_write_at 64 (fun i => i + (128 + 64)) (fun i => (PL_init_trig s).PL_sin i)
      (forN 192 (fun i c => c.write i ((PL_init_trig s).PL_sin (i + 64))) s.PL_cos) k
      (by omega) (by intro m _ hm h; simp only at h; omega)
    simp only at h
    rw [hj, h]
    congr 1
    omega
  · have hA := forN_write_other 64 (fun i => i + (128 + 64))
      (fun i _ => (PL_init_trig s).PL_sin i)
      (forN 192 (fun i c => c.write i ((PL_init_trig s).PL_sin (i + 64))) s.PL_cos) j
      (by intro i hi h; simp only at h; omega)
    rw [hA]
    by_cases c1 : 0 ≤ j ∧ j < 192
    · rw [if_pos c1]
      obtain ⟨k, hk⟩ := Int.eq_ofNat_of_zero_le c1.1
      have h := forN_write_at 192 (fun i => i)
        (fun i => (PL_init_trig s).PL_sin (i + 64)) s.PL_cos k (by omega)
        (by intro m _ hm h; simp only at h; omega)
      simp only at h
      rw [hk]
      exact h
    · rw [if_neg c1, if_neg c2]
      exact forN_write_other 192 (fun i => i) (fun i _ => (PL_init_trig s).PL_sin (i + 64))
        s.PL_cos j (by intro i hi h; simp only at h; omega)

theorem init_math (w w1 : World) (video : Mem) (hres vres : Int)
    (hinit : PL_init w video hres vres true = .ok w1) :
    w1.math = PL_init_trig w.math := by
  have h : PL_init w video hres vres true = .ok
      { w with
        vp := PL_set_viewport w.vp hres vres 0 0 (sub32 hres 1) (sub32 vres 1) 1
        gfx :=
          { w.gfx with
            PL_hres := hres
            PL_vres := vres
            PL_hres_h := shr32 hres 1
            PL_vres_h := shr32 vres 1
            bufs := { PL_video_buffer := video, PL_depth_buffer := fun _ => 0 }
            mul8 := mul8_init w.gfx.mul8
            xLc := fun i => if 0 ≤ i ∧ i < vres then INT_MAX else w.gfx.xLc i
            xRc := fun i => if 0 ≤ i ∧ i < vres then INT_MIN else w.gfx.xRc i }
        math := PL_init_trig w.math } := rfl
  rw [h] at hinit
  cases hinit
  rfl

theorem sinInit_range : ∀ k : Nat, k < 128 →
    0 ≤ sinInit.getD k 0 ∧ sinInit.getD k 0 ≤ 32768 := by
  decide

theorem ofList_sinInit_range (i : Int) (h0 : 0 ≤ i) (h1 : i < 128) :
    0 ≤ Mem.ofList sinInit i ∧ Mem.ofList sinInit i ≤ 32768 := by
  unfold Mem.ofList
  rw [if_pos h0]
  exact sinInit_range i.toNat (by omega)

set_option maxRecDepth 8000 in
theorem sinInit_at : Mem.ofList sinInit 0 = 0 ∧ Mem.ofList sinInit 64 = PL_P_ONE := by
  decide

/-- The tables built from the static sine table have the full-turn
symmetries. -/
theorem init_trig_symmetries (m : MathState)
    (hs : ∀ i, 0 ≤ i → i < 128 → m.PL_sin i = Mem.ofList sinInit i) :
    (∀ i, 0 ≤ i → i ≤ 255 →
      (PL_init_trig m).PL_cos i = (PL_init_trig m).PL_sin (and32 (i + 64) 255)) ∧
    (∀ i, 0 ≤ i → i ≤ 255 →
      (PL_init_trig m).PL_sin (and32 (i + 128) 255) = -(PL_init_trig m).PL_sin i) ∧
    (PL_init_trig m).PL_sin 0 = 0 ∧ (PL_init_trig m).PL_sin 64 = PL_P_ONE ∧
    (PL_init_trig m).PL_cos 0 = PL_P_ONE ∧
    (∀ i, 0 ≤ i → i ≤ 255 →
      (-32768 ≤ (PL_init_trig m).PL_sin i ∧ (PL_init_trig m).PL_sin i ≤ 32768) ∧
      (-32768 ≤ (PL_init_trig m).PL_cos i ∧ (PL_init_trig m).PL_cos i ≤ 32768)) ∧
    (PL_init_trig (PL_init_trig m)).PL_sin = (PL_init_trig m).PL_sin ∧
    (PL_init_trig (PL_init_trig m)).PL_cos = (PL_init_trig m).PL_cos := by
  have hm : (255 : Int) = 2 ^ 8 - 1 := by norm_num
  have p8 : (2 : Int) ^ 8 = 256 := by norm_num
  have hmask : ∀ x : Int, and32 x 255 = x % 256 := by
    intro x
    rw [hm, and32_mask x 8 (by decide), p8]
  have hr : ∀ i, 0 ≤ i → i < 128 → 0 ≤ m.PL_sin i ∧ m.PL_sin i ≤ 32768 := by
    intro i h0 h1
    rw [hs i h0 h1]
    exact ofList_sinInit_range i h0 h1
  have hneg : ∀ i, 0 ≤ i → i < 128 → neg32 (m.PL_sin i) = -m.PL_sin i := by
    intro i h0 h1
    have := hr i h0 h1
    exact wrap32_eq_self (by omega) (by omega)
  -- the sine table, entry by entry
  have sinlo : ∀ i, 0 ≤ i → i < 128 → (PL_init_trig m).PL_sin i = m.PL_sin i := by
    intro i h0 h1
    rw [init_trig_sin, if_neg (by omega)]
  have sinhi : ∀ i, 128 ≤ i → i < 256 → (PL_init_trig m).PL_sin i = -m.PL_sin (i - 128) := by
    intro i h0 h1
    rw [init_trig_sin, if_pos ⟨h0, h1⟩]
    exact hneg (i - 128) (by omega) (by omega)
  have sinr : ∀ i, 0 ≤ i → i ≤ 255 →
      -32768 ≤ (PL_init_trig m).PL_sin i ∧ (PL_init_trig m).PL_sin i ≤ 32768 := by
    intro i h0 h1
    by_cases c : i < 128
    · rw [sinlo i h0 c]
      have := hr i h0 c
      omega
    · rw [sinhi i (by omega) (by omega)]
      have := hr (i - 128) (by omega) (by omega)
      omega
  have cosa : ∀ i, 0 ≤ i → i ≤ 255 →
      (PL_init_trig m).PL_cos i = (PL_init_trig m).PL_sin ((i + 64) % 256) := by
    intro i h0 h1
    rw [init_trig_cos]
    by_cases c : i < 192
    · rw [if_pos ⟨h0, c⟩]
      congr 1
      omega
    · rw [if_neg (by omega), if_pos (by omega)]
      congr 1
      omega
  have idem_sin : (PL_init_trig (PL_init_trig m)).PL_sin = (PL_init_trig m).PL_sin := by
    funext j
    rw [init_trig_sin (PL_init_trig m) j]
    by_cases c : 128 ≤ j ∧ j < 256
    · rw [if_pos c, init_trig_sin m (j - 128), if_neg (by omega), init_trig_sin m j, if_pos c]
    · rw [if_neg c]
  have idem_cos : (PL_init_trig (PL_init_trig m)).PL_cos = (PL_init_trig m).PL_cos := by
    funext j
    rw [init_trig_cos (PL_init_trig m) j, idem_sin, init_trig_cos m j]
    split_ifs <;> rfl
  have s0 : (PL_init_trig m).PL_sin 0 = 0 := by
    rw [sinlo 0 (by decide) (by decide), hs 0 (by decide) (by decide)]
    exact sinInit_at.1
  have s64 : (PL_init_trig m).PL_sin 64 = PL_P_ONE := by
    rw [sinlo 64 (by decide) (by decide), hs 64 (by decide) (by decide)]
    exact sinInit_at.2
  refine ⟨?_, ?_, s0, s64, ?_, ?_, idem_sin, idem_cos⟩
  · intro i h0 h1
    rw [hmask]
    exact cosa i h0 h1
  · intro i h0 h1
    rw [hmask]
    by_cases c : i < 128
    · have e : (i + 128) % 256 = i + 128 := by omega
      have e2 : i + 128 - 128 = i := by omega
      rw [e, sinhi (i + 128) (by omega) (by omega), sinlo i h0 c, e2]
    · have e : (i + 128) % 256 = i - 128 := by omega
      rw [e, sinlo (i - 128) (by omega) (by omega), sinhi i (by omega) (by omega)]
      omega
  · have h := cosa 0 (by decide) (by decide)
    have e : ((0 : Int) + 64) % 256 = 64 := by decide
    rw [h, e]
    exact s64
  · intro i h0 h1
    refine ⟨sinr i h0 h1, ?_⟩
    rw [cosa i h0 h1]
    exact sinr _ (by omega) (by omega)

/-- C24: after `PL_init`, run on globals whose sine table still holds its
static initialiser in the first half turn, the 256-entry tables span a full
turn: `PL_cos[i] = PL_sin[(i + 64) & 255]` and
`PL_sin[(i + 128) & 255] = -PL_sin[i]` for every `i` in `[0, 255]`,
`PL_sin[0] = 0`, `PL_sin[64] = PL_cos[0] = PL_P_ONE`, every entry lies in
`[-32768, 32768]`, and a second `PL_init` leaves both tables unchanged. -/
theorem trig_tables_full_turn (w w1 w2 : World) (video video2 : Mem)
    (hres vres hres2 vres2 : Int)
    (hs : ∀ i, 0 ≤ i → i < 128 → w.math.PL_sin i = Mem.ofList sinInit i)
    (hinit : PL_init w video hres vres true = .ok w1)
    (hagain : PL_init w1 video2 hres2 vres2 true = .ok w2) :
    (∀ i, 0 ≤ i → i ≤ 255 → w1.math.PL_cos i = w1.math.PL_sin (and32 (i + 64) 255)) ∧
    (∀ i, 0 ≤ i → i ≤ 255 → w1.math.PL_sin (and32 (i + 128) 255) = -w1.math.PL_sin i) ∧
    w1.math.PL_sin 0 = 0 ∧ w1.math.PL_sin 64 = PL_P_ONE ∧ w1.math.PL_cos 0 = PL_P_ONE ∧
    (∀ i, 0 ≤ i → i ≤ 255 →
      (-32768 ≤ w1.math.PL_sin i ∧ w1.math.PL_sin i ≤ 32768) ∧
      (-32768 ≤ w1.math.PL_cos i ∧ w1.math.PL_cos i ≤ 32768)) ∧
    w2.math.PL_sin = w1.math.PL_sin ∧ w2.math.PL_cos = w1.math.PL_cos := by
  rw [init_math w1 w2 video2 hres2 vres2 hagain, init_math w w1 video hres vres hinit]
  exact init_trig_symmetries w.math hs

theorem trig_tables_full_turn_witness :
    (PL_init_trig MathState.init).PL_cos 0 = PL_P_ONE :=
  (trig_tables_full_turn World.init _ _ (fun _ => 0) (fun _ => 0) 896 504 896 504
    (fun _ _ _ => rfl) rfl rfl).2.2.2.2.1

/-! ## The depth key of `PL_psp_project` -/

theorem pow_div_div (k : Nat) (z : Int) (hz : 1 ≤ z) :
    (2 : Int) ^ (20 + k) / z / 2 ^ k = 2 ^ 20 / z := by
  obtain ⟨n, rfl⟩ := Int.eq_ofNat_of_zero_le (show 0 ≤ z by omega)
  have hN : (2 ^ (20 + k) / n / 2 ^ k : Nat) = 2 ^ 20 / n := by
    rw [Nat.div_div_eq_div_mul, pow_add, Nat.mul_div_mul_right _ _ (Nat.pow_pos (by decide))]
  exact_mod_cast hN

/-- The value `(ffac / z) >> shift` that `PL_psp_project` stores as depth. -/
theorem depth_key_eq (fov z : Int) (hfov : 8 ≤ fov ∧ fov ≤ 18) (hz : 1 ≤ z) :
    shr32 (div32 (shl32 1 (add32 fov 12).toNat) z) (sub32 fov 8).toNat = 2 ^ 20 / z := by
  obtain ⟨hf, _, _⟩ := psp_factor fov z hfov (by omega)
  have e2 : sub32 fov 8 = fov - 8 := wrap32_eq_self (by omega) (by omega)
  rw [hf, e2]
  unfold shr32
  obtain ⟨k, hk⟩ := Int.eq_ofNat_of_zero_le (show 0 ≤ fov - 8 by omega)
  have e3 : (fov - 8).toNat = k := by omega
  have e4 : (fov + 12).toNat = 20 + k := by omega
  rw [e3, e4]
  exact pow_div_div k z hz

theorem depth_key_antitone (z z2 : Int) (hz : 1 ≤ z) (hzz : z ≤ z2) :
    (2 : Int) ^ 20 / z2 ≤ 2 ^ 20 / z := by
  have h1 : (0 : Int) ≤ 2 ^ 20 / z2 := Int.ediv_nonneg (by norm_num) (by omega)
  have h2 : 2 ^ 20 / z2 * z2 ≤ (2 : Int) ^ 20 := Int.ediv_mul_le _ (by omega)
  have h3 : 2 ^ 20 / z2 * z ≤ 2 ^ 20 / z2 * z2 := Int.mul_le_mul_of_nonneg_left hzz h1
  exact (Int.le_ediv_iff_mul_le (by omega)).2 (le_trans h3 h2)

/-- C25: the depth key that `PL_psp_project` writes for a vertex of depth
`z >= 1`, `((1 << (fov + 12)) / z) >> (fov - 8)`, is `floor(2^20 / z)` for every
FOV exponent `8 <= fov <= 18`, so it does not depend on `fov`; and the key is
non-increasing in `z`. -/
theorem depth_key_fov_independent (cen_x cen_y : Int) (src dst : Mem) (len fov : Int)
    (num j : Nat) (hlen : 3 ≤ len ∧ len < 2147483648) (hj : j < num)
    (hfov : 8 ≤ fov ∧ fov ≤ 18) (hz : 1 ≤ src ((j : Int) * len + 2)) :
    PL_psp_project cen_x cen_y src dst len num fov ((j : Int) * len + 2) =
      2 ^ 20 / src ((j : Int) * len + 2) ∧
    (∀ fov2 : Int, 8 ≤ fov2 ∧ fov2 ≤ 18 →
      PL_psp_project cen_x cen_y src dst len num fov2 ((j : Int) * len + 2) =
        PL_psp_project cen_x cen_y src dst len num fov ((j : Int) * len + 2)) ∧
    (∀ z z2 : Int, 1 ≤ z → z ≤ z2 →
      shr32 (div32 (shl32 1 (add32 fov 12).toNat) z2) (sub32 fov 8).toNat ≤
        shr32 (div32 (shl32 1 (add32 fov 12).toNat) z) (sub32 fov 8).toNat) := by
  have key : ∀ f : Int, 8 ≤ f ∧ f ≤ 18 →
      PL_psp_project cen_x cen_y src dst len num f ((j : Int) * len + 2) =
        2 ^ 20 / src ((j : Int) * len + 2) := by
    intro f hf
    unfold PL_psp_project
    rw [psp_stream_at cen_x cen_y src dst len f num j hlen hj 2 (by omega)]
    have h := (psp_body_at cen_x cen_y src len f (j : Int)
      (forN j (psp_project_body cen_x cen_y src len f) dst) hlen).2.2.1
    simp only at h
    rw [h]
    exact depth_key_eq f _ hf hz
  refine ⟨key fov hfov, ?_, ?_⟩
  · intro fov2 h2
    rw [key fov2 h2, key fov hfov]
  · intro z z2 h1 h2
    rw [depth_key_eq fov z2 hfov (by omega), depth_key_eq fov z hfov h1]
    exact depth_key_antitone z z2 h1 h2

theorem depth_key_fov_independent_witness :
    PL_psp_project 448 252 (Mem.ofList [50, 50, 100]) (fun _ => 0) 3 1 9
      (((0 : Nat) : Int) * 3 + 2) = 2 ^ 20 / Mem.ofList [50, 50, 100] (((0 : Nat) : Int) * 3 + 2) :=
  (depth_key_fov_independent 448 252 (Mem.ofList [50, 50, 100]) (fun _ => 0) 3 9 1 0
    (by decide) (by decide) (by decide) (by decide)).1

/-! ## The depth key under the pre-scaling of `pscan` -/

theorem edge_attrs_loop_zero (n : Nat) (vA vB : Mem) (mjr : Int) (p : Mem × Mem) :
    (forN n (fun i (p : Mem × Mem) =>
      (p.1.write (1 + i) (vA (1 + i)),
       p.2.write (1 + i) (div32 (sub32 (vB (1 + i)) (vA (1 + i))) mjr))) p).1 0 = p.1 0 := by
  induction n with
  | zero => rfl
  | succ n ih =>
    rw [forN_succ]
    show Mem.write _ (1 + (n : Int)) _ 0 = p.1 0
    rw [write_other _ _ _ _ (by omega)]
    exact ih

/-- The depth attribute with which `pscan` starts an edge: the depth of its
first endpoint shifted left by `ZP`. -/
theorem edge_attrs_depth (rdim mjr : Int) (vA vB AT DT : Mem) :
    (edge_attrs rdim mjr vA vB AT DT).1 0 = shl32 (vA 0) ZP := by
  unfold edge_attrs
  exact (edge_attrs_loop_zero _ vA vB mjr _).trans
    (show Mem.write AT 0 (shl32 (vA 0) ZP) 0 = shl32 (vA 0) ZP from write_same _ _ _)

/-- C30, what the code does: for `8 <= fov <= 18` the depth key of a vertex at
depth `z >= 17` pre-scaled by `pscan`, `key << ZP`, is a non-negative value
below `2^31`; but at `z = 16 = PL_Z_NEAR_PLANE`, the depth of every vertex
that the near-plane clip synthesizes, the key is `65536` and `65536 << 15` is
`2^31`, which does not fit a 32-bit `int`: the stored attribute wraps to
`-2^31`. -/
theorem depth_prescale_range (fov z mjr rdim : Int) (vA vB AT DT : Mem)
    (hfov : 8 ≤ fov ∧ fov ≤ 18) (hz : PL_Z_NEAR_PLANE ≤ z)
    (hkey : vA 0 = shr32 (div32 (shl32 1 (add32 fov 12).toNat) z) (sub32 fov 8).toNat) :
    (17 ≤ z →
      0 ≤ (edge_attrs rdim mjr vA vB AT DT).1 0 ∧
      (edge_attrs rdim mjr vA vB AT DT).1 0 = vA 0 * 2 ^ 15 ∧
      vA 0 * 2 ^ 15 < 2147483648) ∧
    (z = 16 →
      vA 0 = 65536 ∧ vA 0 * 2 ^ 15 = 2147483648 ∧
      (edge_attrs rdim mjr vA vB AT DT).1 0 = -2147483648) := by
  unfold PL_Z_NEAR_PLANE at hz
  have hk : vA 0 = 2 ^ 20 / z := hkey.trans (depth_key_eq fov z hfov (by omega))
  have p20 : (2 : Int) ^ 20 = 1048576 := by norm_num
  have p15 : (2 : Int) ^ 15 = 32768 := by norm_num
  rw [edge_attrs_depth, hk, p20]
  unfold shl32 ZP
  rw [p15]
  constructor
  · intro h17
    have h1 : 1048576 / z ≤ 1048576 / 17 := by
      have := depth_key_antitone 17 z (by decide) h17
      rw [p20] at this
      exact this
    have h0 : (0 : Int) ≤ 1048576 / z := Int.ediv_nonneg (by decide) (by omega)
    have e : (1048576 : Int) / 17 = 61680 := by decide
    rw [e] at h1
    rw [wrap32_eq_self (by omega) (by omega)]
    omega
  · intro h16
    subst h16
    decide

theorem depth_prescale_range_witness :
    (edge_attrs 1 100 (Mem.ofList [65536]) (Mem.ofList [65536]) (fun _ => 0)
      (fun _ => 0)).1 0 = -2147483648 :=
  ((depth_prescale_range 9 16 100 1 (Mem.ofList [65536]) (Mem.ofList [65536]) (fun _ => 0)
    (fun _ => 0) (by decide) (by decide) (by decide)).2 rfl).2.2

/-! ## The winding order as the sign of a determinant -/

theorem b2i_eq_one (p : Prop) [Decidable p] : b2i (decide p) = 1 ↔ p := by
  unfold b2i
  by_cases h : p <;> simp [h]

theorem b2i_eq_zero (p : Prop) [Decidable p] : b2i (decide p) = 0 ↔ ¬ p := by
  unfold b2i
  by_cases h : p <;> simp [h]

/-- C26 fails as stated, in two ways. For `a = (0,0,1)`, `b = c = (1,32768,0)`
the cross product `a x b = (-32768, 1, 0)` has every component in
`[-32768, 32767]` and every product fits 32 bits, yet the vector the code
computes is the opposite one, `(32768, -1, 0)`, which is shortened to
`(16384, -1, 0)`; the function returns 1 although `det[a; b; c] = 0`. For
`a = (0,0,1)`, `b = (-32767,32767,0)`, `c = (40000,40000,0)` both `a x b` and
`b x a = (32767, 32767, 0)` are in range, no shortening occurs and every product
fits 32 bits (`40000 * 32767 = 1310680000`), but the sum of the dot product,
`2621360000`, wraps to a negative number; the function returns 1 although
`det[a; b; c] = -2621360000` is negative. -/
theorem winding_order_det_counterexample :
    ((∀ i, 0 ≤ i → i < 3 →
        -32768 ≤ vec_cross (Mem.ofList [0, 0, 1]) (Mem.ofList [1, 32768, 0]) i ∧
        vec_cross (Mem.ofList [0, 0, 1]) (Mem.ofList [1, 32768, 0]) i ≤ 32767) ∧
      det3 (Mem.ofList [0, 0, 1]) (Mem.ofList [1, 32768, 0]) (Mem.ofList [1, 32768, 0]) = 0 ∧
      PL_winding_order (Mem.ofList [0, 0, 1]) (Mem.ofList [1, 32768, 0])
        (Mem.ofList [1, 32768, 0]) = 1) ∧
    ((∀ i, 0 ≤ i → i < 3 →
        (-32768 ≤ vec_cross (Mem.ofList [0, 0, 1]) (Mem.ofList [-32767, 32767, 0]) i ∧
          vec_cross (Mem.ofList [0, 0, 1]) (Mem.ofList [-32767, 32767, 0]) i ≤ 32767) ∧
        (-32768 ≤ vec_cross (Mem.ofList [-32767, 32767, 0]) (Mem.ofList [0, 0, 1]) i ∧
          vec_cross (Mem.ofList [-32767, 32767, 0]) (Mem.ofList [0, 0, 1]) i ≤ 32767)) ∧
      (∀ i j, 0 ≤ i → i < 3 → 0 ≤ j → j < 3 →
        fits32 (Mem.ofList [0, 0, 1] i * Mem.ofList [-32767, 32767, 0] j)) ∧
      (∀ i, 0 ≤ i → i < 3 →
        fits32 (Mem.ofList [40000, 40000, 0] i *
          vec_cross (Mem.ofList [-32767, 32767, 0]) (Mem.ofList [0, 0, 1]) i)) ∧
      ¬ fits32 (vec_dot (Mem.ofList [40000, 40000, 0])
        (vec_cross (Mem.ofList [-32767, 32767, 0]) (Mem.ofList [0, 0, 1]))) ∧
      det3 (Mem.ofList [0, 0, 1]) (Mem.ofList [-32767, 32767, 0])
        (Mem.ofList [40000, 40000, 0]) = -2621360000 ∧
      PL_winding_order (Mem.ofList [0, 0, 1]) (Mem.ofList [-32767, 32767, 0])
        (Mem.ofList [40000, 40000, 0]) = 1) := by
  have h3 : ∀ i : Int, 0 ≤ i → i < 3 → i = 0 ∨ i = 1 ∨ i = 2 := by
    intro i h0 h3
    omega
  refine ⟨⟨?_, by decide, ?_⟩, ?_, ?_, ?_, by decide, by decide, ?_⟩
  · intro i h0 h
    rcases h3 i h0 h with h | h | h <;> subst h <;> decide
  · have e : PL_vec_shorten (Mem.ofList [32768, -1, 0]) = Mem.ofList [16384, -1, 0] := by
      unfold PL_vec_shorten
      have hf : (Mem.ofList [32768, -1, 0] 0).natAbs + (Mem.ofList [32768, -1, 0] 1).natAbs +
          (Mem.ofList [32768, -1, 0] 2).natAbs = 32768 + 1 := by decide
      rw [hf, vec_shorten_loop_long _ _ (by decide), vec_halve_ofList]
      exact vec_shorten_loop_short _ _ (by decide)
    unfold PL_winding_order
    have en :
        [sub32 (mul32 (Mem.ofList [0, 0, 1] 2) (Mem.ofList [1, 32768, 0] 1))
          (mul32 (Mem.ofList [0, 0, 1] 1) (Mem.ofList [1, 32768, 0] 2)),
         sub32 (mul32 (Mem.ofList [0, 0, 1] 0) (Mem.ofList [1, 32768, 0] 2))
          (mul32 (Mem.ofList [0, 0, 1] 2) (Mem.ofList [1, 32768, 0] 0)),
         sub32 (mul32 (Mem.ofList [0, 0, 1] 1) (Mem.ofList [1, 32768, 0] 0))
          (mul32 (Mem.ofList [0, 0, 1] 0) (Mem.ofList [1, 32768, 0] 1))] =
        [32768, -1, 0] := by decide
    simp only [en, e]
    decide
  · intro i h0 h
    rcases h3 i h0 h with h | h | h <;> subst h <;> decide
  · intro i j h0 h hj0 hj
    rcases h3 i h0 h with h | h | h <;> subst h <;>
      rcases h3 j hj0 hj with h | h | h <;> subst h <;> decide
  · intro i h0 h
    rcases h3 i h0 h with h | h | h <;> subst h <;> decide
  · unfold PL_winding_order
    have en :
        [sub32 (mul32 (Mem.ofList [0, 0, 1] 2) (Mem.ofList [-32767, 32767, 0] 1))
          (mul32 (Mem.ofList [0, 0, 1] 1) (Mem.ofList [-32767, 32767, 0] 2)),
         sub32 (mul32 (Mem.ofList [0, 0, 1] 0) (Mem.ofList [-32767, 32767, 0] 2))
          (mul32 (Mem.ofList [0, 0, 1] 2) (Mem.ofList [-32767, 32767, 0] 0)),
         sub32 (mul32 (Mem.ofList [0, 0, 1] 1) (Mem.ofList [-32767, 32767, 0] 0))
          (mul32 (Mem.ofList [0, 0, 1] 0) (Mem.ofList [-32767, 32767, 0] 1))] =
        [32767, 32767, 0] := by decide
    simp only [en]
    rw [vec_shorten_ofList_fits _ _ _ (by decide)]
    decide

/-- C26 (amended): when the vector that the code computes, `b x a` (the
opposite of `a x b`), has every component in `[-32768, 32767]`, so that no
shortening occurs, and no product or sum overflows 32 bits,
`PL_winding_order(a, b, c)` returns 1 if and only if `det[a; b; c]` is strictly
positive and 0 otherwise; the determinant is the dot product of the normal
`(b - a) x (c - a)` with the vertex `a`. -/
theorem winding_order_det_sign (a b c : Mem)
    (hn : ∀ i, 0 ≤ i → i < 3 → -32768 ≤ vec_cross b a i ∧ vec_cross b a i ≤ 32767)
    (hp : fits32 (a 2 * b 1) ∧ fits32 (a 1 * b 2) ∧ fits32 (a 0 * b 2) ∧ fits32 (a 2 * b 0) ∧
      fits32 (a 1 * b 0) ∧ fits32 (a 0 * b 1))
    (hc : fits32 (c 0 * vec_cross b a 0) ∧ fits32 (c 1 * vec_cross b a 1) ∧
      fits32 (c 2 * vec_cross b a 2) ∧
      fits32 (c 0 * vec_cross b a 0 + c 1 * vec_cross b a 1) ∧
      fits32 (c 0 * vec_cross b a 0 + c 1 * vec_cross b a 1 + c 2 * vec_cross b a 2)) :
    (PL_winding_order a b c = 1 ↔ 0 < det3 a b c) ∧
    (PL_winding_order a b c = 0 ↔ det3 a b c ≤ 0) ∧
    det3 a b c = vec_dot (vec_cross (vec_sub b a) (vec_sub c a)) a := by
  have h0 := hn 0 (by decide) (by decide)
  have h1 := hn 1 (by decide) (by decide)
  have h2 := hn 2 (by decide) (by decide)
  unfold vec_cross at h0 h1 h2 hc
  rw [ofList3_0] at h0
  rw [ofList3_1] at h1
  rw [ofList3_2] at h2
  rw [ofList3_0, ofList3_1, ofList3_2] at hc
  unfold fits32 at hp hc
  obtain ⟨p1, p2, p3, p4, p5, p6⟩ := hp
  obtain ⟨c0, c1, c2, c3, c4⟩ := hc
  have m1 : mul32 (a 2) (b 1) = a 2 * b 1 := wrap32_eq_self p1.1 p1.2
  have m2 : mul32 (a 1) (b 2) = a 1 * b 2 := wrap32_eq_self p2.1 p2.2
  have m3 : mul32 (a 0) (b 2) = a 0 * b 2 := wrap32_eq_self p3.1 p3.2
  have m4 : mul32 (a 2) (b 0) = a 2 * b 0 := wrap32_eq_self p4.1 p4.2
  have m5 : mul32 (a 1) (b 0) = a 1 * b 0 := wrap32_eq_self p5.1 p5.2
  have m6 : mul32 (a 0) (b 1) = a 0 * b 1 := wrap32_eq_self p6.1 p6.2
  have q0 : b 1 * a 2 - b 2 * a 1 = a 2 * b 1 - a 1 * b 2 := by ring
  have q1 : b 2 * a 0 - b 0 * a 2 = a 0 * b 2 - a 2 * b 0 := by ring
  have q2 : b 0 * a 1 - b 1 * a 0 = a 1 * b 0 - a 0 * b 1 := by ring
  rw [q0] at h0 c0 c3 c4
  rw [q1] at h1 c1 c3 c4
  rw [q2] at h2 c2 c4
  have s0 : sub32 (a 2 * b 1) (a 1 * b 2) = a 2 * b 1 - a 1 * b 2 :=
    wrap32_eq_self (by omega) (by omega)
  have s1 : sub32 (a 0 * b 2) (a 2 * b 0) = a 0 * b 2 - a 2 * b 0 :=
    wrap32_eq_self (by omega) (by omega)
  have s2 : sub32 (a 1 * b 0) (a 0 * b 1) = a 1 * b 0 - a 0 * b 1 :=
    wrap32_eq_self (by omega) (by omega)
  have hd : det3 a b c = -(c 0 * (a 2 * b 1 - a 1 * b 2) + c 1 * (a 0 * b 2 - a 2 * b 0) +
      c 2 * (a 1 * b 0 - a 0 * b 1)) := by
    unfold det3 vec_dot vec_cross
    simp only [ofList3_0, ofList3_1, ofList3_2]
    ring
  have hw : PL_winding_order a b c = b2i (decide (c 0 * (a 2 * b 1 - a 1 * b 2) +
      c 1 * (a 0 * b 2 - a 2 * b 0) + c 2 * (a 1 * b 0 - a 0 * b 1) < 0)) := by
    unfold PL_winding_order
    simp only [m1, m2, m3, m4, m5, m6, s0, s1, s2]
    rw [vec_shorten_ofList_fits _ _ _ (by omega)]
    simp only [ofList3_0, ofList3_1, ofList3_2]
    have t0 : mul32 (c 0) (a 2 * b 1 - a 1 * b 2) = c 0 * (a 2 * b 1 - a 1 * b 2) :=
      wrap32_eq_self c0.1 c0.2
    have t1 : mul32 (c 1) (a 0 * b 2 - a 2 * b 0) = c 1 * (a 0 * b 2 - a 2 * b 0) :=
      wrap32_eq_self c1.1 c1.2
    have t2 : mul32 (c 2) (a 1 * b 0 - a 0 * b 1) = c 2 * (a 1 * b 0 - a 0 * b 1) :=
      wrap32_eq_self c2.1 c2.2
    have u1 : add32 (c 0 * (a 2 * b 1 - a 1 * b 2)) (c 1 * (a 0 * b 2 - a 2 * b 0)) =
        c 0 * (a 2 * b 1 - a 1 * b 2) + c 1 * (a 0 * b 2 - a 2 * b 0) :=
      wrap32_eq_self c3.1 c3.2
    have u2 : add32 (c 0 * (a 2 * b 1 - a 1 * b 2) + c 1 * (a 0 * b 2 - a 2 * b 0))
        (c 2 * (a 1 * b 0 - a 0 * b 1)) =
        c 0 * (a 2 * b 1 - a 1 * b 2) + c 1 * (a 0 * b 2 - a 2 * b 0) +
          c 2 * (a 1 * b 0 - a 0 * b 1) :=
      wrap32_eq_self c4.1 c4.2
    simp only [t0, t1, t2, u1, u2]
  refine ⟨?_, ?_, ?_⟩
  · rw [hw, hd]
    exact (b2i_eq_one _).trans (by omega)
  · rw [hw, hd]
    exact (b2i_eq_zero _).trans (by omega)
  · unfold det3 vec_dot vec_cross vec_sub
    simp only [ofList3_0, ofList3_1, ofList3_2]
    ring

theorem winding_order_det_sign_witness :
    PL_winding_order (Mem.ofList [1, 0, 0]) (Mem.ofList [0, 1, 0]) (Mem.ofList [0, 0, 1]) = 1 ↔
      0 < det3 (Mem.ofList [1, 0, 0]) (Mem.ofList [0, 1, 0]) (Mem.ofList [0, 0, 1]) :=
  (winding_order_det_sign (Mem.ofList [1, 0, 0]) (Mem.ofList [0, 1, 0]) (Mem.ofList [0, 0, 1])
    (by
      intro i h0 h3
      have hi : i = 0 ∨ i = 1 ∨ i = 2 := by omega
      rcases hi with h | h | h <;> subst h <;> decide)
    (by decide) (by decide)).1

/-! ## The range of the interpolated components of a clipped vertex -/

/-- The increment `frac * d >> n` of an interpolation with a fraction between 0
and `2^n` lies between 0 and `d`. -/
theorem interp_floor (frac d : Int) (n : Nat) (h0 : 0 ≤ frac) (h1 : frac ≤ 2 ^ n) :
    (0 ≤ d → 0 ≤ frac * d / 2 ^ n ∧ frac * d / 2 ^ n ≤ d) ∧
    (d ≤ 0 → d ≤ frac * d / 2 ^ n ∧ frac * d / 2 ^ n ≤ 0) := by
  have hp : (0 : Int) < 2 ^ n := by positivity
  constructor
  · intro hd
    refine ⟨Int.ediv_nonneg (Int.mul_nonneg h0 hd) hp.le, Int.ediv_le_of_le_mul hp ?_⟩
    nlinarith
  · intro hd
    have hneg : frac * d ≤ 0 := Int.mul_nonpos_of_nonneg_of_nonpos h0 hd
    refine ⟨Int.le_ediv_of_mul_le hp ?_, Int.ediv_le_of_le_mul hp ?_⟩
    · nlinarith
    · omega

/-- The increment `f * (d >> 7)` of a trailing attribute in `doclip`: between 0
and `d` for a non-negative difference, but as low as `d - 127` for a negative
one. -/
theorem attr_floor (f d : Int) (h0 : 0 ≤ f) (h1 : f ≤ 128) :
    (0 ≤ d → 0 ≤ f * (d / 128) ∧ f * (d / 128) ≤ d) ∧
    (d < 0 → d - 127 ≤ f * (d / 128) ∧ f * (d / 128) ≤ 0 ∧
      128 * (d / 128) ≤ f * (d / 128)) ∧
    (d < 0 → 128 ∣ d → d ≤ f * (d / 128)) := by
  have hq1 : 128 * (d / 128) ≤ d := by omega
  have hq2 : d < 128 * (d / 128) + 128 := by omega
  refine ⟨?_, ?_, ?_⟩
  · intro hd
    have he : 0 ≤ d / 128 := by omega
    exact ⟨Int.mul_nonneg h0 he, by nlinarith⟩
  · intro hd
    have he : d / 128 ≤ 0 := by omega
    have hm : 128 * (d / 128) ≤ f * (d / 128) := by nlinarith
    exact ⟨by omega, by nlinarith, hm⟩
  · intro hd hdiv
    have he : d / 128 ≤ 0 := by omega
    have hm : 128 * (d / 128) ≤ f * (d / 128) := by nlinarith
    have hx : 128 * (d / 128) = d := by omega
    omega

/-- The trailing attribute number `k` that `doclip` writes. -/
theorem doclip_attr (L R out : Mem) (len bound comp : Int) (hc : comp = 0 ∨ comp = 1)
    (k : Int) (hk : 3 ≤ k) (hkl : k < len) :
    doclip L R out len bound comp (b2i (comp == 0)) k =
      add32 (L k) (mul32 (doclip_f L R bound comp) (shr32 (sub32 (R k) (L k)) HH_P)) := by
  have hoc : b2i (comp == 0) = 1 - comp := by
    rcases hc with h | h <;> subst h <;> decide
  unfold doclip
  rw [hoc, write_other _ _ _ _ (by omega), write_other _ _ _ _ (by omega),
    write_other _ _ _ _ (by omega)]
  obtain ⟨j, hj⟩ := Int.eq_ofNat_of_zero_le (show 0 ≤ k - 3 by omega)
  have hjn : j < (len - 3).toNat := by omega
  have hinj : ∀ i : Nat, i < (len - 3).toNat → i ≠ j →
      (fun i : Int => 3 + i) (i : Int) ≠ (fun i : Int => 3 + i) (j : Int) := by
    intro i _ hi h
    simp only at h
    omega
  have e : k = (fun i : Int => 3 + i) (j : Int) := by
    simp only
    omega
  have h := forN_write_at (len - 3).toNat (fun i => 3 + i)
    (fun i => add32 (L (3 + i)) (mul32 (doclip_f L R bound comp)
      (shr32 (sub32 (R (3 + i)) (L (3 + i))) HH_P))) out j hjn hinj
  have e3 : (3 : Int) + (j : Int) = k := by omega
  simp only [e3] at h
  rw [← e3]
  simp only [e3]
  exact h

/-- The depth that `doclip` writes. -/
theorem doclip_depth (L R out : Mem) (len bound comp : Int) (hc : comp = 0 ∨ comp = 1) :
    doclip L R out len bound comp (b2i (comp == 0)) 2 =
      add32 (L 2) (shr32 (mul32 (doclip_fhp L R bound comp) (sub32 (R 2) (L 2))) 15) := by
  have hoc : b2i (comp == 0) = 1 - comp := by
    rcases hc with h | h <;> subst h <;> decide
  unfold doclip
  rw [hoc, write_other _ _ _ _ (by omega), write_other _ _ _ _ (by omega), write_same]

/-- The opposite screen axis that `doclip` writes. -/
theorem doclip_ocomp (L R out : Mem) (len bound comp : Int) :
    doclip L R out len bound comp (b2i (comp == 0)) (b2i (comp == 0)) =
      add32 (L (b2i (comp == 0))) (shr32 (mul32 (doclip_fh L R bound comp)
        (sub32 (R (b2i (comp == 0))) (L (b2i (comp == 0))))) HI_P) := by
  unfold doclip
  rw [write_same]

/-- The component number `k`, other than the depth, that `lclip3` writes. -/
theorem lclip3_synth_at (L R m : Mem) (len : Int) (k : Int) (hk : 0 ≤ k) (hkl : k < len)
    (hk2 : k ≠ 2) :
    lclip3_synth L R m len k =
      add32 (L k) (shr32 (mul32 (lclip3_f L R) (sub32 (R k) (L k))) CLIP_P) := by
  unfold lclip3_synth
  by_cases h3 : 3 ≤ k
  · obtain ⟨j, hj⟩ := Int.eq_ofNat_of_zero_le (show 0 ≤ k - 3 by omega)
    have hjn : j < (len - 3).toNat := by omega
    have hinj : ∀ i : Nat, i < (len - 3).toNat → i ≠ j →
        (fun i : Int => 3 + i) (i : Int) ≠ (fun i : Int => 3 + i) (j : Int) := by
      intro i _ hi h
      simp only at h
      omega
    have h := forN_write_at (len - 3).toNat (fun i => 3 + i)
      (fun i => add32 (L (3 + i)) (shr32 (mul32 (lclip3_f L R)
        (sub32 (R (3 + i)) (L (3 + i)))) CLIP_P))
      (((m.write 0 (add32 (L 0) (shr32 (mul32 (lclip3_f L R) (sub32 (R 0) (L 0))) CLIP_P))).write
        1 (add32 (L 1) (shr32 (mul32 (lclip3_f L R) (sub32 (R 1) (L 1))) CLIP_P))).write 2
        PL_Z_NEAR_PLANE) j hjn hinj
    have e3 : (3 : Int) + (j : Int) = k := by omega
    simp only [e3] at h
    exact h
  · have h := forN_write_other (len - 3).toNat (fun i => 3 + i)
      (fun i _ => add32 (L (3 + i)) (shr32 (mul32 (lclip3_f L R)
        (sub32 (R (3 + i)) (L (3 + i)))) CLIP_P))
      (((m.write 0 (add32 (L 0) (shr32 (mul32 (lclip3_f L R) (sub32 (R 0) (L 0))) CLIP_P))).write
        1 (add32 (L 1) (shr32 (mul32 (lclip3_f L R) (sub32 (R 1) (L 1))) CLIP_P))).write 2
        PL_Z_NEAR_PLANE) k
      (by intro i _ h; simp only at h; omega)
    refine h.trans ?_
    rw [write_other _ _ _ _ hk2]
    have hk01 : k = 0 ∨ k = 1 := by omega
    rcases hk01 with h | h <;> subst h
    · rw [write_other _ _ _ _ (by decide), write_same]
    · rw [write_same]

/-- C27 fails as stated: `lclip2` on the x axis with bound 5 cuts the edge from
`(0,0,0,0,0)` to `(10,0,0,-1,0)`; the fractions are in range (`fhp = 16384`,
`fh = 8192`, `f = 64`) and nothing overflows, yet the first trailing attribute
of the synthesized vertex is `0 + 64 * ((-1 - 0) >> 7) = -64`, outside the
interval `[-1, 0]` spanned by the endpoints. -/
theorem clip_interpolation_counterexample :
    (lclip2 ⟨fun _ => 0, fun _ => 0, fun _ => 0⟩ (Mem.ofList [0, 0, 0, 0, 0])
      (Mem.ofList [10, 0, 0, -1, 0]) 5 5 100 0).ret = 1 ∧
    doclip_fhp (Mem.ofList [0, 0, 0, 0, 0]) (Mem.ofList [10, 0, 0, -1, 0]) 5 0 = 16384 ∧
    doclip_fh (Mem.ofList [0, 0, 0, 0, 0]) (Mem.ofList [10, 0, 0, -1, 0]) 5 0 = 8192 ∧
    doclip_f (Mem.ofList [0, 0, 0, 0, 0]) (Mem.ofList [10, 0, 0, -1, 0]) 5 0 = 64 ∧
    (lclip2 ⟨fun _ => 0, fun _ => 0, fun _ => 0⟩ (Mem.ofList [0, 0, 0, 0, 0])
      (Mem.ofList [10, 0, 0, -1, 0]) 5 5 100 0).v0 3 = -64 ∧
    doclip (Mem.ofList [0, 0, 0, 0, 0]) (Mem.ofList [10, 0, 0, -1, 0]) (fun _ => 0) 5 5 0 1 3
      = -64 ∧
    Mem.ofList [0, 0, 0, 0, 0] 3 = 0 ∧ Mem.ofList [10, 0, 0, -1, 0] 3 = -1 := by
  decide

/-- C27 (amended): when `doclip` runs with its fractions in range and without
32-bit overflow, the opposite screen axis and the depth of the synthesized
vertex lie in the closed interval spanned by the two endpoints; a trailing
attribute (index 3 and up) lies in that interval when `R[k] >= L[k]` or when
`R[k] - L[k]` is a multiple of 128, and otherwise in `[R[k] - 127, L[k]]`: it
can fall below the smaller endpoint by up to 127. Every component other than the
depth of a vertex synthesized by `lclip3` lies in the interval spanned by the
endpoints. -/
theorem clip_interpolation_range (L R out L3 R3 m : Mem) (len bound comp : Int)
    (hc : comp = 0 ∨ comp = 1)
    (hfhp : 0 ≤ doclip_fhp L R bound comp ∧ doclip_fhp L R bound comp ≤ 2 ^ 15)
    (hfh : 0 ≤ doclip_fh L R bound comp ∧ doclip_fh L R bound comp ≤ 2 ^ 14)
    (hf : 0 ≤ doclip_f L R bound comp ∧ doclip_f L R bound comp ≤ 2 ^ 7)
    (hf3 : 0 ≤ lclip3_f L3 R3 ∧ lclip3_f L3 R3 ≤ 2 ^ 8)
    (hfit : ∀ k, 0 ≤ k → k < len → fits32 (L k) ∧ fits32 (R k) ∧ fits32 (R k - L k))
    (hfit3 : ∀ k, 0 ≤ k → k < len → fits32 (L3 k) ∧ fits32 (R3 k) ∧ fits32 (R3 k - L3 k))
    (hz : fits32 (doclip_fhp L R bound comp * (R 2 - L 2)))
    (ho : fits32 (doclip_fh L R bound comp * (R (b2i (comp == 0)) - L (b2i (comp == 0)))))
    (ha : ∀ k, 3 ≤ k → k < len →
      fits32 (L k + doclip_f L R bound comp * shr32 (R k - L k) HH_P))
    (h3 : ∀ k, 0 ≤ k → k < len → fits32 (lclip3_f L3 R3 * (R3 k - L3 k)))
    (hlen : 3 ≤ len) :
    (min (L (b2i (comp == 0))) (R (b2i (comp == 0))) ≤
        doclip L R out len bound comp (b2i (comp == 0)) (b2i (comp == 0)) ∧
      doclip L R out len bound comp (b2i (comp == 0)) (b2i (comp == 0)) ≤
        max (L (b2i (comp == 0))) (R (b2i (comp == 0)))) ∧
    (min (L 2) (R 2) ≤ doclip L R out len bound comp (b2i (comp == 0)) 2 ∧
      doclip L R out len bound comp (b2i (comp == 0)) 2 ≤ max (L 2) (R 2)) ∧
    (∀ k, 3 ≤ k → k < len →
      (L k ≤ R k → L k ≤ doclip L R out len bound comp (b2i (comp == 0)) k ∧
        doclip L R out len bound comp (b2i (comp == 0)) k ≤ R k) ∧
      (R k < L k → R k - 127 ≤ doclip L R out len bound comp (b2i (comp == 0)) k ∧
        doclip L R out len bound comp (b2i (comp == 0)) k ≤ L k) ∧
      (R k < L k → 128 ∣ R k - L k →
        R k ≤ doclip L R out len bound comp (b2i (comp == 0)) k)) ∧
    (∀ k, 0 ≤ k → k < len → k ≠ 2 →
      min (L3 k) (R3 k) ≤ lclip3_synth L3 R3 m len k ∧
      lclip3_synth L3 R3 m len k ≤ max (L3 k) (R3 k)) := by
  have hoc : b2i (comp == 0) = 0 ∨ b2i (comp == 0) = 1 := by
    rcases hc with h | h <;> subst h
    · exact Or.inr (by decide)
    · exact Or.inl (by decide)
  have p15 : (2 : Int) ^ 15 = 32768 := by norm_num
  have p14 : (2 : Int) ^ 14 = 16384 := by norm_num
  have p7 : (2 : Int) ^ 7 = 128 := by norm_num
  have p8 : (2 : Int) ^ 8 = 256 := by norm_num
  -- a component interpolated as `L + (frac * (R - L) >> n)`
  have key : ∀ (A B : Mem) (frac : Int) (n : Nat) (k : Int), 0 ≤ frac → frac ≤ 2 ^ n →
      fits32 (A k) → fits32 (B k) → fits32 (B k - A k) → fits32 (frac * (B k - A k)) →
      min (A k) (B k) ≤ add32 (A k) (shr32 (mul32 frac (sub32 (B k) (A k))) n) ∧
      add32 (A k) (shr32 (mul32 frac (sub32 (B k) (A k))) n) ≤ max (A k) (B k) := by
    intro A B frac n k f0 f1 fa fb fd fm
    unfold fits32 at fa fb fd fm
    have e1 : sub32 (B k) (A k) = B k - A k := wrap32_eq_self fd.1 fd.2
    have e2 : mul32 frac (B k - A k) = frac * (B k - A k) := wrap32_eq_self fm.1 fm.2
    rw [e1, e2]
    unfold shr32 add32
    obtain ⟨hpos, hneg⟩ := interp_floor frac (B k - A k) n f0 f1
    by_cases hd : 0 ≤ B k - A k
    · obtain ⟨q0, q1⟩ := hpos hd
      rw [wrap32_eq_self (by omega) (by omega)]
      omega
    · obtain ⟨q0, q1⟩ := hneg (by omega)
      rw [wrap32_eq_self (by omega) (by omega)]
      omega
  refine ⟨?_, ?_, ?_, ?_⟩
  · rw [doclip_ocomp]
    have hko : 0 ≤ b2i (comp == 0) ∧ b2i (comp == 0) < len := by omega
    obtain ⟨fa, fb, fd⟩ := hfit _ hko.1 hko.2
    exact key L R _ HI_P _ hfh.1 hfh.2 fa fb fd ho
  · rw [doclip_depth _ _ _ _ _ _ hc]
    obtain ⟨fa, fb, fd⟩ := hfit 2 (by decide) (by omega)
    exact key L R _ 15 2 hfhp.1 hfhp.2 fa fb fd hz
  · intro k hk hkl
    rw [doclip_attr _ _ _ _ _ _ hc k hk hkl]
    obtain ⟨fa, fb, fd⟩ := hfit k (by omega) hkl
    have fs := ha k hk hkl
    unfold fits32 at fa fb fd fs
    have e1 : sub32 (R k) (L k) = R k - L k := wrap32_eq_self fd.1 fd.2
    rw [p7] at hf
    obtain ⟨a1, a2, a3⟩ := attr_floor (doclip_f L R bound comp) (R k - L k) hf.1 hf.2
    unfold shr32 HH_P at fs ⊢
    rw [p7] at fs ⊢
    rw [e1]
    have e2 : mul32 (doclip_f L R bound comp) ((R k - L k) / 128) =
        doclip_f L R bound comp * ((R k - L k) / 128) := by
      by_cases hd : 0 ≤ R k - L k
      · have := a1 hd
        exact wrap32_eq_self (by omega) (by omega)
      · have := a2 (by omega)
        exact wrap32_eq_self (by omega) (by omega)
    rw [e2]
    unfold add32
    rw [wrap32_eq_self fs.1 fs.2]
    refine ⟨fun h => ?_, fun h => ?_, fun h hdiv => ?_⟩
    · have := a1 (by omega)
      omega
    · have := a2 (by omega)
      omega
    · have := a3 (by omega) hdiv
      omega
  · intro k hk hkl hk2
    rw [lclip3_synth_at _ _ _ _ k hk hkl hk2]
    obtain ⟨fa, fb, fd⟩ := hfit3 k hk hkl
    exact key L3 R3 _ CLIP_P k hf3.1 hf3.2 fa fb fd (h3 k hk hkl)

theorem clip_interpolation_range_witness :
    min (Mem.ofList [0, 0, 0, 0, 0] 2) (Mem.ofList [10, 4, 8, 256, 0] 2) ≤
        doclip (Mem.ofList [0, 0, 0, 0, 0]) (Mem.ofList [10, 4, 8, 256, 0]) (fun _ => 0) 5 5 0
          (b2i ((0 : Int) == 0)) 2 ∧
      doclip (Mem.ofList [0, 0, 0, 0, 0]) (Mem.ofList [10, 4, 8, 256, 0]) (fun _ => 0) 5 5 0
          (b2i ((0 : Int) == 0)) 2 ≤
        max (Mem.ofList [0, 0, 0, 0, 0] 2) (Mem.ofList [10, 4, 8, 256, 0] 2) :=
  (clip_interpolation_range (Mem.ofList [0, 0, 0, 0, 0]) (Mem.ofList [10, 4, 8, 256, 0])
    (fun _ => 0) (Mem.ofList [0, 0, 0, 0, 0]) (Mem.ofList [10, 4, 32, 256, 0]) (fun _ => 0)
    5 5 0 (Or.inl rfl) (by decide) (by decide) (by decide) (by decide)
    (by
      intro k h0 h1
      have hi : k = 0 ∨ k = 1 ∨ k = 2 ∨ k = 3 ∨ k = 4 := by omega
      rcases hi with h | h | h | h | h <;> subst h <;> decide)
    (by
      intro k h0 h1
      have hi : k = 0 ∨ k = 1 ∨ k = 2 ∨ k = 3 ∨ k = 4 := by omega
      rcases hi with h | h | h | h | h <;> subst h <;> decide)
    (by decide) (by decide)
    (by
      intro k h0 h1
      have hi : k = 3 ∨ k = 4 := by omega
      rcases hi with h | h <;> subst h <;> decide)
    (by
      intro k h0 h1
      have hi : k = 0 ∨ k = 1 ∨ k = 2 ∨ k = 3 ∨ k = 4 := by omega
      rcases hi with h | h | h | h | h <;> subst h <;> decide)
    (by decide)).2.1

/-! ## What the polygon clippers append per edge -/

/-- One pass of the loop of `pclip`: the count grows by at most two, by nothing
when the edge clipper rejects the edge and by at least one otherwise, and the
records already written stay as they are. -/
theorem pclip_body_step (clip : EdgeClipper) (src : Mem) (len minv maxv k : Int) (st : PClip) :
    ((clip st.cs (src.shift (k * len)) (src.shift ((k + 1) * len)) len minv maxv).ret = PL_NC →
      (pclip_body clip src len minv maxv k st).nverts = st.nverts) ∧
    ((clip st.cs (src.shift (k * len)) (src.shift ((k + 1) * len)) len minv maxv).ret ≠ PL_NC →
      st.nverts + 1 ≤ (pclip_body clip src len minv maxv k st).nverts) ∧
    st.nverts ≤ (pclip_body clip src len minv maxv k st).nverts ∧
    (pclip_body clip src len minv maxv k st).nverts ≤ st.nverts + 2 ∧
    (0 ≤ len → ∀ j, j < st.nverts * len →
      (pclip_body clip src len minv maxv k st).dst j = st.dst j) := by
  by_cases hnc : (clip st.cs (src.shift (k * len)) (src.shift ((k + 1) * len)) len minv
      maxv).ret = PL_NC
  · rw [pclip_body_nc clip src len minv maxv k st hnc]
    exact ⟨fun _ => rfl, fun h => absurd hnc h, le_refl _, by show st.nverts ≤ st.nverts + 2; omega,
      fun _ _ _ => rfl⟩
  · by_cases h1 : (clip st.cs (src.shift (k * len)) (src.shift ((k + 1) * len)) len minv
        maxv).ret = 1
    · rw [pclip_body_two clip src len minv maxv k st h1]
      refine ⟨fun h => absurd h hnc, fun _ => ?_, ?_, ?_, ?_⟩
      · show st.nverts + 1 ≤ st.nverts + 2
        omega
      · show st.nverts ≤ st.nverts + 2
        omega
      · exact le_refl _
      · intro hl j hj
        show memcpy (memcpy st.dst _ _ len) _ _ len j = st.dst j
        have hx : (st.nverts + 1) * len = st.nverts * len + len := by ring
        rw [memcpy_outside _ _ _ _ _ (Or.inl (by omega)), memcpy_outside _ _ _ _ _ (Or.inl hj)]
    · rw [pclip_body_one clip src len minv maxv k st hnc h1]
      refine ⟨fun h => absurd h hnc, fun _ => le_refl _, ?_, ?_, ?_⟩
      · show st.nverts ≤ st.nverts + 1
        omega
      · show st.nverts + 1 ≤ st.nverts + 2
        omega
      · intro hl j hj
        show memcpy st.dst _ _ len j = st.dst j
        rw [memcpy_outside _ _ _ _ _ (Or.inl hj)]

/-- Later passes of the loop of `pclip` neither lower the count nor touch the
records written before. -/
theorem pclip_loop_mono (clip : EdgeClipper) (s0 : PClip) (src : Mem) (len minv maxv : Int)
    (n d : Nat) :
    (forN n (pclip_body clip src len minv maxv) s0).nverts ≤
      (forN (n + d) (pclip_body clip src len minv maxv) s0).nverts ∧
    (0 ≤ len → ∀ j, j < (forN n (pclip_body clip src len minv maxv) s0).nverts * len →
      (forN (n + d) (pclip_body clip src len minv maxv) s0).dst j =
        (forN n (pclip_body clip src len minv maxv) s0).dst j) := by
  induction d with
  | zero => exact ⟨le_refl _, fun _ _ _ => rfl⟩
  | succ d ih =>
    obtain ⟨ih1, ih2⟩ := ih
    have e : n + (d + 1) = (n + d) + 1 := rfl
    rw [e, forN_succ]
    obtain ⟨-, -, s3, -, s5⟩ := pclip_body_step clip src len minv maxv ((n + d : Nat) : Int)
      (forN (n + d) (pclip_body clip src len minv maxv) s0)
    refine ⟨le_trans ih1 s3, fun hl j hj => ?_⟩
    have hm : (forN n (pclip_body clip src len minv maxv) s0).nverts * len ≤
        (forN (n + d) (pclip_body clip src len minv maxv) s0).nverts * len :=
      Int.mul_le_mul_of_nonneg_right ih1 hl
    rw [s5 hl j (by omega)]
    exact ih2 hl j hj

/-- The count of the loop of `pclip` after `n` edges lies between 0 and `2 n`. -/
theorem pclip_loop_count (clip : EdgeClipper) (s0 : PClip) (src : Mem) (len minv maxv : Int)
    (n : Nat) :
    s0.nverts ≤ (forN n (pclip_body clip src len minv maxv) s0).nverts ∧
    (forN n (pclip_body clip src len minv maxv) s0).nverts ≤ s0.nverts + 2 * (n : Int) := by
  induction n with
  | zero =>
    refine ⟨le_refl _, ?_⟩
    show s0.nverts ≤ s0.nverts + 2 * ((0 : Nat) : Int)
    simp
  | succ n ih =>
    rw [forN_succ]
    obtain ⟨-, -, s3, s4, -⟩ := pclip_body_step clip src len minv maxv (n : Int)
      (forN n (pclip_body clip src len minv maxv) s0)
    push_cast
    omega

/-- The per-edge behaviour of `pclip` for an edge clipper that rejects exactly
the edges that are outside and returns the edges that are inside as they are. -/
theorem pclip_appends (clip : EdgeClipper) (cs : ClipStatics) (dst src : Mem)
    (len minv maxv : Int) (num : Nat) (outside inside : Nat → Prop)
    (hout : ∀ (k : Nat) (cs' : ClipStatics), outside k →
      (clip cs' (src.shift ((k : Int) * len)) (src.shift (((k : Int) + 1) * len)) len minv
        maxv).ret = PL_NC)
    (hnot : ∀ (k : Nat) (cs' : ClipStatics), ¬ outside k →
      (clip cs' (src.shift ((k : Int) * len)) (src.shift (((k : Int) + 1) * len)) len minv
        maxv).ret ≠ PL_NC)
    (hin : ∀ (k : Nat) (cs' : ClipStatics), inside k →
      clip cs' (src.shift ((k : Int) * len)) (src.shift (((k : Int) + 1) * len)) len minv maxv =
        { ret := 0, v0 := src.shift ((k : Int) * len), v1 := src.shift (((k : Int) + 1) * len),
          cs := cs' }) :
    AppendsPerEdge (fun n => pclip cs dst src len n clip minv maxv) src len num outside inside := by
  have hnv : ∀ n : Nat, (pclip cs dst src len n clip minv maxv).nverts =
      (forN n (pclip_body clip src len minv maxv) { dst := dst, nverts := 0, cs := cs }).nverts :=
    fun _ => rfl
  have hdst : ∀ n : Nat, (pclip cs dst src len n clip minv maxv).dst =
      memcpy (forN n (pclip_body clip src len minv maxv) { dst := dst, nverts := 0, cs := cs }).dst
        ((forN n (pclip_body clip src len minv maxv)
          { dst := dst, nverts := 0, cs := cs }).nverts * len)
        (forN n (pclip_body clip src len minv maxv) { dst := dst, nverts := 0, cs := cs }).dst
        len :=
    fun _ => rfl
  unfold AppendsPerEdge
  simp only [hnv, hdst]
  generalize hs0 : ({ dst := dst, nverts := 0, cs := cs } : PClip) = s0
  have hz : s0.nverts = 0 := by rw [← hs0]
  refine ⟨hz, ?_, ?_, ?_, ?_⟩
  · intro n hn
    obtain ⟨s1, s2, -, s4, -⟩ := pclip_body_step clip src len minv maxv (n : Int)
      (forN n (pclip_body clip src len minv maxv) s0)
    rw [forN_succ]
    refine ⟨fun ho => s1 (hout n _ ho), fun hi => ?_, fun ho => s2 (hnot n _ ho), s4⟩
    have hc := hin n (forN n (pclip_body clip src len minv maxv) s0).cs hi
    have hne : (clip (forN n (pclip_body clip src len minv maxv) s0).cs
        (src.shift ((n : Int) * len)) (src.shift (((n : Int) + 1) * len)) len minv maxv).ret
        ≠ PL_NC := by
      rw [hc]
      show (0 : Int) ≠ PL_NC
      decide
    have hn1 : (clip (forN n (pclip_body clip src len minv maxv) s0).cs
        (src.shift ((n : Int) * len)) (src.shift (((n : Int) + 1) * len)) len minv maxv).ret
        ≠ 1 := by
      rw [hc]
      show (0 : Int) ≠ 1
      decide
    have hb := pclip_body_one clip src len minv maxv (n : Int)
      (forN n (pclip_body clip src len minv maxv) s0) hne hn1
    rw [hc] at hb
    have hcnt : (forN (n + 1) (pclip_body clip src len minv maxv) s0).nverts =
        (forN n (pclip_body clip src len minv maxv) s0).nverts + 1 := by
      rw [forN_succ, hb]
    refine ⟨hcnt, fun t ht0 ht1 => ?_⟩
    obtain ⟨d, hd⟩ : ∃ d, num = (n + 1) + d := ⟨num - (n + 1), by omega⟩
    obtain ⟨m1, m2⟩ := pclip_loop_mono clip s0 src len minv maxv (n + 1) d
    rw [← hd] at m1 m2
    have hlt : (forN n (pclip_body clip src len minv maxv) s0).nverts * len + t <
        (forN (n + 1) (pclip_body clip src len minv maxv) s0).nverts * len := by
      rw [hcnt]
      have hx : ((forN n (pclip_body clip src len minv maxv) s0).nverts + 1) * len =
          (forN n (pclip_body clip src len minv maxv) s0).nverts * len + len := by ring
      omega
    have hm : (forN (n + 1) (pclip_body clip src len minv maxv) s0).nverts * len ≤
        (forN num (pclip_body clip src len minv maxv) s0).nverts * len :=
      Int.mul_le_mul_of_nonneg_right m1 (by omega)
    rw [memcpy_outside _ _ _ _ _ (Or.inl (by omega)), m2 (by omega) _ hlt, forN_succ, hb]
    exact memcpy_inside _ _ _ _ _ ht0 ht1
  · have := (pclip_loop_count clip s0 src len minv maxv num).1
    omega
  · have := (pclip_loop_count clip s0 src len minv maxv num).2
    omega
  · intro t ht0 ht1
    rw [memcpy_inside _ _ _ _ _ ht0 ht1]
    have h0 := (pclip_loop_count clip s0 src len minv maxv num).1
    by_cases hN : (forN num (pclip_body clip src len minv maxv) s0).nverts = 0
    · rw [hN, zero_mul]
      have e : (0 : Int) + t = t := zero_add t
      exact ((congrArg _ e.symm).trans (memcpy_inside _ _ 0 _ _ ht0 ht1)).symm
    · have hge : 1 * len ≤ (forN num (pclip_body clip src len minv maxv) s0).nverts * len :=
        Int.mul_le_mul_of_nonneg_right (by omega) (by omega)
      rw [memcpy_outside _ _ _ _ _ (Or.inl (by omega))]

/-- The edges that `lclip2` rejects are those wholly outside the bound. -/
theorem lclip2_nc_outside (cs : ClipStatics) (v0 v1 : Mem) (len min max comp : Int) :
    (lclip2 cs v0 v1 len min max comp).ret = PL_NC ↔
      ((v0 comp ≥ max ∧ v1 comp ≥ max) ∨ (v0 comp ≤ min ∧ v1 comp ≤ min)) := by
  have h := lclip2_nc_iff cs v0 v1 len min max comp
  have hg : ((if v0 comp < v1 comp then v0 else v1) comp ≥ max ∨
      (if v0 comp < v1 comp then v1 else v0) comp ≤ min) ↔
      ((v0 comp ≥ max ∧ v1 comp ≥ max) ∨ (v0 comp ≤ min ∧ v1 comp ≤ min)) := by
    by_cases hio : v0 comp < v1 comp
    · simp only [hio, if_true]
      constructor <;> intro h <;> omega
    · simp only [hio, if_false]
      constructor <;> intro h <;> omega
  rw [← hg]
  constructor
  · intro hr
    by_contra hc
    exact h.2 hc hr
  · intro hc
    by_contra hr
    exact h.1 hr hc

/-- The edges that `lclip3` rejects are those wholly behind the near plane. -/
theorem lclip3_nc_outside (cs : ClipStatics) (v0 v1 : Mem) (len : Int) :
    (lclip3 cs v0 v1 len).ret = PL_NC ↔ (v0 2 < PL_Z_NEAR_PLANE ∧ v1 2 < PL_Z_NEAR_PLANE) := by
  have hnc : (0 : Int) ≠ PL_NC := by decide
  have hn1 : (1 : Int) ≠ PL_NC := by decide
  rw [lclip3_ret]
  by_cases h1 : PL_Z_NEAR_PLANE ≤ v1 2
  · rw [if_pos h1]
    by_cases h0 : PL_Z_NEAR_PLANE ≤ v0 2
    · rw [if_pos h0]
      exact ⟨fun h => absurd h hnc, fun h => by omega⟩
    · rw [if_neg h0]
      exact ⟨fun h => absurd h hn1, fun h => by omega⟩
  · rw [if_neg h1]
    by_cases h0 : PL_Z_NEAR_PLANE ≤ v0 2
    · rw [if_pos h0]
      exact ⟨fun h => absurd h hnc, fun h => by omega⟩
    · rw [if_neg h0]
      exact ⟨fun _ => ⟨by omega, by omega⟩, fun _ => rfl⟩

theorem pclip2_appends (cs : ClipStatics) (dst src : Mem) (len min max comp : Int) (num : Nat) :
    AppendsPerEdge
      (fun n => pclip cs dst src len n (fun cs v0 v1 len mn mx => lclip2 cs v0 v1 len mn mx comp)
        min max)
      src len num (edge_outside2 src len min max comp) (edge_inside2 src len min max comp) := by
  apply pclip_appends
  · intro k cs' ho
    exact (lclip2_nc_outside cs' _ _ len min max comp).2 ho
  · intro k cs' ho hr
    exact ho ((lclip2_nc_outside cs' _ _ len min max comp).1 hr)
  · intro k cs' hi
    exact lclip2_inside cs' _ _ len min max comp hi.1 hi.2

/-- C28: `PL_clip_poly_x`, `PL_clip_poly_y` and `PL_clip_poly_nz` take the
edges of the chain in turn; an edge wholly outside the bound appends no vertex,
an edge wholly inside appends exactly one, its end vertex unmodified, any other
edge appends one or two; the returned count is the number of vertices appended,
at most `2 * num`, and the record behind the last appended vertex is a copy of
the first output record. -/
theorem clip_poly_appends_per_edge (vp : Viewport) (cs : ClipStatics) (dst src : Mem)
    (len : Int) (num : Nat) :
    AppendsPerEdge (fun n => PL_clip_poly_x vp cs dst src len n) src len num
      (edge_outside2 src len vp.PL_vp_min_x vp.PL_vp_max_x 0)
      (edge_inside2 src len vp.PL_vp_min_x vp.PL_vp_max_x 0) ∧
    AppendsPerEdge (fun n => PL_clip_poly_y vp cs dst src len n) src len num
      (edge_outside2 src len vp.PL_vp_min_y vp.PL_vp_max_y 1)
      (edge_inside2 src len vp.PL_vp_min_y vp.PL_vp_max_y 1) ∧
    AppendsPerEdge (fun n => PL_clip_poly_nz cs dst src len n) src len num
      (edge_outside3 src len) (edge_inside3 src len) := by
  refine ⟨pclip2_appends cs dst src len _ _ 0 num, pclip2_appends cs dst src len _ _ 1 num, ?_⟩
  apply pclip_appends lineclipnz
  · intro k cs' ho
    exact (lclip3_nc_outside cs' _ _ len).2 ho
  · intro k cs' ho hr
    exact ho ((lclip3_nc_outside cs' _ _ len).1 hr)
  · intro k cs' hi
    exact lclip3_inside cs' _ _ len hi.1 hi.2

/-! ## The edge walk of `pscan` -/

/-- One axis of the edge walk in exact arithmetic: the position after `i` of
`m` steps from `a` to `b`. -/
theorem axis_walk (a b m d i : Int) (ha : 0 ≤ a ∧ a ≤ 2047) (hb : 0 ≤ b ∧ b ≤ 2047)
    (hm : 1 ≤ m ∧ m ≤ 2047) (hab : -m ≤ b - a ∧ b - a ≤ m)
    (hd : d = Int.tdiv ((b - a) * 262144) m) (hi : 0 ≤ i ∧ i ≤ m) :
    (0 ≤ a * 262144 + 131072 + i * d ∧ a * 262144 + 131072 + i * d < 1073741824) ∧
    (-262144 ≤ d ∧ d ≤ 262144) ∧
    (min a b ≤ (a * 262144 + 131072 + i * d) / 262144 ∧
      (a * 262144 + 131072 + i * d) / 262144 ≤ max a b) ∧
    (i = 0 → (a * 262144 + 131072 + i * d) / 262144 = a) ∧
    (i = m → (a * 262144 + 131072 + i * d) / 262144 = b) ∧
    (a ≤ b → 0 ≤ d) ∧ (b ≤ a → d ≤ 0) := by
  have hm0 : (0 : Int) < m := by omega
  by_cases hle : a ≤ b
  · have hD : 0 ≤ (b - a) * 262144 := by omega
    have e : d = (b - a) * 262144 / m := by rw [hd, tdiv_nonneg_eq _ _ hD hm0.le]
    have d0 : 0 ≤ d := by rw [e]; exact Int.ediv_nonneg hD hm0.le
    have d1 : d ≤ 262144 := by
      rw [e]
      exact Int.ediv_le_of_le_mul hm0 (by omega)
    have f1 : m * d ≤ (b - a) * 262144 := by
      rw [e]
      exact Int.mul_ediv_self_le (by omega)
    have f2 : (b - a) * 262144 < m * d + m := by
      rw [e]
      exact Int.lt_mul_ediv_self_add hm0
    have p0 : 0 ≤ i * d := Int.mul_nonneg hi.1 d0
    have p1 : i * d ≤ m * d := Int.mul_le_mul_of_nonneg_right hi.2 d0
    have p2 : d ≤ m * d := by nlinarith
    refine ⟨⟨by omega, by omega⟩, ⟨by omega, d1⟩, ⟨by omega, by omega⟩, ?_, ?_, fun _ => d0,
      fun h => by omega⟩
    · intro h
      subst h
      omega
    · intro h
      subst h
      omega
  · have hD : 0 ≤ -((b - a) * 262144) := by omega
    have e : d = -(-((b - a) * 262144) / m) := by
      rw [hd]
      have e0 : (b - a) * 262144 = -(-((b - a) * 262144)) := by ring
      rw [e0, Int.neg_tdiv, tdiv_nonneg_eq _ _ hD hm0.le, ← e0]
    have q0 : 0 ≤ -((b - a) * 262144) / m := Int.ediv_nonneg hD hm0.le
    have q1 : -((b - a) * 262144) / m ≤ 262144 := Int.ediv_le_of_le_mul hm0 (by omega)
    have g1 : m * (-((b - a) * 262144) / m) ≤ -((b - a) * 262144) :=
      Int.mul_ediv_self_le (by omega)
    have g2 : -((b - a) * 262144) < m * (-((b - a) * 262144) / m) + m :=
      Int.lt_mul_ediv_self_add hm0
    have d0 : d ≤ 0 := by omega
    have d1 : -262144 ≤ d := by omega
    have em : m * d = -(m * (-((b - a) * 262144) / m)) := by rw [e]; ring
    have p0 : i * d ≤ 0 := Int.mul_nonpos_of_nonneg_of_nonpos hi.1 d0
    have p1 : m * d ≤ i * d := by nlinarith
    refine ⟨⟨by omega, by omega⟩, ⟨d1, by omega⟩, ⟨by omega, by omega⟩, ?_, ?_, fun h => by omega,
      fun _ => d0⟩
    · intro h
      subst h
      omega
    · intro h
      subst h
      omega

/-- The coordinates of the walk after `i` trips when no sum wraps. -/
theorem iter_walk_xy (rdim dx dy : Int) (DT : Mem) (i : Nat) :
    ∀ w : Walk, (∀ j : Nat, 1 ≤ j → j ≤ i → fits32 (w.x + (j : Int) * dx) ∧
        fits32 (w.y + (j : Int) * dy)) →
      (iter i (walk_step rdim dx dy DT) w).x = w.x + (i : Int) * dx ∧
      (iter i (walk_step rdim dx dy DT) w).y = w.y + (i : Int) * dy := by
  induction i with
  | zero =>
    intro w _
    exact ⟨by simp [iter], by simp [iter]⟩
  | succ i ih =>
    intro w h
    rw [iter_succ]
    have h1 := h 1 (le_refl 1) (by omega)
    simp only [Nat.cast_one, one_mul] at h1
    have ex : (walk_step rdim dx dy DT w).x = w.x + dx := wrap32_eq_self h1.1.1 h1.1.2
    have ey : (walk_step rdim dx dy DT w).y = w.y + dy := wrap32_eq_self h1.2.1 h1.2.2
    have hstep := ih (walk_step rdim dx dy DT w) (by
      intro j hj1 hj2
      have := h (j + 1) (by omega) (by omega)
      rw [ex, ey]
      push_cast at this
      have e1 : w.x + dx + (j : Int) * dx = w.x + ((j : Int) + 1) * dx := by ring
      have e2 : w.y + dy + (j : Int) * dy = w.y + ((j : Int) + 1) * dy := by ring
      rw [e1, e2]
      exact this)
    rw [hstep.1, hstep.2, ex, ey]
    push_cast
    exact ⟨by ring, by ring⟩

/-- A sequence that starts at or below `r`, ends at or above `r` and never
rises by more than one takes the value `r`. -/
theorem steps_cover_up (s : Nat → Int) (m : Nat)
    (h : ∀ i, i < m → s (i + 1) ≤ s i + 1) (r : Int) (h0 : s 0 ≤ r) (h1 : r ≤ s m) :
    ∃ i, i ≤ m ∧ s i = r := by
  induction m with
  | zero => exact ⟨0, le_refl 0, by omega⟩
  | succ m ih =>
    by_cases hr : r ≤ s m
    · obtain ⟨i, hi, e⟩ := ih (fun i hi => h i (by omega)) hr
      exact ⟨i, by omega, e⟩
    · have := h m (by omega)
      exact ⟨m + 1, le_refl _, by omega⟩

/-- A sequence that starts at or above `r`, ends at or below `r` and never
falls by more than one takes the value `r`. -/
theorem steps_cover_down (s : Nat → Int) (m : Nat)
    (h : ∀ i, i < m → s i - 1 ≤ s (i + 1)) (r : Int) (h0 : r ≤ s 0) (h1 : s m ≤ r) :
    ∃ i, i ≤ m ∧ s i = r := by
  induction m with
  | zero => exact ⟨0, le_refl 0, by omega⟩
  | succ m ih =>
    by_cases hr : s m ≤ r
    · obtain ⟨i, hi, e⟩ := ih (fun i hi => h i (by omega)) hr
      exact ⟨i, by omega, e⟩
    · have := h m (by omega)
      exact ⟨m + 1, le_refl _, by omega⟩

/-- The step count of an edge between two points of the screen. -/
theorem edge_mjr_screen (x0 y0 x1 y1 : Int) (hx0 : 0 ≤ x0 ∧ x0 ≤ 2047) (hy0 : 0 ≤ y0 ∧ y0 ≤ 2047)
    (hx1 : 0 ≤ x1 ∧ x1 ≤ 2047) (hy1 : 0 ≤ y1 ∧ y1 ≤ 2047) :
    sub32 x1 x0 = x1 - x0 ∧ sub32 y1 y0 = y1 - y0 ∧
    edge_mjr (sub32 x1 x0) (sub32 y1 y0) = max |x1 - x0| |y1 - y0| ∧
    edge_mjr (sub32 x1 x0) (sub32 y1 y0) ≤ 2047 ∧
    (-edge_mjr (sub32 x1 x0) (sub32 y1 y0) ≤ x1 - x0 ∧
      x1 - x0 ≤ edge_mjr (sub32 x1 x0) (sub32 y1 y0)) ∧
    (-edge_mjr (sub32 x1 x0) (sub32 y1 y0) ≤ y1 - y0 ∧
      y1 - y0 ≤ edge_mjr (sub32 x1 x0) (sub32 y1 y0)) := by
  have ex : sub32 x1 x0 = x1 - x0 := wrap32_eq_self (by omega) (by omega)
  have ey : sub32 y1 y0 = y1 - y0 := wrap32_eq_self (by omega) (by omega)
  have nx : neg32 (x1 - x0) = -(x1 - x0) := wrap32_eq_self (by omega) (by omega)
  have ny : neg32 (y1 - y0) = -(y1 - y0) := wrap32_eq_self (by omega) (by omega)
  rw [ex, ey]
  unfold edge_mjr
  simp only [nx, ny]
  refine ⟨trivial, trivial, ?_, ?_, ?_, ?_⟩
  · rcases abs_cases (x1 - x0) with ⟨a1, a2⟩ | ⟨a1, a2⟩ <;>
      rcases abs_cases (y1 - y0) with ⟨b1, b2⟩ | ⟨b1, b2⟩ <;>
      rw [a1, b1] <;> split_ifs <;> omega
  · split_ifs <;> omega
  · split_ifs <;> omega
  · split_ifs <;> omega

/-- The sample of trip `i` of the walk along an edge between two points of the
screen, in exact arithmetic. -/
theorem edge_sample_eq (rdim : Int) (vA vB : Mem) (st : PScan)
    (hx0 : 0 ≤ vA 0 ∧ vA 0 ≤ 2047) (hy0 : 0 ≤ vA 1 ∧ vA 1 ≤ 2047)
    (hx1 : 0 ≤ vB 0 ∧ vB 0 ≤ 2047) (hy1 : 0 ≤ vB 1 ∧ vB 1 ≤ 2047)
    (hm : 1 ≤ edge_mjr (sub32 (vB 0) (vA 0)) (sub32 (vB 1) (vA 1)))
    (i : Nat) (hi : (i : Int) ≤ edge_mjr (sub32 (vB 0) (vA 0)) (sub32 (vB 1) (vA 1))) :
    edge_sample rdim vA vB st i =
      ((vA 0 * 262144 + 131072 + (i : Int) * Int.tdiv ((vB 0 - vA 0) * 262144)
          (edge_mjr (sub32 (vB 0) (vA 0)) (sub32 (vB 1) (vA 1)))) / 262144,
       (vA 1 * 262144 + 131072 + (i : Int) * Int.tdiv ((vB 1 - vA 1) * 262144)
          (edge_mjr (sub32 (vB 0) (vA 0)) (sub32 (vB 1) (vA 1)))) / 262144) := by
  obtain ⟨ex, ey, -, m2, mx, my⟩ := edge_mjr_screen (vA 0) (vA 1) (vB 0) (vB 1) hx0 hy0 hx1 hy1
  unfold edge_sample walk_state
  generalize edge_mjr (sub32 (vB 0) (vA 0)) (sub32 (vB 1) (vA 1)) = m at *
  have hX : ∀ j : Int, 0 ≤ j → j ≤ m → _ :=
    fun j h0 h1 => axis_walk (vA 0) (vB 0) m _ j hx0 hx1 ⟨hm, m2⟩ mx rfl ⟨h0, h1⟩
  have hY : ∀ j : Int, 0 ≤ j → j ≤ m → _ :=
    fun j h0 h1 => axis_walk (vA 1) (vB 1) m _ j hy0 hy1 ⟨hm, m2⟩ my rfl ⟨h0, h1⟩
  obtain ⟨-, dX, -⟩ := hX 0 (le_refl 0) (by omega)
  obtain ⟨-, dY, -⟩ := hY 0 (le_refl 0) (by omega)
  have p18 : (2 : Int) ^ 18 = 262144 := by norm_num
  have x0e : add32 (shl32 (vA 0) SCANP) SCANP_ROUND = vA 0 * 262144 + 131072 := by
    have e1 : shl32 (vA 0) SCANP = vA 0 * 262144 := by
      unfold shl32 SCANP
      rw [p18]
      exact wrap32_eq_self (by omega) (by omega)
    have e2 : SCANP_ROUND = 131072 := by decide
    rw [e1, e2]
    exact wrap32_eq_self (by omega) (by omega)
  have y0e : add32 (shl32 (vA 1) SCANP) SCANP_ROUND = vA 1 * 262144 + 131072 := by
    have e1 : shl32 (vA 1) SCANP = vA 1 * 262144 := by
      unfold shl32 SCANP
      rw [p18]
      exact wrap32_eq_self (by omega) (by omega)
    have e2 : SCANP_ROUND = 131072 := by decide
    rw [e1, e2]
    exact wrap32_eq_self (by omega) (by omega)
  have dxe : div32 (shl32 (vB 0 - vA 0) SCANP) m = Int.tdiv ((vB 0 - vA 0) * 262144) m := by
    have e1 : shl32 (vB 0 - vA 0) SCANP = (vB 0 - vA 0) * 262144 := by
      unfold shl32 SCANP
      rw [p18]
      exact wrap32_eq_self (by omega) (by omega)
    rw [e1]
    exact wrap32_eq_self (by omega) (by omega)
  have dye : div32 (shl32 (vB 1 - vA 1) SCANP) m = Int.tdiv ((vB 1 - vA 1) * 262144) m := by
    have e1 : shl32 (vB 1 - vA 1) SCANP = (vB 1 - vA 1) * 262144 := by
      unfold shl32 SCANP
      rw [p18]
      exact wrap32_eq_self (by omega) (by omega)
    rw [e1]
    exact wrap32_eq_self (by omega) (by omega)
  simp only [ex, ey, x0e, y0e, dxe, dye]
  obtain ⟨wx, wy⟩ := iter_walk_xy rdim (Int.tdiv ((vB 0 - vA 0) * 262144) m)
    (Int.tdiv ((vB 1 - vA 1) * 262144) m)
    (edge_attrs rdim m (vA.shift 2) (vB.shift 2) st.AT st.DT).2 i
    { x := vA 0 * 262144 + 131072, y := vA 1 * 262144 + 131072,
      AT := (edge_attrs rdim m (vA.shift 2) (vB.shift 2) st.AT st.DT).1,
      x_L := st.sc.x_L, x_R := st.sc.x_R, attrbuf := st.sc.attrbuf }
    (by
      intro j _ hj
      have hjm : (j : Int) ≤ m := by omega
      obtain ⟨a1, -⟩ := hX (j : Int) (by omega) hjm
      obtain ⟨b1, -⟩ := hY (j : Int) (by omega) hjm
      have a2 : fits32 (vA 0 * 262144 + 131072 +
          (j : Int) * Int.tdiv ((vB 0 - vA 0) * 262144) m) := by
        unfold fits32
        omega
      have b2 : fits32 (vA 1 * 262144 + 131072 +
          (j : Int) * Int.tdiv ((vB 1 - vA 1) * 262144) m) := by
        unfold fits32
        omega
      exact ⟨a2, b2⟩)
  rw [wx, wy]
  unfold shr32 SCANP
  rw [p18]

/-- C29: for an edge of `pscan` between two points with coordinates in
`[0, PL_MAX_SCREENSIZE - 1]` and `mjr >= 1`, where `mjr` is the larger of
`|x1 - x0|` and `|y1 - y0|`, the walk makes `mjr + 1` trips; the sample of
trip 0 is `(x0, y0)`, the sample of trip `mjr` is `(x1, y1)`, consecutive
samples differ by at most 1 in each axis, every visited row lies between `y0`
and `y1`, and every row between them is visited. -/
theorem edge_walk_hits_endpoints (rdim : Int) (vA vB : Mem) (st : PScan)
    (hx0 : 0 ≤ vA 0 ∧ vA 0 ≤ PL_MAX_SCREENSIZE - 1)
    (hy0 : 0 ≤ vA 1 ∧ vA 1 ≤ PL_MAX_SCREENSIZE - 1)
    (hx1 : 0 ≤ vB 0 ∧ vB 0 ≤ PL_MAX_SCREENSIZE - 1)
    (hy1 : 0 ≤ vB 1 ∧ vB 1 ≤ PL_MAX_SCREENSIZE - 1)
    (hm : 1 ≤ edge_mjr (sub32 (vB 0) (vA 0)) (sub32 (vB 1) (vA 1))) :
    edge_mjr (sub32 (vB 0) (vA 0)) (sub32 (vB 1) (vA 1)) = max |vB 0 - vA 0| |vB 1 - vA 1| ∧
    (scan_walk rdim (vA 0) (vA 1) (sub32 (vB 0) (vA 0)) (sub32 (vB 1) (vA 1))
        (edge_mjr (sub32 (vB 0) (vA 0)) (sub32 (vB 1) (vA 1))) (vA.shift 2) (vB.shift 2) st).sc.x_L =
      (walk_state rdim (vA 0) (vA 1) (sub32 (vB 0) (vA 0)) (sub32 (vB 1) (vA 1))
        (edge_mjr (sub32 (vB 0) (vA 0)) (sub32 (vB 1) (vA 1))) (vA.shift 2) (vB.shift 2) st
        ((edge_mjr (sub32 (vB 0) (vA 0)) (sub32 (vB 1) (vA 1))).toNat + 1)).x_L ∧
    edge_sample rdim vA vB st 0 = (vA 0, vA 1) ∧
    edge_sample rdim vA vB st (edge_mjr (sub32 (vB 0) (vA 0)) (sub32 (vB 1) (vA 1))).toNat =
      (vB 0, vB 1) ∧
    (∀ i : Nat, i < (edge_mjr (sub32 (vB 0) (vA 0)) (sub32 (vB 1) (vA 1))).toNat →
      |(edge_sample rdim vA vB st (i + 1)).1 - (edge_sample rdim vA vB st i).1| ≤ 1 ∧
      |(edge_sample rdim vA vB st (i + 1)).2 - (edge_sample rdim vA vB st i).2| ≤ 1) ∧
    (∀ i : Nat, i ≤ (edge_mjr (sub32 (vB 0) (vA 0)) (sub32 (vB 1) (vA 1))).toNat →
      min (vA 1) (vB 1) ≤ (edge_sample rdim vA vB st i).2 ∧
      (edge_sample rdim vA vB st i).2 ≤ max (vA 1) (vB 1)) ∧
    (∀ r : Int, min (vA 1) (vB 1) ≤ r → r ≤ max (vA 1) (vB 1) →
      ∃ i : Nat, i ≤ (edge_mjr (sub32 (vB 0) (vA 0)) (sub32 (vB 1) (vA 1))).toNat ∧
        (edge_sample rdim vA vB st i).2 = r) := by
  have hS : PL_MAX_SCREENSIZE - 1 = 2047 := by decide
  rw [hS] at hx0 hy0 hx1 hy1
  obtain ⟨-, -, hmax, m2, mx, my⟩ := edge_mjr_screen (vA 0) (vA 1) (vB 0) (vB 1) hx0 hy0 hx1 hy1
  have hE := edge_sample_eq rdim vA vB st hx0 hy0 hx1 hy1 hm
  have hW : (scan_walk rdim (vA 0) (vA 1) (sub32 (vB 0) (vA 0)) (sub32 (vB 1) (vA 1))
        (edge_mjr (sub32 (vB 0) (vA 0)) (sub32 (vB 1) (vA 1))) (vA.shift 2) (vB.shift 2) st).sc.x_L =
      (walk_state rdim (vA 0) (vA 1) (sub32 (vB 0) (vA 0)) (sub32 (vB 1) (vA 1))
        (edge_mjr (sub32 (vB 0) (vA 0)) (sub32 (vB 1) (vA 1))) (vA.shift 2) (vB.shift 2) st
        ((edge_mjr (sub32 (vB 0) (vA 0)) (sub32 (vB 1) (vA 1))).toNat + 1)).x_L := by
    have e : ((edge_mjr (sub32 (vB 0) (vA 0)) (sub32 (vB 1) (vA 1))) + 1).toNat =
        (edge_mjr (sub32 (vB 0) (vA 0)) (sub32 (vB 1) (vA 1))).toNat + 1 := by omega
    unfold scan_walk walk_state
    rw [e]
  refine ⟨hmax, hW, ?_⟩
  clear hW hmax
  generalize edge_mjr (sub32 (vB 0) (vA 0)) (sub32 (vB 1) (vA 1)) = m at *
  have hX : ∀ j : Int, 0 ≤ j → j ≤ m → _ :=
    fun j h0 h1 => axis_walk (vA 0) (vB 0) m _ j hx0 hx1 ⟨hm, m2⟩ mx rfl ⟨h0, h1⟩
  have hY : ∀ j : Int, 0 ≤ j → j ≤ m → _ :=
    fun j h0 h1 => axis_walk (vA 1) (vB 1) m _ j hy0 hy1 ⟨hm, m2⟩ my rfl ⟨h0, h1⟩
  have hM : ((m.toNat : Nat) : Int) = m := Int.toNat_of_nonneg (by omega)
  have hstep : ∀ i : Nat, i < m.toNat →
      (-1 ≤ (edge_sample rdim vA vB st (i + 1)).1 - (edge_sample rdim vA vB st i).1 ∧
        (edge_sample rdim vA vB st (i + 1)).1 - (edge_sample rdim vA vB st i).1 ≤ 1) ∧
      (-1 ≤ (edge_sample rdim vA vB st (i + 1)).2 - (edge_sample rdim vA vB st i).2 ∧
        (edge_sample rdim vA vB st (i + 1)).2 - (edge_sample rdim vA vB st i).2 ≤ 1) := by
    intro i hi
    rw [hE (i + 1) (by omega), hE i (by omega)]
    obtain ⟨-, dX, -⟩ := hX 0 (le_refl 0) (by omega)
    obtain ⟨-, dY, -⟩ := hY 0 (le_refl 0) (by omega)
    have e1 : ((i + 1 : Nat) : Int) * Int.tdiv ((vB 0 - vA 0) * 262144) m =
        (i : Int) * Int.tdiv ((vB 0 - vA 0) * 262144) m + Int.tdiv ((vB 0 - vA 0) * 262144) m := by
      push_cast
      ring
    have e2 : ((i + 1 : Nat) : Int) * Int.tdiv ((vB 1 - vA 1) * 262144) m =
        (i : Int) * Int.tdiv ((vB 1 - vA 1) * 262144) m + Int.tdiv ((vB 1 - vA 1) * 262144) m := by
      push_cast
      ring
    rw [e1, e2]
    refine ⟨⟨?_, ?_⟩, ⟨?_, ?_⟩⟩ <;> simp only <;> omega
  have hrange : ∀ i : Nat, i ≤ m.toNat →
      min (vA 1) (vB 1) ≤ (edge_sample rdim vA vB st i).2 ∧
      (edge_sample rdim vA vB st i).2 ≤ max (vA 1) (vB 1) := by
    intro i hi
    rw [hE i (by omega)]
    obtain ⟨-, -, r, -⟩ := hY (i : Int) (by omega) (by omega)
    exact r
  have h0 : edge_sample rdim vA vB st 0 = (vA 0, vA 1) := by
    rw [hE 0 (by omega)]
    obtain ⟨-, -, -, a, -⟩ := hX ((0 : Nat) : Int) (by simp) (by simp; omega)
    obtain ⟨-, -, -, b, -⟩ := hY ((0 : Nat) : Int) (by simp) (by simp; omega)
    rw [a (by simp), b (by simp)]
  have h1 : edge_sample rdim vA vB st m.toNat = (vB 0, vB 1) := by
    rw [hE m.toNat (by omega)]
    obtain ⟨-, -, -, -, a, -⟩ := hX (m.toNat : Int) (by omega) (by omega)
    obtain ⟨-, -, -, -, b, -⟩ := hY (m.toNat : Int) (by omega) (by omega)
    rw [a hM, b hM]
  refine ⟨h0, h1, ?_, hrange, ?_⟩
  · intro i hi
    obtain ⟨sx, sy⟩ := hstep i hi
    exact ⟨abs_le.mpr sx, abs_le.mpr sy⟩
  · intro r hr0 hr1
    by_cases hle : vA 1 ≤ vB 1
    · exact steps_cover_up (fun i => (edge_sample rdim vA vB st i).2) m.toNat
        (fun i hi => by have := (hstep i hi).2; simp only; omega) r
        (by show (edge_sample rdim vA vB st 0).2 ≤ r; rw [h0]; simp only; omega)
        (by show r ≤ (edge_sample rdim vA vB st m.toNat).2; rw [h1]; simp only; omega)
    · exact steps_cover_down (fun i => (edge_sample rdim vA vB st i).2) m.toNat
        (fun i hi => by have := (hstep i hi).2; simp only; omega) r
        (by show r ≤ (edge_sample rdim vA vB st 0).2; rw [h0]; simp only; omega)
        (by show (edge_sample rdim vA vB st m.toNat).2 ≤ r; rw [h1]; simp only; omega)

theorem edge_walk_hits_endpoints_witness :
    edge_sample 1 (Mem.ofList [0, 0, 5]) (Mem.ofList [3, 2, 5])
        ⟨⟨fun _ => 0, fun _ => 0, fun _ => 0, 0, 0⟩, ⟨fun _ => 0, fun _ => 0, fun _ => 0⟩,
          fun _ => 0, fun _ => 0⟩
        (edge_mjr (sub32 (Mem.ofList [3, 2, 5] 0) (Mem.ofList [0, 0, 5] 0))
          (sub32 (Mem.ofList [3, 2, 5] 1) (Mem.ofList [0, 0, 5] 1))).toNat =
      (Mem.ofList [3, 2, 5] 0, Mem.ofList [3, 2, 5] 1) :=
  (edge_walk_hits_endpoints 1 (Mem.ofList [0, 0, 5]) (Mem.ofList [3, 2, 5])
    ⟨⟨fun _ => 0, fun _ => 0, fun _ => 0, 0, 0⟩, ⟨fun _ => 0, fun _ => 0, fun _ => 0⟩,
      fun _ => 0, fun _ => 0⟩
    (by decide) (by decide) (by decide) (by decide) (by decide)).2.2.2.1

/-! ## A filled rectangle: the span and row loops of `PL_flat_poly` -/

theorem iter_succ_last {σ : Type} (n : Nat) (f : σ → σ) :
    ∀ s : σ, iter (n + 1) f s = f (iter n f s) := by
  induction n with
  | zero =>
    intro s
    rfl
  | succ n ih =>
    intro s
    rw [iter_succ, ih (f s), ← iter_succ]

/-- The pixel loop of `PL_flat_poly` on a span of constant depth `S` that lies
in front of everything in the depth buffer: the `K` pixels from `p0` on get the
colour `rgb` and the depth `S`, every other pixel is left alone. -/
theorem flat_span_fill (mul8 : Int → Int → Int) (rgb S : Int) (hS : fits32 S)
    (hsh : shade S ≥ 256) (b : Bufs) (p0 : Int) (K : Nat)
    (hd : ∀ q, p0 ≤ q → q < p0 + K → b.PL_depth_buffer q < S) :
    (iter K (flat_span_step mul8 rgb 0) { b := b, p := p0, sz := S }).p = p0 + K ∧
    (iter K (flat_span_step mul8 rgb 0) { b := b, p := p0, sz := S }).sz = S ∧
    (∀ q, (iter K (flat_span_step mul8 rgb 0) { b := b, p := p0, sz := S }).b.PL_video_buffer q =
      if p0 ≤ q ∧ q < p0 + K then rgb else b.PL_video_buffer q) ∧
    (∀ q, (iter K (flat_span_step mul8 rgb 0) { b := b, p := p0, sz := S }).b.PL_depth_buffer q =
      if p0 ≤ q ∧ q < p0 + K then S else b.PL_depth_buffer q) := by
  induction K with
  | zero =>
    refine ⟨by simp [iter], rfl, fun q => ?_, fun q => ?_⟩
    · have c : ¬ (p0 ≤ q ∧ q < p0 + ((0 : Nat) : Int)) := by simp
      exact (if_neg c).symm
    · have c : ¬ (p0 ≤ q ∧ q < p0 + ((0 : Nat) : Int)) := by simp
      exact (if_neg c).symm
  | succ K ih =>
    obtain ⟨ip, iz, iv, idp⟩ := ih (fun q h0 h1 => hd q h0 (by push_cast; omega))
    rw [iter_succ_last]
    generalize iter K (flat_span_step mul8 rgb 0) { b := b, p := p0, sz := S } = s at *
    have hz : add32 S 0 = S := by
      unfold add32
      rw [add_zero]
      exact wrap32_eq_self hS.1 hS.2
    have hlt : s.b.PL_depth_buffer s.p < s.sz := by
      rw [idp, ip, iz, if_neg (by omega)]
      exact hd _ (by omega) (by push_cast; omega)
    have hpix : flat_pixel mul8 rgb s.b s.p s.sz =
        { PL_depth_buffer := s.b.PL_depth_buffer.write s.p s.sz
          PL_video_buffer := s.b.PL_video_buffer.write s.p rgb } := by
      unfold flat_pixel
      rw [if_pos hlt, iz]
      simp only [if_pos hsh]
    refine ⟨?_, ?_, fun q => ?_, fun q => ?_⟩
    · show s.p + 1 = p0 + ((K + 1 : Nat) : Int)
      rw [ip]
      push_cast
      ring
    · show add32 s.sz 0 = S
      rw [iz, hz]
    · show (flat_pixel mul8 rgb s.b s.p s.sz).PL_video_buffer q = _
      rw [hpix]
      show Mem.write s.b.PL_video_buffer s.p rgb q = _
      by_cases e : q = s.p
      · rw [e, write_same, if_pos (by rw [ip]; push_cast; omega)]
      · rw [write_other _ _ _ _ e, iv]
        rw [ip] at e
        by_cases c : p0 ≤ q ∧ q < p0 + (K : Int)
        · rw [if_pos c, if_pos (by push_cast; omega)]
        · rw [if_neg c, if_neg (by push_cast; omega)]
    · show (flat_pixel mul8 rgb s.b s.p s.sz).PL_depth_buffer q = _
      rw [hpix]
      show Mem.write s.b.PL_depth_buffer s.p s.sz q = _
      by_cases e : q = s.p
      · rw [e, write_same, if_pos (by rw [ip]; push_cast; omega), iz]
      · rw [write_other _ _ _ _ e, idp]
        rw [ip] at e
        by_cases c : p0 ≤ q ∧ q < p0 + (K : Int)
        · rw [if_pos c, if_pos (by push_cast; omega)]
        · rw [if_neg c, if_neg (by push_cast; omega)]

/-- One trip of the row loop of `PL_flat_poly` on a row whose span runs from
`XL` to `XR` at the constant depth `S`, in a buffer 896 pixels wide. -/
theorem flat_row_const (sc : Scan) (mul8 : Int → Int → Int) (rgb S XL XR : Int) (r : Rows)
    (hX : 0 ≤ XL ∧ XL ≤ XR ∧ XR < 896)
    (hm : 0 ≤ r.miny ∧ r.miny < 2147483647) (hp : 0 ≤ r.pos ∧ r.pos + 896 < 2147483648)
    (hxl : sc.x_L r.miny = XL) (hxr : sc.x_R r.miny = XR)
    (ha0 : sc.attrbuf (add32 (YT r.miny) 0) = S) (ha1 : sc.attrbuf (add32 (YT r.miny) 1) = S) :
    flat_row 896 sc mul8 rgb r =
      { b := (iter (XR - XL + 1).toNat (flat_span_step mul8 rgb 0)
          { b := r.b, p := r.pos + XL, sz := S }).b
        miny := r.miny + 1
        pos := r.pos + 896 } := by
  have e1 : add32 r.pos XL = r.pos + XL := wrap32_eq_self (by omega) (by omega)
  have e2 : sub32 XR XL = XR - XL := wrap32_eq_self (by omega) (by omega)
  have e3 : sub32 S S = 0 := by
    unfold sub32
    rw [sub_self]
    rfl
  have e4 : ∀ d : Int, div32 0 d = 0 := by
    intro d
    unfold div32
    rw [Int.zero_tdiv]
    rfl
  have e5 : do_while_trips (XR - XL) = (XR - XL + 1).toNat := by
    unfold do_while_trips
    rw [if_pos (by omega)]
  have e6 : add32 r.miny 1 = r.miny + 1 := wrap32_eq_self (by omega) (by omega)
  have e7 : add32 r.pos 896 = r.pos + 896 := wrap32_eq_self (by omega) (by omega)
  unfold flat_row
  simp only [hxl, hxr, ha0, ha1, e1, e2, e3, e4, e5, e6, e7]

/-- The row loop of `PL_flat_poly` over `N` rows from `y0` on whose spans all
run from `XL` to `XR` at the constant depth `S`, in a buffer 896 pixels wide
whose depths all lie behind `S`: the pixels of the rectangle get the colour
`rgb` and the depth `S`, every other pixel is left alone. -/
theorem flat_rows_fill (sc : Scan) (mul8 : Int → Int → Int) (rgb S XL XR y0 : Int) (b : Bufs)
    (hS : fits32 S) (hsh : shade S ≥ 256) (hX : 0 ≤ XL ∧ XL ≤ XR ∧ XR < 896) (hy : 0 ≤ y0)
    (hd : ∀ q, b.PL_depth_buffer q < S) (N : Nat)
    (hfit : (y0 + N) * 896 < 2147483648)
    (hrow : ∀ r, y0 ≤ r → r < y0 + N → sc.x_L r = XL ∧ sc.x_R r = XR ∧
      sc.attrbuf (add32 (YT r) 0) = S ∧ sc.attrbuf (add32 (YT r) 1) = S) :
    (iter N (flat_row 896 sc mul8 rgb) { b := b, miny := y0, pos := y0 * 896 }).miny = y0 + N ∧
    (iter N (flat_row 896 sc mul8 rgb) { b := b, miny := y0, pos := y0 * 896 }).pos =
      (y0 + N) * 896 ∧
    (∀ q, (iter N (flat_row 896 sc mul8 rgb)
        { b := b, miny := y0, pos := y0 * 896 }).b.PL_video_buffer q =
      if (y0 ≤ q / 896 ∧ q / 896 < y0 + N) ∧ (XL ≤ q % 896 ∧ q % 896 ≤ XR) then rgb
      else b.PL_video_buffer q) ∧
    (∀ q, (iter N (flat_row 896 sc mul8 rgb)
        { b := b, miny := y0, pos := y0 * 896 }).b.PL_depth_buffer q =
      if (y0 ≤ q / 896 ∧ q / 896 < y0 + N) ∧ (XL ≤ q % 896 ∧ q % 896 ≤ XR) then S
      else b.PL_depth_buffer q) := by
  induction N with
  | zero =>
    refine ⟨by simp [iter], by simp [iter], fun q => ?_, fun q => ?_⟩
    · have c : ¬ ((y0 ≤ q / 896 ∧ q / 896 < y0 + ((0 : Nat) : Int)) ∧
          (XL ≤ q % 896 ∧ q % 896 ≤ XR)) := by
        intro h
        have := h.1
        simp at this
        omega
      exact (if_neg c).symm
    · have c : ¬ ((y0 ≤ q / 896 ∧ q / 896 < y0 + ((0 : Nat) : Int)) ∧
          (XL ≤ q % 896 ∧ q % 896 ≤ XR)) := by
        intro h
        have := h.1
        simp at this
        omega
      exact (if_neg c).symm
  | succ N ih =>
    have hfit' : (y0 + (N : Int)) * 896 < 2147483648 := by
      push_cast at hfit
      omega
    obtain ⟨im, ip, iv, idp⟩ := ih hfit' (fun r h0 h1 => hrow r h0 (by push_cast; omega))
    rw [iter_succ_last]
    generalize iter N (flat_row 896 sc mul8 rgb) { b := b, miny := y0, pos := y0 * 896 } = R at *
    obtain ⟨hxl, hxr, ha0, ha1⟩ := hrow R.miny (by omega) (by rw [im]; push_cast; omega)
    push_cast at hfit
    rw [flat_row_const sc mul8 rgb S XL XR R hX (by omega) (by omega) hxl hxr ha0 ha1]
    obtain ⟨-, -, sv, sd⟩ := flat_span_fill mul8 rgb S hS hsh R.b (R.pos + XL) (XR - XL + 1).toNat
      (by
        intro q h0 h1
        rw [idp, if_neg (by omega)]
        exact hd q)
    have hK : (((XR - XL + 1).toNat : Nat) : Int) = XR - XL + 1 := Int.toNat_of_nonneg (by omega)
    rw [hK] at sv sd
    refine ⟨?_, ?_, fun q => ?_, fun q => ?_⟩
    · show R.miny + 1 = y0 + ((N + 1 : Nat) : Int)
      rw [im]
      push_cast
      ring
    · show R.pos + 896 = (y0 + ((N + 1 : Nat) : Int)) * 896
      rw [ip]
      push_cast
      ring
    · show (iter (XR - XL + 1).toNat (flat_span_step mul8 rgb 0)
        { b := R.b, p := R.pos + XL, sz := S }).b.PL_video_buffer q = _
      rw [sv, iv, ip]
      push_cast
      by_cases c1 : (y0 + (N : Int)) * 896 + XL ≤ q ∧ q < (y0 + (N : Int)) * 896 + XL + (XR - XL + 1)
      · rw [if_pos c1, if_pos (by omega)]
      · rw [if_neg c1]
        by_cases c2 : (y0 ≤ q / 896 ∧ q / 896 < y0 + (N : Int)) ∧ (XL ≤ q % 896 ∧ q % 896 ≤ XR)
        · rw [if_pos c2, if_pos (by omega)]
        · rw [if_neg c2, if_neg (by omega)]
    · show (iter (XR - XL + 1).toNat (flat_span_step mul8 rgb 0)
        { b := R.b, p := R.pos + XL, sz := S }).b.PL_depth_buffer q = _
      rw [sd, idp, ip]
      push_cast
      by_cases c1 : (y0 + (N : Int)) * 896 + XL ≤ q ∧ q < (y0 + (N : Int)) * 896 + XL + (XR - XL + 1)
      · rw [if_pos c1, if_pos (by omega)]
      · rw [if_neg c1]
        by_cases c2 : (y0 ≤ q / 896 ∧ q / 896 < y0 + (N : Int)) ∧ (XL ≤ q % 896 ∧ q % 896 ≤ XR)
        · rw [if_pos c2, if_pos (by omega)]
        · rw [if_neg c2, if_neg (by omega)]

/-! ## The walk along a vertical edge -/

/-- The store of the single attribute of a flat polygon for row `sy`. -/
theorem attr_store_one (a : Mem) (side sy : Int) (AT : Mem) (hsy : 0 ≤ sy ∧ sy ≤ 2047) :
    attr_store a side sy 1 AT = a.write (side + 8 * sy) (AT 0) := by
  have e1 : YT sy = 8 * sy := by
    unfold YT shl32 ATTRIB_BITS
    have p3 : (2 : Int) ^ 3 = 8 := by norm_num
    rw [p3, wrap32_eq_self (by omega) (by omega)]
    ring
  have e2 : shl32 ((0 : Nat) : Int) 1 = 0 := by decide
  show Mem.write a (side + YT sy + shl32 ((0 : Nat) : Int) 1) (AT ((0 : Nat) : Int)) = _
  rw [e1, e2, add_zero]
  rfl

/-- One trip of the walk of `pscan` along a vertical edge of a flat polygon,
at the sample `(X, sy)`. -/
theorem walk_step_vertical (dy : Int) (DT : Mem) (W : Walk) (X sy A : Int)
    (hx : shr32 W.x SCANP = X) (hy : shr32 W.y SCANP = sy) (hsy : 0 ≤ sy ∧ sy ≤ 2047)
    (hA : W.AT 0 = A) (hfA : fits32 A) (hD : DT 0 = 0) (hfx : fits32 W.x)
    (hfy : fits32 (W.y + dy)) :
    (walk_step 1 0 dy DT W).x = W.x ∧ (walk_step 1 0 dy DT W).y = W.y + dy ∧
    (walk_step 1 0 dy DT W).AT 0 = A ∧
    (∀ r, (walk_step 1 0 dy DT W).x_L r = if r = sy ∧ W.x_L sy > X then X else W.x_L r) ∧
    (∀ r, (walk_step 1 0 dy DT W).x_R r = if r = sy ∧ W.x_R sy < X then X else W.x_R r) ∧
    (∀ r, (walk_step 1 0 dy DT W).attrbuf (8 * r) =
      if r = sy ∧ W.x_L sy > X then A else W.attrbuf (8 * r)) ∧
    (∀ r, (walk_step 1 0 dy DT W).attrbuf (8 * r + 1) =
      if r = sy ∧ W.x_R sy < X then A else W.attrbuf (8 * r + 1)) := by
  have hz : ∀ v : Int, fits32 v → add32 v 0 = v := by
    intro v hv
    unfold add32
    rw [add_zero]
    exact wrap32_eq_self hv.1 hv.2
  have hxL : (walk_step 1 0 dy DT W).x_L =
      if W.x_L sy > X then W.x_L.write sy X else W.x_L := by
    unfold walk_step
    simp only [hx, hy]
    by_cases c : W.x_L sy > X
    · simp only [c, decide_True, if_true]
    · simp only [c, decide_False, Bool.false_eq_true, if_false]
  have hxR : (walk_step 1 0 dy DT W).x_R =
      if W.x_R sy < X then W.x_R.write sy X else W.x_R := by
    unfold walk_step
    simp only [hx, hy]
    by_cases c : W.x_R sy < X
    · simp only [c, decide_True, if_true]
    · simp only [c, decide_False, Bool.false_eq_true, if_false]
  have hab : (walk_step 1 0 dy DT W).attrbuf =
      if W.x_R sy < X then
        (if W.x_L sy > X then W.attrbuf.write (0 + 8 * sy) A else W.attrbuf).write (1 + 8 * sy) A
      else (if W.x_L sy > X then W.attrbuf.write (0 + 8 * sy) A else W.attrbuf) := by
    unfold walk_step
    simp only [hx, hy, attr_store_one _ _ _ _ hsy, hA]
    by_cases c : W.x_L sy > X <;> by_cases c2 : W.x_R sy < X <;>
      simp only [c, c2, decide_True, decide_False, Bool.false_eq_true, if_true, if_false]
  refine ⟨?_, ?_, ?_, fun r => ?_, fun r => ?_, fun r => ?_, fun r => ?_⟩
  · exact hz _ hfx
  · exact wrap32_eq_self hfy.1 hfy.2
  · show Mem.write W.AT ((0 : Nat) : Int) (add32 (W.AT ((0 : Nat) : Int)) (DT ((0 : Nat) : Int))) 0 = A
    have e0 : ((0 : Nat) : Int) = 0 := rfl
    rw [e0, write_same, hA, hD, hz A hfA]
  · rw [hxL]
    by_cases c : W.x_L sy > X
    · rw [if_pos c]
      by_cases e : r = sy
      · rw [e, write_same, if_pos ⟨rfl, c⟩]
      · rw [write_other _ _ _ _ e, if_neg (fun h => e h.1)]
    · rw [if_neg c, if_neg (fun h => c h.2)]
  · rw [hxR]
    by_cases c : W.x_R sy < X
    · rw [if_pos c]
      by_cases e : r = sy
      · rw [e, write_same, if_pos ⟨rfl, c⟩]
      · rw [write_other _ _ _ _ e, if_neg (fun h => e h.1)]
    · rw [if_neg c, if_neg (fun h => c h.2)]
  · rw [hab]
    have h1 : ∀ a : Mem, Mem.write a (1 + 8 * sy) A (8 * r) = a (8 * r) :=
      fun a => write_other _ _ _ _ (by omega)
    have h2 : (if W.x_R sy < X then
        (if W.x_L sy > X then W.attrbuf.write (0 + 8 * sy) A else W.attrbuf).write (1 + 8 * sy) A
        else (if W.x_L sy > X then W.attrbuf.write (0 + 8 * sy) A else W.attrbuf)) (8 * r) =
        (if W.x_L sy > X then W.attrbuf.write (0 + 8 * sy) A else W.attrbuf) (8 * r) := by
      by_cases c2 : W.x_R sy < X
      · rw [if_pos c2, h1]
      · rw [if_neg c2]
    rw [h2]
    by_cases c : W.x_L sy > X
    · rw [if_pos c]
      by_cases e : r = sy
      · rw [e, zero_add, write_same, if_pos ⟨rfl, c⟩]
      · rw [write_other _ _ _ _ (by omega), if_neg (fun h => e h.1)]
    · rw [if_neg c, if_neg (fun h => c h.2)]
  · rw [hab]
    have h1 : ∀ a : Mem, Mem.write a (0 + 8 * sy) A (8 * r + 1) = a (8 * r + 1) :=
      fun a => write_other _ _ _ _ (by omega)
    have h2 : (if W.x_L sy > X then W.attrbuf.write (0 + 8 * sy) A else W.attrbuf) (8 * r + 1) =
        W.attrbuf (8 * r + 1) := by
      by_cases c : W.x_L sy > X
      · rw [if_pos c, h1]
      · rw [if_neg c]
    by_cases c2 : W.x_R sy < X
    · rw [if_pos c2]
      by_cases e : r = sy
      · have e8 : 8 * r + 1 = 1 + 8 * sy := by rw [e]; ring
        rw [e8, write_same, if_pos ⟨e, c2⟩]
      · rw [write_other _ _ _ _ (by omega), h2, if_neg (fun h => e h.1)]
    · rw [if_neg c2, h2, if_neg (fun h => c2 h.2)]

/-- The walk of `pscan` along a vertical edge of a flat polygon at column `X`,
from row `Y` in the direction `s`: after `n` trips the rows visited hold the
column `X` and the depth `A` wherever `X` lies beyond what the tables held, and
every other row is as it was. -/
theorem walk_vertical (s : Int) (hs : s = 1 ∨ s = -1) (DT : Mem) (hD : DT 0 = 0) (w0 : Walk)
    (X Y A : Int) (hx : w0.x = X * 262144 + 131072) (hy : w0.y = Y * 262144 + 131072)
    (hX : 0 ≤ X ∧ X ≤ 2047) (hA : w0.AT 0 = A) (hfA : fits32 A) (n : Nat)
    (hrows : ∀ i : Nat, i < n → 0 ≤ Y + s * (i : Int) ∧ Y + s * (i : Int) ≤ 2047) :
    (iter n (walk_step 1 0 (s * 262144) DT) w0).x = w0.x ∧
    (iter n (walk_step 1 0 (s * 262144) DT) w0).y = w0.y + (n : Int) * (s * 262144) ∧
    (iter n (walk_step 1 0 (s * 262144) DT) w0).AT 0 = A ∧
    ∀ r,
      ((iter n (walk_step 1 0 (s * 262144) DT) w0).x_L r =
        if (0 ≤ s * (r - Y) ∧ s * (r - Y) < (n : Int)) ∧ w0.x_L r > X then X else w0.x_L r) ∧
      ((iter n (walk_step 1 0 (s * 262144) DT) w0).x_R r =
        if (0 ≤ s * (r - Y) ∧ s * (r - Y) < (n : Int)) ∧ w0.x_R r < X then X else w0.x_R r) ∧
      ((iter n (walk_step 1 0 (s * 262144) DT) w0).attrbuf (8 * r) =
        if (0 ≤ s * (r - Y) ∧ s * (r - Y) < (n : Int)) ∧ w0.x_L r > X then A
        else w0.attrbuf (8 * r)) ∧
      ((iter n (walk_step 1 0 (s * 262144) DT) w0).attrbuf (8 * r + 1) =
        if (0 ≤ s * (r - Y) ∧ s * (r - Y) < (n : Int)) ∧ w0.x_R r < X then A
        else w0.attrbuf (8 * r + 1)) := by
  induction n with
  | zero =>
    refine ⟨rfl, by simp [iter], hA, fun r => ?_⟩
    have c : ¬ (0 ≤ s * (r - Y) ∧ s * (r - Y) < ((0 : Nat) : Int)) := by
      simp only [Nat.cast_zero]
      omega
    exact ⟨(if_neg (fun h => c h.1)).symm, (if_neg (fun h => c h.1)).symm,
      (if_neg (fun h => c h.1)).symm, (if_neg (fun h => c h.1)).symm⟩
  | succ n ih =>
    obtain ⟨ix, iy, ia, it⟩ := ih (fun i hi => hrows i (by omega))
    rw [iter_succ_last]
    generalize iter n (walk_step 1 0 (s * 262144) DT) w0 = W at *
    have hrow := hrows n (by omega)
    have p18 : (2 : Int) ^ 18 = 262144 := by norm_num
    have hsx : shr32 W.x SCANP = X := by
      unfold shr32 SCANP
      rw [ix, hx, p18]
      omega
    have hsy : shr32 W.y SCANP = Y + s * (n : Int) := by
      unfold shr32 SCANP
      rw [iy, hy, p18]
      rcases hs with rfl | rfl <;> omega
    have hfx : fits32 W.x := by
      rw [ix, hx]
      unfold fits32
      omega
    have hfy : fits32 (W.y + s * 262144) := by
      rw [iy, hy]
      unfold fits32
      rcases hs with rfl | rfl <;> omega
    obtain ⟨sx, sy, sa, sl, sr, sal, sar⟩ := walk_step_vertical (s * 262144) DT W X
      (Y + s * (n : Int)) A hsx hsy hrow ia hfA hD hfx hfy
    have hnv : ¬ (0 ≤ s * (Y + s * (n : Int) - Y) ∧ s * (Y + s * (n : Int) - Y) < (n : Int)) := by
      rcases hs with rfl | rfl <;> omega
    have hL : W.x_L (Y + s * (n : Int)) = w0.x_L (Y + s * (n : Int)) := by
      rw [(it _).1, if_neg (fun h => hnv h.1)]
    have hR : W.x_R (Y + s * (n : Int)) = w0.x_R (Y + s * (n : Int)) := by
      rw [(it _).2.1, if_neg (fun h => hnv h.1)]
    refine ⟨by rw [sx, ix], ?_, sa, fun r => ⟨?_, ?_, ?_, ?_⟩⟩
    · rw [sy, iy]
      push_cast
      ring
    · rw [sl, hL, (it r).1]
      push_cast
      by_cases e : r = Y + s * (n : Int)
      · subst e
        split_ifs <;> first | rfl | (exfalso; rcases hs with rfl | rfl <;> omega)
      · split_ifs <;> first | rfl | (exfalso; rcases hs with rfl | rfl <;> omega)
    · rw [sr, hR, (it r).2.1]
      push_cast
      by_cases e : r = Y + s * (n : Int)
      · subst e
        split_ifs <;> first | rfl | (exfalso; rcases hs with rfl | rfl <;> omega)
      · split_ifs <;> first | rfl | (exfalso; rcases hs with rfl | rfl <;> omega)
    · rw [sal, hL, (it r).2.2.1]
      push_cast
      by_cases e : r = Y + s * (n : Int)
      · subst e
        split_ifs <;> first | rfl | (exfalso; rcases hs with rfl | rfl <;> omega)
      · split_ifs <;> first | rfl | (exfalso; rcases hs with rfl | rfl <;> omega)
    · rw [sar, hR, (it r).2.2.2]
      push_cast
      by_cases e : r = Y + s * (n : Int)
      · subst e
        split_ifs <;> first | rfl | (exfalso; rcases hs with rfl | rfl <;> omega)
      · split_ifs <;> first | rfl | (exfalso; rcases hs with rfl | rfl <;> omega)

/-- The tables that `scan_walk` leaves are those of the walk after `mjr + 1`
trips. -/
theorem scan_walk_sc (rdim x y dx dy mjr : Int) (vA vB : Mem) (st : PScan) :
    (scan_walk rdim x y dx dy mjr vA vB st).sc =
      { x_L := (walk_state rdim x y dx dy mjr vA vB st (mjr + 1).toNat).x_L
        x_R := (walk_state rdim x y dx dy mjr vA vB st (mjr + 1).toNat).x_R
        attrbuf := (walk_state rdim x y dx dy mjr vA vB st (mjr + 1).toNat).attrbuf
        scan_miny := st.sc.scan_miny
        scan_maxy := st.sc.scan_maxy } := rfl

/-- The step count of a vertical edge of `M` rows. -/
theorem edge_mjr_vertical (s M : Int) (hs : s = 1 ∨ s = -1) (hM : 1 ≤ M ∧ M ≤ 2047) :
    edge_mjr 0 (s * M) = M := by
  have n1 : neg32 (s * M) = -(s * M) := by
    rcases hs with rfl | rfl <;> exact wrap32_eq_self (by omega) (by omega)
  unfold edge_mjr
  simp only [n1, lt_irrefl, if_false]
  rcases hs with rfl | rfl <;> split_ifs <;> omega

/-- What `scan_edge` does with a vertical edge of a flat polygon at column `X`
from row `Y` to row `Y + s * M`, with the depth key `Z` at both ends. -/
theorem scan_edge_vertical (s : Int) (hs : s = 1 ∨ s = -1) (vA vB : Mem) (cs : ClipStatics)
    (st : PScan) (X Y M Z : Int) (hX : 0 ≤ X ∧ X ≤ 2047) (hM : 1 ≤ M)
    (hY : 0 ≤ Y ∧ Y ≤ 2047) (hYM : 0 ≤ Y + s * M ∧ Y + s * M ≤ 2047) (hZ : 0 ≤ Z ∧ Z < 65536)
    (hA : vA 0 = X ∧ vA 1 = Y ∧ vA 2 = Z) (hB : vB 0 = X ∧ vB 1 = Y + s * M ∧ vB 2 = Z) :
    (scan_edge 1 vA vB cs st).sc.scan_miny = edge_miny Y (Y + s * M) st.sc.scan_miny ∧
    (scan_edge 1 vA vB cs st).sc.scan_maxy = edge_maxy Y (Y + s * M) st.sc.scan_maxy ∧
    ∀ r,
      ((scan_edge 1 vA vB cs st).sc.x_L r =
        if (0 ≤ s * (r - Y) ∧ s * (r - Y) < M + 1) ∧ st.sc.x_L r > X then X
        else st.sc.x_L r) ∧
      ((scan_edge 1 vA vB cs st).sc.x_R r =
        if (0 ≤ s * (r - Y) ∧ s * (r - Y) < M + 1) ∧ st.sc.x_R r < X then X
        else st.sc.x_R r) ∧
      ((scan_edge 1 vA vB cs st).sc.attrbuf (8 * r) =
        if (0 ≤ s * (r - Y) ∧ s * (r - Y) < M + 1) ∧ st.sc.x_L r > X then Z * 32768
        else st.sc.attrbuf (8 * r)) ∧
      ((scan_edge 1 vA vB cs st).sc.attrbuf (8 * r + 1) =
        if (0 ≤ s * (r - Y) ∧ s * (r - Y) < M + 1) ∧ st.sc.x_R r < X then Z * 32768
        else st.sc.attrbuf (8 * r + 1)) := by
  obtain ⟨a0, a1, a2⟩ := hA
  obtain ⟨b0, b1, b2⟩ := hB
  have hM2 : M ≤ 2047 := by rcases hs with rfl | rfl <;> omega
  have e1 : sub32 X X = 0 := by
    unfold sub32
    rw [sub_self]
    rfl
  have e2 : sub32 (Y + s * M) Y = s * M := by
    have e : Y + s * M - Y = s * M := by ring
    unfold sub32
    rw [e]
    rcases hs with rfl | rfl <;> exact wrap32_eq_self (by omega) (by omega)
  have em := edge_mjr_vertical s M hs ⟨hM, hM2⟩
  rw [scan_edge_eq, a0, a1, b0, b1, e1, e2, em, if_neg (by omega)]
  have p18 : (2 : Int) ^ 18 = 262144 := by norm_num
  have p15 : (2 : Int) ^ 15 = 32768 := by norm_num
  have hdx : div32 (shl32 0 SCANP) M = 0 := by
    have z : shl32 0 SCANP = 0 := by decide
    rw [z]
    unfold div32
    rw [Int.zero_tdiv]
    rfl
  have hdy : div32 (shl32 (s * M) SCANP) M = s * 262144 := by
    have z : shl32 (s * M) SCANP = s * 262144 * M := by
      unfold shl32 SCANP
      rw [p18]
      have e : s * M * 262144 = s * 262144 * M := by ring
      rw [e]
      rcases hs with rfl | rfl <;> exact wrap32_eq_self (by omega) (by omega)
    rw [z]
    unfold div32
    rw [Int.mul_tdiv_cancel _ (by omega)]
    rcases hs with rfl | rfl <;> exact wrap32_eq_self (by omega) (by omega)
  have hx0 : add32 (shl32 X SCANP) SCANP_ROUND = X * 262144 + 131072 := by
    have z : shl32 X SCANP = X * 262144 := by
      unfold shl32 SCANP
      rw [p18]
      exact wrap32_eq_self (by omega) (by omega)
    have z2 : SCANP_ROUND = 131072 := by decide
    rw [z, z2]
    exact wrap32_eq_self (by omega) (by omega)
  have hy0 : add32 (shl32 Y SCANP) SCANP_ROUND = Y * 262144 + 131072 := by
    have z : shl32 Y SCANP = Y * 262144 := by
      unfold shl32 SCANP
      rw [p18]
      exact wrap32_eq_self (by omega) (by omega)
    have z2 : SCANP_ROUND = 131072 := by decide
    rw [z, z2]
    exact wrap32_eq_self (by omega) (by omega)
  have hAT : ∀ AT DT : Mem, (edge_attrs 1 M (vA.shift 2) (vB.shift 2) AT DT).1 0 = Z * 32768 := by
    intro AT DT
    rw [edge_attrs_depth]
    show shl32 (vA (2 + 0)) ZP = _
    have z : (2 : Int) + 0 = 2 := rfl
    rw [z, a2]
    unfold shl32 ZP
    rw [p15]
    exact wrap32_eq_self (by omega) (by omega)
  have hDT : ∀ AT DT : Mem, (edge_attrs 1 M (vA.shift 2) (vB.shift 2) AT DT).2 0 = 0 := by
    intro AT DT
    show Mem.write DT 0 (div32 (shl32 (sub32 (vB (2 + 0)) (vA (2 + 0))) ZP) M) 0 = 0
    have z : (2 : Int) + 0 = 2 := rfl
    rw [write_same, z, a2, b2]
    have z3 : sub32 Z Z = 0 := by
      unfold sub32
      rw [sub_self]
      rfl
    have z4 : shl32 0 ZP = 0 := by decide
    rw [z3, z4]
    unfold div32
    rw [Int.zero_tdiv]
    rfl
  have hn : (((M + 1).toNat : Nat) : Int) = M + 1 := Int.toNat_of_nonneg (by omega)
  rw [scan_walk_sc]
  unfold walk_state
  simp only [hdx, hdy]
  obtain ⟨-, -, -, ht⟩ := walk_vertical s hs
    (edge_attrs 1 M (vA.shift 2) (vB.shift 2) st.AT st.DT).2 (hDT st.AT st.DT)
    { x := add32 (shl32 X SCANP) SCANP_ROUND, y := add32 (shl32 Y SCANP) SCANP_ROUND,
      AT := (edge_attrs 1 M (vA.shift 2) (vB.shift 2) st.AT st.DT).1,
      x_L := st.sc.x_L, x_R := st.sc.x_R, attrbuf := st.sc.attrbuf }
    X Y (Z * 32768) hx0 hy0 hX (hAT st.AT st.DT) (by unfold fits32; omega) (M + 1).toNat
    (by
      intro i hi
      have : (i : Int) < M + 1 := by omega
      rcases hs with rfl | rfl <;> omega)
  rw [hn] at ht
  exact ⟨trivial, trivial, ht⟩

/-- The vertex that `doclip` makes on a vertical edge cut by a bound on `y`:
the column and the depth of the two ends, and the bound as row. -/
theorem doclip_vertical (L R out : Mem) (len bound X Z : Int) (hx : L 0 = X ∧ R 0 = X)
    (hz : L 2 = Z ∧ R 2 = Z) (hfX : fits32 X) (hfZ : fits32 Z) :
    doclip L R out len bound 1 (b2i ((1 : Int) == 0)) 0 = X ∧
    doclip L R out len bound 1 (b2i ((1 : Int) == 0)) 1 = bound ∧
    doclip L R out len bound 1 (b2i ((1 : Int) == 0)) 2 = Z := by
  have hm : ∀ f : Int, mul32 f 0 = 0 := by
    intro f
    unfold mul32
    rw [mul_zero]
    rfl
  have hsh : ∀ n : Nat, shr32 0 n = 0 := by
    intro n
    unfold shr32
    exact Int.zero_ediv _
  have hz0 : ∀ v : Int, fits32 v → add32 v 0 = v := by
    intro v hv
    unfold add32
    rw [add_zero]
    exact wrap32_eq_self hv.1 hv.2
  have hss : ∀ v : Int, sub32 v v = 0 := by
    intro v
    unfold sub32
    rw [sub_self]
    rfl
  have hb : b2i ((1 : Int) == 0) = 0 := by decide
  refine ⟨?_, doclip_comp L R out len bound 1 (Or.inr rfl), ?_⟩
  · have h := doclip_ocomp L R out len bound 1
    rw [hb] at h ⊢
    rw [h, hx.1, hx.2, hss, hm, hsh, hz0 X hfX]
  · rw [doclip_depth L R out len bound 1 (Or.inr rfl), hz.1, hz.2, hss, hm, hsh, hz0 Z hfZ]

/-- An edge wholly above or wholly below the viewport leaves the scan tables of
`pscan` as they are. -/
theorem pscan_edge_outside (vp : Viewport) (dim rdim : Int) (VS : Mem) (k : Int) (st : PScan)
    (h : (VS (k * dim + 1) ≥ vp.PL_vp_max_y ∧ VS ((k + 1) * dim + 1) ≥ vp.PL_vp_max_y) ∨
      (VS (k * dim + 1) ≤ vp.PL_vp_min_y ∧ VS ((k + 1) * dim + 1) ≤ vp.PL_vp_min_y)) :
    (pscan_edge vp dim rdim VS k st).sc = st.sc := by
  have hr : (PL_clip_line_y st.cs (VS.shift (k * dim)) (VS.shift ((k + 1) * dim)) dim
      vp.PL_vp_min_y vp.PL_vp_max_y).ret = PL_NC :=
    (lclip2_nc_outside st.cs (VS.shift (k * dim)) (VS.shift ((k + 1) * dim)) dim
      vp.PL_vp_min_y vp.PL_vp_max_y 1).2 h
  rw [pscan_edge_nc vp dim rdim VS k st hr]

/-- What the edge loop of `pscan` does with a vertical edge of a flat polygon
that runs downwards on the screen through the whole viewport, from a row at or
below the lower bound `mn` to a row at or beyond the upper bound `mx`: the edge
is cut at both bounds and walked from row `mn` to row `mx`. -/
theorem pscan_edge_up (vp : Viewport) (VS : Mem) (k : Int) (st : PScan) (X Z : Int)
    (hX : 0 ≤ X ∧ X ≤ 2047) (hZ : 0 ≤ Z ∧ Z < 65536)
    (hv : 0 ≤ vp.PL_vp_min_y ∧ vp.PL_vp_min_y < vp.PL_vp_max_y ∧ vp.PL_vp_max_y ≤ 2047)
    (h0 : VS (k * 3 + 0) = X ∧ VS (k * 3 + 1) ≤ vp.PL_vp_min_y ∧ VS (k * 3 + 2) = Z)
    (h1 : VS ((k + 1) * 3 + 0) = X ∧ VS ((k + 1) * 3 + 1) ≥ vp.PL_vp_max_y ∧
      VS ((k + 1) * 3 + 2) = Z) :
    (pscan_edge vp 3 1 VS k st).sc.scan_miny =
      edge_miny vp.PL_vp_min_y vp.PL_vp_max_y st.sc.scan_miny ∧
    (pscan_edge vp 3 1 VS k st).sc.scan_maxy =
      edge_maxy vp.PL_vp_min_y vp.PL_vp_max_y st.sc.scan_maxy ∧
    ∀ r,
      ((pscan_edge vp 3 1 VS k st).sc.x_L r =
        if (vp.PL_vp_min_y ≤ r ∧ r ≤ vp.PL_vp_max_y) ∧ st.sc.x_L r > X then X
        else st.sc.x_L r) ∧
      ((pscan_edge vp 3 1 VS k st).sc.x_R r =
        if (vp.PL_vp_min_y ≤ r ∧ r ≤ vp.PL_vp_max_y) ∧ st.sc.x_R r < X then X
        else st.sc.x_R r) ∧
      ((pscan_edge vp 3 1 VS k st).sc.attrbuf (8 * r) =
        if (vp.PL_vp_min_y ≤ r ∧ r ≤ vp.PL_vp_max_y) ∧ st.sc.x_L r > X then Z * 32768
        else st.sc.attrbuf (8 * r)) ∧
      ((pscan_edge vp 3 1 VS k st).sc.attrbuf (8 * r + 1) =
        if (vp.PL_vp_min_y ≤ r ∧ r ≤ vp.PL_vp_max_y) ∧ st.sc.x_R r < X then Z * 32768
        else st.sc.attrbuf (8 * r + 1)) := by
  obtain ⟨a0, a1, a2⟩ := h0
  obtain ⟨b0, b1, b2⟩ := h1
  have hio : (VS.shift (k * 3)) 1 < (VS.shift ((k + 1) * 3)) 1 := by
    show VS (k * 3 + 1) < VS ((k + 1) * 3 + 1)
    omega
  have hg : ¬ ((VS.shift (k * 3)) 1 ≥ vp.PL_vp_max_y ∨
      (VS.shift ((k + 1) * 3)) 1 ≤ vp.PL_vp_min_y) := by
    show ¬ (VS (k * 3 + 1) ≥ vp.PL_vp_max_y ∨ VS ((k + 1) * 3 + 1) ≤ vp.PL_vp_min_y)
    omega
  have hc1 : (VS.shift (k * 3)) 1 ≤ vp.PL_vp_min_y := a1
  have hc2 : (VS.shift ((k + 1) * 3)) 1 ≥ vp.PL_vp_max_y := b1
  have hl := lclip2_inorder st.cs (VS.shift (k * 3)) (VS.shift ((k + 1) * 3)) 3
    vp.PL_vp_min_y vp.PL_vp_max_y 1 hio hg
  rw [if_pos hc1, if_pos hc1, if_pos hc1, if_pos hc2, if_pos hc2] at hl
  have hne : ¬ (PL_clip_line_y st.cs (VS.shift (k * 3)) (VS.shift ((k + 1) * 3)) 3
      vp.PL_vp_min_y vp.PL_vp_max_y).ret = PL_NC := by
    show ¬ (lclip2 st.cs (VS.shift (k * 3)) (VS.shift ((k + 1) * 3)) 3
      vp.PL_vp_min_y vp.PL_vp_max_y 1).ret = PL_NC
    rw [hl]
    show ¬ ((1 : Int) = PL_NC)
    decide
  rw [pscan_edge_keep vp 3 1 VS k st hne]
  have hl2 : PL_clip_line_y st.cs (VS.shift (k * 3)) (VS.shift ((k + 1) * 3)) 3
      vp.PL_vp_min_y vp.PL_vp_max_y = _ := hl
  rw [hl2]
  have hfX : fits32 X := by unfold fits32; omega
  have hfZ : fits32 Z := by unfold fits32; omega
  have dA := doclip_vertical (VS.shift (k * 3)) (VS.shift ((k + 1) * 3)) st.cs.m0 3
    vp.PL_vp_min_y X Z ⟨a0, b0⟩ ⟨a2, b2⟩ hfX hfZ
  have dB := doclip_vertical (VS.shift (k * 3)) (VS.shift ((k + 1) * 3)) st.cs.m1 3
    vp.PL_vp_max_y X Z ⟨a0, b0⟩ ⟨a2, b2⟩ hfX hfZ
  have hY : vp.PL_vp_max_y = vp.PL_vp_min_y + 1 * (vp.PL_vp_max_y - vp.PL_vp_min_y) := by ring
  obtain ⟨r1, r2, r3⟩ := scan_edge_vertical 1 (Or.inl rfl) _ _
    ({ m0 := doclip (VS.shift (k * 3)) (VS.shift ((k + 1) * 3)) st.cs.m0 3 vp.PL_vp_min_y 1
          (b2i ((1 : Int) == 0)),
       m1 := doclip (VS.shift (k * 3)) (VS.shift ((k + 1) * 3)) st.cs.m1 3 vp.PL_vp_max_y 1
          (b2i ((1 : Int) == 0)),
       m := st.cs.m } : ClipStatics) st X vp.PL_vp_min_y
    (vp.PL_vp_max_y - vp.PL_vp_min_y) Z hX (by omega) (by omega) (by omega) hZ dA
    ⟨dB.1, dB.2.1.trans hY, dB.2.2⟩
  rw [← hY] at r1 r2
  refine ⟨r1, r2, fun r => ?_⟩
  obtain ⟨t1, t2, t3, t4⟩ := r3 r
  have hc : (0 ≤ 1 * (r - vp.PL_vp_min_y) ∧
      1 * (r - vp.PL_vp_min_y) < vp.PL_vp_max_y - vp.PL_vp_min_y + 1) ↔
      (vp.PL_vp_min_y ≤ r ∧ r ≤ vp.PL_vp_max_y) := by
    constructor <;> intro h <;> omega
  simp only [hc] at t1 t2 t3 t4
  exact ⟨t1, t2, t3, t4⟩

/-- What the edge loop of `pscan` does with a vertical edge of a flat polygon
that runs upwards on the screen through the whole viewport, from a row at or
beyond the upper bound `mx` to a row at or below the lower bound `mn`: the edge
is cut at both bounds and walked from row `mx` to row `mn`. -/
theorem pscan_edge_down (vp : Viewport) (VS : Mem) (k : Int) (st : PScan) (X Z : Int)
    (hX : 0 ≤ X ∧ X ≤ 2047) (hZ : 0 ≤ Z ∧ Z < 65536)
    (hv : 0 ≤ vp.PL_vp_min_y ∧ vp.PL_vp_min_y < vp.PL_vp_max_y ∧ vp.PL_vp_max_y ≤ 2047)
    (h0 : VS (k * 3 + 0) = X ∧ VS (k * 3 + 1) ≥ vp.PL_vp_max_y ∧ VS (k * 3 + 2) = Z)
    (h1 : VS ((k + 1) * 3 + 0) = X ∧ VS ((k + 1) * 3 + 1) ≤ vp.PL_vp_min_y ∧
      VS ((k + 1) * 3 + 2) = Z) :
    (pscan_edge vp 3 1 VS k st).sc.scan_miny =
      edge_miny vp.PL_vp_max_y vp.PL_vp_min_y st.sc.scan_miny ∧
    (pscan_edge vp 3 1 VS k st).sc.scan_maxy =
      edge_maxy vp.PL_vp_max_y vp.PL_vp_min_y st.sc.scan_maxy ∧
    ∀ r,
      ((pscan_edge vp 3 1 VS k st).sc.x_L r =
        if (vp.PL_vp_min_y ≤ r ∧ r ≤ vp.PL_vp_max_y) ∧ st.sc.x_L r > X then X
        else st.sc.x_L r) ∧
      ((pscan_edge vp 3 1 VS k st).sc.x_R r =
        if (vp.PL_vp_min_y ≤ r ∧ r ≤ vp.PL_vp_max_y) ∧ st.sc.x_R r < X then X
        else st.sc.x_R r) ∧
      ((pscan_edge vp 3 1 VS k st).sc.attrbuf (8 * r) =
        if (vp.PL_vp_min_y ≤ r ∧ r ≤ vp.PL_vp_max_y) ∧ st.sc.x_L r > X then Z * 32768
        else st.sc.attrbuf (8 * r)) ∧
      ((pscan_edge vp 3 1 VS k st).sc.attrbuf (8 * r + 1) =
        if (vp.PL_vp_min_y ≤ r ∧ r ≤ vp.PL_vp_max_y) ∧ st.sc.x_R r < X then Z * 32768
        else st.sc.attrbuf (8 * r + 1)) := by
  obtain ⟨a0, a1, a2⟩ := h0
  obtain ⟨b0, b1, b2⟩ := h1
  have hio : ¬ ((VS.shift (k * 3)) 1 < (VS.shift ((k + 1) * 3)) 1) := by
    show ¬ (VS (k * 3 + 1) < VS ((k + 1) * 3 + 1))
    omega
  have hg : ¬ ((VS.shift ((k + 1) * 3)) 1 ≥ vp.PL_vp_max_y ∨
      (VS.shift (k * 3)) 1 ≤ vp.PL_vp_min_y) := by
    show ¬ (VS ((k + 1) * 3 + 1) ≥ vp.PL_vp_max_y ∨ VS (k * 3 + 1) ≤ vp.PL_vp_min_y)
    omega
  have hc1 : (VS.shift (k * 3)) 1 ≥ vp.PL_vp_max_y := a1
  have hc2 : (VS.shift ((k + 1) * 3)) 1 ≤ vp.PL_vp_min_y := b1
  have hl := lclip2_outorder st.cs (VS.shift (k * 3)) (VS.shift ((k + 1) * 3)) 3
    vp.PL_vp_min_y vp.PL_vp_max_y 1 hio hg
  simp only [if_pos hc1, if_pos hc2] at hl
  have hne : ¬ (PL_clip_line_y st.cs (VS.shift (k * 3)) (VS.shift ((k + 1) * 3)) 3
      vp.PL_vp_min_y vp.PL_vp_max_y).ret = PL_NC := by
    show ¬ (lclip2 st.cs (VS.shift (k * 3)) (VS.shift ((k + 1) * 3)) 3
      vp.PL_vp_min_y vp.PL_vp_max_y 1).ret = PL_NC
    rw [hl]
    show ¬ ((1 : Int) = PL_NC)
    decide
  rw [pscan_edge_keep vp 3 1 VS k st hne]
  have hl2 : PL_clip_line_y st.cs (VS.shift (k * 3)) (VS.shift ((k + 1) * 3)) 3
      vp.PL_vp_min_y vp.PL_vp_max_y = _ := hl
  rw [hl2]
  have hfX : fits32 X := by unfold fits32; omega
  have hfZ : fits32 Z := by unfold fits32; omega
  have dA := doclip_vertical (VS.shift ((k + 1) * 3)) (VS.shift (k * 3)) st.cs.m1 3
    vp.PL_vp_max_y X Z ⟨b0, a0⟩ ⟨b2, a2⟩ hfX hfZ
  have dB := doclip_vertical (VS.shift ((k + 1) * 3)) (VS.shift (k * 3)) st.cs.m0 3
    vp.PL_vp_min_y X Z ⟨b0, a0⟩ ⟨b2, a2⟩ hfX hfZ
  have hY : vp.PL_vp_min_y = vp.PL_vp_max_y + -1 * (vp.PL_vp_max_y - vp.PL_vp_min_y) := by ring
  obtain ⟨r1, r2, r3⟩ := scan_edge_vertical (-1) (Or.inr rfl) _ _
    ({ m0 := doclip (VS.shift ((k + 1) * 3)) (VS.shift (k * 3)) st.cs.m0 3 vp.PL_vp_min_y 1
          (b2i ((1 : Int) == 0)),
       m1 := doclip (VS.shift ((k + 1) * 3)) (VS.shift (k * 3)) st.cs.m1 3 vp.PL_vp_max_y 1
          (b2i ((1 : Int) == 0)),
       m := st.cs.m } : ClipStatics) st X vp.PL_vp_max_y
    (vp.PL_vp_max_y - vp.PL_vp_min_y) Z hX (by omega) (by omega) (by omega) hZ dA
    ⟨dB.1, dB.2.1.trans hY, dB.2.2⟩
  rw [← hY] at r1 r2
  refine ⟨r1, r2, fun r => ?_⟩
  obtain ⟨t1, t2, t3, t4⟩ := r3 r
  have hc : (0 ≤ -1 * (r - vp.PL_vp_max_y) ∧
      -1 * (r - vp.PL_vp_max_y) < vp.PL_vp_max_y - vp.PL_vp_min_y + 1) ↔
      (vp.PL_vp_min_y ≤ r ∧ r ≤ vp.PL_vp_max_y) := by
    constructor <;> intro h <;> omega
  simp only [hc] at t1 t2 t3 t4
  exact ⟨t1, t2, t3, t4⟩

/-! ## The scan conversion of an upright rectangle taller than the viewport -/

/-- The edge loop of `pscan` on the four edges of an upright rectangle whose
upper and lower sides lie outside the viewport: the rows of the viewport get
the left column `XL`, the right column `XR` and the depth `Z << 15` on both
sides. The records of `VS` are the corners in the order right-bottom,
right-top, left-top, left-bottom, right-bottom (bottom: a row at or beyond the
upper bound of `y`). -/
theorem pscan_loop_quad (vp : Viewport) (VS : Mem) (st0 : PScan) (XL XR Z : Int)
    (hX : 0 ≤ XL ∧ XL < XR ∧ XR ≤ 2047) (hZ : 0 ≤ Z ∧ Z < 65536)
    (hv : 0 ≤ vp.PL_vp_min_y ∧ vp.PL_vp_min_y < vp.PL_vp_max_y ∧ vp.PL_vp_max_y ≤ 2047)
    (r0 : VS 0 = XR ∧ VS 1 ≥ vp.PL_vp_max_y ∧ VS 2 = Z)
    (r1 : VS 3 = XR ∧ VS 4 ≤ vp.PL_vp_min_y ∧ VS 5 = Z)
    (r2 : VS 6 = XL ∧ VS 7 ≤ vp.PL_vp_min_y ∧ VS 8 = Z)
    (r3 : VS 9 = XL ∧ VS 10 ≥ vp.PL_vp_max_y ∧ VS 11 = Z)
    (r4 : VS 13 ≥ vp.PL_vp_max_y)
    (hmin : st0.sc.scan_miny = INT_MAX) (hmax : st0.sc.scan_maxy = INT_MIN)
    (hL : ∀ r, vp.PL_vp_min_y ≤ r → r ≤ vp.PL_vp_max_y → st0.sc.x_L r = INT_MAX)
    (hR : ∀ r, vp.PL_vp_min_y ≤ r → r ≤ vp.PL_vp_max_y → st0.sc.x_R r = INT_MIN) :
    (forN 4 (pscan_edge vp 3 1 VS) st0).sc.scan_miny = vp.PL_vp_min_y ∧
    (forN 4 (pscan_edge vp 3 1 VS) st0).sc.scan_maxy = vp.PL_vp_max_y ∧
    ∀ r, vp.PL_vp_min_y ≤ r → r ≤ vp.PL_vp_max_y →
      (forN 4 (pscan_edge vp 3 1 VS) st0).sc.x_L r = XL ∧
      (forN 4 (pscan_edge vp 3 1 VS) st0).sc.x_R r = XR ∧
      (forN 4 (pscan_edge vp 3 1 VS) st0).sc.attrbuf (8 * r) = Z * 32768 ∧
      (forN 4 (pscan_edge vp 3 1 VS) st0).sc.attrbuf (8 * r + 1) = Z * 32768 := by
  have e : forN 4 (pscan_edge vp 3 1 VS) st0 =
      pscan_edge vp 3 1 VS 3 (pscan_edge vp 3 1 VS 2 (pscan_edge vp 3 1 VS 1
        (pscan_edge vp 3 1 VS 0 st0))) := rfl
  rw [e]
  obtain ⟨m1, x1, t1⟩ := pscan_edge_down vp VS 0 st0 XR Z (by omega) hZ hv r0 r1
  generalize pscan_edge vp 3 1 VS 0 st0 = s1 at *
  have e2 := pscan_edge_outside vp 3 1 VS 1 s1 (Or.inr ⟨r1.2.1, r2.2.1⟩)
  generalize pscan_edge vp 3 1 VS 1 s1 = s2 at *
  obtain ⟨m3, x3, t3⟩ := pscan_edge_up vp VS 2 s2 XL Z (by omega) hZ hv r2 r3
  generalize pscan_edge vp 3 1 VS 2 s2 = s3 at *
  have e4 := pscan_edge_outside vp 3 1 VS 3 s3 (Or.inl ⟨r3.2.1, r4⟩)
  rw [e4]
  rw [e2] at m3 x3 t3
  have i1 : (2147483647 : Int) = INT_MAX := rfl
  have i2 : (-2147483648 : Int) = INT_MIN := rfl
  refine ⟨?_, ?_, fun r h0 h1 => ?_⟩
  · rw [m3, m1, hmin]
    unfold edge_miny
    simp only
    rw [← i1]
    split_ifs <;> omega
  · rw [x3, x1, hmax]
    unfold edge_maxy
    simp only
    rw [← i2]
    split_ifs <;> omega
  · obtain ⟨a1, a2, a3, a4⟩ := t1 r
    obtain ⟨b1, b2, b3, b4⟩ := t3 r
    rw [hL r h0 h1, ← i1] at a1 a3
    rw [hR r h0 h1, ← i2] at a2 a4
    rw [if_pos ⟨⟨h0, h1⟩, by omega⟩] at a1 a2 a3 a4
    rw [a1] at b1 b3
    rw [a2] at b2 b4
    rw [if_pos ⟨⟨h0, h1⟩, by omega⟩] at b1 b3
    rw [if_neg (fun h => by omega)] at b2 b4
    exact ⟨b1, b2, b3, b4.trans a4⟩

/-- The function `pscan` on an upright rectangle that lies between the left and
the right bound of the viewport and whose upper and lower sides lie outside it.
The records of the stream are the corners in the order left-bottom,
right-bottom, right-top, left-top, left-bottom. -/
theorem pscan_quad (vp : Viewport) (cs : ClipStatics) (xLc xRc : Mem) (sc0 : Scan) (P : Mem)
    (XL XR Z : Int) (hX : 0 ≤ XL ∧ XL < XR ∧ XR ≤ 2047)
    (hvx : vp.PL_vp_min_x < XL ∧ XR < vp.PL_vp_max_x) (hZ : 0 ≤ Z ∧ Z < 65536)
    (hv : 0 ≤ vp.PL_vp_min_y ∧ vp.PL_vp_min_y < vp.PL_vp_max_y ∧ vp.PL_vp_max_y ≤ 2047)
    (p0 : P 0 = XL ∧ P 1 ≥ vp.PL_vp_max_y ∧ P 2 = Z)
    (p1 : P 3 = XR ∧ P 4 ≥ vp.PL_vp_max_y ∧ P 5 = Z)
    (p2 : P 6 = XR ∧ P 7 ≤ vp.PL_vp_min_y ∧ P 8 = Z)
    (p3 : P 9 = XL ∧ P 10 ≤ vp.PL_vp_min_y ∧ P 11 = Z)
    (p4 : P 12 = XL ∧ P 13 ≥ vp.PL_vp_max_y ∧ P 14 = Z)
    (hL : ∀ r, vp.PL_vp_min_y ≤ r → r ≤ vp.PL_vp_max_y → xLc r = INT_MAX)
    (hR : ∀ r, vp.PL_vp_min_y ≤ r → r ≤ vp.PL_vp_max_y → xRc r = INT_MIN) :
    (pscan vp cs xLc xRc sc0 P 3 4).ret = 0 ∧
    (pscan vp cs xLc xRc sc0 P 3 4).sc.scan_miny = vp.PL_vp_min_y ∧
    (pscan vp cs xLc xRc sc0 P 3 4).sc.scan_maxy = vp.PL_vp_max_y ∧
    ∀ r, vp.PL_vp_min_y ≤ r → r ≤ vp.PL_vp_max_y →
      (pscan vp cs xLc xRc sc0 P 3 4).sc.x_L r = XL ∧
      (pscan vp cs xLc xRc sc0 P 3 4).sc.x_R r = XR ∧
      (pscan vp cs xLc xRc sc0 P 3 4).sc.attrbuf (8 * r) = Z * 32768 ∧
      (pscan vp cs xLc xRc sc0 P 3 4).sc.attrbuf (8 * r + 1) = Z * 32768 := by
  have hin : ∀ k : Nat, k < 4 → ∀ cs' : ClipStatics,
      lineclipx cs' (P.shift ((k : Int) * 3)) (P.shift (((k : Int) + 1) * 3)) 3
        vp.PL_vp_min_x vp.PL_vp_max_x =
        { ret := 0, v0 := P.shift ((k : Int) * 3), v1 := P.shift (((k : Int) + 1) * 3),
          cs := cs' } := by
    intro k hk cs'
    have hk4 : k = 0 ∨ k = 1 ∨ k = 2 ∨ k = 3 := by omega
    rcases hk4 with rfl | rfl | rfl | rfl
    · exact lclip2_inside cs' _ _ 3 _ _ 0
        (show vp.PL_vp_min_x < P 0 ∧ P 0 < vp.PL_vp_max_x by omega)
        (show vp.PL_vp_min_x < P 3 ∧ P 3 < vp.PL_vp_max_x by omega)
    · exact lclip2_inside cs' _ _ 3 _ _ 0
        (show vp.PL_vp_min_x < P 3 ∧ P 3 < vp.PL_vp_max_x by omega)
        (show vp.PL_vp_min_x < P 6 ∧ P 6 < vp.PL_vp_max_x by omega)
    · exact lclip2_inside cs' _ _ 3 _ _ 0
        (show vp.PL_vp_min_x < P 6 ∧ P 6 < vp.PL_vp_max_x by omega)
        (show vp.PL_vp_min_x < P 9 ∧ P 9 < vp.PL_vp_max_x by omega)
    · exact lclip2_inside cs' _ _ 3 _ _ 0
        (show vp.PL_vp_min_x < P 9 ∧ P 9 < vp.PL_vp_max_x by omega)
        (show vp.PL_vp_min_x < P 12 ∧ P 12 < vp.PL_vp_max_x by omega)
  obtain ⟨hn, hd, hcl⟩ := pclip_all_inside lineclipx cs (fun _ => 0) P 3 vp.PL_vp_min_x
    vp.PL_vp_max_x 4 (by decide) hin
  have hc : PL_clip_poly_x vp cs (fun _ => 0) P 3 4 =
      pclip cs (fun _ => 0) P 3 4 lineclipx vp.PL_vp_min_x vp.PL_vp_max_x := rfl
  have h32 : sub32 3 2 = 1 := by decide
  rw [pscan_eq, hc, h32]
  generalize pclip cs (fun _ => 0) P 3 4 lineclipx vp.PL_vp_min_x vp.PL_vp_max_x = c at *
  have hn4 : c.nverts.toNat = 4 := by
    rw [hn]
    rfl
  rw [hn4]
  have d0 : ∀ t, 0 ≤ t → t < 3 → c.dst (0 + t) = P (3 + t) := fun t h0 h1 => by
    have := hd 0 (by decide) t h0 h1
    simpa using this
  have d1 : ∀ t, 0 ≤ t → t < 3 → c.dst (3 + t) = P (6 + t) := fun t h0 h1 => by
    have := hd 1 (by decide) t h0 h1
    simpa using this
  have d2 : ∀ t, 0 ≤ t → t < 3 → c.dst (6 + t) = P (9 + t) := fun t h0 h1 => by
    have := hd 2 (by decide) t h0 h1
    simpa using this
  have d3 : ∀ t, 0 ≤ t → t < 3 → c.dst (9 + t) = P (12 + t) := fun t h0 h1 => by
    have := hd 3 (by decide) t h0 h1
    simpa using this
  have d4 : c.dst 13 = c.dst 1 := by
    have := hcl 1 (by decide) (by decide)
    simpa using this
  obtain ⟨q1, q2, q3⟩ := pscan_loop_quad vp c.dst
    { sc := { x_L := xLc, x_R := xRc, attrbuf := sc0.attrbuf, scan_miny := INT_MAX,
              scan_maxy := INT_MIN }
      cs := c.cs, AT := fun _ => 0, DT := fun _ => 0 } XL XR Z hX hZ hv
    ⟨(d0 0 (by decide) (by decide)).trans p1.1,
      by rw [show c.dst 1 = P 4 from d0 1 (by decide) (by decide)]; exact p1.2.1,
      (d0 2 (by decide) (by decide)).trans p1.2.2⟩
    ⟨(d1 0 (by decide) (by decide)).trans p2.1,
      by rw [show c.dst 4 = P 7 from d1 1 (by decide) (by decide)]; exact p2.2.1,
      (d1 2 (by decide) (by decide)).trans p2.2.2⟩
    ⟨(d2 0 (by decide) (by decide)).trans p3.1,
      by rw [show c.dst 7 = P 10 from d2 1 (by decide) (by decide)]; exact p3.2.1,
      (d2 2 (by decide) (by decide)).trans p3.2.2⟩
    ⟨(d3 0 (by decide) (by decide)).trans p4.1,
      by rw [show c.dst 10 = P 13 from d3 1 (by decide) (by decide)]; exact p4.2.1,
      (d3 2 (by decide) (by decide)).trans p4.2.2⟩
    (by rw [d4, show c.dst 1 = P 4 from d0 1 (by decide) (by decide)]; exact p1.2.1)
    rfl rfl hL hR
  refine ⟨?_, q1, q2, q3⟩
  show b2i (decide (_ ≥ _)) = 0
  rw [q1, q2]
  have hlt : ¬ (vp.PL_vp_min_y ≥ vp.PL_vp_max_y) := by omega
  simp only [hlt, decide_False]
  rfl

/-- The function `PL_flat_poly` on an upright rectangle of constant depth that
lies between the left and the right bound of the viewport and whose upper and
lower sides lie outside it, in a buffer 896 pixels wide whose depths all lie
behind the rectangle: the pixels of the columns `XL..XR` of the rows of the
viewport get the colour `rgb`, every other pixel keeps its colour. -/
theorem flat_poly_quad (vp : Viewport) (cs : ClipStatics) (g : GfxState) (P : Mem)
    (XL XR Z rgb : Int) (hX : 0 ≤ XL ∧ XL < XR ∧ XR < 896)
    (hvx : vp.PL_vp_min_x < XL ∧ XR < vp.PL_vp_max_x) (hZ : 0 ≤ Z ∧ Z < 65536)
    (hv : 0 ≤ vp.PL_vp_min_y ∧ vp.PL_vp_min_y < vp.PL_vp_max_y ∧ vp.PL_vp_max_y ≤ 2047)
    (p0 : P 0 = XL ∧ P 1 ≥ vp.PL_vp_max_y ∧ P 2 = Z)
    (p1 : P 3 = XR ∧ P 4 ≥ vp.PL_vp_max_y ∧ P 5 = Z)
    (p2 : P 6 = XR ∧ P 7 ≤ vp.PL_vp_min_y ∧ P 8 = Z)
    (p3 : P 9 = XL ∧ P 10 ≤ vp.PL_vp_min_y ∧ P 11 = Z)
    (p4 : P 12 = XL ∧ P 13 ≥ vp.PL_vp_max_y ∧ P 14 = Z)
    (hL : ∀ r, vp.PL_vp_min_y ≤ r → r ≤ vp.PL_vp_max_y → g.xLc r = INT_MAX)
    (hR : ∀ r, vp.PL_vp_min_y ≤ r → r ≤ vp.PL_vp_max_y → g.xRc r = INT_MIN)
    (hres : g.PL_hres = 896) (hd : ∀ q, g.bufs.PL_depth_buffer q < Z * 32768)
    (hsh : shade (Z * 32768) ≥ 256) (q : Int) :
    (PL_flat_poly vp cs g P 4 rgb).1.bufs.PL_video_buffer q =
      if (vp.PL_vp_min_y ≤ q / 896 ∧ q / 896 ≤ vp.PL_vp_max_y) ∧
          (XL ≤ q % 896 ∧ q % 896 ≤ XR) then rgb
      else g.bufs.PL_video_buffer q := by
  obtain ⟨q0, q1, q2, q3⟩ := pscan_quad vp cs g.xLc g.xRc g.scan P XL XR Z (by omega) hvx hZ hv
    p0 p1 p2 p3 p4 hL hR
  have hs : PL_STREAM_FLAT = 3 := rfl
  have hfill := flat_poly_fill vp cs g P 4 rgb (by
    rw [hs, q0]
    decide)
  rw [hfill, hs]
  generalize pscan vp cs g.xLc g.xRc g.scan P 3 4 = R at *
  show (iter (R.sc.scan_maxy - R.sc.scan_miny + 1).toNat (flat_row g.PL_hres R.sc g.mul8 rgb)
    { b := g.bufs, miny := R.sc.scan_miny, pos := mul32 R.sc.scan_miny g.PL_hres
      }).b.PL_video_buffer q = _
  have hm : mul32 vp.PL_vp_min_y 896 = vp.PL_vp_min_y * 896 :=
    wrap32_eq_self (by omega) (by omega)
  rw [q1, q2, hres, hm]
  have hN : (((vp.PL_vp_max_y - vp.PL_vp_min_y + 1).toNat : Nat) : Int) =
      vp.PL_vp_max_y - vp.PL_vp_min_y + 1 := Int.toNat_of_nonneg (by omega)
  have hyt : ∀ r, 0 ≤ r → r ≤ 2047 → add32 (YT r) 0 = 8 * r ∧ add32 (YT r) 1 = 8 * r + 1 := by
    intro r h0 h1
    have e1 : YT r = 8 * r := by
      unfold YT shl32 ATTRIB_BITS
      have p3 : (2 : Int) ^ 3 = 8 := by norm_num
      rw [p3, wrap32_eq_self (by omega) (by omega)]
      ring
    rw [e1]
    refine ⟨?_, wrap32_eq_self (by omega) (by omega)⟩
    unfold add32
    rw [add_zero]
    exact wrap32_eq_self (by omega) (by omega)
  obtain ⟨-, -, fv, -⟩ := flat_rows_fill R.sc g.mul8 rgb (Z * 32768) XL XR vp.PL_vp_min_y g.bufs
    (by unfold fits32; omega) hsh ⟨hX.1, by omega, hX.2.2⟩ hv.1 hd
    (vp.PL_vp_max_y - vp.PL_vp_min_y + 1).toNat (by rw [hN]; omega)
    (by
      intro r h0 h1
      rw [hN] at h1
      obtain ⟨t1, t2, t3, t4⟩ := q3 r h0 (by omega)
      obtain ⟨y0, y1⟩ := hyt r (by omega) (by omega)
      rw [y0, y1]
      exact ⟨t1, t2, t3, t4⟩)
  rw [fv q, hN]
  have hc : (vp.PL_vp_min_y ≤ q / 896 ∧
      q / 896 < vp.PL_vp_min_y + (vp.PL_vp_max_y - vp.PL_vp_min_y + 1)) ↔
      (vp.PL_vp_min_y ≤ q / 896 ∧ q / 896 ≤ vp.PL_vp_max_y) := by
    constructor <;> intro h <;> omega
  simp only [hc]

/-- The viewport and the FOV exponent that `PL_init` leaves. -/
theorem quad_init_vp :
    init_world.vp.PL_vp_min_x = 0 ∧ init_world.vp.PL_vp_max_x = 895 ∧
    init_world.vp.PL_vp_min_y = 0 ∧ init_world.vp.PL_vp_max_y = 503 ∧
    init_world.vp.PL_vp_cen_x = 448 ∧ init_world.vp.PL_vp_cen_y = 252 ∧
    init_world.eng.PL_fov = 9 := by
  decide

/-- The projected square: columns 192 and 704, rows 508 and -4, depth key
10485. -/
theorem quad_stream_values (j : Int) (h0 : 0 ≤ j) (h1 : j < 15) :
    quad_stream j =
      Mem.ofList [192, 508, 10485, 704, 508, 10485, 704, -4, 10485, 192, -4, 10485,
        192, 508, 10485] j := by
  have hj : j = 0 ∨ j = 1 ∨ j = 2 ∨ j = 3 ∨ j = 4 ∨ j = 5 ∨ j = 6 ∨ j = 7 ∨ j = 8 ∨ j = 9 ∨
      j = 10 ∨ j = 11 ∨ j = 12 ∨ j = 13 ∨ j = 14 := by omega
  rcases hj with h | h | h | h | h | h | h | h | h | h | h | h | h | h | h <;> subst h <;> decide

/-- The cleared scan tables that `PL_init` leaves. -/
theorem quad_init_tables (r : Int) (h0 : 0 ≤ r) (h1 : r ≤ 503) :
    init_world.gfx.xLc r = INT_MAX ∧ init_world.gfx.xRc r = INT_MIN := by
  constructor
  · show (if 0 ≤ r ∧ r < 504 then INT_MAX else _) = INT_MAX
    exact if_pos ⟨h0, by omega⟩
  · show (if 0 ≤ r ∧ r < 504 then INT_MIN else _) = INT_MIN
    exact if_pos ⟨h0, by omega⟩

/-- The pixels of the scenario after the fill. -/
theorem quad_scene_video (q : Int) :
    quad_scene.1.bufs.PL_video_buffer q =
      if (0 ≤ q / 896 ∧ q / 896 ≤ 503) ∧ (192 ≤ q % 896 ∧ q % 896 ≤ 704) then 0xff0000
      else 0 := by
  obtain ⟨v1, v2, v3, v4, -, -, -⟩ := quad_init_vp
  have s := quad_stream_values
  have key := flat_poly_quad init_world.vp init_world.cs init_world.gfx quad_stream 192 704 10485
    0xff0000 (by decide) (by rw [v1, v2]; decide) (by decide) (by rw [v3, v4]; decide)
    (by rw [v4]; exact ⟨s 0 (by decide) (by decide), by rw [s 1 (by decide) (by decide)]; decide,
      s 2 (by decide) (by decide)⟩)
    (by rw [v4]; exact ⟨s 3 (by decide) (by decide), by rw [s 4 (by decide) (by decide)]; decide,
      s 5 (by decide) (by decide)⟩)
    (by rw [v3]; exact ⟨s 6 (by decide) (by decide), by rw [s 7 (by decide) (by decide)]; decide,
      s 8 (by decide) (by decide)⟩)
    (by rw [v3]; exact ⟨s 9 (by decide) (by decide), by rw [s 10 (by decide) (by decide)]; decide,
      s 11 (by decide) (by decide)⟩)
    (by rw [v4]; exact ⟨s 12 (by decide) (by decide),
      by rw [s 13 (by decide) (by decide)]; decide, s 14 (by decide) (by decide)⟩)
    (fun r h0 h1 => (quad_init_tables r (by rw [v3] at h0; exact h0)
      (by rw [v4] at h1; exact h1)).1)
    (fun r h0 h1 => (quad_init_tables r (by rw [v3] at h0; exact h0)
      (by rw [v4] at h1; exact h1)).2)
    rfl (fun _ => by show (0 : Int) < 10485 * 32768; decide) (by decide) q
  have hvid : init_world.gfx.bufs.PL_video_buffer q = 0 := rfl
  have hq : quad_scene =
      PL_flat_poly init_world.vp init_world.cs init_world.gfx quad_stream 4 0xff0000 := rfl
  rw [v3, v4, hvid] at key
  rw [hq]
  exact key

/-- C21 fails as stated: the filled rectangle is not symmetric about the
viewport centre `(448, 252)`. The pixel of column 448 in row 0 is changed from
0 to `0xff0000`, while its mirror image about the centre, column 448 of row
`2 * 252 - 0 = 504`, is not changed; the projected square reaches from row -4 to
row 508 and is cut to the rows 0..503 of the viewport. -/
theorem flat_quad_counterexample :
    init_world.vp.PL_vp_cen_x = 448 ∧ init_world.vp.PL_vp_cen_y = 252 ∧
    init_world.gfx.bufs.PL_video_buffer (0 * 896 + 448) = 0 ∧
    quad_scene.1.bufs.PL_video_buffer (0 * 896 + 448) = 0xff0000 ∧
    init_world.gfx.bufs.PL_video_buffer ((2 * 252 - 0) * 896 + (2 * 448 - 448)) = 0 ∧
    quad_scene.1.bufs.PL_video_buffer ((2 * 252 - 0) * 896 + (2 * 448 - 448)) = 0 :=
  ⟨quad_init_vp.2.2.2.2.1, quad_init_vp.2.2.2.2.2.1, rfl,
    (quad_scene_video (0 * 896 + 448)).trans (if_pos (by decide)), rfl,
    (quad_scene_video ((2 * 252 - 0) * 896 + (2 * 448 - 448))).trans (if_neg (by decide))⟩

/-- C21 (amended): after `PL_init` on a cleared 896 x 504 buffer the viewport is
the whole buffer, the focal centre is `(448, 252)` and `PL_fov` is 9;
`PL_psp_project` maps the square with the camera-space corners
`(+-50, +-50, 100)` to the columns 192 and 704 and the rows -4 and 508, which
lie symmetric about the centre, with the depth key 10485; `PL_flat_poly` in the
colour `0xff0000` then changes exactly the pixels of the columns 192..704 of
the rows 0..503, the projected square cut to the viewport, and leaves every
other pixel untouched. The rectangle is symmetric about the centre column but
not about the centre row. -/
theorem flat_quad_rectangle :
    PL_init World.init (fun _ => 0) 896 504 true = .ok init_world ∧
    (init_world.vp.PL_vp_min_x = 0 ∧ init_world.vp.PL_vp_max_x = 895 ∧
      init_world.vp.PL_vp_min_y = 0 ∧ init_world.vp.PL_vp_max_y = 503 ∧
      init_world.vp.PL_vp_cen_x = 448 ∧ init_world.vp.PL_vp_cen_y = 252 ∧
      init_world.eng.PL_fov = 9) ∧
    (∀ j, 0 ≤ j → j < 15 → quad_stream j =
      Mem.ofList [192, 508, 10485, 704, 508, 10485, 704, -4, 10485, 192, -4, 10485,
        192, 508, 10485] j) ∧
    (192 + 704 = 2 * init_world.vp.PL_vp_cen_x ∧ -4 + 508 = 2 * init_world.vp.PL_vp_cen_y ∧
      0 + 503 ≠ 2 * init_world.vp.PL_vp_cen_y) ∧
    (∀ q, init_world.gfx.bufs.PL_video_buffer q = 0 ∧
      init_world.gfx.bufs.PL_depth_buffer q = 0) ∧
    (∀ q, quad_scene.1.bufs.PL_video_buffer q =
      if (0 ≤ q / 896 ∧ q / 896 ≤ 503) ∧ (192 ≤ q % 896 ∧ q % 896 ≤ 704) then 0xff0000
      else init_world.gfx.bufs.PL_video_buffer q) := by
  refine ⟨rfl, quad_init_vp, quad_stream_values, ?_, fun _ => ⟨rfl, rfl⟩, fun q => ?_⟩
  · rw [quad_init_vp.2.2.2.2.1, quad_init_vp.2.2.2.2.2.1]
    decide
  · have hvid : init_world.gfx.bufs.PL_video_buffer q = 0 := rfl
    rw [hvid]
    exact quad_scene_video q

/-! ## The square sent through `e_render_polygon` -/

/-- The square lies in front of the near plane. -/
theorem quad_render_frustum (w : World) (htmp : w.eng.tmp_vertices = quad_tmp_vertices) :
    PL_frustum_test
      (load_stream w.eng.tmp_vertices (fun _ => 0) quad_poly.verts PL_STREAM_FLAT
        (add32 (and32 quad_poly.n_verts 0xf) 1)).lminz
      (load_stream w.eng.tmp_vertices (fun _ => 0) quad_poly.verts PL_STREAM_FLAT
        (add32 (and32 quad_poly.n_verts 0xf) 1)).lmaxz = PL_Z_OUTC_IN_VIEW := by
  rw [htmp]
  decide

/-- The winding order of the square is 1. -/
theorem quad_render_winding (w : World) (htmp : w.eng.tmp_vertices = quad_tmp_vertices) :
    PL_winding_order
      (load_stream w.eng.tmp_vertices (fun _ => 0) quad_poly.verts PL_STREAM_FLAT
        (add32 (and32 quad_poly.n_verts 0xf) 1)).dst
      ((load_stream w.eng.tmp_vertices (fun _ => 0) quad_poly.verts PL_STREAM_FLAT
        (add32 (and32 quad_poly.n_verts 0xf) 1)).dst.shift PL_STREAM_FLAT)
      ((load_stream w.eng.tmp_vertices (fun _ => 0) quad_poly.verts PL_STREAM_FLAT
        (add32 (and32 quad_poly.n_verts 0xf) 1)).dst.shift (mul32 PL_STREAM_FLAT 2)) = 1 := by
  rw [htmp]
  unfold PL_winding_order
  have en :
      [sub32 (mul32
          ((load_stream quad_tmp_vertices (fun _ => 0) quad_poly.verts PL_STREAM_FLAT
            (add32 (and32 quad_poly.n_verts 0xf) 1)).dst 2)
          (((load_stream quad_tmp_vertices (fun _ => 0) quad_poly.verts PL_STREAM_FLAT
            (add32 (and32 quad_poly.n_verts 0xf) 1)).dst.shift PL_STREAM_FLAT) 1))
        (mul32
          ((load_stream quad_tmp_vertices (fun _ => 0) quad_poly.verts PL_STREAM_FLAT
            (add32 (and32 quad_poly.n_verts 0xf) 1)).dst 1)
          (((load_stream quad_tmp_vertices (fun _ => 0) quad_poly.verts PL_STREAM_FLAT
            (add32 (and32 quad_poly.n_verts 0xf) 1)).dst.shift PL_STREAM_FLAT) 2)),
       sub32 (mul32
          ((load_stream quad_tmp_vertices (fun _ => 0) quad_poly.verts PL_STREAM_FLAT
            (add32 (and32 quad_poly.n_verts 0xf) 1)).dst 0)
          (((load_stream quad_tmp_vertices (fun _ => 0) quad_poly.verts PL_STREAM_FLAT
            (add32 (and32 quad_poly.n_verts 0xf) 1)).dst.shift PL_STREAM_FLAT) 2))
        (mul32
          ((load_stream quad_tmp_vertices (fun _ => 0) quad_poly.verts PL_STREAM_FLAT
            (add32 (and32 quad_poly.n_verts 0xf) 1)).dst 2)
          (((load_stream quad_tmp_vertices (fun _ => 0) quad_poly.verts PL_STREAM_FLAT
            (add32 (and32 quad_poly.n_verts 0xf) 1)).dst.shift PL_STREAM_FLAT) 0)),
       sub32 (mul32
          ((load_stream quad_tmp_vertices (fun _ => 0) quad_poly.verts PL_STREAM_FLAT
            (add32 (and32 quad_poly.n_verts 0xf) 1)).dst 1)
          (((load_stream quad_tmp_vertices (fun _ => 0) quad_poly.verts PL_STREAM_FLAT
            (add32 (and32 quad_poly.n_verts 0xf) 1)).dst.shift PL_STREAM_FLAT) 0))
        (mul32
          ((load_stream quad_tmp_vertices (fun _ => 0) quad_poly.verts PL_STREAM_FLAT
            (add32 (and32 quad_poly.n_verts 0xf) 1)).dst 0)
          (((load_stream quad_tmp_vertices (fun _ => 0) quad_poly.verts PL_STREAM_FLAT
            (add32 (and32 quad_poly.n_verts 0xf) 1)).dst.shift PL_STREAM_FLAT) 1))] =
      [0, -10000, -5000] := by decide
  simp only [en]
  rw [vec_shorten_ofList_fits _ _ _ (by decide)]
  decide

/-- The pixels after the flat fill of the square, as `e_render_polygon` sets it
up: the stream loaded from `tmp_vertices`, no near clip, the projection. -/
theorem quad_render_video (w : World) (c : PClip) (proj : Mem) (rgb q : Int)
    (htmp : w.eng.tmp_vertices = quad_tmp_vertices) (hvp : w.vp = init_world.vp)
    (hgfx : w.gfx = init_world.gfx) (hfov : w.eng.PL_fov = 9)
    (hc : c = if PL_frustum_test
        (load_stream w.eng.tmp_vertices (fun _ => 0) quad_poly.verts PL_STREAM_FLAT
          (add32 (and32 quad_poly.n_verts 0xf) 1)).lminz
        (load_stream w.eng.tmp_vertices (fun _ => 0) quad_poly.verts PL_STREAM_FLAT
          (add32 (and32 quad_poly.n_verts 0xf) 1)).lmaxz = PL_Z_OUTC_PART_NZ
      then PL_clip_poly_nz w.cs (fun _ => 0)
        (load_stream w.eng.tmp_vertices (fun _ => 0) quad_poly.verts PL_STREAM_FLAT
          (add32 (and32 quad_poly.n_verts 0xf) 1)).dst PL_STREAM_FLAT
        (and32 quad_poly.n_verts 0xf).toNat
      else
        { dst := (load_stream w.eng.tmp_vertices (fun _ => 0) quad_poly.verts PL_STREAM_FLAT
            (add32 (and32 quad_poly.n_verts 0xf) 1)).dst
          nverts := and32 quad_poly.n_verts 0xf
          cs := w.cs })
    (hproj : proj = PL_psp_project w.vp.PL_vp_cen_x w.vp.PL_vp_cen_y c.dst (fun _ => 0)
      PL_STREAM_FLAT (add32 c.nverts 1).toNat w.eng.PL_fov) :
    (PL_flat_poly w.vp c.cs w.gfx proj c.nverts.toNat rgb).1.bufs.PL_video_buffer q =
      if (0 ≤ q / 896 ∧ q / 896 ≤ 503) ∧ (192 ≤ q % 896 ∧ q % 896 ≤ 704) then rgb else 0 := by
  have hf := quad_render_frustum w htmp
  rw [hf, if_neg (by decide)] at hc
  have hcd : c.dst = (load_stream quad_tmp_vertices (fun _ => 0) quad_poly.verts PL_STREAM_FLAT
      (add32 (and32 quad_poly.n_verts 0xf) 1)).dst := by
    rw [hc, htmp]
  have hcn : c.nverts = 4 := by
    rw [hc]
    show and32 quad_poly.n_verts 0xf = 4
    decide
  have h5 : (add32 4 1).toNat = 5 := by decide
  have h4 : (4 : Int).toNat = 4 := by decide
  obtain ⟨v1, v2, v3, v4, v5, v6, -⟩ := quad_init_vp
  rw [hvp, hfov, hcd, hcn, h5, v5, v6] at hproj
  have s : ∀ j, 0 ≤ j → j < 15 → proj j =
      Mem.ofList [192, 508, 10485, 704, 508, 10485, 704, -4, 10485, 192, -4, 10485,
        192, 508, 10485] j := by
    intro j h0 h1
    have hj : j = 0 ∨ j = 1 ∨ j = 2 ∨ j = 3 ∨ j = 4 ∨ j = 5 ∨ j = 6 ∨ j = 7 ∨ j = 8 ∨ j = 9 ∨
        j = 10 ∨ j = 11 ∨ j = 12 ∨ j = 13 ∨ j = 14 := by omega
    rw [hproj]
    rcases hj with h | h | h | h | h | h | h | h | h | h | h | h | h | h | h <;> subst h <;>
      decide
  have key := flat_poly_quad init_world.vp c.cs init_world.gfx proj 192 704 10485
    rgb (by decide) (by rw [v1, v2]; decide) (by decide) (by rw [v3, v4]; decide)
    (by rw [v4]; exact ⟨s 0 (by decide) (by decide), by rw [s 1 (by decide) (by decide)]; decide,
      s 2 (by decide) (by decide)⟩)
    (by rw [v4]; exact ⟨s 3 (by decide) (by decide), by rw [s 4 (by decide) (by decide)]; decide,
      s 5 (by decide) (by decide)⟩)
    (by rw [v3]; exact ⟨s 6 (by decide) (by decide), by rw [s 7 (by decide) (by decide)]; decide,
      s 8 (by decide) (by decide)⟩)
    (by rw [v3]; exact ⟨s 9 (by decide) (by decide), by rw [s 10 (by decide) (by decide)]; decide,
      s 11 (by decide) (by decide)⟩)
    (by rw [v4]; exact ⟨s 12 (by decide) (by decide),
      by rw [s 13 (by decide) (by decide)]; decide, s 14 (by decide) (by decide)⟩)
    (fun r h0 h1 => (quad_init_tables r (by rw [v3] at h0; exact h0)
      (by rw [v4] at h1; exact h1)).1)
    (fun r h0 h1 => (quad_init_tables r (by rw [v3] at h0; exact h0)
      (by rw [v4] at h1; exact h1)).2)
    rfl (fun _ => by show (0 : Int) < 10485 * 32768; decide) (by decide) q
  have hvid : init_world.gfx.bufs.PL_video_buffer q = 0 := rfl
  rw [v3, v4, hvid] at key
  rw [hvp, hgfx, hcn, h4]
  exact key

/-- The pixels that `e_render_polygon` leaves when it has drawn the square in
flat mode. -/
theorem quad_drawn_pixel (w : World) (c : PClip) (proj : Mem) (r : Rendered)
    (e : r = ⟨Exit.drawn, { w with
      gfx := (PL_flat_poly w.vp c.cs w.gfx proj c.nverts.toNat quad_poly.color).1
      cs := (PL_flat_poly w.vp c.cs w.gfx proj c.nverts.toNat quad_poly.color).2 }⟩)
    (htmp : w.eng.tmp_vertices = quad_tmp_vertices) (hvp : w.vp = init_world.vp)
    (hgfx : w.gfx = init_world.gfx) (hfov : w.eng.PL_fov = 9)
    (hc : c = if PL_frustum_test
        (load_stream w.eng.tmp_vertices (fun _ => 0) quad_poly.verts PL_STREAM_FLAT
          (add32 (and32 quad_poly.n_verts 0xf) 1)).lminz
        (load_stream w.eng.tmp_vertices (fun _ => 0) quad_poly.verts PL_STREAM_FLAT
          (add32 (and32 quad_poly.n_verts 0xf) 1)).lmaxz = PL_Z_OUTC_PART_NZ
      then PL_clip_poly_nz w.cs (fun _ => 0)
        (load_stream w.eng.tmp_vertices (fun _ => 0) quad_poly.verts PL_STREAM_FLAT
          (add32 (and32 quad_poly.n_verts 0xf) 1)).dst PL_STREAM_FLAT
        (and32 quad_poly.n_verts 0xf).toNat
      else
        { dst := (load_stream w.eng.tmp_vertices (fun _ => 0) quad_poly.verts PL_STREAM_FLAT
            (add32 (and32 quad_poly.n_verts 0xf) 1)).dst
          nverts := and32 quad_poly.n_verts 0xf
          cs := w.cs })
    (hproj : proj = PL_psp_project w.vp.PL_vp_cen_x w.vp.PL_vp_cen_y c.dst (fun _ => 0)
      PL_STREAM_FLAT (add32 c.nverts 1).toNat w.eng.PL_fov) (q : Int) :
    r.w.gfx.bufs.PL_video_buffer q =
      if (0 ≤ q / 896 ∧ q / 896 ≤ 503) ∧ (192 ≤ q % 896 ∧ q % 896 ≤ 704) then 0xff0000
      else 0 := by
  rw [e, rendered_gfx]
  exact quad_render_video w c proj quad_poly.color q htmp hvp hgfx hfov hc hproj

theorem cull_follows_mode_witness :
    e_render_polygon (quad_world PL_FLAT PL_CULL_BACK) quad_poly =
      ⟨Exit.culled, quad_world PL_FLAT PL_CULL_BACK⟩ ∧
    (e_render_polygon (quad_world PL_FLAT PL_CULL_BACK)
      quad_poly).w.gfx.bufs.PL_video_buffer (252 * 896 + 448) = 0 ∧
    (e_render_polygon (quad_world PL_FLAT PL_CULL_FRONT)
      quad_poly).w.gfx.bufs.PL_video_buffer (252 * 896 + 448) = 0xff0000 := by
  have hb := (cull_follows_mode (quad_world PL_FLAT PL_CULL_BACK) quad_poly PL_STREAM_FLAT
    PL_FLAT none _ _ _ _ rfl rfl (by rw [quad_render_frustum _ rfl]; decide)
    (Or.inr (Or.inr rfl)) rfl rfl rfl).2.1 (Or.inl ⟨rfl, quad_render_winding _ rfl⟩)
  have hf := (cull_follows_mode (quad_world PL_FLAT PL_CULL_FRONT) quad_poly PL_STREAM_FLAT
    PL_FLAT none _ _ _ _ rfl rfl (by rw [quad_render_frustum _ rfl]; decide)
    (Or.inr (Or.inl rfl)) rfl rfl rfl).2.2.1
    (fun h => h.elim (fun a => absurd a.1 (by decide))
      (fun a => absurd ((quad_render_winding _ rfl).symm.trans a.2) (by decide)))
  refine ⟨hb, ?_, ?_⟩
  · rw [hb]
    rfl
  · rcases hf with ⟨-, e⟩ | ⟨hm, -⟩
    · exact (quad_drawn_pixel (quad_world PL_FLAT PL_CULL_FRONT) _ _ _ e rfl rfl rfl rfl rfl rfl
        (252 * 896 + 448)).trans (if_pos (by decide))
    · exact absurd hm (by decide)

theorem textured_without_texture_is_flat_witness :
    init_world.gfx.bufs.PL_video_buffer (252 * 896 + 448) = 0 ∧
    (e_render_polygon (quad_world PL_TEXTURED PL_CULL_NONE) quad_poly).exit = Exit.drawn ∧
    (e_render_polygon (quad_world PL_TEXTURED PL_CULL_NONE)
      quad_poly).w.gfx.bufs.PL_video_buffer (252 * 896 + 448) = 0xff0000 := by
  have h := (textured_without_texture_is_flat (quad_world PL_TEXTURED PL_CULL_NONE) quad_poly
    _ _ _ _ rfl (Or.inl ⟨rfl, rfl⟩) rfl rfl rfl rfl).2.2.2.2.2.2
    (by rw [quad_render_frustum _ rfl]; decide)
    (by rw [quad_render_winding _ rfl]; decide)
  have p := (quad_drawn_pixel (quad_world PL_TEXTURED PL_CULL_NONE) _ _ _ h.1 rfl rfl rfl rfl
    rfl rfl (252 * 896 + 448)).trans (if_pos (by decide))
  refine ⟨rfl, ?_, p⟩
  rw [h.1]

end PL
